import Mathlib

/-!
# LWCloneU2 LEDWIZ.DLL driver: write queue, device registry, public operations

A shallow embedding of `win32/driver/src/ledwiz.cpp` together with proofs about it.

Conventions of the embedding

* C `int` fields (`rpos`, `wpos`, `level`, `state`, `numdevices`, handles) are `Int`;
  the C remainder operator on `int` is truncating, so it is `Int.tmod`.
* `size_t` lengths are `Nat`, bytes are `Nat` (the queue never computes with them).
* A pointer that may be `NULL` is an `Option`; a `HUDEV` is the identity of a device object.
* A C array indexed by an `int` is a function from the index; indices outside the declared
  bounds are cells the program must not touch.
* `memcpy(dst, src, n)` replaces the first `n` bytes of `dst` by the first `n` bytes of `src`.
* The body of a `for (;;)` retry loop that parks the thread in `WaitForSingleObject` is one
  atomic step executed under the queue's critical section; the step reports whether the
  function returned or whether the thread waits and will execute the body again.
* Calls that leave the file (`usbdev_addref`, `usbdev_release`, `usbdev_write`, client
  callbacks) and the entry into and exit from `g_cs` are recorded in the order they are made.
-/

namespace LWCloneU2

/-! # Part I: the embedding -/

/-! ## Data model (lines 65-90 and 864-888 of ledwiz.cpp, ledwiz.h) -/

/-- The type `typedef void * HUDEV;` with `NULL` as `none`. -/
abbrev HUDEV := Option Nat

/-- The type `uint8_t`. -/
abbrev uint8_t := Nat

/-- The constant `#define QUEUE_LENGTH 64`. -/
def QUEUE_LENGTH : Int := 64

/-- The constant `#define LWZ_MAX_DEVICES 16`. -/
def LWZ_MAX_DEVICES : Int := 16

/-- The type `enum packet_type_t`; the enumerators are numbered 0, 1, 2 in this order. -/
inductive packet_type_t where
  | PACKET_TYPE_PBA
  | PACKET_TYPE_SBA
  | PACKET_TYPE_RAW
deriving DecidableEq, Repr

open packet_type_t

/-- The struct `chunk_t`: one queued report. `data` is the array `uint8_t data[32]`. -/
structure chunk_t where
  hudev : HUDEV
  typ : packet_type_t
  ndata : Nat
  data : List uint8_t
deriving DecidableEq, Repr

/-- The value of `sizeof(h->buf[0].data)`. -/
def CHUNK_DATA_SIZE : Nat := 32

/-- A chunk as `memset(h, 0x00, sizeof(queue_t))` leaves it. -/
def chunk_zero : chunk_t :=
  { hudev := none, typ := PACKET_TYPE_PBA, ndata := 0, data := List.replicate 32 0 }

/-- The struct `queue_t` without the operating-system handles (thread, critical section, events). -/
structure queue_t where
  rpos : Int
  wpos : Int
  level : Int
  state : Int
  rblocked : Bool
  wblocked : Bool
  eblocked : Bool
  buf : Int → chunk_t

/-- The C library `memcpy(dst, src, n)` on byte arrays. -/
def memcpy (dst src : List uint8_t) (n : Nat) : List uint8_t :=
  src.take n ++ dst.drop n

/-- Assignment `buf[pos] = c`. -/
def buf_set (buf : Int → chunk_t) (pos : Int) (c : chunk_t) : Int → chunk_t :=
  fun i => if i = pos then c else buf i

/-- The bytes readable through a `uint8_t const *` (nothing through `NULL`). -/
def bytes_at (pdata : Option (List uint8_t)) : List uint8_t :=
  pdata.getD []

/-! ## queue_open (lines 973-1009) -/

/-- The queue after `memset(h, 0x00, sizeof(queue_t))` in `queue_open`. -/
def queue_open : queue_t :=
  { rpos := 0, wpos := 0, level := 0, state := 0,
    rblocked := false, wblocked := false, eblocked := false,
    buf := fun _ => chunk_zero }

/-! ## queue_push (lines 1037-1191) -/

/-- The PBA loop of `queue_push` (lines 1081-1094): `n` iterations are left, `pos` is the
current ring position. Returns the buffer and `combined`. -/
def pba_loop (hudev : HUDEV) (pdata : Option (List uint8_t)) (ndata : Nat) :
    Nat → Int → (Int → chunk_t) → (Int → chunk_t) × Bool
  | 0, _, buf => (buf, false)
  | n + 1, pos, buf =>
    let chunk := buf pos
    if chunk.hudev = hudev then
      if chunk.typ = PACKET_TYPE_PBA then
        (buf_set buf pos { chunk with data := memcpy chunk.data (bytes_at pdata) ndata }, true)
      else pba_loop hudev pdata ndata n (Int.tmod (pos + 1) QUEUE_LENGTH) buf
    else pba_loop hudev pdata ndata n (Int.tmod (pos + 1) QUEUE_LENGTH) buf

/-- The SBA search loop of `queue_push` (lines 1117-1132): `n` iterations are left, `pos` is
the current ring position, `last_sba_pos` the candidate so far. Returns `last_sba_pos`. -/
def sba_loop (hudev : HUDEV) (buf : Int → chunk_t) : Nat → Int → Int → Int
  | 0, _, last_sba_pos => last_sba_pos
  | n + 1, pos, last_sba_pos =>
    let chunk := buf pos
    let last1 :=
      if chunk.hudev = hudev then
        let l := if chunk.typ = PACKET_TYPE_SBA then pos else last_sba_pos
        if chunk.typ = PACKET_TYPE_PBA then -1 else l
      else last_sba_pos
    sba_loop hudev buf n (Int.tmod (pos + 1) QUEUE_LENGTH) last1

/-- What one pass through the body of the retry loop of `queue_push` yields:
`ret = some n` when the function returns `n`, `ret = none` when `do_wait` is set and the
thread waits for `hrevent` before running the body again; `do_unblock` tells whether
`SetEvent(h->hwevent)` is called. -/
structure push_out where
  h : queue_t
  ret : Option Nat
  do_unblock : Bool

/-- The body of the retry loop of `queue_push` (lines 1052-1189), executed under `h->cs`. -/
def queue_push_body (h : queue_t) (hudev : HUDEV) (typ : packet_type_t)
    (pdata : Option (List uint8_t)) (ndata : Nat) : push_out :=
  if h.state ≠ 0 then { h := h, ret := some 0, do_unblock := false }
  else
    let nfree : Int := QUEUE_LENGTH - h.level
    -- PBA coalescing
    let r1 : (Int → chunk_t) × Bool :=
      if typ = PACKET_TYPE_PBA then pba_loop hudev pdata ndata h.level.toNat h.rpos h.buf
      else (h.buf, false)
    -- SBA coalescing
    let r2 : (Int → chunk_t) × Bool :=
      if typ = PACKET_TYPE_SBA then
        let last_sba_pos := sba_loop hudev r1.1 h.level.toNat h.rpos (-1)
        if last_sba_pos ≥ 0 then
          let chunk := r1.1 last_sba_pos
          (buf_set r1.1 last_sba_pos
            { chunk with data := memcpy chunk.data (bytes_at pdata) ndata }, true)
        else r1
      else r1
    let buf := r2.1
    let combined := r2.2
    if combined then
      { h := { h with buf := buf }, ret := some ndata, do_unblock := false }
    else if nfree ≤ 0 then
      { h := { h with buf := buf, wblocked := true }, ret := none, do_unblock := false }
    else
      let pc := buf h.wpos
      let pc1 : chunk_t :=
        { hudev := hudev, ndata := ndata, typ := typ,
          data := match pdata with
            | some src => memcpy pc.data src ndata
            | none => pc.data }
      { h := { h with buf := buf_set buf h.wpos pc1,
                      wpos := Int.tmod (h.wpos + 1) QUEUE_LENGTH,
                      level := h.level + 1,
                      wblocked := false },
        ret := some ndata, do_unblock := h.rblocked }

/-- The function `queue_push`: the sentinel normalisation of lines 1041-1048 followed by one pass
through the retry loop. -/
def queue_push (h : queue_t) (hudev : HUDEV) (typ : packet_type_t)
    (pdata : Option (List uint8_t)) (ndata : Nat) : push_out :=
  if pdata = none ∨ ndata = 0 ∨ ndata > CHUNK_DATA_SIZE then
    queue_push_body h none typ none 0
  else
    queue_push_body h hudev typ pdata ndata

/-! ## queue_shift (lines 1193-1266) -/

/-- What one pass through the body of the retry loop of `queue_shift` yields: `ret = some n`
when the function returns `n`, `ret = none` when the thread waits for `hwevent`; `hudev` and
`buffer` are the contents of `*phudev` and of `pbuffer` afterwards; `do_unblock` tells whether
`SetEvent(h->hrevent)` is called and `set_eevent` whether `SetEvent(h->heevent)` is. -/
structure shift_out where
  h : queue_t
  ret : Option Nat
  hudev : HUDEV
  buffer : List uint8_t
  do_unblock : Bool
  set_eevent : Bool

/-- The function `queue_shift` for non-null `phudev` and `pbuffer`: `hudev0` and `buffer0` are
what the two out-parameters hold on entry, `nsize` is the capacity passed. One pass through the
retry loop. -/
def queue_shift (h : queue_t) (hudev0 : HUDEV) (buffer0 : List uint8_t) (nsize : Nat) :
    shift_out :=
  if nsize = 0 ∨ nsize < CHUNK_DATA_SIZE then
    { h := h, ret := some 0, hudev := hudev0, buffer := buffer0,
      do_unblock := false, set_eevent := false }
  else if h.state ≠ 0 then
    { h := h, ret := some 0, hudev := hudev0, buffer := buffer0,
      do_unblock := false, set_eevent := false }
  else if h.level ≤ 0 then
    { h := { h with rblocked := true }, ret := none, hudev := hudev0, buffer := buffer0,
      do_unblock := false, set_eevent := h.eblocked }
  else
    let pc := h.buf h.rpos
    { h := { h with buf := buf_set h.buf h.rpos { pc with hudev := none },
                    state := if pc.ndata > 0 then h.state else 1,
                    rpos := Int.tmod (h.rpos + 1) QUEUE_LENGTH,
                    level := h.level - 1,
                    rblocked := false },
      ret := some pc.ndata,
      hudev := pc.hudev,
      buffer := if pc.ndata > 0 then memcpy buffer0 pc.data pc.ndata else buffer0,
      do_unblock := h.wblocked,
      set_eevent := false }

/-! ## Device registry: data model (ledwiz.h, lines 59-90 of ledwiz.cpp)

Client callbacks are code of the client. The embedding records every invocation, together with
what the client's device list holds at that moment, and lets the callback return without
calling back into the library. -/

/-- The type `typedef int32_t LWZHANDLE;`. -/
abbrev LWZHANDLE := Int

/-- The enumerator `LWZ_REASON_ADD`. -/
def LWZ_REASON_ADD : Int := 1

/-- The enumerator `LWZ_REASON_DELETE`. -/
def LWZ_REASON_DELETE : Int := 2

/-- The constant `USHORT const VendorID_LEDWiz = 0xFAFA;`. -/
def VendorID_LEDWiz : Int := 0xFAFA

/-- The constant `USHORT const ProductID_LEDWiz_min = 0x00F0;`. -/
def ProductID_LEDWiz_min : Int := 0x00F0

/-- The struct `LWZDEVICELIST`: the array `handles[LWZ_MAX_DEVICES]` and `numdevices`. -/
structure LWZDEVICELIST where
  handles : Int → LWZHANDLE
  numdevices : Int

/-- A device list after `memset(h->plist, 0x00, sizeof(*plist))`. -/
def LWZDEVICELIST_zero : LWZDEVICELIST :=
  { handles := fun _ => 0, numdevices := 0 }

/-- The struct `lwz_device_t`: the device object and, in `dat`, the device path it was opened from. -/
structure lwz_device_t where
  hudev : HUDEV
  dat : Nat
deriving DecidableEq, Repr

/-- The member `cb` of `lwz_context_t`; a callback is identified by a number, `NULL` is
`none`. -/
structure lwz_callbacks where
  puser : Nat
  notify : Option Nat
  notify_ex : Option Nat
deriving DecidableEq, Repr

/-- The struct `lwz_context_t`. The client's device list lives in client memory; `plist` holds its
contents when the pointer is not `NULL`. -/
structure lwz_context_t where
  devices : Int → lwz_device_t
  plist : Option LWZDEVICELIST
  hwnd : Option Nat
  hDevNotify : Option Nat
  WndProc : Option Nat
  hqueue : queue_t
  cb : lwz_callbacks

/-- One invocation of a client callback. -/
inductive cb_call where
  | notify (f : Nat) (reason : Int) (hlwz : LWZHANDLE)
  | notify_ex (f : Nat) (puser : Nat) (reason : Int) (hlwz : LWZHANDLE)
deriving DecidableEq, Repr

/-- A callback invocation together with the contents of the client's device list at the time
of the call. -/
structure cb_event where
  call : cb_call
  list_seen : Option LWZDEVICELIST

/-- What a registry operation yields: the context afterwards and the callback invocations it
made, in order. -/
structure reg_out where
  h : lwz_context_t
  events : List cb_event

/-- Assignment `a[i] = v` on an array indexed by `int`. -/
def arr_set {α : Type} (a : Int → α) (i : Int) (v : α) : Int → α :=
  fun j => if j = i then v else a j

/-- The context after `memset(h, 0x00, sizeof(*h))` and `queue_open` in `lwz_open`. -/
def lwz_open : lwz_context_t :=
  { devices := fun _ => { hudev := none, dat := 0 },
    plist := none, hwnd := none, hDevNotify := none, WndProc := none,
    hqueue := queue_open,
    cb := { puser := 0, notify := none, notify_ex := none } }

/-! ## lwz_notify_callback, lwz_add, lwz_remove (lines 567-665) -/

/-- The function `lwz_notify_callback`: the simple callback, then the extended one. -/
def lwz_notify_callback (h : lwz_context_t) (reason : Int) (hlwz : LWZHANDLE) : List cb_event :=
  (match h.cb.notify with
    | some f => [{ call := cb_call.notify f reason hlwz, list_seen := h.plist }]
    | none => []) ++
  (match h.cb.notify_ex with
    | some g => [{ call := cb_call.notify_ex g h.cb.puser reason hlwz, list_seen := h.plist }]
    | none => [])

/-- The search loop of `lwz_add` (lines 612-620): `n` iterations are left, `j` is the index. -/
def lwz_add_found (l : LWZDEVICELIST) (hlwz : LWZHANDLE) : Nat → Int → Bool
  | 0, _ => false
  | n + 1, j => if l.handles j = hlwz then true else lwz_add_found l hlwz n (j + 1)

/-- One iteration of the first loop of `lwz_add` (lines 608-628). -/
def lwz_add_one (l : LWZDEVICELIST) (indx : Int) : LWZDEVICELIST :=
  let hlwz : LWZHANDLE := indx + 1
  let found := lwz_add_found l hlwz l.numdevices.toNat 0
  if ¬ found ∧ l.numdevices < LWZ_MAX_DEVICES then
    { handles := arr_set l.handles l.numdevices hlwz, numdevices := l.numdevices + 1 }
  else l

/-- The first loop of `lwz_add` (lines 606-629) over `device_indices[0..ndevices)`. -/
def lwz_add_list (l : LWZDEVICELIST) : List Int → LWZDEVICELIST
  | [] => l
  | indx :: rest => lwz_add_list (lwz_add_one l indx) rest

/-- The second loop of `lwz_add` (lines 633-637). -/
def lwz_add_notify (h : lwz_context_t) : List Int → List cb_event
  | [] => []
  | indx :: rest => lwz_notify_callback h LWZ_REASON_ADD (indx + 1) ++ lwz_add_notify h rest

/-- The function `lwz_add`; `device_indices` lists the `ndevices` entries of the array. -/
def lwz_add (h : lwz_context_t) (device_indices : List Int) : reg_out :=
  let h1 : lwz_context_t :=
    match h.plist with
    | some l => { h with plist := some (lwz_add_list l device_indices) }
    | none => h
  { h := h1, events := lwz_add_notify h1 device_indices }

/-- The loop of `lwz_remove` (lines 648-659). At most `numdevices` iterations run, since `i`
grows and `numdevices` does not; `fuel` counts the iterations left. -/
def lwz_remove_loop (hlwz : LWZHANDLE) : Nat → Int → LWZDEVICELIST → LWZDEVICELIST
  | 0, _, l => l
  | fuel + 1, i, l =>
    if i < l.numdevices then
      if l.handles i ≠ hlwz then lwz_remove_loop hlwz fuel (i + 1) l
      else
        let a1 := arr_set l.handles i (l.handles (l.numdevices - 1))
        let a2 := arr_set a1 (l.numdevices - 1) 0
        lwz_remove_loop hlwz fuel (i + 1) { handles := a2, numdevices := l.numdevices - 1 }
    else l

/-- The function `lwz_remove`. -/
def lwz_remove (h : lwz_context_t) (indx : Int) : reg_out :=
  let hlwz : LWZHANDLE := indx + 1
  let h1 : lwz_context_t :=
    match h.plist with
    | some l => { h with plist := some (lwz_remove_loop hlwz l.numdevices.toNat 0 l) }
    | none => h
  { h := h1, events := lwz_notify_callback h1 LWZ_REASON_DELETE hlwz }

/-! ## lwz_refreshlist_detached, lwz_refreshlist_attached, lwz_freelist (lines 667-859)

The operating system is an input: a rescan receives what the HID enumeration reports, a
liveness probe receives, per slot, whether reopening the stored device path fails. -/

/-- The loop of `lwz_refreshlist_detached` (lines 672-699): `n` iterations are left, `i` is the
slot; `reopen_fails i` tells whether `CreateFileA` on the path of slot `i` returns
`INVALID_HANDLE_VALUE`. -/
def lwz_refreshlist_detached_loop (reopen_fails : Int → Bool) :
    Nat → Int → lwz_context_t → List cb_event → reg_out
  | 0, _, h, ev => { h := h, events := ev }
  | n + 1, i, h, ev =>
    if (h.devices i).hudev ≠ none then
      if reopen_fails i then
        let h1 : lwz_context_t :=
          { h with devices := arr_set h.devices i { (h.devices i) with hudev := none } }
        let r := lwz_remove h1 i
        lwz_refreshlist_detached_loop reopen_fails n (i + 1) r.h (ev ++ r.events)
      else lwz_refreshlist_detached_loop reopen_fails n (i + 1) h ev
    else lwz_refreshlist_detached_loop reopen_fails n (i + 1) h ev

/-- The function `lwz_refreshlist_detached`. -/
def lwz_refreshlist_detached (h : lwz_context_t) (reopen_fails : Int → Bool) : reg_out :=
  lwz_refreshlist_detached_loop reopen_fails 16 0 h []

/-- What the operating system reports for one enumerated HID interface during
`lwz_refreshlist_attached`: whether the interface detail query succeeds and the device path it
yields, the device object `usbdev_create` returns (`none` when the path cannot be opened),
whether `HidD_GetAttributes` succeeds and the vendor and product ID it yields, whether
`HidD_GetPreparsedData` and `HidP_GetCaps` succeed and the two capabilities read, and whether the
product string contains "Pinscape Controller". -/
structure hid_interface where
  detail_ok : Bool
  path : Nat
  created : HUDEV
  attrib_ok : Bool
  VendorID : Nat
  ProductID : Nat
  preparsed_ok : Bool
  caps_ok : Bool
  NumberLinkCollectionNodes : Nat
  OutputReportByteLength : Nat
  pinscape : Bool
deriving DecidableEq, Repr

/-- The enumeration loop of `lwz_refreshlist_attached` (lines 721-838) over the interfaces the
system reports; `new_devices` holds the `num_new_devices` entries collected so far. The calls
`usbdev_release` and `usbdev_set_min_write_interval` act on device objects only and leave the
registry as it is. -/
def lwz_refreshlist_attached_loop :
    List hid_interface → (Int → lwz_device_t) → List Int → (Int → lwz_device_t) × List Int
  | [], devices, new_devices => (devices, new_devices)
  | e :: rest, devices, new_devices =>
    if e.detail_ok = false then lwz_refreshlist_attached_loop rest devices new_devices
    else
      match e.created with
      | none => lwz_refreshlist_attached_loop rest devices new_devices
      | some hudev =>
        let indx : Int := (e.ProductID : Int) - ProductID_LEDWiz_min
        if e.attrib_ok = true ∧ (e.VendorID : Int) = VendorID_LEDWiz ∧
            indx ≥ 0 ∧ indx < LWZ_MAX_DEVICES then
          if e.preparsed_ok = true then
            if e.caps_ok = true then
              if e.NumberLinkCollectionNodes = 1 ∧ e.OutputReportByteLength = 9 then
                if (devices indx).hudev = none then
                  lwz_refreshlist_attached_loop rest
                    (arr_set devices indx { hudev := some hudev, dat := e.path })
                    (if (new_devices.length : Int) < LWZ_MAX_DEVICES
                      then new_devices ++ [indx] else new_devices)
                else lwz_refreshlist_attached_loop rest devices new_devices
              else lwz_refreshlist_attached_loop rest devices new_devices
            else lwz_refreshlist_attached_loop rest devices new_devices
          else lwz_refreshlist_attached_loop rest devices new_devices
        else lwz_refreshlist_attached_loop rest devices new_devices

/-- The function `lwz_refreshlist_attached`; `enumeration` is `none` when
`SetupDiGetClassDevsA` returns `INVALID_HANDLE_VALUE`. -/
def lwz_refreshlist_attached (h : lwz_context_t) (enumeration : Option (List hid_interface)) :
    reg_out :=
  match enumeration with
  | none => { h := h, events := [] }
  | some l =>
    let r := lwz_refreshlist_attached_loop l h.devices []
    lwz_add { h with devices := r.1 } r.2

/-- The loop of `lwz_freelist` (lines 851-858): `n` iterations are left, `i` is the slot. -/
def lwz_freelist_loop : Nat → Int → (Int → lwz_device_t) → (Int → lwz_device_t)
  | 0, _, devices => devices
  | n + 1, i, devices =>
    lwz_freelist_loop n (i + 1)
      (if (devices i).hudev ≠ none then arr_set devices i { (devices i) with hudev := none }
       else devices)

/-- The function `lwz_freelist`. -/
def lwz_freelist (h : lwz_context_t) : lwz_context_t :=
  { h with devices := lwz_freelist_loop 16 0 h.devices }

/-! ## LWZ_SET_NOTIFY_EX, LWZ_SET_NOTIFY (lines 291-336) -/

/-- The function `LWZ_SET_NOTIFY_EX`; `plist` is `none` for a `NULL` pointer and the present
contents of the client's list otherwise. -/
def LWZ_SET_NOTIFY_EX (h : lwz_context_t) (notify_ex_cb : Option Nat) (puser : Nat)
    (plist : Option LWZDEVICELIST) (enumeration : Option (List hid_interface)) : reg_out :=
  let h1 : lwz_context_t :=
    { h with plist := plist.map (fun _ => LWZDEVICELIST_zero),
             cb := { h.cb with notify_ex := notify_ex_cb, puser := puser } }
  lwz_refreshlist_attached h1 enumeration

/-- The function `LWZ_SET_NOTIFY`. -/
def LWZ_SET_NOTIFY (h : lwz_context_t) (notify_cb : Option Nat)
    (plist : Option LWZDEVICELIST) (enumeration : Option (List hid_interface)) : reg_out :=
  let h0 := lwz_freelist h
  let h1 : lwz_context_t :=
    { h0 with plist := plist.map (fun _ => LWZDEVICELIST_zero),
              cb := { h0.cb with notify := notify_cb } }
  lwz_refreshlist_attached h1 enumeration

/-! ## Vocabulary for stating properties of the ring -/

/-- The ring position that follows `pos`: the update `pos = (pos + 1) % QUEUE_LENGTH`. -/
def ring_next (pos : Int) : Int := Int.tmod (pos + 1) QUEUE_LENGTH

/-- The ring position of the `i`-th live chunk in FIFO order (`i = 0` is the oldest). -/
def slot_at (h : queue_t) (i : Nat) : Int := (h.rpos + (i : Int)) % QUEUE_LENGTH

/-- The `i`-th live chunk in FIFO order. -/
def chunk_at (h : queue_t) (i : Nat) : chunk_t := h.buf (slot_at h i)

/-- The live window: the `level` chunks starting at `rpos`, oldest first. -/
def live (h : queue_t) : List chunk_t :=
  (List.range h.level.toNat).map (chunk_at h)

/-- A chunk is a PBA chunk for device `d`. -/
def is_pba_for (d : HUDEV) (c : chunk_t) : Prop := c.hudev = d ∧ c.typ = PACKET_TYPE_PBA

/-- A chunk is an SBA chunk for device `d`. -/
def is_sba_for (d : HUDEV) (c : chunk_t) : Prop := c.hudev = d ∧ c.typ = PACKET_TYPE_SBA

instance (d : HUDEV) (c : chunk_t) : Decidable (is_pba_for d c) := by
  unfold is_pba_for; infer_instance

instance (d : HUDEV) (c : chunk_t) : Decidable (is_sba_for d c) := by
  unfold is_sba_for; infer_instance

/-- The read position is a valid index of `buf`. -/
def rpos_ok (h : queue_t) : Prop := 0 ≤ h.rpos ∧ h.rpos < QUEUE_LENGTH

instance (h : queue_t) : Decidable (rpos_ok h) := by
  unfold rpos_ok; infer_instance

/-- The ring-buffer invariant. -/
def ring_inv (h : queue_t) : Prop :=
  0 ≤ h.level ∧ h.level ≤ QUEUE_LENGTH ∧
  0 ≤ h.rpos ∧ h.rpos < QUEUE_LENGTH ∧
  0 ≤ h.wpos ∧ h.wpos < QUEUE_LENGTH ∧
  h.wpos = (h.rpos + h.level) % QUEUE_LENGTH

instance (h : queue_t) : Decidable (ring_inv h) := by
  unfold ring_inv; infer_instance

/-- The `i`-th live chunk is the last live SBA chunk for `d`, and no live PBA chunk for `d` is
queued after it. -/
def sba_candidate (h : queue_t) (d : HUDEV) (i : Nat) : Prop :=
  i < h.level.toNat ∧ is_sba_for d (chunk_at h i) ∧
  ∀ k, k < h.level.toNat → i < k →
    ¬ is_sba_for d (chunk_at h k) ∧ ¬ is_pba_for d (chunk_at h k)

instance (h : queue_t) (d : HUDEV) (i : Nat) : Decidable (sba_candidate h d i) := by
  unfold sba_candidate; infer_instance

/-- The `i`-th live chunk is the first live PBA chunk for `d`. -/
def pba_candidate (h : queue_t) (d : HUDEV) (i : Nat) : Prop :=
  i < h.level.toNat ∧ is_pba_for d (chunk_at h i) ∧
  ∀ k, k < i → ¬ is_pba_for d (chunk_at h k)

instance (h : queue_t) (d : HUDEV) (i : Nat) : Decidable (pba_candidate h d i) := by
  unfold pba_candidate; infer_instance

/-- The `i`-th live chunk is the one a push of tag `typ` for device `d` coalesces with. -/
def coalesce_target (h : queue_t) (d : HUDEV) : packet_type_t → Nat → Prop
  | PACKET_TYPE_PBA, i => pba_candidate h d i
  | PACKET_TYPE_SBA, i => sba_candidate h d i
  | PACKET_TYPE_RAW, _ => False

instance (h : queue_t) (d : HUDEV) (typ : packet_type_t) (i : Nat) :
    Decidable (coalesce_target h d typ i) := by
  cases typ <;> unfold coalesce_target <;> infer_instance

/-- The chunk that `queue_push` stores at `wpos` when it does not coalesce (lines 1155-1167). -/
def new_chunk (old : chunk_t) (hudev : HUDEV) (typ : packet_type_t)
    (pdata : Option (List uint8_t)) (ndata : Nat) : chunk_t :=
  { hudev := hudev, ndata := ndata, typ := typ,
    data := match pdata with
      | some src => memcpy old.data src ndata
      | none => old.data }

/-- The queue after a push that coalesced with the `i`-th live chunk. -/
def coalesced (h : queue_t) (i : Nat) (pdata : Option (List uint8_t)) (ndata : Nat) : queue_t :=
  { h with buf := (buf_set h.buf (slot_at h i)
      { (chunk_at h i) with data := memcpy (chunk_at h i).data (bytes_at pdata) ndata }) }

/-- The queue after a push that stored a new chunk at `wpos`. -/
def enqueued (h : queue_t) (hudev : HUDEV) (typ : packet_type_t)
    (pdata : Option (List uint8_t)) (ndata : Nat) : queue_t :=
  { h with buf := buf_set h.buf h.wpos (new_chunk (h.buf h.wpos) hudev typ pdata ndata),
           wpos := Int.tmod (h.wpos + 1) QUEUE_LENGTH,
           level := h.level + 1,
           wblocked := false }

/-- The queue states reachable from `queue_open` by calls of `queue_push` and `queue_shift`
with arbitrary arguments. -/
inductive Reachable : queue_t → Prop where
  | opened : Reachable queue_open
  | push {h : queue_t} (hudev : HUDEV) (typ : packet_type_t) (pdata : Option (List uint8_t))
      (ndata : Nat) : Reachable h → Reachable (queue_push h hudev typ pdata ndata).h
  | shift {h : queue_t} (hudev0 : HUDEV) (buffer0 : List uint8_t) (nsize : Nat) :
      Reachable h → Reachable (queue_shift h hudev0 buffer0 nsize).h

/-- At most one live PBA chunk per device. -/
def pba_unique (h : queue_t) : Prop :=
  ∀ (d : HUDEV) (i j : Nat), i < h.level.toNat → j < h.level.toNat →
    is_pba_for d (chunk_at h i) → is_pba_for d (chunk_at h j) → i = j

/-- Between two live SBA chunks for a device a live PBA chunk for that device is queued. -/
def sba_separated (h : queue_t) : Prop :=
  ∀ (d : HUDEV) (i k : Nat), i < k → k < h.level.toNat →
    is_sba_for d (chunk_at h i) → is_sba_for d (chunk_at h k) →
    ∃ j, i < j ∧ j < k ∧ is_pba_for d (chunk_at h j)

/-- The queue is in the state RUNNING. -/
def running (h : queue_t) : Prop := h.state = 0

instance (h : queue_t) : Decidable (running h) := by
  unfold running; infer_instance

/-- The queue after `queue_shift` took the oldest chunk out (lines 1227-1248). -/
def shifted (h : queue_t) : queue_t :=
  { h with buf := buf_set h.buf h.rpos { (h.buf h.rpos) with hudev := none },
           state := if (h.buf h.rpos).ndata > 0 then h.state else 1,
           rpos := Int.tmod (h.rpos + 1) QUEUE_LENGTH,
           level := h.level - 1,
           rblocked := false }

/-- The invariant of the write queue: the ring invariant, at most one live PBA chunk per device,
and a live PBA chunk between any two live SBA chunks of a device. -/
def queue_inv (h : queue_t) : Prop :=
  ring_inv h ∧ pba_unique h ∧ sba_separated h

/-- The queue after the consecutive calls `push(SBA, d, s1)`, `push(PBA, d, p)`,
`push(SBA, d, s2)` of the public operations (8, 32 and 8 bytes). -/
def push_sba_pba_sba (h : queue_t) (d : HUDEV) (s1 p s2 : List uint8_t) : queue_t :=
  let q1 := (queue_push h d PACKET_TYPE_SBA (some s1) 8).h
  let q2 := (queue_push q1 d PACKET_TYPE_PBA (some p) 32).h
  (queue_push q2 d PACKET_TYPE_SBA (some s2) 8).h

/-- The queue holds two different SBA chunks for `d`, one carrying `s1` and one carrying `s2`,
and a PBA chunk for `d` carrying `p`. -/
def holds_sba_pba_sba (h : queue_t) (d : HUDEV) (s1 p s2 : List uint8_t) : Prop :=
  ∃ i, i < h.level.toNat ∧ ∃ j, j < h.level.toNat ∧ ∃ k, k < h.level.toNat ∧
    i ≠ k ∧
    is_sba_for d (chunk_at h i) ∧ (chunk_at h i).data.take 8 = s1 ∧
    is_pba_for d (chunk_at h j) ∧ (chunk_at h j).data.take 32 = p ∧
    is_sba_for d (chunk_at h k) ∧ (chunk_at h k).data.take 8 = s2

instance (h : queue_t) (d : HUDEV) (s1 p s2 : List uint8_t) :
    Decidable (holds_sba_pba_sba h d s1 p s2) := by
  unfold holds_sba_pba_sba; infer_instance

/-- The queue after the consecutive calls `push(PBA, d, p1)`, `push(PBA, d, p2)` of 32 bytes
each. -/
def push_pba_pba (h : queue_t) (d : HUDEV) (p1 p2 : List uint8_t) : queue_t :=
  (queue_push (queue_push h d PACKET_TYPE_PBA (some p1) 32).h d PACKET_TYPE_PBA (some p2) 32).h

/-- What the writer thread receives for a queued chunk: the return value of `queue_shift`, the
device, and the bytes copied to its buffer. -/
def delivered (c : chunk_t) : Option Nat × HUDEV × List uint8_t :=
  (some c.ndata, c.hudev, c.data.take c.ndata)

/-- What a call of `queue_shift` hands to its caller: the return value (`none` while the thread
waits), the device and the first `n` bytes of the buffer, `n` being the return value. -/
def shift_result (r : shift_out) : Option Nat × HUDEV × List uint8_t :=
  (r.ret, r.hudev, r.buffer.take (r.ret.getD 0))

/-- Consecutive calls `queue_push(h, d, PACKET_TYPE_RAW, b, |b|)` for the pairs `(d, b)` of a
list; returns the final queue and what each call returned. -/
def push_raw_seq (h : queue_t) : List (HUDEV × List uint8_t) → queue_t × List (Option Nat)
  | [] => (h, [])
  | x :: rest =>
    let r := queue_push h x.1 PACKET_TYPE_RAW (some x.2) x.2.length
    ((push_raw_seq r.h rest).1, r.ret :: (push_raw_seq r.h rest).2)

/-- The results of `n` consecutive calls of `queue_shift`, as the writer thread makes them
(`*phudev` is `NULL` on entry, the buffer is the one of the previous call). -/
def shift_seq (nsize : Nat) : Nat → queue_t → List uint8_t →
    List (Option Nat × HUDEV × List uint8_t)
  | 0, _, _ => []
  | n + 1, h, buffer0 =>
    let r := queue_shift h none buffer0 nsize
    shift_result r :: shift_seq nsize n r.h r.buffer

/-- A sentinel chunk: no device and length 0. -/
def is_sentinel (c : chunk_t) : Prop := c.hudev = none ∧ c.ndata = 0

instance (c : chunk_t) : Decidable (is_sentinel c) := by
  unfold is_sentinel; infer_instance

/-- The arguments that `queue_push` turns into a sentinel (line 1041). -/
def sentinel_args (pdata : Option (List uint8_t)) (ndata : Nat) : Prop :=
  pdata = none ∨ ndata = 0 ∨ ndata > CHUNK_DATA_SIZE

instance (pdata : Option (List uint8_t)) (ndata : Nat) : Decidable (sentinel_args pdata ndata) := by
  unfold sentinel_args; infer_instance

/-- Every cell with stored length 0 has no device. -/
def sentinel_inv (h : queue_t) : Prop :=
  ∀ pos, (h.buf pos).ndata = 0 → (h.buf pos).hudev = none

/-- The queue in which a push has blocked, after one call of `queue_shift` by the writer. -/
def after_blocked_push_and_shift (h : queue_t) (d : HUDEV) (typ : packet_type_t)
    (pdata : Option (List uint8_t)) (ndata : Nat) (hudev0 : HUDEV) (buffer0 : List uint8_t)
    (nsize : Nat) : shift_out :=
  queue_shift (queue_push h d typ pdata ndata).h hudev0 buffer0 nsize

/-- The second pass of a blocked push through the retry loop, after one call of `queue_shift`
by the writer. -/
def retried_push (h : queue_t) (d : HUDEV) (typ : packet_type_t)
    (pdata : Option (List uint8_t)) (ndata : Nat) (hudev0 : HUDEV) (buffer0 : List uint8_t)
    (nsize : Nat) : push_out :=
  queue_push (after_blocked_push_and_shift h d typ pdata ndata hudev0 buffer0 nsize).h
    d typ pdata ndata

/-! ## Vocabulary for the client's device list -/

/-- The entries `handles[0..numdevices)` of a device list, in order. -/
def list_view (l : LWZDEVICELIST) : List LWZHANDLE :=
  (List.range l.numdevices.toNat).map (fun (j : Nat) => l.handles (j : Int))

/-- Slot `s` of the registry table is occupied. -/
def occupied (h : lwz_context_t) (s : Int) : Prop := (h.devices s).hudev ≠ none

instance (h : lwz_context_t) (s : Int) : Decidable (occupied h s) := by
  unfold occupied; infer_instance

/-- The device list `l` names exactly the occupied slots of `h`: the handle `s + 1` occurs
once for every occupied slot `s` in `0..15` and not at all for every empty one. -/
def list_matches_slots (h : lwz_context_t) (l : LWZDEVICELIST) : Prop :=
  ∀ s : Int, 0 ≤ s → s < LWZ_MAX_DEVICES →
    (list_view l).count (s + 1) = if occupied h s then 1 else 0

/-- The callback invocations `lwz_notify_callback` makes for the callbacks `cb`: the simple
callback if set, then the extended callback if set. -/
def callback_calls (cb : lwz_callbacks) (reason : Int) (hlwz : LWZHANDLE) : List cb_call :=
  (match cb.notify with
    | some f => [cb_call.notify f reason hlwz]
    | none => []) ++
  (match cb.notify_ex with
    | some g => [cb_call.notify_ex g cb.puser reason hlwz]
    | none => [])

/-- The callback invocations expected for a batch of new slots: for every entry, in batch
order, one `ADD` call of each registered callback with the handle `slot + 1`. -/
def add_calls (cb : lwz_callbacks) : List Int → List cb_call
  | [] => []
  | indx :: rest => callback_calls cb LWZ_REASON_ADD (indx + 1) ++ add_calls cb rest

/-- The entries `handles[0..numdevices)` are pairwise different. -/
def handles_inj (l : LWZDEVICELIST) : Prop :=
  ∀ j k : Int, 0 ≤ j → j < l.numdevices → 0 ≤ k → k < l.numdevices →
    l.handles j = l.handles k → j = k

/-- The handle `x` is one of the entries `handles[0..numdevices)`. -/
def handle_in (l : LWZDEVICELIST) (x : LWZHANDLE) : Prop :=
  ∃ k : Int, 0 ≤ k ∧ k < l.numdevices ∧ l.handles k = x

/-- The client list is well formed: `0 ≤ numdevices ≤ 16` and no handle is listed twice. -/
def list_ok (l : LWZDEVICELIST) : Prop :=
  0 ≤ l.numdevices ∧ l.numdevices ≤ LWZ_MAX_DEVICES ∧ (list_view l).Nodup

/-- The client list names exactly the occupied slots, each once. -/
def list_exact (h : lwz_context_t) (l : LWZDEVICELIST) : Prop :=
  0 ≤ l.numdevices ∧ (list_view l).Nodup ∧
  ∀ x : Int, x ∈ list_view l ↔
    ∃ s : Int, 0 ≤ s ∧ s < LWZ_MAX_DEVICES ∧ occupied h s ∧ x = s + 1

/-- The registry states reached by `LWZ_SET_NOTIFY`, `LWZ_SET_NOTIFY_EX` (either one from any
context), `lwz_refreshlist_attached`, `lwz_refreshlist_detached` and `lwz_freelist`, whatever
the operating system reports. -/
inductive RegReachable : lwz_context_t → Prop where
  | set_notify (h : lwz_context_t) (cb : Option Nat) (plist : Option LWZDEVICELIST)
      (enumeration : Option (List hid_interface)) :
      RegReachable (LWZ_SET_NOTIFY h cb plist enumeration).h
  | set_notify_ex (h : lwz_context_t) (cb : Option Nat) (puser : Nat)
      (plist : Option LWZDEVICELIST) (enumeration : Option (List hid_interface)) :
      RegReachable (LWZ_SET_NOTIFY_EX h cb puser plist enumeration).h
  | attached {h : lwz_context_t} (enumeration : Option (List hid_interface)) :
      RegReachable h → RegReachable (lwz_refreshlist_attached h enumeration).h
  | detached {h : lwz_context_t} (reopen_fails : Int → Bool) :
      RegReachable h → RegReachable (lwz_refreshlist_detached h reopen_fails).h
  | free_all {h : lwz_context_t} : RegReachable h → RegReachable (lwz_freelist h)

/-- The registry states reached by `LWZ_SET_NOTIFY` (from any context), by `LWZ_SET_NOTIFY_EX`
from any context whose slot table is empty (the context after `lwz_open`, for one),
`lwz_refreshlist_attached` and `lwz_refreshlist_detached`, whatever the operating system
reports. -/
inductive RegReachableScan : lwz_context_t → Prop where
  | set_notify (h : lwz_context_t) (cb : Option Nat) (plist : Option LWZDEVICELIST)
      (enumeration : Option (List hid_interface)) :
      RegReachableScan (LWZ_SET_NOTIFY h cb plist enumeration).h
  | set_notify_ex (h : lwz_context_t) (cb : Option Nat) (puser : Nat)
      (plist : Option LWZDEVICELIST) (enumeration : Option (List hid_interface)) :
      (∀ s : Int, 0 ≤ s → s < LWZ_MAX_DEVICES → ¬ occupied h s) →
      RegReachableScan (LWZ_SET_NOTIFY_EX h cb puser plist enumeration).h
  | attached {h : lwz_context_t} (enumeration : Option (List hid_interface)) :
      RegReachableScan h → RegReachableScan (lwz_refreshlist_attached h enumeration).h
  | detached {h : lwz_context_t} (reopen_fails : Int → Bool) :
      RegReachableScan h → RegReachableScan (lwz_refreshlist_detached h reopen_fails).h

/-- The registry states reached by `LWZ_SET_NOTIFY` and `LWZ_SET_NOTIFY_EX` (either one from any
context), `lwz_refreshlist_attached` and `lwz_refreshlist_detached`: no `lwz_freelist` of its
own has run since the last of the two calls. -/
inductive RegReachableNoFree : lwz_context_t → Prop where
  | set_notify (h : lwz_context_t) (cb : Option Nat) (plist : Option LWZDEVICELIST)
      (enumeration : Option (List hid_interface)) :
      RegReachableNoFree (LWZ_SET_NOTIFY h cb plist enumeration).h
  | set_notify_ex (h : lwz_context_t) (cb : Option Nat) (puser : Nat)
      (plist : Option LWZDEVICELIST) (enumeration : Option (List hid_interface)) :
      RegReachableNoFree (LWZ_SET_NOTIFY_EX h cb puser plist enumeration).h
  | attached {h : lwz_context_t} (enumeration : Option (List hid_interface)) :
      RegReachableNoFree h → RegReachableNoFree (lwz_refreshlist_attached h enumeration).h
  | detached {h : lwz_context_t} (reopen_fails : Int → Bool) :
      RegReachableNoFree h → RegReachableNoFree (lwz_refreshlist_detached h reopen_fails).h

/-- The registry states reached by `LWZ_SET_NOTIFY` (from any context), by `LWZ_SET_NOTIFY_EX`
from any context whose slot table is empty, by `lwz_freelist` from any state of `RegReachable`,
and from these by `lwz_refreshlist_attached` and `lwz_refreshlist_detached`: when
`LWZ_SET_NOTIFY_EX` has been called on a table that holds devices, one of the first three has
run since. -/
inductive RegReachableFreshEx : lwz_context_t → Prop where
  | set_notify (h : lwz_context_t) (cb : Option Nat) (plist : Option LWZDEVICELIST)
      (enumeration : Option (List hid_interface)) :
      RegReachableFreshEx (LWZ_SET_NOTIFY h cb plist enumeration).h
  | set_notify_ex (h : lwz_context_t) (cb : Option Nat) (puser : Nat)
      (plist : Option LWZDEVICELIST) (enumeration : Option (List hid_interface)) :
      (∀ s : Int, 0 ≤ s → s < LWZ_MAX_DEVICES → ¬ occupied h s) →
      RegReachableFreshEx (LWZ_SET_NOTIFY_EX h cb puser plist enumeration).h
  | attached {h : lwz_context_t} (enumeration : Option (List hid_interface)) :
      RegReachableFreshEx h → RegReachableFreshEx (lwz_refreshlist_attached h enumeration).h
  | detached {h : lwz_context_t} (reopen_fails : Int → Bool) :
      RegReachableFreshEx h → RegReachableFreshEx (lwz_refreshlist_detached h reopen_fails).h
  | free_all {h : lwz_context_t} : RegReachable h → RegReachableFreshEx (lwz_freelist h)

/-- The client list is well formed and every handle it holds is a unit handle `1..16`. -/
def list_ranged (l : LWZDEVICELIST) : Prop :=
  list_ok l ∧ ∀ x : Int, x ∈ list_view l → 1 ≤ x ∧ x ≤ 16

/-- The client list is well formed and lists only handles of occupied slots. -/
def list_within (h : lwz_context_t) (l : LWZDEVICELIST) : Prop :=
  list_ok l ∧
  ∀ x : Int, x ∈ list_view l →
    ∃ s : Int, 0 ≤ s ∧ s < LWZ_MAX_DEVICES ∧ occupied h s ∧ x = s + 1

/-- The client list is well formed, holds unit handles only and lists the handle of every
occupied slot. -/
def list_covers (h : lwz_context_t) (l : LWZDEVICELIST) : Prop :=
  list_ranged l ∧
  ∀ s : Int, 0 ≤ s → s < LWZ_MAX_DEVICES → occupied h s → s + 1 ∈ list_view l

/-- Slot `s` of a device table is occupied. -/
def slot_used (devices : Int → lwz_device_t) (s : Int) : Prop := (devices s).hudev ≠ none

instance (devices : Int → lwz_device_t) (s : Int) : Decidable (slot_used devices s) := by
  unfold slot_used; infer_instance

/-! ## Concrete queue and registry states, used to instantiate the theorems -/

/-- A 32-byte payload with every byte equal to `v`. -/
def payload32 (v : uint8_t) : List uint8_t := List.replicate 32 v

/-- An 8-byte SBA report `{0x40, b, b, b, b, speed, 0, 0}`. -/
def sba8 (b speed : uint8_t) : List uint8_t := [0x40, b, b, b, b, speed, 0, 0]

/-- The queue after `queue_open` and the pushes RAW(dev 1, 3 bytes), PBA(dev 1, all 7),
SBA(dev 2), PBA(dev 2, all 5). -/
def ex_queue : queue_t :=
  let q1 := (queue_push queue_open (some 1) PACKET_TYPE_RAW (some [1, 2, 3]) 3).h
  let q2 := (queue_push q1 (some 1) PACKET_TYPE_PBA (some (payload32 7)) 32).h
  let q3 := (queue_push q2 (some 2) PACKET_TYPE_SBA (some (sba8 1 2)) 8).h
  (queue_push q3 (some 2) PACKET_TYPE_PBA (some (payload32 5)) 32).h

/-- The queue `ex_queue` after one more push, SBA(dev 1): it holds RAW(1), PBA(1), SBA(2),
PBA(2), SBA(1). -/
def ex_queue_sba : queue_t :=
  (queue_push ex_queue (some 1) PACKET_TYPE_SBA (some (sba8 3 4)) 8).h

/-- The queue after `queue_open` and one push PBA(dev 1, all 1). -/
def ex_queue_pba : queue_t :=
  (queue_push queue_open (some 1) PACKET_TYPE_PBA (some (payload32 1)) 32).h

/-- The queue after `queue_open` and the pushes RAW(dev 1, 3 bytes), SBA(dev 1). -/
def ex_queue_raw_sba : queue_t :=
  let q1 := (queue_push queue_open (some 1) PACKET_TYPE_RAW (some [1, 2, 3]) 3).h
  (queue_push q1 (some 1) PACKET_TYPE_SBA (some (sba8 0 1)) 8).h

/-- An empty RUNNING queue whose read and write positions are at the last cell of the ring. -/
def ex_queue_wrap : queue_t :=
  { queue_open with rpos := 63, wpos := 63 }

/-- The queue `ex_queue` after a sentinel push as `queue_close` makes it and four calls of
`queue_shift`: the sentinel is the oldest chunk. -/
def ex_queue_closing : queue_t :=
  let q0 := (queue_push ex_queue none PACKET_TYPE_RAW none 0).h
  let q1 := (queue_shift q0 none (List.replicate 64 0) 64).h
  let q2 := (queue_shift q1 none (List.replicate 64 0) 64).h
  let q3 := (queue_shift q2 none (List.replicate 64 0) 64).h
  (queue_shift q3 none (List.replicate 64 0) 64).h

/-- A full RUNNING queue whose oldest chunk is a sentinel: `queue_open`, one sentinel push, then
63 RAW pushes of one byte for device 1. -/
def ex_queue_full_sentinel : queue_t :=
  (push_raw_seq (queue_push queue_open none PACKET_TYPE_RAW none 0).h
    (List.replicate 63 (some 1, [7]))).1

/-- A full RUNNING queue of 64 RAW chunks of one byte for device 1. -/
def ex_queue_full : queue_t :=
  (push_raw_seq queue_open (List.replicate 64 (some 1, [7]))).1

/-- A context with an empty client list and the simple callback 7 registered. -/
def ex_context : lwz_context_t :=
  { lwz_open with plist := some LWZDEVICELIST_zero,
                  cb := { puser := 0, notify := some 7, notify_ex := none } }

/-- An enumerated HID interface that `lwz_refreshlist_attached` accepts as the LED-Wiz with
product ID `0x00F0` (unit 1); `10` stands for its device object and `1` for its path. -/
def ex_ledwiz : hid_interface :=
  { detail_ok := true, path := 1, created := some 10, attrib_ok := true,
    VendorID := 0xFAFA, ProductID := 0x00F0, preparsed_ok := true, caps_ok := true,
    NumberLinkCollectionNodes := 1, OutputReportByteLength := 9, pinscape := false }

/-- The registry after `LWZ_SET_NOTIFY(cb, list)` on a fresh context with one LED-Wiz
attached. -/
def ex_registry : lwz_context_t :=
  (LWZ_SET_NOTIFY lwz_open (some 7) (some LWZDEVICELIST_zero) (some [ex_ledwiz])).h

/-- A client list holding the handles 1, 2, 3. -/
def ex_list3 : LWZDEVICELIST :=
  { handles := fun j => if j = 0 then 1 else if j = 1 then 2 else if j = 2 then 3 else 0,
    numdevices := 3 }

/-- The context `ex_context` with the client list `ex_list3`. -/
def ex_context3 : lwz_context_t :=
  { ex_context with plist := some ex_list3 }

/-! ## Vocabulary for the rescan of attached devices -/

/-- The slot `indx = ProductID - ProductID_LEDWiz_min` that `lwz_refreshlist_attached` computes
for an enumerated interface. -/
def device_slot (e : hid_interface) : Int := (e.ProductID : Int) - ProductID_LEDWiz_min

/-- The enumerated interface is an attached matching device: its detail query succeeds, it can be
opened, it reports the LED-Wiz vendor ID and a product ID in `0x00F0..0x00FF`, and its
capabilities show one link collection node and an output report of nine bytes. -/
def lwz_accepts (e : hid_interface) : Prop :=
  e.detail_ok = true ∧ e.created ≠ none ∧ e.attrib_ok = true ∧
  (e.VendorID : Int) = VendorID_LEDWiz ∧
  0 ≤ device_slot e ∧ device_slot e < LWZ_MAX_DEVICES ∧
  e.preparsed_ok = true ∧ e.caps_ok = true ∧
  e.NumberLinkCollectionNodes = 1 ∧ e.OutputReportByteLength = 9

instance (e : hid_interface) : Decidable (lwz_accepts e) := by
  unfold lwz_accepts; infer_instance

/-- The slots of the attached matching devices of an enumeration, in enumeration order. -/
def attached_slots : List hid_interface → List Int
  | [] => []
  | e :: rest => if lwz_accepts e then device_slot e :: attached_slots rest
                 else attached_slots rest

/-- The enumeration of two attached LED-Wiz units, product IDs `0x00F0` and `0x00F2`, with a
foreign HID interface between them. -/
def ex_two_ledwiz : List hid_interface :=
  [ex_ledwiz,
   { ex_ledwiz with VendorID := 0x046D, path := 2, created := some 11 },
   { ex_ledwiz with ProductID := 0x00F2, path := 3, created := some 12 }]

/-! ## The public operations LWZ_SBA, LWZ_PBA, LWZ_RAWWRITE, LWZ_RAWREAD (lines 144-277)

The operations act on the global context `g_plwz`; the embedding passes it as `g`. Every
operation opens with `AUTOLOCK(g_cs)`: `EnterCriticalSection(&g_cs)` at that line and
`LeaveCriticalSection(&g_cs)` when the function returns. The embedding records these two calls,
the calls into the queue and the waits on queue events in a trace, in program order. As for
`queue_push`, a blocking operation is followed up to the point where the thread waits. -/

/-- The function `lwz_get_hdev`. -/
def lwz_get_hdev (h : lwz_context_t) (indx : Int) : HUDEV :=
  if indx < 0 ∨ indx ≥ LWZ_MAX_DEVICES then none
  else (h.devices indx).hudev

/-- The value of an `int` computation with wrap-around to 32 bits. -/
def int32_wrap (x : Int) : Int := (x + 2 ^ 31) % 2 ^ 32 - 2 ^ 31

/-- What one pass through the body of the loop of `queue_wait_empty` yields; `returned` is
`false` when the thread waits for `heevent` before running the body again. -/
structure wait_out where
  h : queue_t
  returned : Bool

/-- The function `queue_wait_empty` (lines 1011-1035): one pass through its loop. -/
def queue_wait_empty (h : queue_t) : wait_out :=
  if h.state ≠ 0 then { h := h, returned := true }
  else if h.level = 0 ∧ h.rblocked = true then
    { h := { h with eblocked := false }, returned := true }
  else { h := { h with eblocked := true }, returned := false }

/-- What a public operation does, as far as other threads and the queue can tell. -/
inductive api_event where
  | enter_g_cs
  | leave_g_cs
  | push (hudev : HUDEV) (typ : packet_type_t) (pdata : Option (List uint8_t)) (ndata : Nat)
  | wait_hrevent
  | wait_empty
  | wait_heevent
  | read (hudev : HUDEV) (ndata : Nat)
deriving DecidableEq, Repr

open api_event

/-- What a public operation yields: the context afterwards, `ret = some v` when the operation
has returned (`v` is its return value, 0 for a `void` function) and `ret = none` when the
calling thread waits on a queue event, and the trace up to that point. -/
structure api_out where
  g : lwz_context_t
  ret : Option Nat
  trace : List api_event

/-- The function `LWZ_SBA`; the `unsigned int` arguments are stored into `BYTE`s. -/
def LWZ_SBA (g : lwz_context_t) (hlwz : LWZHANDLE)
    (bank0 bank1 bank2 bank3 globalPulseSpeed : Nat) : api_out :=
  let indx : Int := hlwz - 1
  match lwz_get_hdev g indx with
  | none => { g := g, ret := some 0, trace := [enter_g_cs, leave_g_cs] }
  | some d =>
    let data : List uint8_t :=
      [0x40, bank0 % 256, bank1 % 256, bank2 % 256, bank3 % 256, globalPulseSpeed % 256, 0, 0]
    let r := queue_push g.hqueue (some d) PACKET_TYPE_SBA (some data) 8
    match r.ret with
    | some _ =>
      { g := { g with hqueue := r.h }, ret := some 0,
        trace := [enter_g_cs, push (some d) PACKET_TYPE_SBA (some data) 8, leave_g_cs] }
    | none =>
      { g := { g with hqueue := r.h }, ret := none,
        trace := [enter_g_cs, push (some d) PACKET_TYPE_SBA (some data) 8, wait_hrevent] }

/-- The function `LWZ_PBA`; `pbrightness_32bytes` is `none` for a `NULL` pointer. -/
def LWZ_PBA (g : lwz_context_t) (hlwz : LWZHANDLE)
    (pbrightness_32bytes : Option (List uint8_t)) : api_out :=
  let indx : Int := hlwz - 1
  if pbrightness_32bytes = none then
    { g := g, ret := some 0, trace := [enter_g_cs, leave_g_cs] }
  else
    match lwz_get_hdev g indx with
    | none => { g := g, ret := some 0, trace := [enter_g_cs, leave_g_cs] }
    | some d =>
      let r := queue_push g.hqueue (some d) PACKET_TYPE_PBA pbrightness_32bytes 32
      match r.ret with
      | some _ =>
        { g := { g with hqueue := r.h }, ret := some 0,
          trace := [enter_g_cs, push (some d) PACKET_TYPE_PBA pbrightness_32bytes 32,
            leave_g_cs] }
      | none =>
        { g := { g with hqueue := r.h }, ret := none,
          trace := [enter_g_cs, push (some d) PACKET_TYPE_PBA pbrightness_32bytes 32,
            wait_hrevent] }

/-- The function `LWZ_RAWWRITE`. -/
def LWZ_RAWWRITE (g : lwz_context_t) (hlwz : LWZHANDLE) (pdata : Option (List uint8_t))
    (ndata : Nat) : api_out :=
  let indx : Int := hlwz - 1
  if pdata = none ∨ ndata = 0 then
    { g := g, ret := some 0, trace := [enter_g_cs, leave_g_cs] }
  else
    let ndata1 : Nat := if ndata > 32 then 32 else ndata
    match lwz_get_hdev g indx with
    | none => { g := g, ret := some 0, trace := [enter_g_cs, leave_g_cs] }
    | some d =>
      let r := queue_push g.hqueue (some d) PACKET_TYPE_RAW pdata ndata1
      match r.ret with
      | some nbyteswritten =>
        { g := { g with hqueue := r.h }, ret := some nbyteswritten,
          trace := [enter_g_cs, push (some d) PACKET_TYPE_RAW pdata ndata1, leave_g_cs] }
      | none =>
        { g := { g with hqueue := r.h }, ret := none,
          trace := [enter_g_cs, push (some d) PACKET_TYPE_RAW pdata ndata1, wait_hrevent] }

/-- The function `LWZ_RAWREAD`; `pdata` is `none` for a `NULL` pointer, and `nread` is what
`usbdev_read` returns for the device's answer. -/
def LWZ_RAWREAD (g : lwz_context_t) (hlwz : LWZHANDLE) (pdata : Option (List uint8_t))
    (ndata : Nat) (nread : Nat) : api_out :=
  let indx : Int := hlwz - 1
  if pdata = none then
    { g := g, ret := some 0, trace := [enter_g_cs, leave_g_cs] }
  else
    let ndata1 : Nat := if ndata > 64 then 64 else ndata
    match lwz_get_hdev g indx with
    | none => { g := g, ret := some 0, trace := [enter_g_cs, leave_g_cs] }
    | some d =>
      let w := queue_wait_empty g.hqueue
      if w.returned then
        { g := { g with hqueue := w.h }, ret := some nread,
          trace := [enter_g_cs, wait_empty, read (some d) ndata1, leave_g_cs] }
      else
        { g := { g with hqueue := w.h }, ret := none,
          trace := [enter_g_cs, wait_empty, wait_heevent] }

/-- The calls into the queue recorded in a trace. -/
def queue_calls (trace : List api_event) : List api_event :=
  trace.filter (fun e => match e with
    | push _ _ _ _ => true
    | wait_empty => true
    | _ => false)

/-- How often the calling thread holds `g_cs` at each wait on a queue event of a trace, in
order; `n` is how often it holds `g_cs` where the trace begins. -/
def g_cs_at_waits : List api_event → Nat → List Nat
  | [], _ => []
  | enter_g_cs :: t, n => g_cs_at_waits t (n + 1)
  | leave_g_cs :: t, n => g_cs_at_waits t (n - 1)
  | wait_hrevent :: t, n => n :: g_cs_at_waits t n
  | wait_heevent :: t, n => n :: g_cs_at_waits t n
  | _ :: t, n => g_cs_at_waits t n

/-- How often the calling thread holds `g_cs` at the end of a trace. -/
def g_cs_after : List api_event → Nat → Nat
  | [], n => n
  | enter_g_cs :: t, n => g_cs_after t (n + 1)
  | leave_g_cs :: t, n => g_cs_after t (n - 1)
  | _ :: t, n => g_cs_after t n

/-- The registry `ex_registry` (one LED-Wiz in slot 0, device object 10) with the full queue
`ex_queue_full`. -/
def ex_registry_full : lwz_context_t :=
  { ex_registry with hqueue := ex_queue_full }

/-- The registry after `LWZ_SET_NOTIFY_EX(cb_ex, puser, list)` on a fresh context with one
LED-Wiz attached. -/
def ex_registry_ex : lwz_context_t :=
  (LWZ_SET_NOTIFY_EX lwz_open (some 8) 5 (some LWZDEVICELIST_zero) (some [ex_ledwiz])).h

/-- The 8-byte SBA report `{0x40, b0, b1, b2, b3, speed, 0, 0}` with every argument reduced
modulo 256. -/
def sba_report (b0 b1 b2 b3 speed : Nat) : List uint8_t :=
  [0x40, b0 % 256, b1 % 256, b2 % 256, b3 % 256, speed % 256, 0, 0]

/-! ## The writer thread and the device references of the queue (lines 891-915, 1143-1174)

A device object is reference counted: `usbdev_addref` takes a reference, `usbdev_release` gives
one back. The embedding records both calls, and the calls of `usbdev_write`, per device and in
order. The producers and the writer thread interleave in atomic steps: one pass of `queue_push`,
one pass of `queue_shift` by the writer, the writer's `usbdev_write` and `usbdev_release` of the
chunk it has taken, and one pass of `queue_wait_empty`. -/

/-- What one pass through the body of the retry loop of `queue_push` yields, with the device
on which `usbdev_addref` was called (`none` when it was not called) and whether a new chunk was
stored. -/
structure push_ref_out where
  out : push_out
  addref : HUDEV
  stored : Bool

/-- The body of the retry loop of `queue_push` (lines 1052-1189) with the call
`usbdev_addref(hudev)` of lines 1157-1159. -/
def queue_push_body_ref (h : queue_t) (hudev : HUDEV) (typ : packet_type_t)
    (pdata : Option (List uint8_t)) (ndata : Nat) : push_ref_out :=
  if h.state ≠ 0 then
    { out := { h := h, ret := some 0, do_unblock := false }, addref := none, stored := false }
  else
    let nfree : Int := QUEUE_LENGTH - h.level
    let r1 : (Int → chunk_t) × Bool :=
      if typ = PACKET_TYPE_PBA then pba_loop hudev pdata ndata h.level.toNat h.rpos h.buf
      else (h.buf, false)
    let r2 : (Int → chunk_t) × Bool :=
      if typ = PACKET_TYPE_SBA then
        let last_sba_pos := sba_loop hudev r1.1 h.level.toNat h.rpos (-1)
        if last_sba_pos ≥ 0 then
          let chunk := r1.1 last_sba_pos
          (buf_set r1.1 last_sba_pos
            { chunk with data := memcpy chunk.data (bytes_at pdata) ndata }, true)
        else r1
      else r1
    let buf := r2.1
    let combined := r2.2
    if combined then
      { out := { h := { h with buf := buf }, ret := some ndata, do_unblock := false },
        addref := none, stored := false }
    else if nfree ≤ 0 then
      { out := { h := { h with buf := buf, wblocked := true }, ret := none,
                 do_unblock := false },
        addref := none, stored := false }
    else
      let pc := buf h.wpos
      let pc1 : chunk_t :=
        { hudev := hudev, ndata := ndata, typ := typ,
          data := match pdata with
            | some src => memcpy pc.data src ndata
            | none => pc.data }
      { out := { h := { h with buf := buf_set buf h.wpos pc1,
                               wpos := Int.tmod (h.wpos + 1) QUEUE_LENGTH,
                               level := h.level + 1,
                               wblocked := false },
                 ret := some ndata, do_unblock := h.rblocked },
        addref := hudev, stored := true }

/-- The function `queue_push` with the reference it takes. -/
def queue_push_ref (h : queue_t) (hudev : HUDEV) (typ : packet_type_t)
    (pdata : Option (List uint8_t)) (ndata : Nat) : push_ref_out :=
  if pdata = none ∨ ndata = 0 ∨ ndata > CHUNK_DATA_SIZE then
    queue_push_body_ref h none typ none 0
  else
    queue_push_body_ref h hudev typ pdata ndata

/-- The queue together with the writer thread and the record of the calls on device objects:
`held` is the device, length and buffer `queue_shift` has handed to the writer and the writer
has not yet written, `exited` tells that the writer has left its loop, `addrefs`, `releases`
and `writes` list the calls of `usbdev_addref`, `usbdev_release` and `usbdev_write` so far, and
`stored` counts the chunks stored by pushes. -/
structure system_t where
  q : queue_t
  held : Option (HUDEV × Nat × List uint8_t)
  exited : Bool
  addrefs : List HUDEV
  releases : List HUDEV
  writes : List (HUDEV × List uint8_t)
  stored : Nat

/-- The system after `queue_open`, when the writer thread starts. -/
def sys_open : system_t :=
  { q := queue_open, held := none, exited := false, addrefs := [], releases := [],
    writes := [], stored := 0 }

/-- A producer step: one pass of `queue_push`. -/
def sys_push (s : system_t) (hudev : HUDEV) (typ : packet_type_t)
    (pdata : Option (List uint8_t)) (ndata : Nat) : system_t :=
  let r := queue_push_ref s.q hudev typ pdata ndata
  { s with q := r.out.h,
           addrefs := s.addrefs ++ (match r.addref with
             | some d => [some d]
             | none => []),
           stored := s.stored + (if r.stored then 1 else 0) }

/-- The first half of an iteration of `QueueThreadProc` (lines 896-906): one pass of
`queue_shift` with `hudev = NULL` and a buffer of 64 bytes, and the exit test
`ndata == 0 || hudev == NULL`. -/
def QueueThreadProc_shift (s : system_t) (buffer0 : List uint8_t) : system_t :=
  let r := queue_shift s.q none buffer0 64
  match r.ret with
  | none => { s with q := r.h }
  | some ndata =>
    if ndata = 0 ∨ r.hudev = none then { s with q := r.h, exited := true }
    else { s with q := r.h, held := some (r.hudev, ndata, r.buffer) }

/-- The second half of an iteration of `QueueThreadProc` (lines 908-909):
`usbdev_write(hudev, buffer, ndata)` and `usbdev_release(hudev)`. -/
def QueueThreadProc_write (s : system_t) : system_t :=
  match s.held with
  | none => s
  | some (hudev, ndata, buffer) =>
    { s with writes := s.writes ++ [(hudev, buffer.take ndata)],
             releases := s.releases ++ [hudev],
             held := none }

/-- A step of a thread that drains the queue: one pass of `queue_wait_empty`. -/
def sys_wait_empty (s : system_t) : system_t :=
  { s with q := (queue_wait_empty s.q).h }

/-- The states of the system reached from `queue_open` by producer steps with arbitrary
arguments, passes of `queue_wait_empty` and the steps of the writer thread in its program order:
the writer calls `queue_shift` only while it is in its loop and holds no chunk. -/
inductive SysReachable : system_t → Prop where
  | opened : SysReachable sys_open
  | push {s : system_t} (hudev : HUDEV) (typ : packet_type_t) (pdata : Option (List uint8_t))
      (ndata : Nat) : SysReachable s → SysReachable (sys_push s hudev typ pdata ndata)
  | shift {s : system_t} (buffer0 : List uint8_t) :
      SysReachable s → s.exited = false → s.held = none →
      SysReachable (QueueThreadProc_shift s buffer0)
  | write {s : system_t} : SysReachable s → SysReachable (QueueThreadProc_write s)
  | wait_empty {s : system_t} : SysReachable s → SysReachable (sys_wait_empty s)

/-- The number of references the queue still owns on device `d`: those taken by `queue_push`
minus those released by the writer. -/
def refs_owned (s : system_t) (d : Nat) : Int :=
  (s.addrefs.count (some d) : Int) - (s.releases.count (some d) : Int)

/-- The number of live chunks of the queue that target device `d`. -/
def live_for (q : queue_t) (d : Nat) : Nat :=
  (live q).countP (fun c => decide (c.hudev = some d))

/-- The number of chunks for device `d` the writer holds: 1 or 0. -/
def held_for (s : system_t) (d : Nat) : Nat :=
  match s.held with
  | some (hudev, _, _) => if hudev = some d then 1 else 0
  | none => 0

/-- The system after the pushes SBA(dev 1), PBA(dev 2), PBA(dev 2, coalesced), one shift by the
writer and a raw push for dev 1: the writer holds the SBA chunk, two chunks are live. -/
def ex_system : system_t :=
  let s1 := sys_push sys_open (some 1) PACKET_TYPE_SBA (some (sba8 1 2)) 8
  let s2 := sys_push s1 (some 2) PACKET_TYPE_PBA (some (payload32 5)) 32
  let s3 := sys_push s2 (some 2) PACKET_TYPE_PBA (some (payload32 6)) 32
  let s4 := QueueThreadProc_shift s3 (List.replicate 64 0)
  sys_push s4 (some 1) PACKET_TYPE_RAW (some [1, 2, 3]) 3

/-- The system after one raw push for dev 1, the writer's shift and write, and the writer's
next shift, which finds the queue empty. -/
def ex_system_drained : system_t :=
  let s1 := sys_push sys_open (some 1) PACKET_TYPE_RAW (some [1, 2, 3]) 3
  let s2 := QueueThreadProc_shift s1 (List.replicate 64 0)
  let s3 := QueueThreadProc_write s2
  QueueThreadProc_shift s3 (List.replicate 64 0)

/-- The invariant of the system of queue and writer thread: the ring invariant; every cell of
length 0 has no device; a queue that has left RUNNING has made the writer leave its loop;
while `rblocked` is set the writer is in its loop and holds no chunk; while the writer is in
its loop every chunk stored so far has been written, is live or is held by the writer; and for
every device the references taken minus the references released are the live chunks for it
plus the chunk the writer holds. -/
def sys_inv (s : system_t) : Prop :=
  ring_inv s.q ∧ sentinel_inv s.q ∧
  (s.q.state ≠ 0 → s.exited = true) ∧
  (s.q.rblocked = true → s.held = none ∧ s.exited = false) ∧
  (s.exited = false →
    s.stored = s.writes.length + s.q.level.toNat + (if s.held = none then 0 else 1)) ∧
  ∀ d : Nat, (s.addrefs.count (some d) : Int) =
    (s.releases.count (some d) : Int) + (live_for s.q d : Int) + (held_for s d : Int)

/-! ## Vocabulary for the liveness probe -/

/-- The calls of `usbdev_release` made by the loop of `lwz_refreshlist_detached` (line 688), in
order: `n` iterations are left, `i` is the slot. -/
def lwz_refreshlist_detached_released (reopen_fails : Int → Bool) :
    Nat → Int → lwz_context_t → List HUDEV
  | 0, _, _ => []
  | n + 1, i, h =>
    if (h.devices i).hudev ≠ none then
      if reopen_fails i then
        let h1 : lwz_context_t :=
          { h with devices := arr_set h.devices i { (h.devices i) with hudev := none } }
        (h.devices i).hudev ::
          lwz_refreshlist_detached_released reopen_fails n (i + 1) (lwz_remove h1 i).h
      else lwz_refreshlist_detached_released reopen_fails n (i + 1) h
    else lwz_refreshlist_detached_released reopen_fails n (i + 1) h

/-- The occupied slots among `i, i + 1, .., i + n - 1` whose reopen fails, in increasing
order. -/
def failing_slots (devices : Int → lwz_device_t) (reopen_fails : Int → Bool) :
    Nat → Int → List Int
  | 0, _ => []
  | n + 1, i =>
    (if (devices i).hudev ≠ none ∧ reopen_fails i = true then [i] else []) ++
      failing_slots devices reopen_fails n (i + 1)

/-- The callback invocations expected for a list of removed slots: for every entry, in order,
one `DELETE` call of each registered callback with the handle `slot + 1`. -/
def delete_calls (cb : lwz_callbacks) : List Int → List cb_call
  | [] => []
  | indx :: rest => callback_calls cb LWZ_REASON_DELETE (indx + 1) ++ delete_calls cb rest

/-- A registry with the units 1, 3 and 4 stored (device objects 10, 12, 13), all three
listed, and the simple callback 7 registered. -/
def ex_registry3 : lwz_context_t :=
  { lwz_open with
    devices := fun s =>
      if s = 0 then { hudev := some 10, dat := 1 }
      else if s = 2 then { hudev := some 12, dat := 3 }
      else if s = 3 then { hudev := some 13, dat := 4 }
      else { hudev := none, dat := 0 },
    plist := some { handles := fun j => if j = 0 then 1 else if j = 1 then 3
                                        else if j = 2 then 4 else 0,
                    numdevices := 3 },
    cb := { puser := 0, notify := some 7, notify_ex := none } }

/-- An enumerated LED-Wiz with product ID `0x00F1` (unit 2); `11` stands for its device object
and `2` for its path. -/
def ex_ledwiz2 : hid_interface :=
  { ex_ledwiz with ProductID := 0x00F1, path := 2, created := some 11 }

/-! ## lwz_register (lines 473-554)

The window system is an input: registration receives what `SetWindowLongPtrA` returns as the
previous window procedure and what `RegisterDeviceNotificationA` returns. The calls made to
the window system are recorded in order. -/

/-- A window procedure as `SetWindowLongPtrA` takes and returns it: `null` is 0 (as a return
value: the call failed), `lwz_wndproc` is the procedure of this library, `other p` is any other
procedure. -/
inductive wndproc_t where
  | null
  | lwz_wndproc
  | other (p : Nat)
deriving DecidableEq, Repr

/-- A call to the window system made by `lwz_register`. -/
inductive os_call where
  | UnregisterDeviceNotification (hDevNotify : Nat)
  | SetWindowLongPtrA (hwnd : Nat) (proc : wndproc_t)
  | RegisterDeviceNotificationA (hwnd : Nat)
deriving DecidableEq, Repr

/-- What `lwz_register` yields: the context afterwards and the calls to the window system it
made, in order. -/
structure register_out where
  h : lwz_context_t
  os_calls : List os_call

/-- The function `lwz_register`; `hwnd` is `none` for a `NULL` window (unregister),
`PrevWndProc` is what `SetWindowLongPtrA(hwnd, GWLP_WNDPROC, lwz_wndproc)` returns and
`hDevNotify_new` what `RegisterDeviceNotificationA` returns, should they be called. -/
def lwz_register (h : lwz_context_t) (indx : Int) (hwnd : Option Nat)
    (PrevWndProc : wndproc_t) (hDevNotify_new : Option Nat) : register_out :=
  match hwnd with
  | none =>
    let r1 : register_out :=
      match h.hDevNotify with
      | some n =>
        { h := { h with hDevNotify := none },
          os_calls := [os_call.UnregisterDeviceNotification n] }
      | none => { h := h, os_calls := [] }
    match r1.h.hwnd, r1.h.WndProc with
    | some w, some p =>
      { h := { r1.h with hwnd := none, WndProc := none },
        os_calls := r1.os_calls ++ [os_call.SetWindowLongPtrA w (wndproc_t.other p)] }
    | _, _ => r1
  | some w =>
    if h.hwnd ≠ none ∧ h.hwnd ≠ some w then { h := h, os_calls := [] }
    else if h.cb.notify = none ∧ h.cb.notify_ex = none then { h := h, os_calls := [] }
    else if indx < 0 ∨ indx ≥ LWZ_MAX_DEVICES then { h := h, os_calls := [] }
    else if (h.devices indx).hudev = none then { h := h, os_calls := [] }
    else
      match PrevWndProc with
      | wndproc_t.null =>
        { h := h, os_calls := [os_call.SetWindowLongPtrA w wndproc_t.lwz_wndproc] }
      | wndproc_t.lwz_wndproc =>
        { h := h, os_calls := [os_call.SetWindowLongPtrA w wndproc_t.lwz_wndproc] }
      | wndproc_t.other p =>
        let h1 : lwz_context_t := { h with WndProc := some p, hwnd := some w }
        if h1.hDevNotify = none then
          { h := { h1 with hDevNotify := hDevNotify_new },
            os_calls := [os_call.SetWindowLongPtrA w wndproc_t.lwz_wndproc,
              os_call.RegisterDeviceNotificationA w] }
        else
          { h := h1, os_calls := [os_call.SetWindowLongPtrA w wndproc_t.lwz_wndproc] }

/-- The registry `ex_registry` after unit 1 has been registered with window 5, whose previous
window procedure is 9; 3 stands for the notification registration. -/
def ex_registered : lwz_context_t :=
  (lwz_register ex_registry 0 (some 5) (wndproc_t.other 9) (some 3)).h

/-! ## Vocabulary for the public write operations and the writer -/

/-- Every live chunk has a stored length of at least one, so none of them is a sentinel. -/
def no_sentinel (q : queue_t) : Prop :=
  ∀ i, i < q.level.toNat → 0 < (chunk_at q i).ndata

instance (q : queue_t) : Decidable (no_sentinel q) := by
  unfold no_sentinel; infer_instance

/-- A recorded call of `queue_push` has a non-null device, non-null data and a length in
`1..32`, which is 8 for the tag SBA and 32 for the tag PBA; other events pass. -/
def regular_push (e : api_event) : Prop :=
  match e with
  | push hudev typ pdata ndata =>
    hudev ≠ none ∧ pdata ≠ none ∧ 1 ≤ ndata ∧ ndata ≤ 32 ∧
    (typ = PACKET_TYPE_SBA → ndata = 8) ∧ (typ = PACKET_TYPE_PBA → ndata = 32)
  | _ => True

/-- The contexts reached from `g0` by calls of `LWZ_SBA`, `LWZ_PBA` and `LWZ_RAWWRITE` with
arbitrary arguments, interleaved with calls of `queue_shift` by the writer thread. -/
inductive WriteReachable (g0 : lwz_context_t) : lwz_context_t → Prop where
  | start : WriteReachable g0 g0
  | sba {g : lwz_context_t} (hlwz : LWZHANDLE) (b0 b1 b2 b3 speed : Nat) :
      WriteReachable g0 g → WriteReachable g0 (LWZ_SBA g hlwz b0 b1 b2 b3 speed).g
  | pba {g : lwz_context_t} (hlwz : LWZHANDLE) (pdata : Option (List uint8_t)) :
      WriteReachable g0 g → WriteReachable g0 (LWZ_PBA g hlwz pdata).g
  | rawwrite {g : lwz_context_t} (hlwz : LWZHANDLE) (pdata : Option (List uint8_t))
      (ndata : Nat) :
      WriteReachable g0 g → WriteReachable g0 (LWZ_RAWWRITE g hlwz pdata ndata).g
  | shift {g : lwz_context_t} (buffer0 : List uint8_t) :
      WriteReachable g0 g →
      WriteReachable g0 { g with hqueue := (queue_shift g.hqueue none buffer0 64).h }

/-! ## Vocabulary for the coalescible backlog -/

/-- The number of live SBA chunks for device `d`. -/
def sba_count (h : queue_t) (d : HUDEV) : Nat :=
  (live h).countP (fun c => decide (is_sba_for d c))

/-- The number of live PBA chunks for device `d`. -/
def pba_count (h : queue_t) (d : HUDEV) : Nat :=
  (live h).countP (fun c => decide (is_pba_for d c))

/-- The queue after `queue_open` and the pushes SBA, PBA, SBA for device 1. -/
def ex_queue_three : queue_t :=
  push_sba_pba_sba queue_open (some 1) (sba8 1 2) (payload32 9) (sba8 3 4)

/-! # Part II: proofs -/

/-! ## Lemmas on ring positions and the two scans -/

theorem ring_next_eq (pos : Int) (h0 : 0 ≤ pos) : ring_next pos = (pos + 1) % 64 := by
  unfold ring_next QUEUE_LENGTH
  exact Int.tmod_eq_emod (by omega) (by decide)

theorem ring_next_iterate (pos : Int) (h0 : 0 ≤ pos) (h1 : pos < 64) (k : Nat) :
    ring_next^[k] pos = (pos + (k : Int)) % 64 := by
  induction k with
  | zero => simp; omega
  | succ k ih =>
    rw [Function.iterate_succ_apply', ih, ring_next_eq _ (by omega)]
    push_cast
    omega

theorem slot_at_eq_iterate (h : queue_t) (hr : rpos_ok h) (i : Nat) :
    slot_at h i = ring_next^[i] h.rpos := by
  unfold rpos_ok QUEUE_LENGTH at hr
  rw [ring_next_iterate _ hr.1 hr.2]
  rfl

theorem slot_at_range (h : queue_t) (i : Nat) : 0 ≤ slot_at h i ∧ slot_at h i < 64 := by
  unfold slot_at QUEUE_LENGTH
  omega

/-- The PBA loop finds nothing when no scanned chunk is a PBA chunk for the device. -/
theorem pba_loop_none (d : HUDEV) (pdata : Option (List uint8_t)) (ndata : Nat)
    (buf : Int → chunk_t) (n : Nat) (pos : Int)
    (hno : ∀ k, k < n → ¬ is_pba_for d (buf (ring_next^[k] pos))) :
    pba_loop d pdata ndata n pos buf = (buf, false) := by
  induction n generalizing pos with
  | zero => rfl
  | succ n ih =>
    have h0 := hno 0 (Nat.succ_pos n)
    simp only [Function.iterate_zero, id_eq, is_pba_for, not_and] at h0
    have hrest : pba_loop d pdata ndata n (ring_next pos) buf = (buf, false) := by
      apply ih
      intro k hk
      have := hno (k + 1) (Nat.succ_lt_succ hk)
      rwa [Function.iterate_succ_apply] at this
    unfold pba_loop
    by_cases hd : (buf pos).hudev = d
    · simp only [hd, if_true, h0 hd, if_false]
      exact hrest
    · simp only [hd, if_false]
      exact hrest

/-- The PBA loop overwrites the first PBA chunk for the device that it meets. -/
theorem pba_loop_first (d : HUDEV) (pdata : Option (List uint8_t)) (ndata : Nat)
    (buf : Int → chunk_t) (n : Nat) (pos : Int) (i : Nat) (hi : i < n)
    (hm : is_pba_for d (buf (ring_next^[i] pos)))
    (hno : ∀ k, k < i → ¬ is_pba_for d (buf (ring_next^[k] pos))) :
    pba_loop d pdata ndata n pos buf =
      (buf_set buf (ring_next^[i] pos)
        { buf (ring_next^[i] pos) with
          data := memcpy (buf (ring_next^[i] pos)).data (bytes_at pdata) ndata }, true) := by
  induction n generalizing pos i with
  | zero => omega
  | succ n ih =>
    cases i with
    | zero =>
      simp only [Function.iterate_zero, id_eq] at hm ⊢
      unfold pba_loop
      simp only [hm.1, hm.2, if_true]
    | succ i =>
      have h0 := hno 0 (Nat.succ_pos i)
      simp only [Function.iterate_zero, id_eq, is_pba_for, not_and] at h0
      have hrest := ih (ring_next pos) i (by omega)
        (by rwa [Function.iterate_succ_apply] at hm)
        (by
          intro k hk
          have := hno (k + 1) (Nat.succ_lt_succ hk)
          rwa [Function.iterate_succ_apply] at this)
      rw [Function.iterate_succ_apply]
      unfold pba_loop
      by_cases hd : (buf pos).hudev = d
      · simp only [hd, if_true, h0 hd, if_false]
        exact hrest
      · simp only [hd, if_false]
        exact hrest

/-- One step of the SBA search, as a function of the chunk met. -/
theorem sba_loop_succ (d : HUDEV) (buf : Int → chunk_t) (n : Nat) (pos last : Int) :
    sba_loop d buf (n + 1) pos last =
      sba_loop d buf n (ring_next pos)
        (if (buf pos).hudev = d then
          (if (buf pos).typ = PACKET_TYPE_PBA then -1
           else if (buf pos).typ = PACKET_TYPE_SBA then pos else last)
         else last) := by
  rfl

/-- The SBA search keeps its candidate across chunks that are neither SBA nor PBA chunks for
the device. -/
theorem sba_loop_skip (d : HUDEV) (buf : Int → chunk_t) (n : Nat) (pos last : Int)
    (hno : ∀ k, k < n → ¬ is_sba_for d (buf (ring_next^[k] pos)) ∧
      ¬ is_pba_for d (buf (ring_next^[k] pos))) :
    sba_loop d buf n pos last = last := by
  induction n generalizing pos last with
  | zero => rfl
  | succ n ih =>
    have h0 := hno 0 (Nat.succ_pos n)
    simp only [Function.iterate_zero, id_eq, is_pba_for, is_sba_for, not_and] at h0
    rw [sba_loop_succ]
    have hl : (if (buf pos).hudev = d then
          (if (buf pos).typ = PACKET_TYPE_PBA then -1
           else if (buf pos).typ = PACKET_TYPE_SBA then pos else last)
         else last) = last := by
      by_cases hd : (buf pos).hudev = d
      · simp only [hd, if_true, h0.1 hd, h0.2 hd, if_false]
      · simp only [hd, if_false]
    rw [hl]
    apply ih
    intro k hk
    have := hno (k + 1) (Nat.succ_lt_succ hk)
    rwa [Function.iterate_succ_apply] at this

/-- Started without a candidate, the SBA search ends without one when it meets no SBA chunk for
the device. -/
theorem sba_loop_no_sba (d : HUDEV) (buf : Int → chunk_t) (n : Nat) (pos : Int)
    (hno : ∀ k, k < n → ¬ is_sba_for d (buf (ring_next^[k] pos))) :
    sba_loop d buf n pos (-1) = -1 := by
  induction n generalizing pos with
  | zero => rfl
  | succ n ih =>
    have h0 := hno 0 (Nat.succ_pos n)
    simp only [Function.iterate_zero, id_eq, is_sba_for, not_and] at h0
    rw [sba_loop_succ]
    have hl : (if (buf pos).hudev = d then
          (if (buf pos).typ = PACKET_TYPE_PBA then -1
           else if (buf pos).typ = PACKET_TYPE_SBA then pos else (-1 : Int))
         else -1) = -1 := by
      by_cases hd : (buf pos).hudev = d
      · simp only [hd, if_true, h0 hd, if_false, ite_self]
      · simp only [hd, if_false]
    rw [hl]
    apply ih
    intro k hk
    have := hno (k + 1) (Nat.succ_lt_succ hk)
    rwa [Function.iterate_succ_apply] at this

/-- The SBA search ends on the last SBA chunk for the device when no later chunk is an SBA or
PBA chunk for it. -/
theorem sba_loop_last (d : HUDEV) (buf : Int → chunk_t) (n : Nat) (pos last : Int) (i : Nat)
    (hi : i < n) (hm : is_sba_for d (buf (ring_next^[i] pos)))
    (hno : ∀ k, i < k → k < n → ¬ is_sba_for d (buf (ring_next^[k] pos)) ∧
      ¬ is_pba_for d (buf (ring_next^[k] pos))) :
    sba_loop d buf n pos last = ring_next^[i] pos := by
  induction n generalizing pos last i with
  | zero => omega
  | succ n ih =>
    rw [sba_loop_succ]
    cases i with
    | zero =>
      simp only [Function.iterate_zero, id_eq] at hm ⊢
      have hne : ¬ (buf pos).typ = PACKET_TYPE_PBA := by rw [hm.2]; decide
      simp only [hm.1, hm.2, if_true]
      simp only [show ¬ (PACKET_TYPE_SBA = PACKET_TYPE_PBA) by decide, if_false]
      apply sba_loop_skip
      intro k hk
      have := hno (k + 1) (Nat.succ_pos k) (Nat.succ_lt_succ hk)
      rwa [Function.iterate_succ_apply] at this
    | succ i =>
      rw [Function.iterate_succ_apply]
      apply ih
      · omega
      · rwa [Function.iterate_succ_apply] at hm
      · intro k hik hk
        have := hno (k + 1) (by omega) (Nat.succ_lt_succ hk)
        rwa [Function.iterate_succ_apply] at this

/-- The SBA search ends without a candidate when a PBA chunk for the device is met and no SBA
chunk for the device follows it. -/
theorem sba_loop_reset (d : HUDEV) (buf : Int → chunk_t) (n : Nat) (pos last : Int) (j : Nat)
    (hj : j < n) (hm : is_pba_for d (buf (ring_next^[j] pos)))
    (hno : ∀ k, j < k → k < n → ¬ is_sba_for d (buf (ring_next^[k] pos))) :
    sba_loop d buf n pos last = -1 := by
  induction n generalizing pos last j with
  | zero => omega
  | succ n ih =>
    rw [sba_loop_succ]
    cases j with
    | zero =>
      simp only [Function.iterate_zero, id_eq] at hm
      simp only [hm.1, hm.2, if_true]
      apply sba_loop_no_sba
      intro k hk
      have := hno (k + 1) (Nat.succ_pos k) (Nat.succ_lt_succ hk)
      rwa [Function.iterate_succ_apply] at this
    | succ j =>
      apply ih (ring_next pos) _ j
      · omega
      · rwa [Function.iterate_succ_apply] at hm
      · intro k hjk hk
        have := hno (k + 1) (by omega) (Nat.succ_lt_succ hk)
        rwa [Function.iterate_succ_apply] at this

/-! ## queue_push, case by case -/

theorem memcpy_full (dst src : List uint8_t) (n : Nat) (hs : src.length = n)
    (hd : dst.length ≤ n) : memcpy dst src n = src := by
  unfold memcpy
  rw [List.take_of_length_le (by omega), List.drop_of_length_le hd, List.append_nil]

theorem buf_set_same (buf : Int → chunk_t) (pos : Int) (c : chunk_t) :
    buf_set buf pos c pos = c := by
  simp [buf_set]

theorem buf_set_other (buf : Int → chunk_t) (pos : Int) (c : chunk_t) (q : Int) (hq : q ≠ pos) :
    buf_set buf pos c q = buf q := by
  simp [buf_set, hq]

/-- A push with non-null data of 1 to 32 bytes is not turned into a sentinel. -/
theorem queue_push_regular (h : queue_t) (d : HUDEV) (typ : packet_type_t)
    (p : List uint8_t) (n : Nat) (h1 : 0 < n) (h2 : n ≤ 32) :
    queue_push h d typ (some p) n = queue_push_body h d typ (some p) n := by
  unfold queue_push CHUNK_DATA_SIZE
  rw [if_neg]
  simp only [reduceCtorEq, false_or, not_or]
  omega

/-- The loop body on a PBA push that finds a PBA chunk for the device. -/
theorem queue_push_body_pba_hit (h : queue_t) (d : HUDEV) (pdata : Option (List uint8_t))
    (ndata : Nat) (i : Nat) (hrun : h.state = 0) (hr : rpos_ok h)
    (hi : (i : Int) < h.level) (hm : is_pba_for d (chunk_at h i))
    (hfirst : ∀ k, k < i → ¬ is_pba_for d (chunk_at h k)) :
    queue_push_body h d PACKET_TYPE_PBA pdata ndata =
      { h := { h with buf := (buf_set h.buf (slot_at h i)
                { (chunk_at h i) with
                  data := memcpy (chunk_at h i).data (bytes_at pdata) ndata }) },
        ret := some ndata, do_unblock := false } := by
  have hloop := pba_loop_first d pdata ndata h.buf h.level.toNat h.rpos i (by omega)
    (by rw [← slot_at_eq_iterate h hr]; exact hm)
    (by intro k hk; rw [← slot_at_eq_iterate h hr]; exact hfirst k hk)
  rw [← slot_at_eq_iterate h hr] at hloop
  unfold queue_push_body
  simp only [hrun, ne_eq, not_true_eq_false, if_false, if_true, hloop,
    show ¬ (PACKET_TYPE_PBA = PACKET_TYPE_SBA) by decide]
  rfl

/-- The loop body on a PBA push that finds no PBA chunk for the device leaves the buffer as it
is and reports `combined = false`: it either blocks (queue full) or stores a new chunk. -/
theorem queue_push_body_pba_miss (h : queue_t) (d : HUDEV) (pdata : Option (List uint8_t))
    (ndata : Nat) (hrun : h.state = 0) (hr : rpos_ok h)
    (hno : ∀ k : Nat, (k : Int) < h.level → ¬ is_pba_for d (chunk_at h k)) :
    queue_push_body h d PACKET_TYPE_PBA pdata ndata =
      if QUEUE_LENGTH - h.level ≤ 0 then
        { h := { h with wblocked := true }, ret := none, do_unblock := false }
      else
        { h := { h with
                  buf := (buf_set h.buf h.wpos
                    { hudev := d, ndata := ndata, typ := PACKET_TYPE_PBA,
                      data := match pdata with
                        | some src => memcpy (h.buf h.wpos).data src ndata
                        | none => (h.buf h.wpos).data }),
                  wpos := Int.tmod (h.wpos + 1) QUEUE_LENGTH,
                  level := h.level + 1,
                  wblocked := false },
          ret := some ndata, do_unblock := h.rblocked } := by
  have hloop := pba_loop_none d pdata ndata h.buf h.level.toNat h.rpos
    (by intro k hk; rw [← slot_at_eq_iterate h hr]; exact hno k (by omega))
  unfold queue_push_body
  simp only [hrun, ne_eq, not_true_eq_false, if_false, if_true, hloop,
    show ¬ (PACKET_TYPE_PBA = PACKET_TYPE_SBA) by decide, Bool.false_eq_true]

/-- Claim C1 (PBA coalescing). In a RUNNING queue of any level, when some live chunk is a PBA
chunk for device `d`, `queue_push(PBA, d, p, 32)` returns 32 without waiting, replaces the
payload of the first such chunk in FIFO order by `p` (its device, tag and stored length stay),
and leaves `level`, `rpos`, `wpos`, `state` and every other cell of the buffer unchanged. -/
theorem queue_push_pba_coalesces (h : queue_t) (d : HUDEV) (p : List uint8_t) (i : Nat)
    (hrun : h.state = 0) (hr : rpos_ok h) (hp : p.length = 32)
    (hi : (i : Int) < h.level) (hm : is_pba_for d (chunk_at h i))
    (hfirst : ∀ k, k < i → ¬ is_pba_for d (chunk_at h k))
    (hlen : (chunk_at h i).data.length = 32) :
    (queue_push h d PACKET_TYPE_PBA (some p) 32).ret = some 32 ∧
    (queue_push h d PACKET_TYPE_PBA (some p) 32).h.level = h.level ∧
    (queue_push h d PACKET_TYPE_PBA (some p) 32).h.rpos = h.rpos ∧
    (queue_push h d PACKET_TYPE_PBA (some p) 32).h.wpos = h.wpos ∧
    (queue_push h d PACKET_TYPE_PBA (some p) 32).h.state = h.state ∧
    (queue_push h d PACKET_TYPE_PBA (some p) 32).h.buf (slot_at h i) =
      { (chunk_at h i) with data := p } ∧
    ∀ pos, pos ≠ slot_at h i →
      (queue_push h d PACKET_TYPE_PBA (some p) 32).h.buf pos = h.buf pos := by
  rw [queue_push_regular h d _ p 32 (by decide) (by decide),
    queue_push_body_pba_hit h d (some p) 32 i hrun hr hi hm hfirst]
  have hcopy : memcpy (chunk_at h i).data (bytes_at (some p)) 32 = p :=
    memcpy_full _ _ 32 hp (by omega)
  refine ⟨rfl, rfl, rfl, rfl, rfl, ?_, ?_⟩
  · simp only [buf_set_same, hcopy]
  · intro pos hpos
    simp only [buf_set_other _ _ _ _ hpos]

/-- C1 at a concrete queue: `ex_queue` holds RAW(1), PBA(1), SBA(2), PBA(2); a PBA push for
device 1 lands in the second live chunk. -/
theorem queue_push_pba_coalesces_witness :
    (queue_push ex_queue (some 1) PACKET_TYPE_PBA (some (payload32 9)) 32).ret = some 32 ∧
    (queue_push ex_queue (some 1) PACKET_TYPE_PBA (some (payload32 9)) 32).h.level = 4 ∧
    (queue_push ex_queue (some 1) PACKET_TYPE_PBA (some (payload32 9)) 32).h.buf 1 =
      { hudev := some 1, typ := PACKET_TYPE_PBA, ndata := 32, data := payload32 9 } :=
  have w := queue_push_pba_coalesces ex_queue (some 1) (payload32 9) 1
    (by decide) (by decide) (by decide) (by decide) (by decide) (by decide) (by decide)
  ⟨w.1, w.2.1, w.2.2.2.2.2.1⟩

theorem memcpy_front (dst src : List uint8_t) (n : Nat) (hs : src.length = n) :
    memcpy dst src n = src ++ dst.drop n := by
  unfold memcpy
  rw [List.take_of_length_le (by omega)]

/-- The SBA search of `queue_push` returns the slot of the candidate when there is one. -/
theorem sba_loop_candidate (h : queue_t) (d : HUDEV) (hr : rpos_ok h) (i : Nat)
    (hc : sba_candidate h d i) :
    sba_loop d h.buf h.level.toNat h.rpos (-1) = slot_at h i := by
  obtain ⟨hi, hm, hno⟩ := hc
  rw [slot_at_eq_iterate h hr]
  apply sba_loop_last d h.buf h.level.toNat h.rpos (-1) i hi
  · rw [← slot_at_eq_iterate h hr]; exact hm
  · intro k hik hk
    rw [← slot_at_eq_iterate h hr]
    exact hno k hk hik

/-- The SBA search of `queue_push` returns -1 when there is no candidate. -/
theorem sba_loop_no_candidate (h : queue_t) (d : HUDEV) (hr : rpos_ok h)
    (hc : ∀ i, ¬ sba_candidate h d i) :
    sba_loop d h.buf h.level.toNat h.rpos (-1) = -1 := by
  by_cases hex : ∃ i, i < h.level.toNat ∧ is_sba_for d (chunk_at h i)
  · -- take the last SBA chunk for `d`; a PBA chunk for `d` follows it
    obtain ⟨i0, hi0, hm0⟩ := hex
    let P : Nat → Prop := fun i => i < h.level.toNat ∧ is_sba_for d (chunk_at h i)
    have hP : P (Nat.findGreatest P h.level.toNat) :=
      Nat.findGreatest_spec (P := P) (Nat.le_of_lt hi0) ⟨hi0, hm0⟩
    have hgreat : ∀ k, Nat.findGreatest P h.level.toNat < k → k < h.level.toNat →
        ¬ is_sba_for d (chunk_at h k) := by
      intro k hk1 hk2 hsba
      exact Nat.findGreatest_is_greatest (P := P) hk1 (Nat.le_of_lt hk2) ⟨hk2, hsba⟩
    have hnc := hc (Nat.findGreatest P h.level.toNat)
    unfold sba_candidate at hnc
    simp only [not_and, not_forall] at hnc
    obtain ⟨j, hj, hij, hjj⟩ := hnc hP.1 hP.2
    have hpba : is_pba_for d (chunk_at h j) := by
      by_contra hnp
      exact hjj (hgreat j hij hj) hnp
    apply sba_loop_reset d h.buf h.level.toNat h.rpos (-1) j hj
    · rw [← slot_at_eq_iterate h hr]; exact hpba
    · intro k hjk hk
      rw [← slot_at_eq_iterate h hr]
      exact hgreat k (by omega) hk
  · apply sba_loop_no_sba
    intro k hk hsba
    rw [← slot_at_eq_iterate h hr] at hsba
    exact hex ⟨k, hk, hsba⟩

/-- The loop body on an SBA push that finds a candidate. -/
theorem queue_push_body_sba_hit (h : queue_t) (d : HUDEV) (pdata : Option (List uint8_t))
    (ndata : Nat) (i : Nat) (hrun : h.state = 0) (hr : rpos_ok h)
    (hc : sba_candidate h d i) :
    queue_push_body h d PACKET_TYPE_SBA pdata ndata =
      { h := { h with buf := (buf_set h.buf (slot_at h i)
                { (chunk_at h i) with
                  data := memcpy (chunk_at h i).data (bytes_at pdata) ndata }) },
        ret := some ndata, do_unblock := false } := by
  have hloop := sba_loop_candidate h d hr i hc
  have hge : slot_at h i ≥ 0 := (slot_at_range h i).1
  unfold queue_push_body
  simp only [hrun, ne_eq, not_true_eq_false, if_false, if_true, hloop, hge,
    show ¬ (PACKET_TYPE_SBA = PACKET_TYPE_PBA) by decide]
  rfl

/-- The loop body on an SBA push that finds no candidate: it blocks when the queue is full and
stores a new chunk at `wpos` otherwise. -/
theorem queue_push_body_sba_miss (h : queue_t) (d : HUDEV) (pdata : Option (List uint8_t))
    (ndata : Nat) (hrun : h.state = 0) (hr : rpos_ok h)
    (hc : ∀ i, ¬ sba_candidate h d i) :
    queue_push_body h d PACKET_TYPE_SBA pdata ndata =
      if QUEUE_LENGTH - h.level ≤ 0 then
        { h := { h with wblocked := true }, ret := none, do_unblock := false }
      else
        { h := { h with
                  buf := (buf_set h.buf h.wpos
                    { hudev := d, ndata := ndata, typ := PACKET_TYPE_SBA,
                      data := match pdata with
                        | some src => memcpy (h.buf h.wpos).data src ndata
                        | none => (h.buf h.wpos).data }),
                  wpos := Int.tmod (h.wpos + 1) QUEUE_LENGTH,
                  level := h.level + 1,
                  wblocked := false },
          ret := some ndata, do_unblock := h.rblocked } := by
  have hloop := sba_loop_no_candidate h d hr hc
  unfold queue_push_body
  simp only [hrun, ne_eq, not_true_eq_false, if_false, if_true, hloop,
    show ¬ (PACKET_TYPE_SBA = PACKET_TYPE_PBA) by decide, Bool.false_eq_true,
    show ¬ ((-1 : Int) ≥ 0) by decide]

/-- Claim C2 (SBA coalescing). In a RUNNING queue, `queue_push(SBA, d, s, 8)` behaves as follows.
(1) When the `i`-th live chunk is the last live SBA chunk for `d` and no live PBA chunk for `d`
is queued after it, the push returns 8, replaces the 8 payload bytes of that chunk by `s`
(device, tag, stored length and the bytes behind the first 8 stay) and leaves `level`, `rpos`,
`wpos`, `state` and every other cell unchanged. (2) When no live chunk is such a candidate (no
SBA chunk for `d`, or a PBA chunk for `d` after the last one) and the queue is not full, the
push returns 8, stores the chunk `(d, SBA, 8, s)` at `wpos`, advances `wpos` by one modulo 64,
raises `level` by one and leaves `rpos` and every other cell unchanged. -/
theorem queue_push_sba_coalesces (h : queue_t) (d : HUDEV) (s : List uint8_t)
    (hrun : h.state = 0) (hr : rpos_ok h) (hs : s.length = 8) :
    (∀ i, sba_candidate h d i →
      (queue_push h d PACKET_TYPE_SBA (some s) 8).ret = some 8 ∧
      (queue_push h d PACKET_TYPE_SBA (some s) 8).h.level = h.level ∧
      (queue_push h d PACKET_TYPE_SBA (some s) 8).h.rpos = h.rpos ∧
      (queue_push h d PACKET_TYPE_SBA (some s) 8).h.wpos = h.wpos ∧
      (queue_push h d PACKET_TYPE_SBA (some s) 8).h.state = h.state ∧
      (queue_push h d PACKET_TYPE_SBA (some s) 8).h.buf (slot_at h i) =
        { (chunk_at h i) with data := s ++ (chunk_at h i).data.drop 8 } ∧
      ∀ pos, pos ≠ slot_at h i →
        (queue_push h d PACKET_TYPE_SBA (some s) 8).h.buf pos = h.buf pos) ∧
    ((∀ i, ¬ sba_candidate h d i) → h.level < 64 →
      (queue_push h d PACKET_TYPE_SBA (some s) 8).ret = some 8 ∧
      (queue_push h d PACKET_TYPE_SBA (some s) 8).h.level = h.level + 1 ∧
      (queue_push h d PACKET_TYPE_SBA (some s) 8).h.rpos = h.rpos ∧
      (queue_push h d PACKET_TYPE_SBA (some s) 8).h.wpos = Int.tmod (h.wpos + 1) 64 ∧
      (queue_push h d PACKET_TYPE_SBA (some s) 8).h.state = h.state ∧
      (queue_push h d PACKET_TYPE_SBA (some s) 8).h.buf h.wpos =
        { hudev := d, typ := PACKET_TYPE_SBA, ndata := 8,
          data := s ++ (h.buf h.wpos).data.drop 8 } ∧
      ∀ pos, pos ≠ h.wpos →
        (queue_push h d PACKET_TYPE_SBA (some s) 8).h.buf pos = h.buf pos) := by
  rw [queue_push_regular h d _ s 8 (by decide) (by decide)]
  constructor
  · intro i hc
    rw [queue_push_body_sba_hit h d (some s) 8 i hrun hr hc]
    have hcopy : memcpy (chunk_at h i).data (bytes_at (some s)) 8 =
        s ++ (chunk_at h i).data.drop 8 := memcpy_front _ _ 8 hs
    refine ⟨rfl, rfl, rfl, rfl, rfl, ?_, ?_⟩
    · simp only [buf_set_same, hcopy]
    · intro pos hpos
      simp only [buf_set_other _ _ _ _ hpos]
  · intro hc hlevel
    rw [queue_push_body_sba_miss h d (some s) 8 hrun hr hc,
      if_neg (by unfold QUEUE_LENGTH; omega)]
    refine ⟨rfl, rfl, rfl, rfl, rfl, ?_, ?_⟩
    · simp only [buf_set_same, memcpy_front _ _ 8 hs]
    · intro pos hpos
      simp only [buf_set_other _ _ _ _ hpos]

/-- C2 at concrete queues. `ex_queue_sba` holds RAW(1), PBA(1), SBA(2), PBA(2), SBA(1): an SBA
push for device 1 lands in the fifth live chunk. `ex_queue` holds only the first four: an SBA
push for device 2, whose SBA chunk is followed by a PBA chunk, is stored as a fifth chunk. -/
theorem queue_push_sba_coalesces_witness :
    ((queue_push ex_queue_sba (some 1) PACKET_TYPE_SBA (some (sba8 9 1)) 8).h.level = 5 ∧
     ((queue_push ex_queue_sba (some 1) PACKET_TYPE_SBA (some (sba8 9 1)) 8).h.buf 4).data.take 8
        = sba8 9 1) ∧
    ((queue_push ex_queue (some 2) PACKET_TYPE_SBA (some (sba8 9 1)) 8).h.level = 5 ∧
     ((queue_push ex_queue (some 2) PACKET_TYPE_SBA (some (sba8 9 1)) 8).h.buf 4).data.take 8
        = sba8 9 1 ∧
     (queue_push ex_queue (some 2) PACKET_TYPE_SBA (some (sba8 9 1)) 8).h.buf 2
        = ex_queue.buf 2) :=
  have w1 := (queue_push_sba_coalesces ex_queue_sba (some 1) (sba8 9 1)
    (by decide) (by decide) (by decide)).1 4 (by decide)
  have w2 := (queue_push_sba_coalesces ex_queue (some 2) (sba8 9 1)
    (by decide) (by decide) (by decide)).2
    (by
      intro i hc
      have hi : i < 4 := hc.1
      interval_cases i <;> revert hc <;> decide)
    (by decide)
  ⟨⟨w1.2.1, by rw [show (4 : Int) = slot_at ex_queue_sba 4 by decide, w1.2.2.2.2.2.1]; decide⟩,
   ⟨w2.2.1, by rw [show (4 : Int) = ex_queue.wpos by decide, w2.2.2.2.2.2.1]; decide,
    w2.2.2.2.2.2.2 2 (by decide)⟩⟩

/-! ## The shape of every push -/

/-- The loop body of `queue_push` does one of four things: return 0 (not RUNNING), coalesce
with the target chunk, block (full, no target), or store a new chunk (room, no target). -/
theorem queue_push_body_cases (h : queue_t) (d : HUDEV) (typ : packet_type_t)
    (pdata : Option (List uint8_t)) (ndata : Nat) (hr : rpos_ok h) :
    (h.state ≠ 0 ∧
      queue_push_body h d typ pdata ndata = { h := h, ret := some 0, do_unblock := false }) ∨
    (h.state = 0 ∧ ∃ i, coalesce_target h d typ i ∧
      queue_push_body h d typ pdata ndata =
        { h := coalesced h i pdata ndata, ret := some ndata, do_unblock := false }) ∨
    (h.state = 0 ∧ (∀ i, ¬ coalesce_target h d typ i) ∧ 64 ≤ h.level ∧
      queue_push_body h d typ pdata ndata =
        { h := { h with wblocked := true }, ret := none, do_unblock := false }) ∨
    (h.state = 0 ∧ (∀ i, ¬ coalesce_target h d typ i) ∧ h.level < 64 ∧
      queue_push_body h d typ pdata ndata =
        { h := enqueued h d typ pdata ndata, ret := some ndata, do_unblock := h.rblocked }) := by
  by_cases hrun : h.state = 0
  swap
  · left
    refine ⟨hrun, ?_⟩
    unfold queue_push_body
    simp only [ne_eq, hrun, not_false_eq_true, if_true]
  right
  by_cases hex : ∃ i, coalesce_target h d typ i
  · left
    obtain ⟨i, hi⟩ := hex
    refine ⟨hrun, i, hi, ?_⟩
    cases typ with
    | PACKET_TYPE_PBA =>
      exact queue_push_body_pba_hit h d pdata ndata i hrun hr
        (by have := hi.1; omega) hi.2.1 hi.2.2
    | PACKET_TYPE_SBA => exact queue_push_body_sba_hit h d pdata ndata i hrun hr hi
    | PACKET_TYPE_RAW => exact absurd hi (by simp [coalesce_target])
  · right
    have hno : ∀ i, ¬ coalesce_target h d typ i := fun i hi => hex ⟨i, hi⟩
    have hbody : queue_push_body h d typ pdata ndata =
        if QUEUE_LENGTH - h.level ≤ 0 then
          { h := { h with wblocked := true }, ret := none, do_unblock := false }
        else
          { h := enqueued h d typ pdata ndata, ret := some ndata,
            do_unblock := h.rblocked } := by
      cases typ with
      | PACKET_TYPE_PBA =>
        rw [queue_push_body_pba_miss h d pdata ndata hrun hr]
        · rfl
        · intro k hk hpba
          -- the first PBA chunk for `d` would be a target
          let P : Nat → Prop := fun j => is_pba_for d (chunk_at h j)
          have hfind : ∃ j, P j := ⟨k, hpba⟩
          have hle : Nat.find hfind ≤ k := Nat.find_min' hfind hpba
          exact hno (Nat.find hfind)
            ⟨by omega, Nat.find_spec hfind, fun j hj => Nat.find_min hfind hj⟩
      | PACKET_TYPE_SBA =>
        rw [queue_push_body_sba_miss h d pdata ndata hrun hr hno]
        rfl
      | PACKET_TYPE_RAW =>
        unfold queue_push_body enqueued new_chunk
        simp only [hrun, ne_eq, not_true_eq_false, if_false, reduceCtorEq,
          Bool.false_eq_true]
    by_cases hfull : 64 ≤ h.level
    · left
      refine ⟨hrun, hno, hfull, ?_⟩
      rw [hbody, if_pos (by unfold QUEUE_LENGTH; omega)]
    · right
      refine ⟨hrun, hno, by omega, ?_⟩
      rw [hbody, if_neg (by unfold QUEUE_LENGTH; omega)]

/-- Every call of `queue_push` runs the loop body on the arguments as given or on the sentinel
arguments. -/
theorem queue_push_eq_body (h : queue_t) (d : HUDEV) (typ : packet_type_t)
    (pdata : Option (List uint8_t)) (ndata : Nat) :
    ∃ d1 pdata1 ndata1, queue_push h d typ pdata ndata = queue_push_body h d1 typ pdata1 ndata1 := by
  unfold queue_push
  by_cases hc : pdata = none ∨ ndata = 0 ∨ ndata > CHUNK_DATA_SIZE
  · exact ⟨none, none, 0, by rw [if_pos hc]⟩
  · exact ⟨d, pdata, ndata, by rw [if_neg hc]⟩

/-! ## The ring-buffer invariant -/

theorem ring_inv_rpos_ok (h : queue_t) (hinv : ring_inv h) : rpos_ok h :=
  ⟨hinv.2.2.1, hinv.2.2.2.1⟩

theorem ring_inv_push_body (h : queue_t) (d : HUDEV) (typ : packet_type_t)
    (pdata : Option (List uint8_t)) (ndata : Nat) (hinv : ring_inv h) :
    ring_inv (queue_push_body h d typ pdata ndata).h := by
  rcases queue_push_body_cases h d typ pdata ndata (ring_inv_rpos_ok h hinv) with
    ⟨_, he⟩ | ⟨_, i, _, he⟩ | ⟨_, _, _, he⟩ | ⟨_, _, hlt, he⟩
  · rw [he]; exact hinv
  · rw [he]; exact hinv
  · rw [he]; exact hinv
  · rw [he]
    unfold ring_inv QUEUE_LENGTH at hinv
    obtain ⟨h1, h2, h3, h4, h5, h6, h7⟩ := hinv
    have ht : Int.tmod (h.wpos + 1) 64 = (h.wpos + 1) % 64 :=
      Int.tmod_eq_emod (by omega) (by decide)
    unfold ring_inv enqueued QUEUE_LENGTH
    simp only [ht]
    omega

theorem ring_inv_push (h : queue_t) (d : HUDEV) (typ : packet_type_t)
    (pdata : Option (List uint8_t)) (ndata : Nat) (hinv : ring_inv h) :
    ring_inv (queue_push h d typ pdata ndata).h := by
  obtain ⟨d1, pdata1, ndata1, he⟩ := queue_push_eq_body h d typ pdata ndata
  rw [he]
  exact ring_inv_push_body h d1 typ pdata1 ndata1 hinv

theorem ring_inv_shift (h : queue_t) (hudev0 : HUDEV) (buffer0 : List uint8_t) (nsize : Nat)
    (hinv : ring_inv h) : ring_inv (queue_shift h hudev0 buffer0 nsize).h := by
  unfold queue_shift
  split_ifs with c1 c2 c3
  · exact hinv
  · exact hinv
  · exact hinv
  · unfold ring_inv QUEUE_LENGTH at hinv
    obtain ⟨h1, h2, h3, h4, h5, h6, h7⟩ := hinv
    have ht : Int.tmod (h.rpos + 1) 64 = (h.rpos + 1) % 64 :=
      Int.tmod_eq_emod (by omega) (by decide)
    unfold ring_inv QUEUE_LENGTH
    simp only [ht]
    omega

theorem ring_inv_of_reachable (h : queue_t) (hreach : Reachable h) : ring_inv h := by
  induction hreach with
  | opened => decide
  | push hudev typ pdata ndata _ ih => exact ring_inv_push _ hudev typ pdata ndata ih
  | shift hudev0 buffer0 nsize _ ih => exact ring_inv_shift _ hudev0 buffer0 nsize ih

/-- Claim C6 (ring-buffer invariant). In every queue state reachable from `queue_open` by
`queue_push` and `queue_shift` calls with arbitrary arguments, `0 ≤ level ≤ 64`,
`0 ≤ rpos < 64`, `0 ≤ wpos < 64`, `wpos = (rpos + level) mod 64`, and `level = 0` implies
`rpos = wpos`. -/
theorem reachable_ring_invariant (h : queue_t) (hreach : Reachable h) :
    (0 ≤ h.level ∧ h.level ≤ 64) ∧ (0 ≤ h.rpos ∧ h.rpos < 64) ∧ (0 ≤ h.wpos ∧ h.wpos < 64) ∧
    h.wpos = (h.rpos + h.level) % 64 ∧ (h.level = 0 → h.rpos = h.wpos) := by
  have hinv := ring_inv_of_reachable h hreach
  unfold ring_inv QUEUE_LENGTH at hinv
  obtain ⟨h1, h2, h3, h4, h5, h6, h7⟩ := hinv
  refine ⟨⟨h1, h2⟩, ⟨h3, h4⟩, ⟨h5, h6⟩, h7, ?_⟩
  intro h0
  omega

/-- The witness state `ex_queue` is reachable. -/
theorem ex_queue_reachable : Reachable ex_queue :=
  Reachable.push _ _ _ _ (Reachable.push _ _ _ _ (Reachable.push _ _ _ _
    (Reachable.push _ _ _ _ Reachable.opened)))

/-- C6 at the reachable queue `ex_queue`, which holds four chunks. -/
theorem reachable_ring_invariant_witness :
    ex_queue.level = 4 ∧ ex_queue.wpos = 4 ∧
    ((0 ≤ ex_queue.level ∧ ex_queue.level ≤ 64) ∧ (0 ≤ ex_queue.rpos ∧ ex_queue.rpos < 64) ∧
     (0 ≤ ex_queue.wpos ∧ ex_queue.wpos < 64) ∧
     ex_queue.wpos = (ex_queue.rpos + ex_queue.level) % 64 ∧
     (ex_queue.level = 0 → ex_queue.rpos = ex_queue.wpos)) :=
  ⟨by decide, by decide, reachable_ring_invariant ex_queue ex_queue_reachable⟩

/-! ## The live window under the three kinds of change -/

/-- The loop body of `queue_shift` either leaves the queue alone (up to `rblocked`) or takes
the oldest chunk out. -/
theorem queue_shift_cases (h : queue_t) (hudev0 : HUDEV) (buffer0 : List uint8_t) (nsize : Nat) :
    (queue_shift h hudev0 buffer0 nsize).h = h ∨
    (queue_shift h hudev0 buffer0 nsize).h = { h with rblocked := true } ∨
    (h.state = 0 ∧ 0 < h.level ∧ 32 ≤ nsize ∧
      queue_shift h hudev0 buffer0 nsize =
        { h := shifted h, ret := some (h.buf h.rpos).ndata, hudev := (h.buf h.rpos).hudev,
          buffer := if (h.buf h.rpos).ndata > 0
            then memcpy buffer0 (h.buf h.rpos).data (h.buf h.rpos).ndata else buffer0,
          do_unblock := h.wblocked, set_eevent := false }) := by
  unfold queue_shift
  by_cases c1 : nsize = 0 ∨ nsize < CHUNK_DATA_SIZE
  · left; rw [if_pos c1]
  · by_cases c2 : h.state ≠ 0
    · left; rw [if_neg c1, if_pos c2]
    · by_cases c3 : h.level ≤ 0
      · right; left; rw [if_neg c1, if_neg c2, if_pos c3]
      · right; right
        rw [if_neg c1, if_neg c2, if_neg c3]
        unfold CHUNK_DATA_SIZE at c1
        refine ⟨by simpa using c2, by omega, by omega, rfl⟩

theorem slot_at_inj (h : queue_t) (i k : Nat) (hi : i < 64) (hk : k < 64)
    (he : slot_at h i = slot_at h k) : i = k := by
  unfold slot_at QUEUE_LENGTH at he
  omega

theorem chunk_at_coalesced_tags (h : queue_t) (i : Nat) (pdata : Option (List uint8_t))
    (ndata : Nat) (k : Nat) :
    (chunk_at (coalesced h i pdata ndata) k).hudev = (chunk_at h k).hudev ∧
    (chunk_at (coalesced h i pdata ndata) k).typ = (chunk_at h k).typ := by
  have hs : slot_at (coalesced h i pdata ndata) k = slot_at h k := rfl
  unfold chunk_at
  rw [hs]
  unfold coalesced
  by_cases he : slot_at h k = slot_at h i
  · simp only [buf_set, he, if_true, chunk_at, and_self]
  · simp only [buf_set, he, if_false, and_self]

theorem chunk_at_enqueued_old (h : queue_t) (d : HUDEV) (typ : packet_type_t)
    (pdata : Option (List uint8_t)) (ndata : Nat) (hinv : ring_inv h) (hlt : h.level < 64)
    (k : Nat) (hk : k < h.level.toNat) :
    chunk_at (enqueued h d typ pdata ndata) k = chunk_at h k := by
  have hs : slot_at (enqueued h d typ pdata ndata) k = slot_at h k := rfl
  unfold chunk_at
  rw [hs]
  have hne : slot_at h k ≠ h.wpos := by
    unfold ring_inv QUEUE_LENGTH at hinv
    unfold slot_at QUEUE_LENGTH
    omega
  unfold enqueued
  simp only [buf_set, hne, if_false]

theorem chunk_at_enqueued_new (h : queue_t) (d : HUDEV) (typ : packet_type_t)
    (pdata : Option (List uint8_t)) (ndata : Nat) (hinv : ring_inv h) :
    chunk_at (enqueued h d typ pdata ndata) h.level.toNat =
      new_chunk (h.buf h.wpos) d typ pdata ndata := by
  have hs : slot_at (enqueued h d typ pdata ndata) h.level.toNat = h.wpos := by
    unfold ring_inv QUEUE_LENGTH at hinv
    show (h.rpos + (h.level.toNat : Int)) % QUEUE_LENGTH = h.wpos
    unfold QUEUE_LENGTH
    omega
  unfold chunk_at
  rw [hs]
  unfold enqueued
  simp only [buf_set, if_true]

theorem chunk_at_shifted (h : queue_t) (hinv : ring_inv h) (k : Nat)
    (hk : k + 1 < h.level.toNat) :
    chunk_at (shifted h) k = chunk_at h (k + 1) := by
  unfold ring_inv QUEUE_LENGTH at hinv
  have ht : Int.tmod (h.rpos + 1) 64 = (h.rpos + 1) % 64 :=
    Int.tmod_eq_emod (by omega) (by decide)
  have hs : slot_at (shifted h) k = slot_at h (k + 1) := by
    show (Int.tmod (h.rpos + 1) QUEUE_LENGTH + (k : Int)) % QUEUE_LENGTH = _
    unfold slot_at QUEUE_LENGTH
    rw [ht]
    push_cast
    omega
  have hne : slot_at h (k + 1) ≠ h.rpos := by
    unfold slot_at QUEUE_LENGTH
    push_cast
    omega
  unfold chunk_at
  rw [hs]
  unfold shifted
  simp only [buf_set, hne, if_false]

/-! ## At most one PBA chunk per device, and a PBA chunk between two SBA chunks -/

/-- A live PBA chunk for `d` gives a first one. -/
theorem pba_candidate_of_pba (h : queue_t) (d : HUDEV) (k : Nat) (hk : k < h.level.toNat)
    (hpba : is_pba_for d (chunk_at h k)) : ∃ i, pba_candidate h d i := by
  have hfind : ∃ j, is_pba_for d (chunk_at h j) := ⟨k, hpba⟩
  have hle : Nat.find hfind ≤ k := Nat.find_min' hfind hpba
  exact ⟨Nat.find hfind, by omega, Nat.find_spec hfind, fun j hj => Nat.find_min hfind hj⟩

/-- When no live chunk is an SBA candidate for `d`, every live SBA chunk for `d` is followed by
a live PBA chunk for `d`. -/
theorem pba_after_sba_of_no_candidate (h : queue_t) (d : HUDEV)
    (hc : ∀ i, ¬ sba_candidate h d i) (i : Nat) (hi : i < h.level.toNat)
    (hsba : is_sba_for d (chunk_at h i)) :
    ∃ j, i < j ∧ j < h.level.toNat ∧ is_pba_for d (chunk_at h j) := by
  let P : Nat → Prop := fun i => i < h.level.toNat ∧ is_sba_for d (chunk_at h i)
  have hP : P (Nat.findGreatest P h.level.toNat) :=
    Nat.findGreatest_spec (P := P) (Nat.le_of_lt hi) ⟨hi, hsba⟩
  have hle : i ≤ Nat.findGreatest P h.level.toNat :=
    Nat.le_findGreatest (P := P) (Nat.le_of_lt hi) ⟨hi, hsba⟩
  have hgreat : ∀ k, Nat.findGreatest P h.level.toNat < k → k < h.level.toNat →
      ¬ is_sba_for d (chunk_at h k) := by
    intro k hk1 hk2 hs
    exact Nat.findGreatest_is_greatest (P := P) hk1 (Nat.le_of_lt hk2) ⟨hk2, hs⟩
  have hnc := hc (Nat.findGreatest P h.level.toNat)
  unfold sba_candidate at hnc
  simp only [not_and, not_forall] at hnc
  obtain ⟨j, hj, hij, hjj⟩ := hnc hP.1 hP.2
  refine ⟨j, by omega, hj, ?_⟩
  by_contra hnp
  exact hjj (hgreat j hij hj) hnp

theorem pba_unique_coalesced (h : queue_t) (i : Nat) (pdata : Option (List uint8_t))
    (ndata : Nat) (hu : pba_unique h) : pba_unique (coalesced h i pdata ndata) := by
  intro d a b ha hb hpa hpb
  have ta := chunk_at_coalesced_tags h i pdata ndata a
  have tb := chunk_at_coalesced_tags h i pdata ndata b
  unfold is_pba_for at hpa hpb
  rw [ta.1, ta.2] at hpa
  rw [tb.1, tb.2] at hpb
  exact hu d a b ha hb hpa hpb

theorem sba_separated_coalesced (h : queue_t) (i : Nat) (pdata : Option (List uint8_t))
    (ndata : Nat) (hs : sba_separated h) : sba_separated (coalesced h i pdata ndata) := by
  intro d a b hab hb hsa hsb
  have ta := chunk_at_coalesced_tags h i pdata ndata a
  have tb := chunk_at_coalesced_tags h i pdata ndata b
  unfold is_sba_for at hsa hsb
  rw [ta.1, ta.2] at hsa
  rw [tb.1, tb.2] at hsb
  obtain ⟨j, h1, h2, h3⟩ := hs d a b hab hb hsa hsb
  refine ⟨j, h1, h2, ?_⟩
  have tj := chunk_at_coalesced_tags h i pdata ndata j
  unfold is_pba_for at h3 ⊢
  rw [tj.1, tj.2]
  exact h3

theorem level_toNat_enqueued (h : queue_t) (d : HUDEV) (typ : packet_type_t)
    (pdata : Option (List uint8_t)) (ndata : Nat) (hinv : ring_inv h) :
    (enqueued h d typ pdata ndata).level.toNat = h.level.toNat + 1 := by
  have h0 : 0 ≤ h.level := hinv.1
  show (h.level + 1).toNat = _
  omega

theorem pba_unique_enqueued (h : queue_t) (d : HUDEV) (typ : packet_type_t)
    (pdata : Option (List uint8_t)) (ndata : Nat) (hinv : ring_inv h) (hlt : h.level < 64)
    (hno : ∀ i, ¬ coalesce_target h d typ i) (hu : pba_unique h) :
    pba_unique (enqueued h d typ pdata ndata) := by
  have hnew := chunk_at_enqueued_new h d typ pdata ndata hinv
  have key : ∀ a b, a < h.level.toNat → b = h.level.toNat → ∀ e,
      is_pba_for e (chunk_at (enqueued h d typ pdata ndata) a) →
      is_pba_for e (chunk_at (enqueued h d typ pdata ndata) b) → False := by
    intro a b ha hb e hpa hpb
    rw [chunk_at_enqueued_old h d typ pdata ndata hinv hlt a ha] at hpa
    rw [hb, hnew] at hpb
    have he : d = e := hpb.1
    have ht : typ = PACKET_TYPE_PBA := hpb.2
    subst he ht
    obtain ⟨i, hi⟩ := pba_candidate_of_pba h d a ha hpa
    exact hno i hi
  intro e a b ha hb hpa hpb
  rw [level_toNat_enqueued h d typ pdata ndata hinv] at ha hb
  by_cases ha' : a < h.level.toNat
  · by_cases hb' : b < h.level.toNat
    · rw [chunk_at_enqueued_old h d typ pdata ndata hinv hlt a ha'] at hpa
      rw [chunk_at_enqueued_old h d typ pdata ndata hinv hlt b hb'] at hpb
      exact hu e a b ha' hb' hpa hpb
    · exact (key a b ha' (by omega) e hpa hpb).elim
  · by_cases hb' : b < h.level.toNat
    · exact (key b a hb' (by omega) e hpb hpa).elim
    · omega

theorem sba_separated_enqueued (h : queue_t) (d : HUDEV) (typ : packet_type_t)
    (pdata : Option (List uint8_t)) (ndata : Nat) (hinv : ring_inv h) (hlt : h.level < 64)
    (hno : ∀ i, ¬ coalesce_target h d typ i) (hs : sba_separated h) :
    sba_separated (enqueued h d typ pdata ndata) := by
  have hnew := chunk_at_enqueued_new h d typ pdata ndata hinv
  intro e a b hab hb hsa hsb
  rw [level_toNat_enqueued h d typ pdata ndata hinv] at hb
  have ha' : a < h.level.toNat := by omega
  rw [chunk_at_enqueued_old h d typ pdata ndata hinv hlt a ha'] at hsa
  by_cases hb' : b < h.level.toNat
  · rw [chunk_at_enqueued_old h d typ pdata ndata hinv hlt b hb'] at hsb
    obtain ⟨j, h1, h2, h3⟩ := hs e a b hab hb' hsa hsb
    exact ⟨j, h1, h2, by
      rw [chunk_at_enqueued_old h d typ pdata ndata hinv hlt j (by omega)]; exact h3⟩
  · have hbe : b = h.level.toNat := by omega
    rw [hbe, hnew] at hsb
    have he : d = e := hsb.1
    have ht : typ = PACKET_TYPE_SBA := hsb.2
    subst he ht
    obtain ⟨j, h1, h2, h3⟩ := pba_after_sba_of_no_candidate h d hno a ha' hsa
    exact ⟨j, h1, by omega, by
      rw [chunk_at_enqueued_old h d _ pdata ndata hinv hlt j h2]; exact h3⟩

theorem pba_unique_shifted (h : queue_t) (hinv : ring_inv h) (hu : pba_unique h) :
    pba_unique (shifted h) := by
  intro d a b ha hb hpa hpb
  have hl : (shifted h).level.toNat = h.level.toNat - 1 := by
    show (h.level - 1).toNat = _
    omega
  rw [hl] at ha hb
  rw [chunk_at_shifted h hinv a (by omega)] at hpa
  rw [chunk_at_shifted h hinv b (by omega)] at hpb
  have := hu d (a + 1) (b + 1) (by omega) (by omega) hpa hpb
  omega

theorem sba_separated_shifted (h : queue_t) (hinv : ring_inv h) (hs : sba_separated h) :
    sba_separated (shifted h) := by
  intro d a b hab hb hsa hsb
  have hl : (shifted h).level.toNat = h.level.toNat - 1 := by
    show (h.level - 1).toNat = _
    omega
  rw [hl] at hb
  rw [chunk_at_shifted h hinv a (by omega)] at hsa
  rw [chunk_at_shifted h hinv b (by omega)] at hsb
  obtain ⟨j, h1, h2, h3⟩ := hs d (a + 1) (b + 1) (by omega) (by omega) hsa hsb
  refine ⟨j - 1, by omega, by omega, ?_⟩
  rw [chunk_at_shifted h hinv (j - 1) (by omega)]
  have hj : j - 1 + 1 = j := by omega
  rw [hj]
  exact h3

theorem queue_inv_open : queue_inv queue_open := by
  refine ⟨by decide, ?_, ?_⟩
  · intro d i j hi
    exact absurd hi (Nat.not_lt_zero i)
  · intro d i k _ hk
    exact absurd hk (Nat.not_lt_zero k)

theorem queue_inv_push_body (h : queue_t) (d : HUDEV) (typ : packet_type_t)
    (pdata : Option (List uint8_t)) (ndata : Nat) (hinv : queue_inv h) :
    queue_inv (queue_push_body h d typ pdata ndata).h := by
  obtain ⟨hring, hu, hs⟩ := hinv
  refine ⟨ring_inv_push_body h d typ pdata ndata hring, ?_⟩
  rcases queue_push_body_cases h d typ pdata ndata (ring_inv_rpos_ok h hring) with
    ⟨_, he⟩ | ⟨_, i, _, he⟩ | ⟨_, _, _, he⟩ | ⟨_, hno, hlt, he⟩
  · rw [he]; exact ⟨hu, hs⟩
  · rw [he]
    exact ⟨pba_unique_coalesced h i pdata ndata hu, sba_separated_coalesced h i pdata ndata hs⟩
  · rw [he]; exact ⟨hu, hs⟩
  · rw [he]
    exact ⟨pba_unique_enqueued h d typ pdata ndata hring hlt hno hu,
      sba_separated_enqueued h d typ pdata ndata hring hlt hno hs⟩

theorem queue_inv_push (h : queue_t) (d : HUDEV) (typ : packet_type_t)
    (pdata : Option (List uint8_t)) (ndata : Nat) (hinv : queue_inv h) :
    queue_inv (queue_push h d typ pdata ndata).h := by
  obtain ⟨d1, pdata1, ndata1, he⟩ := queue_push_eq_body h d typ pdata ndata
  rw [he]
  exact queue_inv_push_body h d1 typ pdata1 ndata1 hinv

theorem queue_inv_shift (h : queue_t) (hudev0 : HUDEV) (buffer0 : List uint8_t) (nsize : Nat)
    (hinv : queue_inv h) : queue_inv (queue_shift h hudev0 buffer0 nsize).h := by
  obtain ⟨hring, hu, hs⟩ := hinv
  refine ⟨ring_inv_shift h hudev0 buffer0 nsize hring, ?_⟩
  rcases queue_shift_cases h hudev0 buffer0 nsize with he | he | ⟨_, _, _, he⟩
  · rw [he]; exact ⟨hu, hs⟩
  · rw [he]; exact ⟨hu, hs⟩
  · rw [he]
    exact ⟨pba_unique_shifted h hring hu, sba_separated_shifted h hring hs⟩

theorem queue_inv_of_reachable (h : queue_t) (hreach : Reachable h) : queue_inv h := by
  induction hreach with
  | opened => exact queue_inv_open
  | push hudev typ pdata ndata _ ih => exact queue_inv_push _ hudev typ pdata ndata ih
  | shift hudev0 buffer0 nsize _ ih => exact queue_inv_shift _ hudev0 buffer0 nsize ih

/-! ## C3: SBA, PBA, SBA in a row -/

theorem ex_queue_pba_reachable : Reachable ex_queue_pba :=
  Reachable.push _ _ _ _ Reachable.opened

/-- Claim C3, counterexample. The queue reached from `queue_open` by one PBA push for device 1 is
RUNNING and has room, yet after `push(SBA, 1, s1); push(PBA, 1, p); push(SBA, 1, s2)` it holds
only two chunks, the PBA chunk (now carrying `p`) and one SBA chunk carrying `s2`: the PBA push
coalesced with the PBA chunk queued before the first SBA, so the second SBA push overwrote the
first. -/
theorem sba_pba_sba_counterexample :
    Reachable ex_queue_pba ∧ running ex_queue_pba ∧ ex_queue_pba.level + 3 ≤ 64 ∧
    (push_sba_pba_sba ex_queue_pba (some 1) (sba8 1 1) (payload32 2) (sba8 3 3)).level = 2 ∧
    live (push_sba_pba_sba ex_queue_pba (some 1) (sba8 1 1) (payload32 2) (sba8 3 3)) =
      [{ hudev := some 1, typ := PACKET_TYPE_PBA, ndata := 32, data := payload32 2 },
       { hudev := some 1, typ := PACKET_TYPE_SBA, ndata := 8,
         data := sba8 3 3 ++ List.replicate 24 0 }] ∧
    ¬ holds_sba_pba_sba
        (push_sba_pba_sba ex_queue_pba (some 1) (sba8 1 1) (payload32 2) (sba8 3 3))
        (some 1) (sba8 1 1) (payload32 2) (sba8 3 3) :=
  ⟨ex_queue_pba_reachable, by decide, by decide, by decide, by decide, by decide⟩

theorem chunk_at_coalesced_self (h : queue_t) (i : Nat) (pdata : Option (List uint8_t))
    (ndata : Nat) :
    chunk_at (coalesced h i pdata ndata) i =
      { (chunk_at h i) with data := memcpy (chunk_at h i).data (bytes_at pdata) ndata } := by
  have hs : slot_at (coalesced h i pdata ndata) i = slot_at h i := rfl
  unfold chunk_at
  rw [hs]
  unfold coalesced
  simp only [buf_set, if_true, chunk_at]

/-- A regular push without a target chunk, on a RUNNING queue with room, stores a new chunk. -/
theorem queue_push_enqueues (h : queue_t) (d : HUDEV) (typ : packet_type_t) (p : List uint8_t)
    (n : Nat) (h1 : 0 < n) (h2 : n ≤ 32) (hr : rpos_ok h) (hrun : h.state = 0)
    (hlt : h.level < 64) (hno : ∀ i, ¬ coalesce_target h d typ i) :
    queue_push h d typ (some p) n =
      { h := enqueued h d typ (some p) n, ret := some n, do_unblock := h.rblocked } := by
  rw [queue_push_regular h d typ p n h1 h2]
  rcases queue_push_body_cases h d typ (some p) n hr with
    ⟨hne, _⟩ | ⟨_, i, hi, _⟩ | ⟨_, _, hfull, _⟩ | ⟨_, _, _, he⟩
  · exact absurd hrun hne
  · exact absurd hi (hno i)
  · omega
  · exact he

/-- A regular push with a target chunk, on a RUNNING queue, coalesces with it. -/
theorem queue_push_coalesces (h : queue_t) (d : HUDEV) (typ : packet_type_t) (p : List uint8_t)
    (n : Nat) (h1 : 0 < n) (h2 : n ≤ 32) (hr : rpos_ok h) (hrun : h.state = 0)
    (hex : ∃ i, coalesce_target h d typ i) :
    ∃ i, coalesce_target h d typ i ∧ queue_push h d typ (some p) n =
      { h := coalesced h i (some p) n, ret := some n, do_unblock := false } := by
  rw [queue_push_regular h d typ p n h1 h2]
  rcases queue_push_body_cases h d typ (some p) n hr with
    ⟨hne, _⟩ | ⟨_, i, hi, he⟩ | ⟨_, hno, _, _⟩ | ⟨_, hno, _, _⟩
  · exact absurd hrun hne
  · exact ⟨i, hi, he⟩
  · obtain ⟨i, hi⟩ := hex
    exact absurd hi (hno i)
  · obtain ⟨i, hi⟩ := hex
    exact absurd hi (hno i)

theorem take_memcpy (dst src : List uint8_t) (n : Nat) (hs : src.length = n) :
    (memcpy dst src n).take n = src := by
  rw [memcpy_front dst src n hs, List.take_left' hs]

/-- The first of the three pushes: on a queue without a live PBA chunk for `d`, the SBA push
leaves exactly one live SBA chunk for `d`, carrying `s1`, and still no PBA chunk for `d`. -/
theorem first_sba_push (h : queue_t) (d : HUDEV) (s1 : List uint8_t) (hinv : queue_inv h)
    (hrun : h.state = 0) (hlt : h.level < 64) (hs1 : s1.length = 8)
    (hnopba : ∀ m, m < h.level.toNat → ¬ is_pba_for d (chunk_at h m)) :
    (queue_push h d PACKET_TYPE_SBA (some s1) 8).ret = some 8 ∧
    (queue_push h d PACKET_TYPE_SBA (some s1) 8).h.state = 0 ∧
    (queue_push h d PACKET_TYPE_SBA (some s1) 8).h.level ≤ h.level + 1 ∧
    (∀ m, m < (queue_push h d PACKET_TYPE_SBA (some s1) 8).h.level.toNat →
      ¬ is_pba_for d (chunk_at (queue_push h d PACKET_TYPE_SBA (some s1) 8).h m)) ∧
    ∃ i, i < (queue_push h d PACKET_TYPE_SBA (some s1) 8).h.level.toNat ∧
      is_sba_for d (chunk_at (queue_push h d PACKET_TYPE_SBA (some s1) 8).h i) ∧
      (chunk_at (queue_push h d PACKET_TYPE_SBA (some s1) 8).h i).data.take 8 = s1 ∧
      ∀ m, m < (queue_push h d PACKET_TYPE_SBA (some s1) 8).h.level.toNat →
        is_sba_for d (chunk_at (queue_push h d PACKET_TYPE_SBA (some s1) 8).h m) → m = i := by
  obtain ⟨hring, hu, hsep⟩ := hinv
  have hr := ring_inv_rpos_ok h hring
  -- without a PBA chunk for `d` there is at most one SBA chunk for `d`
  have hone : ∀ a b, a < h.level.toNat → b < h.level.toNat →
      is_sba_for d (chunk_at h a) → is_sba_for d (chunk_at h b) → a = b := by
    intro a b ha hb hsa hsb
    rcases Nat.lt_trichotomy a b with hab | hab | hab
    · obtain ⟨j, _, h2, h3⟩ := hsep d a b hab hb hsa hsb
      exact absurd h3 (hnopba j (by omega))
    · exact hab
    · obtain ⟨j, _, h2, h3⟩ := hsep d b a hab ha hsb hsa
      exact absurd h3 (hnopba j (by omega))
  by_cases hex : ∃ i, coalesce_target h d PACKET_TYPE_SBA i
  · obtain ⟨i, hi, he⟩ := queue_push_coalesces h d _ s1 8 (by decide) (by decide) hr hrun hex
    rw [he]
    have hi' : sba_candidate h d i := hi
    refine ⟨rfl, hrun, by show h.level ≤ h.level + 1; omega, ?_, i, hi'.1, ?_, ?_, ?_⟩
    · intro m hm hp
      have t := chunk_at_coalesced_tags h i (some s1) 8 m
      unfold is_pba_for at hp
      rw [t.1, t.2] at hp
      exact hnopba m hm hp
    · have t := chunk_at_coalesced_tags h i (some s1) 8 i
      unfold is_sba_for
      rw [t.1, t.2]
      exact hi'.2.1
    · rw [chunk_at_coalesced_self]
      exact take_memcpy _ _ 8 hs1
    · intro m hm hsm
      have t := chunk_at_coalesced_tags h i (some s1) 8 m
      unfold is_sba_for at hsm
      rw [t.1, t.2] at hsm
      exact hone m i hm hi'.1 hsm hi'.2.1
  · have hno : ∀ i, ¬ coalesce_target h d PACKET_TYPE_SBA i := fun i hi => hex ⟨i, hi⟩
    rw [queue_push_enqueues h d _ s1 8 (by decide) (by decide) hr hrun hlt hno]
    have hL := level_toNat_enqueued h d PACKET_TYPE_SBA (some s1) 8 hring
    have hnew := chunk_at_enqueued_new h d PACKET_TYPE_SBA (some s1) 8 hring
    -- no SBA chunk for `d` was live: it would have been a candidate
    have hnosba : ∀ m, m < h.level.toNat → ¬ is_sba_for d (chunk_at h m) := by
      intro m hm hsm
      obtain ⟨j, _, h2, h3⟩ := pba_after_sba_of_no_candidate h d hno m hm hsm
      exact hnopba j h2 h3
    refine ⟨rfl, hrun, by show h.level + 1 ≤ h.level + 1; omega, ?_, h.level.toNat, ?_, ?_, ?_, ?_⟩
    · intro m hm hp
      simp only [hL] at hm
      by_cases hm' : m < h.level.toNat
      · rw [chunk_at_enqueued_old h d _ (some s1) 8 hring hlt m hm'] at hp
        exact hnopba m hm' hp
      · have hme : m = h.level.toNat := by omega
        rw [hme, hnew] at hp
        have ht : PACKET_TYPE_SBA = PACKET_TYPE_PBA := hp.2
        exact absurd ht (by decide)
    · simp only [hL]; omega
    · rw [hnew]
      exact ⟨rfl, rfl⟩
    · rw [hnew]
      exact take_memcpy _ _ 8 hs1
    · intro m hm hsm
      simp only [hL] at hm
      by_cases hm' : m < h.level.toNat
      · rw [chunk_at_enqueued_old h d _ (some s1) 8 hring hlt m hm'] at hsm
        exact absurd hsm (hnosba m hm')
      · omega

/-- Claim C3, amended. From every reachable RUNNING queue with room for three chunks in which no
PBA chunk for `d` is live, the consecutive calls `push(SBA, d, s1)`, `push(PBA, d, p)`,
`push(SBA, d, s2)` return 8, 32 and 8, and afterwards the live window holds exactly two SBA
chunks and one PBA chunk for `d`: the first SBA chunk carries `s1`, the PBA chunk is the
last but one chunk of the queue and carries `p`, the last SBA chunk is the last chunk of the
queue and carries `s2`. -/
theorem sba_pba_sba_coexist (h : queue_t) (d : HUDEV) (s1 p s2 : List uint8_t)
    (hreach : Reachable h) (hrun : running h) (hroom : h.level + 3 ≤ 64)
    (hs1 : s1.length = 8) (hp : p.length = 32) (hs2 : s2.length = 8)
    (hnopba : ∀ m, m < h.level.toNat → ¬ is_pba_for d (chunk_at h m)) :
    (queue_push h d PACKET_TYPE_SBA (some s1) 8).ret = some 8 ∧
    (queue_push (queue_push h d PACKET_TYPE_SBA (some s1) 8).h d PACKET_TYPE_PBA
      (some p) 32).ret = some 32 ∧
    (queue_push (queue_push (queue_push h d PACKET_TYPE_SBA (some s1) 8).h d PACKET_TYPE_PBA
      (some p) 32).h d PACKET_TYPE_SBA (some s2) 8).ret = some 8 ∧
    ∃ i j k, i < j ∧ j + 1 = k ∧ k + 1 = (push_sba_pba_sba h d s1 p s2).level.toNat ∧
      is_sba_for d (chunk_at (push_sba_pba_sba h d s1 p s2) i) ∧
      (chunk_at (push_sba_pba_sba h d s1 p s2) i).data.take 8 = s1 ∧
      is_pba_for d (chunk_at (push_sba_pba_sba h d s1 p s2) j) ∧
      (chunk_at (push_sba_pba_sba h d s1 p s2) j).ndata = 32 ∧
      (chunk_at (push_sba_pba_sba h d s1 p s2) j).data.take 32 = p ∧
      is_sba_for d (chunk_at (push_sba_pba_sba h d s1 p s2) k) ∧
      (chunk_at (push_sba_pba_sba h d s1 p s2) k).ndata = 8 ∧
      (chunk_at (push_sba_pba_sba h d s1 p s2) k).data.take 8 = s2 ∧
      (∀ m, m < (push_sba_pba_sba h d s1 p s2).level.toNat →
        is_sba_for d (chunk_at (push_sba_pba_sba h d s1 p s2) m) → m = i ∨ m = k) ∧
      (∀ m, m < (push_sba_pba_sba h d s1 p s2).level.toNat →
        is_pba_for d (chunk_at (push_sba_pba_sba h d s1 p s2) m) → m = j) := by
  have hinv := queue_inv_of_reachable h hreach
  have hreach1 : Reachable (queue_push h d PACKET_TYPE_SBA (some s1) 8).h :=
    Reachable.push _ _ _ _ hreach
  obtain ⟨hret1, hrun1, hlev1, hnopba1, i, hi, hsi, hdi, honly⟩ :=
    first_sba_push h d s1 hinv hrun (by omega) hs1 hnopba
  simp only [push_sba_pba_sba]
  generalize (queue_push h d PACKET_TYPE_SBA (some s1) 8).h = q1 at *
  have hring1 := ring_inv_of_reachable q1 hreach1
  have hr1 := ring_inv_rpos_ok q1 hring1
  -- second push: no PBA chunk for `d` is live, the chunk is stored
  have hno2 : ∀ m, ¬ coalesce_target q1 d PACKET_TYPE_PBA m :=
    fun m hm => hnopba1 m hm.1 hm.2.1
  have hlt1 : q1.level < 64 := by omega
  have e2 := queue_push_enqueues q1 d _ p 32 (by decide) (by decide) hr1 hrun1 hlt1 hno2
  have hring2 : ring_inv (enqueued q1 d PACKET_TYPE_PBA (some p) 32) := by
    have := ring_inv_push q1 d PACKET_TYPE_PBA (some p) 32 hring1
    rwa [e2] at this
  have hL2 := level_toNat_enqueued q1 d PACKET_TYPE_PBA (some p) 32 hring1
  have hnew2 := chunk_at_enqueued_new q1 d PACKET_TYPE_PBA (some p) 32 hring1
  have hold2 := chunk_at_enqueued_old q1 d PACKET_TYPE_PBA (some p) 32 hring1 hlt1
  simp only [e2]
  generalize hq2 : enqueued q1 d PACKET_TYPE_PBA (some p) 32 = q2 at *
  have hrun2 : q2.state = 0 := by rw [← hq2]; exact hrun1
  have hlt2 : q2.level < 64 := by
    rw [← hq2]; show q1.level + 1 < 64; omega
  -- third push: the only SBA chunk for `d` is followed by the PBA chunk, no candidate
  have hno3 : ∀ m, ¬ coalesce_target q2 d PACKET_TYPE_SBA m := by
    intro m hm
    have hm' : sba_candidate q2 d m := hm
    obtain ⟨hm1, hm2, hm3⟩ := hm'
    rw [hL2] at hm1 hm3
    by_cases hlt : m < q1.level.toNat
    · have := (hm3 q1.level.toNat (by omega) hlt).2
      rw [hnew2] at this
      exact this ⟨rfl, rfl⟩
    · have hme : m = q1.level.toNat := by omega
      rw [hme, hnew2] at hm2
      have ht : PACKET_TYPE_PBA = PACKET_TYPE_SBA := hm2.2
      exact absurd ht (by decide)
  have e3 := queue_push_enqueues q2 d _ s2 8 (by decide) (by decide)
    (ring_inv_rpos_ok q2 hring2) hrun2 hlt2 hno3
  have hL3 := level_toNat_enqueued q2 d PACKET_TYPE_SBA (some s2) 8 hring2
  have hnew3 := chunk_at_enqueued_new q2 d PACKET_TYPE_SBA (some s2) 8 hring2
  have hold3 := chunk_at_enqueued_old q2 d PACKET_TYPE_SBA (some s2) 8 hring2 hlt2
  simp only [e3]
  rw [hL2] at hL3 hnew3 hold3
  refine ⟨hret1, trivial, trivial, i, q1.level.toNat, q1.level.toNat + 1, hi, rfl, hL3.symm,
    ?_, ?_, ?_, ?_, ?_, ?_, ?_, ?_, ?_, ?_⟩
  · rw [hold3 i (by omega), hold2 i hi]; exact hsi
  · rw [hold3 i (by omega), hold2 i hi]; exact hdi
  · rw [hold3 _ (by omega), hnew2]; exact ⟨rfl, rfl⟩
  · rw [hold3 _ (by omega), hnew2]; rfl
  · rw [hold3 _ (by omega), hnew2]; exact take_memcpy _ _ 32 hp
  · rw [hnew3]; exact ⟨rfl, rfl⟩
  · rw [hnew3]; rfl
  · rw [hnew3]; exact take_memcpy _ _ 8 hs2
  · intro m hm hsm
    rw [hL3] at hm
    by_cases hm1 : m < q1.level.toNat
    · left
      rw [hold3 m (by omega), hold2 m hm1] at hsm
      exact honly m hm1 hsm
    · by_cases hm2 : m = q1.level.toNat
      · rw [hm2, hold3 _ (by omega), hnew2] at hsm
        have ht : PACKET_TYPE_PBA = PACKET_TYPE_SBA := hsm.2
        exact absurd ht (by decide)
      · right; omega
  · intro m hm hpm
    rw [hL3] at hm
    by_cases hm1 : m < q1.level.toNat
    · rw [hold3 m (by omega), hold2 m hm1] at hpm
      exact absurd hpm (hnopba1 m hm1)
    · by_cases hm2 : m = q1.level.toNat
      · exact hm2
      · have hm3 : m = q1.level.toNat + 1 := by omega
        rw [hm3, hnew3] at hpm
        have ht : PACKET_TYPE_SBA = PACKET_TYPE_PBA := hpm.2
        exact absurd ht (by decide)

theorem ex_queue_raw_sba_reachable : Reachable ex_queue_raw_sba :=
  Reachable.push _ _ _ _ (Reachable.push _ _ _ _ Reachable.opened)

/-- Amended C3 at the reachable queue `ex_queue_raw_sba`, which holds RAW(1), SBA(1): the first
SBA push coalesces, the PBA and the second SBA are stored behind it. -/
theorem sba_pba_sba_coexist_witness :
    (push_sba_pba_sba ex_queue_raw_sba (some 1) (sba8 1 1) (payload32 2) (sba8 3 3)).level = 4 ∧
    ∃ i j k, i < j ∧ j + 1 = k ∧
      k + 1 = (push_sba_pba_sba ex_queue_raw_sba (some 1) (sba8 1 1) (payload32 2)
        (sba8 3 3)).level.toNat ∧
      (chunk_at (push_sba_pba_sba ex_queue_raw_sba (some 1) (sba8 1 1) (payload32 2)
        (sba8 3 3)) i).data.take 8 = sba8 1 1 ∧
      (chunk_at (push_sba_pba_sba ex_queue_raw_sba (some 1) (sba8 1 1) (payload32 2)
        (sba8 3 3)) j).data.take 32 = payload32 2 ∧
      (chunk_at (push_sba_pba_sba ex_queue_raw_sba (some 1) (sba8 1 1) (payload32 2)
        (sba8 3 3)) k).data.take 8 = sba8 3 3 :=
  have w := sba_pba_sba_coexist ex_queue_raw_sba (some 1) (sba8 1 1) (payload32 2) (sba8 3 3)
    ex_queue_raw_sba_reachable (by decide) (by decide) (by decide) (by decide) (by decide)
    (by decide)
  ⟨by decide,
   match w.2.2.2 with
   | ⟨i, j, k, h1, h2, h3, _, h5, _, _, h8, _, _, h11, _, _⟩ =>
     ⟨i, j, k, h1, h2, h3, h5, h8, h11⟩⟩

/-! ## C4: two PBA pushes in a row -/

/-- Claim C4 (two PBA pushes). (1) From every reachable RUNNING queue on which
`push(PBA, d, p1)` returns, a following `push(PBA, d, p2)` returns 32 and leaves exactly one
live PBA chunk for `d`, and that chunk carries `p2`. (2) Starting from any empty RUNNING queue,
`push(PBA, d, p1); push(PBA, d, p2); shift` returns 32 bytes, the device `d` and the bytes
`p2`, and leaves `level = 0`: only one chunk was stored. -/
theorem pba_pba_single_chunk (h : queue_t) (d : HUDEV) (p1 p2 : List uint8_t)
    (hreach : Reachable h) (hrun : running h) (hp2 : p2.length = 32)
    (hret : (queue_push h d PACKET_TYPE_PBA (some p1) 32).ret = some 32) :
    ((queue_push (queue_push h d PACKET_TYPE_PBA (some p1) 32).h d PACKET_TYPE_PBA
        (some p2) 32).ret = some 32 ∧
     ∃ i, i < (push_pba_pba h d p1 p2).level.toNat ∧
       is_pba_for d (chunk_at (push_pba_pba h d p1 p2) i) ∧
       (chunk_at (push_pba_pba h d p1 p2) i).data.take 32 = p2 ∧
       ∀ m, m < (push_pba_pba h d p1 p2).level.toNat →
         is_pba_for d (chunk_at (push_pba_pba h d p1 p2) m) → m = i) ∧
    (∀ (e : queue_t) (hudev0 : HUDEV) (buffer0 : List uint8_t) (nsize : Nat),
      ring_inv e → running e → e.level = 0 → 32 ≤ nsize →
      (queue_shift (push_pba_pba e d p1 p2) hudev0 buffer0 nsize).ret = some 32 ∧
      (queue_shift (push_pba_pba e d p1 p2) hudev0 buffer0 nsize).hudev = d ∧
      (queue_shift (push_pba_pba e d p1 p2) hudev0 buffer0 nsize).buffer.take 32 = p2 ∧
      (queue_shift (push_pba_pba e d p1 p2) hudev0 buffer0 nsize).h.level = 0 ∧
      (push_pba_pba e d p1 p2).level = 1) := by
  constructor
  · have hreach1 : Reachable (queue_push h d PACKET_TYPE_PBA (some p1) 32).h :=
      Reachable.push _ _ _ _ hreach
    have hreach2 : Reachable (push_pba_pba h d p1 p2) := Reachable.push _ _ _ _ hreach1
    have hu2 := (queue_inv_of_reachable _ hreach2).2.1
    -- after the first push a PBA chunk for `d` is live and the queue is RUNNING
    have hfirst : (queue_push h d PACKET_TYPE_PBA (some p1) 32).h.state = 0 ∧
        ∃ i, pba_candidate (queue_push h d PACKET_TYPE_PBA (some p1) 32).h d i := by
      have hring := ring_inv_of_reachable h hreach
      have hr := ring_inv_rpos_ok h hring
      rw [queue_push_regular h d _ p1 32 (by decide) (by decide)] at hret ⊢
      rcases queue_push_body_cases h d PACKET_TYPE_PBA (some p1) 32 hr with
        ⟨hne, _⟩ | ⟨_, i, hi, he⟩ | ⟨_, _, _, he⟩ | ⟨_, _, hlt, he⟩
      · exact absurd hrun hne
      · rw [he]
        refine ⟨hrun, ?_⟩
        have hi' : pba_candidate h d i := hi
        apply pba_candidate_of_pba (coalesced h i (some p1) 32) d i hi'.1
        have t := chunk_at_coalesced_tags h i (some p1) 32 i
        unfold is_pba_for
        rw [t.1, t.2]
        exact hi'.2.1
      · rw [he] at hret
        exact absurd hret (by simp)
      · rw [he]
        refine ⟨hrun, ?_⟩
        apply pba_candidate_of_pba (enqueued h d _ (some p1) 32) d h.level.toNat
        · rw [level_toNat_enqueued h d _ (some p1) 32 hring]; omega
        · rw [chunk_at_enqueued_new h d _ (some p1) 32 hring]
          exact ⟨rfl, rfl⟩
    have hr1 := ring_inv_rpos_ok _ (ring_inv_of_reachable _ hreach1)
    unfold push_pba_pba at hu2 ⊢
    generalize (queue_push h d PACKET_TYPE_PBA (some p1) 32).h = q1 at *
    obtain ⟨hrun1, hex⟩ := hfirst
    obtain ⟨i, hi, he⟩ :=
      queue_push_coalesces q1 d PACKET_TYPE_PBA p2 32 (by decide) (by decide) hr1 hrun1 hex
    have hi' : pba_candidate q1 d i := hi
    rw [he] at hu2 ⊢
    have hpi : is_pba_for d (chunk_at (coalesced q1 i (some p2) 32) i) := by
      have t := chunk_at_coalesced_tags q1 i (some p2) 32 i
      unfold is_pba_for
      rw [t.1, t.2]
      exact hi'.2.1
    refine ⟨rfl, i, hi'.1, hpi, ?_, ?_⟩
    · show (chunk_at (coalesced q1 i (some p2) 32) i).data.take 32 = p2
      rw [chunk_at_coalesced_self]
      exact take_memcpy _ _ 32 hp2
    · intro m hm hpm
      exact hu2 d m i hm hi'.1 hpm hpi
  · intro e hudev0 buffer0 nsize hering herun hempty hn
    have hL0 : e.level.toNat = 0 := by rw [hempty]; rfl
    -- the first push stores a chunk, the second coalesces with it
    have e1 := queue_push_enqueues e d PACKET_TYPE_PBA p1 32 (by decide) (by decide)
      (ring_inv_rpos_ok e hering) herun (by rw [hempty]; decide)
      (fun i hi => by
        have hi' : pba_candidate e d i := hi
        have := hi'.1
        omega)
    have hring1 : ring_inv (enqueued e d PACKET_TYPE_PBA (some p1) 32) := by
      have := ring_inv_push e d PACKET_TYPE_PBA (some p1) 32 hering
      rwa [e1] at this
    have hnew := chunk_at_enqueued_new e d PACKET_TYPE_PBA (some p1) 32 hering
    rw [hL0] at hnew
    have hcand : pba_candidate (enqueued e d PACKET_TYPE_PBA (some p1) 32) d 0 := by
      refine ⟨?_, ?_, fun k hk => absurd hk (Nat.not_lt_zero k)⟩
      · rw [level_toNat_enqueued e d _ (some p1) 32 hering]; omega
      · rw [hnew]; exact ⟨rfl, rfl⟩
    have e2 := queue_push_body_pba_hit (enqueued e d PACKET_TYPE_PBA (some p1) 32) d (some p2) 32
      0 herun (ring_inv_rpos_ok _ hring1) (by show (0 : Int) < e.level + 1; omega) hcand.2.1
      hcand.2.2
    rw [← queue_push_regular _ d _ p2 32 (by decide) (by decide)] at e2
    have hq2 : push_pba_pba e d p1 p2 =
        coalesced (enqueued e d PACKET_TYPE_PBA (some p1) 32) 0 (some p2) 32 := by
      unfold push_pba_pba
      rw [e1]
      simp only [e2]
      rfl
    rw [hq2]
    have hrun1 : (enqueued e d PACKET_TYPE_PBA (some p1) 32).state = 0 := herun
    generalize hq1 : enqueued e d PACKET_TYPE_PBA (some p1) 32 = q1 at *
    have hlev1 : q1.level = 1 := by rw [← hq1]; show e.level + 1 = 1; omega
    -- the chunk at the read position
    have hhead : (coalesced q1 0 (some p2) 32).buf (coalesced q1 0 (some p2) 32).rpos =
        { (chunk_at q1 0) with data := memcpy (chunk_at q1 0).data (bytes_at (some p2)) 32 } := by
      have hs : (coalesced q1 0 (some p2) 32).rpos = slot_at (coalesced q1 0 (some p2) 32) 0 := by
        have := hring1
        unfold ring_inv QUEUE_LENGTH at this
        show q1.rpos = (q1.rpos + ((0 : Nat) : Int)) % QUEUE_LENGTH
        unfold QUEUE_LENGTH
        push_cast
        omega
      rw [hs]
      exact chunk_at_coalesced_self q1 0 (some p2) 32
    have hsh : queue_shift (coalesced q1 0 (some p2) 32) hudev0 buffer0 nsize =
        { h := shifted (coalesced q1 0 (some p2) 32),
          ret := some ((coalesced q1 0 (some p2) 32).buf (coalesced q1 0 (some p2) 32).rpos).ndata,
          hudev := ((coalesced q1 0 (some p2) 32).buf (coalesced q1 0 (some p2) 32).rpos).hudev,
          buffer :=
            if ((coalesced q1 0 (some p2) 32).buf (coalesced q1 0 (some p2) 32).rpos).ndata > 0
            then memcpy buffer0
              ((coalesced q1 0 (some p2) 32).buf (coalesced q1 0 (some p2) 32).rpos).data
              ((coalesced q1 0 (some p2) 32).buf (coalesced q1 0 (some p2) 32).rpos).ndata
            else buffer0,
          do_unblock := (coalesced q1 0 (some p2) 32).wblocked, set_eevent := false } := by
      unfold queue_shift CHUNK_DATA_SIZE
      rw [if_neg (by omega), if_neg (by
        show ¬ (q1.state ≠ 0)
        simp [hrun1]),
        if_neg (by show ¬ (q1.level ≤ 0); omega)]
      rfl
    rw [hsh]
    simp only [hhead, hnew]
    refine ⟨rfl, rfl, ?_, ?_, hlev1⟩
    · have hd : memcpy (new_chunk (e.buf e.wpos) d PACKET_TYPE_PBA (some p1) 32).data
          (bytes_at (some p2)) 32 = p2 ++ List.drop 32
            (new_chunk (e.buf e.wpos) d PACKET_TYPE_PBA (some p1) 32).data :=
        memcpy_front _ _ 32 hp2
      have hn32 : (new_chunk (e.buf e.wpos) d PACKET_TYPE_PBA (some p1) 32).ndata = 32 := rfl
      rw [hd, hn32, if_pos (by decide)]
      unfold memcpy
      rw [List.take_append_of_le_length (by simp [hp2]), List.take_take, Nat.min_self,
        List.take_left' hp2]
    · show q1.level - 1 = 0
      omega

/-- C4 at the reachable queue `ex_queue` with a device that has no chunk queued, and the
empty-queue scenario with the writer's 64-byte buffer. -/
theorem pba_pba_single_chunk_witness :
    (push_pba_pba ex_queue (some 3) (payload32 1) (payload32 2)).level = 5 ∧
    (∃ i, i < (push_pba_pba ex_queue (some 3) (payload32 1) (payload32 2)).level.toNat ∧
       is_pba_for (some 3) (chunk_at (push_pba_pba ex_queue (some 3) (payload32 1)
         (payload32 2)) i) ∧
       (chunk_at (push_pba_pba ex_queue (some 3) (payload32 1) (payload32 2)) i).data.take 32
         = payload32 2 ∧
       ∀ m, m < (push_pba_pba ex_queue (some 3) (payload32 1) (payload32 2)).level.toNat →
         is_pba_for (some 3) (chunk_at (push_pba_pba ex_queue (some 3) (payload32 1)
           (payload32 2)) m) → m = i) ∧
    (queue_shift (push_pba_pba queue_open (some 3) (payload32 1) (payload32 2)) none
      (List.replicate 64 0) 64).ret = some 32 :=
  have w := pba_pba_single_chunk ex_queue (some 3) (payload32 1) (payload32 2)
    ex_queue_reachable (by decide) (by decide) (by decide)
  ⟨by decide, w.1.2,
    (w.2 queue_open none (List.replicate 64 0) 64 (by decide) (by decide) (by decide)
      (by decide)).1⟩

/-! ## The live window as a list -/

theorem live_enqueued (h : queue_t) (d : HUDEV) (typ : packet_type_t)
    (pdata : Option (List uint8_t)) (ndata : Nat) (hinv : ring_inv h) (hlt : h.level < 64) :
    live (enqueued h d typ pdata ndata) =
      live h ++ [new_chunk (h.buf h.wpos) d typ pdata ndata] := by
  unfold live
  rw [level_toNat_enqueued h d typ pdata ndata hinv, List.range_succ, List.map_append,
    List.map_singleton, chunk_at_enqueued_new h d typ pdata ndata hinv]
  congr 1
  apply List.map_congr_left
  intro k hk
  exact chunk_at_enqueued_old h d typ pdata ndata hinv hlt k (List.mem_range.mp hk)

theorem live_shifted (h : queue_t) (hinv : ring_inv h) (hpos : 0 < h.level) :
    live h = h.buf h.rpos :: live (shifted h) := by
  have hl : (shifted h).level.toNat = h.level.toNat - 1 := by
    show (h.level - 1).toNat = _
    omega
  have hL : h.level.toNat = (h.level.toNat - 1) + 1 := by omega
  have h0 : chunk_at h 0 = h.buf h.rpos := by
    unfold chunk_at slot_at
    unfold ring_inv at hinv
    congr 1
    unfold QUEUE_LENGTH at hinv ⊢
    omega
  unfold live
  rw [hl, hL, List.range_succ_eq_map, List.map_cons, List.map_map, h0]
  congr 1
  apply List.map_congr_left
  intro k hk
  have hk' := List.mem_range.mp hk
  simp only [Function.comp, Nat.add_sub_cancel]
  rw [chunk_at_shifted h hinv k (by omega)]

theorem live_length (h : queue_t) : (live h).length = h.level.toNat := by
  unfold live
  simp

/-! ## C5: RAW chunks are stored one by one and delivered in FIFO order -/

/-- A chunk the writer can copy out: it is not a sentinel and its stored length does not exceed
its data. -/
theorem delivered_new_chunk (old : chunk_t) (d : HUDEV) (typ : packet_type_t)
    (b : List uint8_t) :
    delivered (new_chunk old d typ (some b) b.length) = (some b.length, d, b) := by
  unfold delivered new_chunk
  simp only [take_memcpy _ _ b.length rfl]

theorem push_raw_seq_spec (l : List (HUDEV × List uint8_t)) (h : queue_t) (hinv : ring_inv h)
    (hrun : h.state = 0) (hroom : h.level + l.length ≤ 64)
    (hlen : ∀ x ∈ l, 1 ≤ x.2.length ∧ x.2.length ≤ 32) :
    (push_raw_seq h l).2 = l.map (fun x => some x.2.length) ∧
    ring_inv (push_raw_seq h l).1 ∧ (push_raw_seq h l).1.state = 0 ∧
    (push_raw_seq h l).1.level = h.level + l.length ∧
    ∃ cs, live (push_raw_seq h l).1 = live h ++ cs ∧
      cs.map delivered = l.map (fun x => (some x.2.length, x.1, x.2)) ∧
      ∀ c ∈ cs, 0 < c.ndata ∧ c.ndata ≤ c.data.length := by
  induction l generalizing h with
  | nil =>
    refine ⟨rfl, hinv, hrun, by simp [push_raw_seq], [], by simp [push_raw_seq], rfl, ?_⟩
    intro c hc
    exact absurd hc (List.not_mem_nil c)
  | cons x rest ih =>
    have hx := hlen x (List.mem_cons_self x rest)
    have hlt : h.level < 64 := by
      simp only [List.length_cons] at hroom
      push_cast at hroom
      omega
    have hno : ∀ i, ¬ coalesce_target h x.1 PACKET_TYPE_RAW i := fun i hi => hi
    have e := queue_push_enqueues h x.1 PACKET_TYPE_RAW x.2 x.2.length (by omega) hx.2
      (ring_inv_rpos_ok h hinv) hrun hlt hno
    have hinv1 : ring_inv (enqueued h x.1 PACKET_TYPE_RAW (some x.2) x.2.length) := by
      have := ring_inv_push h x.1 PACKET_TYPE_RAW (some x.2) x.2.length hinv
      rwa [e] at this
    obtain ⟨r1, r2, r3, r4, cs, r5, r6, r7⟩ :=
      ih (enqueued h x.1 PACKET_TYPE_RAW (some x.2) x.2.length) hinv1 hrun
        (by
          show h.level + 1 + (rest.length : Int) ≤ 64
          simp only [List.length_cons] at hroom
          push_cast at hroom
          omega)
        (fun y hy => hlen y (List.mem_cons_of_mem x hy))
    simp only [push_raw_seq, e]
    refine ⟨by rw [r1]; rfl, r2, r3, ?_, ?_⟩
    · rw [r4]
      show h.level + 1 + (rest.length : Int) = h.level + ((x :: rest).length : Int)
      simp only [List.length_cons]
      push_cast
      omega
    · refine ⟨new_chunk (h.buf h.wpos) x.1 PACKET_TYPE_RAW (some x.2) x.2.length :: cs,
        ?_, ?_, ?_⟩
      · rw [r5, live_enqueued h x.1 _ (some x.2) x.2.length hinv hlt, List.append_assoc]
        rfl
      · rw [List.map_cons, List.map_cons, r6, delivered_new_chunk]
      · intro c hc
        rcases List.mem_cons.mp hc with hc1 | hc1
        · rw [hc1]
          unfold new_chunk
          simp only [memcpy_front _ _ x.2.length rfl, List.length_append]
          omega
        · exact r7 c hc1

theorem shift_seq_spec (nsize : Nat) (hn : 32 ≤ nsize) (n : Nat) (h : queue_t)
    (buffer0 : List uint8_t) (hinv : ring_inv h) (hrun : h.state = 0)
    (hle : n ≤ h.level.toNat)
    (hok : ∀ c ∈ live h, 0 < c.ndata ∧ c.ndata ≤ c.data.length) :
    shift_seq nsize n h buffer0 = ((live h).take n).map delivered := by
  induction n generalizing h buffer0 with
  | zero => simp [shift_seq]
  | succ n ih =>
    have hpos : 0 < h.level := by omega
    have hlive := live_shifted h hinv hpos
    have hc := hok (h.buf h.rpos) (by rw [hlive]; exact List.mem_cons_self _ _)
    rcases queue_shift_cases h none buffer0 nsize with he | he | ⟨_, _, _, he⟩
    · -- the call returned without touching the queue: excluded, the queue is RUNNING and
      -- not empty
      exfalso
      unfold queue_shift CHUNK_DATA_SIZE at he
      rw [if_neg (by omega), if_neg (by simpa using hrun), if_neg (by omega)] at he
      have := congrArg queue_t.level he
      simp only at this
      omega
    · exfalso
      unfold queue_shift CHUNK_DATA_SIZE at he
      rw [if_neg (by omega), if_neg (by simpa using hrun), if_neg (by omega)] at he
      have := congrArg queue_t.level he
      simp only at this
      omega
    · have hinv1 : ring_inv (shifted h) := by
        have := ring_inv_shift h none buffer0 nsize hinv
        rwa [he] at this
      have hrun1 : (shifted h).state = 0 := by
        show (if (h.buf h.rpos).ndata > 0 then h.state else 1) = 0
        rw [if_pos hc.1]
        exact hrun
      have hl : (shifted h).level.toNat = h.level.toNat - 1 := by
        show (h.level - 1).toNat = _
        omega
      have hrest := ih (shifted h)
        (if (h.buf h.rpos).ndata > 0
          then memcpy buffer0 (h.buf h.rpos).data (h.buf h.rpos).ndata else buffer0)
        hinv1 hrun1 (by omega)
        (fun c hcm => hok c (by rw [hlive]; exact List.mem_cons_of_mem _ hcm))
      simp only [shift_seq, he]
      rw [hrest, hlive, List.take_succ_cons, List.map_cons]
      congr 1
      unfold shift_result delivered
      simp only [Option.getD_some, if_pos hc.1]
      unfold memcpy
      rw [List.take_append_of_le_length (by simp; omega), List.take_take, Nat.min_self]

/-- Claim C5 (RAW chunks, FIFO). For every RUNNING queue that satisfies the ring invariant and is
empty (`level = 0`, at any read position) and every list of at most 64 pairs `(d, b)` with
`1 ≤ |b| ≤ 32`: pushing them as RAW chunks returns `|b|` each time and raises `level` to the
number of pairs (no push coalesces), and the next calls of `queue_shift`, as many as there
are pairs, return exactly the pairs in the order pushed, each with its own length `|b|`,
device `d` and bytes `b`. -/
theorem raw_chunks_fifo (h : queue_t) (l : List (HUDEV × List uint8_t))
    (buffer0 : List uint8_t) (nsize : Nat)
    (hinv : ring_inv h) (hrun : running h) (hempty : h.level = 0) (hk : l.length ≤ 64)
    (hlen : ∀ x ∈ l, 1 ≤ x.2.length ∧ x.2.length ≤ 32) (hn : 32 ≤ nsize) :
    (push_raw_seq h l).2 = l.map (fun x => some x.2.length) ∧
    (push_raw_seq h l).1.level = l.length ∧
    shift_seq nsize l.length (push_raw_seq h l).1 buffer0 =
      l.map (fun x => (some x.2.length, x.1, x.2)) := by
  obtain ⟨r1, r2, r3, r4, cs, r5, r6, r7⟩ :=
    push_raw_seq_spec l h hinv hrun (by rw [hempty]; omega) hlen
  have hlive0 : live h = [] := by
    unfold live
    rw [hempty]
    rfl
  rw [hlive0, List.nil_append] at r5
  have hlev : (push_raw_seq h l).1.level = l.length := by rw [r4, hempty]; omega
  have hcs : cs.length = l.length := by
    have := congrArg List.length r6
    simpa using this
  refine ⟨r1, hlev, ?_⟩
  rw [shift_seq_spec nsize hn l.length (push_raw_seq h l).1 buffer0 r2 r3
    (by rw [hlev]; simp) (by rw [r5]; exact r7), r5, ← hcs, List.take_length, r6]

/-- C5 at the ring boundary: two RAW chunks pushed into an empty queue whose positions are at
cell 63 come back in order. -/
theorem raw_chunks_fifo_witness :
    (push_raw_seq ex_queue_wrap [(some 1, [1, 2, 3]), (some 2, [4])]).1.level = 2 ∧
    (push_raw_seq ex_queue_wrap [(some 1, [1, 2, 3]), (some 2, [4])]).1.wpos = 1 ∧
    shift_seq 64 2 (push_raw_seq ex_queue_wrap [(some 1, [1, 2, 3]), (some 2, [4])]).1
        (List.replicate 64 0) =
      [(some 3, some 1, [1, 2, 3]), (some 1, some 2, [4])] :=
  have w := raw_chunks_fifo ex_queue_wrap [(some 1, [1, 2, 3]), (some 2, [4])]
    (List.replicate 64 0) 64 (by decide) (by decide) (by decide) (by decide) (by decide)
    (by decide)
  ⟨w.2.1, by decide, w.2.2⟩

/-! ## C7: sentinel chunks and the shutdown state -/

theorem sentinel_inv_push_body (h : queue_t) (d : HUDEV) (typ : packet_type_t)
    (pdata : Option (List uint8_t)) (ndata : Nat) (hr : rpos_ok h)
    (hd : ndata = 0 → d = none) (hinv : sentinel_inv h) :
    sentinel_inv (queue_push_body h d typ pdata ndata).h := by
  rcases queue_push_body_cases h d typ pdata ndata hr with
    ⟨_, he⟩ | ⟨_, i, _, he⟩ | ⟨_, _, _, he⟩ | ⟨_, _, _, he⟩
  · rw [he]; exact hinv
  · rw [he]
    intro pos
    unfold coalesced
    by_cases hp : pos = slot_at h i
    · simp only [buf_set, hp, if_true, chunk_at]
      exact hinv (slot_at h i)
    · simp only [buf_set, hp, if_false]
      exact hinv pos
  · rw [he]; exact hinv
  · rw [he]
    intro pos
    unfold enqueued
    by_cases hp : pos = h.wpos
    · simp only [buf_set, hp, if_true, new_chunk]
      exact hd
    · simp only [buf_set, hp, if_false]
      exact hinv pos

theorem sentinel_inv_push (h : queue_t) (d : HUDEV) (typ : packet_type_t)
    (pdata : Option (List uint8_t)) (ndata : Nat) (hr : rpos_ok h) (hinv : sentinel_inv h) :
    sentinel_inv (queue_push h d typ pdata ndata).h := by
  unfold queue_push
  by_cases hc : pdata = none ∨ ndata = 0 ∨ ndata > CHUNK_DATA_SIZE
  · rw [if_pos hc]
    exact sentinel_inv_push_body h none typ none 0 hr (fun _ => rfl) hinv
  · rw [if_neg hc]
    refine sentinel_inv_push_body h d typ pdata ndata hr (fun h0 => ?_) hinv
    exact absurd (Or.inr (Or.inl h0)) hc

theorem sentinel_inv_shift (h : queue_t) (hudev0 : HUDEV) (buffer0 : List uint8_t)
    (nsize : Nat) (hinv : sentinel_inv h) :
    sentinel_inv (queue_shift h hudev0 buffer0 nsize).h := by
  rcases queue_shift_cases h hudev0 buffer0 nsize with he | he | ⟨_, _, _, he⟩
  · rw [he]; exact hinv
  · rw [he]; exact hinv
  · rw [he]
    intro pos
    unfold shifted
    by_cases hp : pos = h.rpos
    · simp only [buf_set, hp, if_true, implies_true]
    · simp only [buf_set, hp, if_false]
      exact hinv pos

theorem sentinel_inv_of_reachable (h : queue_t) (hreach : Reachable h) : sentinel_inv h := by
  induction hreach with
  | opened => intro pos _; rfl
  | @push h0 hudev typ pdata ndata hprev ih =>
    exact sentinel_inv_push h0 hudev typ pdata ndata
      (ring_inv_rpos_ok h0 (ring_inv_of_reachable h0 hprev)) ih
  | shift hudev0 buffer0 nsize _ ih => exact sentinel_inv_shift _ hudev0 buffer0 nsize ih

/-- No push changes the state of the queue. -/
theorem queue_push_state (h : queue_t) (d : HUDEV) (typ : packet_type_t)
    (pdata : Option (List uint8_t)) (ndata : Nat) :
    (queue_push h d typ pdata ndata).h.state = h.state := by
  obtain ⟨d1, pdata1, ndata1, he⟩ := queue_push_eq_body h d typ pdata ndata
  rw [he]
  unfold queue_push_body
  by_cases hs : h.state ≠ 0
  · rw [if_pos hs]
  · rw [if_neg hs]
    dsimp only
    split_ifs <;> rfl

/-- A push on a queue that is not RUNNING returns 0 and changes nothing. -/
theorem queue_push_shutting_down (h : queue_t) (d : HUDEV) (typ : packet_type_t)
    (pdata : Option (List uint8_t)) (ndata : Nat) (hs : h.state ≠ 0) :
    queue_push h d typ pdata ndata = { h := h, ret := some 0, do_unblock := false } := by
  obtain ⟨d1, pdata1, ndata1, he⟩ := queue_push_eq_body h d typ pdata ndata
  rw [he]
  unfold queue_push_body
  rw [if_pos hs]

theorem ex_queue_closing_reachable : Reachable ex_queue_closing :=
  Reachable.shift _ _ _ (Reachable.shift _ _ _ (Reachable.shift _ _ _ (Reachable.shift _ _ _
    (Reachable.push _ _ _ _ ex_queue_reachable))))

/-- Claim C7 (shutdown state machine). In every reachable queue state and for all arguments:
(1) a `queue_push` with `pdata = NULL`, `ndata = 0` or `ndata > 32` acts like the push of a
sentinel, whatever device was passed: whenever it stores a chunk, that chunk has no device and
length 0 (and the tag passed), and with tag RAW on a RUNNING queue with room it does store one
and returns 0; (2) no `queue_push` changes `state`, and `queue_shift` changes `state` exactly
when the queue is RUNNING and the call takes out a sentinel chunk, the new state then being 1
(SHUTTING_DOWN); (3) when the queue is not RUNNING, `queue_push` returns 0 and leaves the queue
(level, positions, every chunk) as it is. -/
theorem shutdown_state_machine (h : queue_t) (hreach : Reachable h) (d : HUDEV)
    (typ : packet_type_t) (pdata : Option (List uint8_t)) (ndata : Nat)
    (hudev0 : HUDEV) (buffer0 : List uint8_t) (nsize : Nat) :
    (sentinel_args pdata ndata →
      queue_push h d typ pdata ndata = queue_push h none typ none 0 ∧
      ((queue_push h d typ pdata ndata).h.level = h.level + 1 →
        is_sentinel ((queue_push h d typ pdata ndata).h.buf h.wpos) ∧
        ((queue_push h d typ pdata ndata).h.buf h.wpos).typ = typ) ∧
      (running h → h.level < 64 → typ = PACKET_TYPE_RAW →
        (queue_push h d typ pdata ndata).ret = some 0 ∧
        (queue_push h d typ pdata ndata).h.level = h.level + 1)) ∧
    (queue_push h d typ pdata ndata).h.state = h.state ∧
    ((queue_shift h hudev0 buffer0 nsize).h.state ≠ h.state ↔
      running h ∧ 0 < h.level ∧ 32 ≤ nsize ∧ is_sentinel (h.buf h.rpos)) ∧
    ((queue_shift h hudev0 buffer0 nsize).h.state ≠ h.state →
      (queue_shift h hudev0 buffer0 nsize).h.state = 1 ∧
      (queue_shift h hudev0 buffer0 nsize).ret = some 0) ∧
    (¬ running h →
      queue_push h d typ pdata ndata = { h := h, ret := some 0, do_unblock := false }) := by
  have hring := ring_inv_of_reachable h hreach
  have hr := ring_inv_rpos_ok h hring
  have hsent := sentinel_inv_of_reachable h hreach
  -- the state after a shift
  have hshift : ((queue_shift h hudev0 buffer0 nsize).h.state ≠ h.state ↔
      running h ∧ 0 < h.level ∧ 32 ≤ nsize ∧ is_sentinel (h.buf h.rpos)) ∧
      ((queue_shift h hudev0 buffer0 nsize).h.state ≠ h.state →
        (queue_shift h hudev0 buffer0 nsize).h.state = 1 ∧
        (queue_shift h hudev0 buffer0 nsize).ret = some 0) := by
    unfold queue_shift running CHUNK_DATA_SIZE
    by_cases c1 : nsize = 0 ∨ nsize < 32
    · rw [if_pos c1]
      exact ⟨⟨fun hne => absurd rfl hne, fun hx => by omega⟩, fun hne => absurd rfl hne⟩
    · rw [if_neg c1]
      by_cases c2 : h.state ≠ 0
      · rw [if_pos c2]
        exact ⟨⟨fun hne => absurd rfl hne, fun hx => absurd hx.1 c2⟩, fun hne => absurd rfl hne⟩
      · rw [if_neg c2]
        have hrun : h.state = 0 := by simpa using c2
        by_cases c3 : h.level ≤ 0
        · rw [if_pos c3]
          exact ⟨⟨fun hne => absurd rfl hne, fun hx => by omega⟩, fun hne => absurd rfl hne⟩
        · rw [if_neg c3]
          dsimp only
          by_cases c4 : (h.buf h.rpos).ndata > 0
          · rw [if_pos c4]
            refine ⟨⟨fun hne => absurd rfl hne, fun hx => ?_⟩, fun hne => absurd rfl hne⟩
            have := hx.2.2.2.2
            omega
          · rw [if_neg c4]
            have h0 : (h.buf h.rpos).ndata = 0 := by omega
            rw [hrun]
            refine ⟨⟨fun _ => ⟨rfl, by omega, by omega, hsent _ h0, h0⟩, fun _ => by decide⟩,
              fun _ => ⟨rfl, by rw [h0]⟩⟩
  refine ⟨?_, queue_push_state h d typ pdata ndata, hshift.1, hshift.2,
    fun hs => queue_push_shutting_down h d typ pdata ndata hs⟩
  intro hargs
  have e1 : queue_push h d typ pdata ndata = queue_push_body h none typ none 0 := by
    unfold queue_push
    exact if_pos hargs
  have e2 : queue_push h none typ none 0 = queue_push_body h none typ none 0 := by
    unfold queue_push
    rw [if_pos (Or.inl rfl)]
  refine ⟨by rw [e1, e2], ?_, ?_⟩
  · rw [e1]
    rcases queue_push_body_cases h none typ none 0 hr with
      ⟨_, he⟩ | ⟨_, i, _, he⟩ | ⟨_, _, _, he⟩ | ⟨_, _, _, he⟩
    · rw [he]; intro hl; simp only at hl; omega
    · rw [he]; intro hl; simp only [coalesced] at hl; omega
    · rw [he]; intro hl; simp only at hl; omega
    · rw [he]
      intro _
      simp only [enqueued, buf_set, if_true, new_chunk, is_sentinel, and_self]
  · intro hrun hlt htyp
    rw [e1, htyp]
    rcases queue_push_body_cases h none PACKET_TYPE_RAW none 0 hr with
      ⟨hne, _⟩ | ⟨_, i, hi, _⟩ | ⟨_, _, hfull, _⟩ | ⟨_, _, _, he⟩
    · exact absurd hrun hne
    · exact absurd hi (by simp [coalesce_target])
    · omega
    · rw [he]
      exact ⟨rfl, rfl⟩

/-- C7 at the reachable queue `ex_queue_closing`, whose oldest chunk is the sentinel pushed by
`queue_close`: the next `queue_shift` returns 0 and moves the queue to SHUTTING_DOWN, after
which a push returns 0. -/
theorem shutdown_state_machine_witness :
    running ex_queue_closing ∧
    (queue_shift ex_queue_closing none (List.replicate 64 0) 64).h.state = 1 ∧
    (queue_shift ex_queue_closing none (List.replicate 64 0) 64).ret = some 0 ∧
    (queue_push ex_queue_closing (some 1) PACKET_TYPE_RAW none 0).h.state
      = ex_queue_closing.state :=
  have w := shutdown_state_machine ex_queue_closing ex_queue_closing_reachable (some 1)
    PACKET_TYPE_RAW none 0 none (List.replicate 64 0) 64
  ⟨by decide, (w.2.2.2.1 (w.2.2.1.mpr (by decide))).1,
    (w.2.2.2.1 (w.2.2.1.mpr (by decide))).2, w.2.1⟩

/-! ## C8: backpressure -/

theorem reachable_push_raw_seq (l : List (HUDEV × List uint8_t)) (h : queue_t)
    (hreach : Reachable h) : Reachable (push_raw_seq h l).1 := by
  induction l generalizing h with
  | nil => exact hreach
  | cons x rest ih => exact ih _ (Reachable.push _ _ _ _ hreach)

theorem ex_queue_full_sentinel_reachable : Reachable ex_queue_full_sentinel :=
  reachable_push_raw_seq _ _ (Reachable.push _ _ _ _ Reachable.opened)

theorem ex_queue_full_reachable : Reachable ex_queue_full :=
  reachable_push_raw_seq _ _ Reachable.opened

set_option maxRecDepth 100000 in
/-- Claim C8, counterexample. (a) `ex_queue_full_sentinel` is RUNNING with `level = 64`; a RAW
push of one byte blocks, but the one `queue_shift` that follows takes out a sentinel, so the
retried push is rejected: it returns 0 and `level` stays 63. (b) `ex_queue_full` is RUNNING with
`level = 64`; a RAW push with `ndata = 33` blocks and is accepted after one `queue_shift`, but it
returns 0, not 33. -/
theorem backpressure_counterexample :
    (Reachable ex_queue_full_sentinel ∧
     running ex_queue_full_sentinel ∧ ex_queue_full_sentinel.level = 64 ∧
     (queue_push ex_queue_full_sentinel (some 1) PACKET_TYPE_RAW (some [9]) 1).ret = none ∧
     (retried_push ex_queue_full_sentinel (some 1) PACKET_TYPE_RAW (some [9]) 1
        none (List.replicate 64 0) 64).ret = some 0 ∧
     (retried_push ex_queue_full_sentinel (some 1) PACKET_TYPE_RAW (some [9]) 1
        none (List.replicate 64 0) 64).h.level = 63) ∧
    (Reachable ex_queue_full ∧ running ex_queue_full ∧ ex_queue_full.level = 64 ∧
     (queue_push ex_queue_full (some 1) PACKET_TYPE_RAW (some (payload32 9 ++ [9])) 33).ret
        = none ∧
     (retried_push ex_queue_full (some 1) PACKET_TYPE_RAW (some (payload32 9 ++ [9])) 33
        none (List.replicate 64 0) 64).ret = some 0 ∧
     (retried_push ex_queue_full (some 1) PACKET_TYPE_RAW (some (payload32 9 ++ [9])) 33
        none (List.replicate 64 0) 64).h.level = 64) := by
  refine ⟨⟨ex_queue_full_sentinel_reachable, ?_, ?_, ?_, ?_, ?_⟩,
    ⟨ex_queue_full_reachable, ?_, ?_, ?_, ?_, ?_⟩⟩ <;> decide

/-- A push that has no chunk to coalesce with has none after a `queue_shift` either. -/
theorem no_target_shifted (h : queue_t) (d : HUDEV) (typ : packet_type_t) (hinv : ring_inv h)
    (hpos : 0 < h.level) (hno : ∀ i, ¬ coalesce_target h d typ i) :
    ∀ i, ¬ coalesce_target (shifted h) d typ i := by
  have hl : (shifted h).level.toNat = h.level.toNat - 1 := by
    show (h.level - 1).toNat = _
    omega
  intro i hi
  cases typ with
  | PACKET_TYPE_PBA =>
    have hi' : pba_candidate (shifted h) d i := hi
    obtain ⟨h1, h2, _⟩ := hi'
    rw [hl] at h1
    rw [chunk_at_shifted h hinv i (by omega)] at h2
    obtain ⟨j, hj⟩ := pba_candidate_of_pba h d (i + 1) (by omega) h2
    exact hno j hj
  | PACKET_TYPE_SBA =>
    have hi' : sba_candidate (shifted h) d i := hi
    obtain ⟨h1, h2, h3⟩ := hi'
    rw [hl] at h1 h3
    rw [chunk_at_shifted h hinv i (by omega)] at h2
    refine hno (i + 1) ⟨by omega, h2, ?_⟩
    intro k hk hik
    have := h3 (k - 1) (by omega) (by omega)
    rw [chunk_at_shifted h hinv (k - 1) (by omega)] at this
    have hk1 : k - 1 + 1 = k := by omega
    rwa [hk1] at this
  | PACKET_TYPE_RAW => exact hi

/-- Claim C8, amended (backpressure). For every RUNNING queue that satisfies the ring invariant,
has `level = 64` and whose oldest chunk is not a sentinel, and every push of 1 to 32 bytes that
has no chunk to coalesce with (any RAW push; a PBA or SBA push without target): the push does
not return, it sets `wblocked` and waits, leaving `level`, `rpos`, `wpos`, `state` and every
chunk unchanged; the next `queue_shift` takes one chunk out (`level = 63`) and signals the
blocked writer; the retried push is then accepted: it returns `n`, `level` is 64 again and the
chunk `(d, tag, n)` is stored at `wpos`. -/
theorem backpressure (h : queue_t) (d : HUDEV) (typ : packet_type_t) (p : List uint8_t)
    (n : Nat) (hudev0 : HUDEV) (buffer0 : List uint8_t) (nsize : Nat)
    (hinv : ring_inv h) (hrun : running h) (hfull : h.level = 64)
    (hn1 : 1 ≤ n) (hn2 : n ≤ 32) (hno : ∀ i, ¬ coalesce_target h d typ i)
    (hsize : 32 ≤ nsize) (hhead : 0 < (h.buf h.rpos).ndata) :
    queue_push h d typ (some p) n =
      { h := { h with wblocked := true }, ret := none, do_unblock := false } ∧
    ((after_blocked_push_and_shift h d typ (some p) n hudev0 buffer0 nsize).ret
        = some (h.buf h.rpos).ndata ∧
     (after_blocked_push_and_shift h d typ (some p) n hudev0 buffer0 nsize).do_unblock = true ∧
     (after_blocked_push_and_shift h d typ (some p) n hudev0 buffer0 nsize).h.level = 63 ∧
     (after_blocked_push_and_shift h d typ (some p) n hudev0 buffer0 nsize).h.state = 0) ∧
    ((retried_push h d typ (some p) n hudev0 buffer0 nsize).ret = some n ∧
     (retried_push h d typ (some p) n hudev0 buffer0 nsize).h.level = 64 ∧
     ((retried_push h d typ (some p) n hudev0 buffer0 nsize).h.buf h.wpos).hudev = d ∧
     ((retried_push h d typ (some p) n hudev0 buffer0 nsize).h.buf h.wpos).typ = typ ∧
     ((retried_push h d typ (some p) n hudev0 buffer0 nsize).h.buf h.wpos).ndata = n) := by
  have hr := ring_inv_rpos_ok h hinv
  -- the push blocks
  have e1 : queue_push h d typ (some p) n =
      { h := { h with wblocked := true }, ret := none, do_unblock := false } := by
    rw [queue_push_regular h d typ p n (by omega) hn2]
    rcases queue_push_body_cases h d typ (some p) n hr with
      ⟨hne, _⟩ | ⟨_, i, hi, _⟩ | ⟨_, _, _, he⟩ | ⟨_, _, hlt, _⟩
    · exact absurd hrun hne
    · exact absurd hi (hno i)
    · exact he
    · omega
  -- the shift takes the oldest chunk out
  have hinv1 : ring_inv { h with wblocked := true } := hinv
  have e2 : queue_shift { h with wblocked := true } hudev0 buffer0 nsize =
      { h := shifted { h with wblocked := true }, ret := some (h.buf h.rpos).ndata,
        hudev := (h.buf h.rpos).hudev,
        buffer := if (h.buf h.rpos).ndata > 0
          then memcpy buffer0 (h.buf h.rpos).data (h.buf h.rpos).ndata else buffer0,
        do_unblock := true, set_eevent := false } := by
    unfold queue_shift CHUNK_DATA_SIZE
    rw [if_neg (by omega), if_neg (by simpa using hrun), if_neg (by simp only; omega)]
    rfl
  have hinv2 : ring_inv (shifted { h with wblocked := true }) := by
    have := ring_inv_shift { h with wblocked := true } hudev0 buffer0 nsize hinv1
    rwa [e2] at this
  have hrun2 : (shifted { h with wblocked := true }).state = 0 := by
    show (if (h.buf h.rpos).ndata > 0 then h.state else 1) = 0
    rw [if_pos hhead]
    exact hrun
  have hlev2 : (shifted { h with wblocked := true }).level = 63 := by
    show h.level - 1 = 63
    omega
  have hno2 := no_target_shifted { h with wblocked := true } d typ hinv1
    (by show 0 < h.level; omega) hno
  -- the retried push stores its chunk
  have e3 := queue_push_enqueues (shifted { h with wblocked := true }) d typ p n (by omega) hn2
    (ring_inv_rpos_ok _ hinv2) hrun2 (by omega) hno2
  unfold retried_push after_blocked_push_and_shift
  rw [e1]
  simp only [e2, e3]
  refine ⟨trivial, ⟨trivial, trivial, hlev2, hrun2⟩, trivial, ?_, ?_⟩
  · show h.level - 1 + 1 = 64
    omega
  · simp only [enqueued, shifted, buf_set, if_true, new_chunk, and_self]

/-- C8, amended, at the full queue `ex_queue_full` of 64 RAW chunks: a further RAW push blocks,
and is accepted after one `queue_shift`. -/
theorem backpressure_witness :
    (queue_push ex_queue_full (some 2) PACKET_TYPE_RAW (some [9]) 1).ret = none ∧
    (after_blocked_push_and_shift ex_queue_full (some 2) PACKET_TYPE_RAW (some [9]) 1
      none (List.replicate 64 0) 64).h.level = 63 ∧
    (retried_push ex_queue_full (some 2) PACKET_TYPE_RAW (some [9]) 1
      none (List.replicate 64 0) 64).ret = some 1 ∧
    (retried_push ex_queue_full (some 2) PACKET_TYPE_RAW (some [9]) 1
      none (List.replicate 64 0) 64).h.level = 64 :=
  have w := backpressure ex_queue_full (some 2) PACKET_TYPE_RAW [9] 1 none
    (List.replicate 64 0) 64
    (by set_option maxRecDepth 100000 in decide)
    (by set_option maxRecDepth 100000 in decide)
    (by set_option maxRecDepth 100000 in decide)
    (by decide) (by decide) (fun _ hi => hi) (by decide)
    (by set_option maxRecDepth 100000 in decide)
  ⟨by rw [w.1], w.2.1.2.2.1, w.2.2.1, w.2.2.2.1⟩

/-! ## The client's device list as a list of handles -/

theorem lwz_add_found_iff (l : LWZDEVICELIST) (x : Int) (n : Nat) (j : Int) :
    lwz_add_found l x n j = true ↔ ∃ k, k < n ∧ l.handles (j + (k : Int)) = x := by
  induction n generalizing j with
  | zero => simp [lwz_add_found]
  | succ n ih =>
    unfold lwz_add_found
    by_cases h0 : l.handles j = x
    · simp only [h0, if_true, true_iff]
      exact ⟨0, Nat.succ_pos n, by simpa using h0⟩
    · simp only [h0, if_false]
      rw [ih]
      constructor
      · rintro ⟨k, hk, he⟩
        exact ⟨k + 1, by omega, by rw [← he]; congr 1; push_cast; omega⟩
      · rintro ⟨k, hk, he⟩
        cases k with
        | zero => exact absurd (by simpa using he) h0
        | succ k => exact ⟨k, by omega, by rw [← he]; congr 1; push_cast; omega⟩

theorem mem_list_view (l : LWZDEVICELIST) (x : Int) :
    x ∈ list_view l ↔ ∃ k, k < l.numdevices.toNat ∧ l.handles (k : Int) = x := by
  unfold list_view
  simp only [List.mem_map, List.mem_range]

theorem lwz_add_found_eq (l : LWZDEVICELIST) (x : Int) :
    lwz_add_found l x l.numdevices.toNat 0 = true ↔ x ∈ list_view l := by
  rw [lwz_add_found_iff, mem_list_view]
  simp only [zero_add]

/-- Appending at index `numdevices`. -/
theorem list_view_append (l : LWZDEVICELIST) (x : Int) (h0 : 0 ≤ l.numdevices) :
    list_view { handles := arr_set l.handles l.numdevices x, numdevices := l.numdevices + 1 } =
      list_view l ++ [x] := by
  unfold list_view
  have hn : (l.numdevices + 1).toNat = l.numdevices.toNat + 1 := by omega
  simp only [hn, List.range_succ, List.map_append, List.map_singleton]
  congr 1
  · apply List.map_congr_left
    intro k hk
    have hk' := List.mem_range.mp hk
    have hne : (k : Int) ≠ l.numdevices := by omega
    simp only [arr_set, hne, if_false]
  · have he : ((l.numdevices.toNat : Nat) : Int) = l.numdevices := by omega
    simp only [arr_set, he, if_true]

/-- One iteration of the first loop of `lwz_add`, on the list of handles. -/
theorem list_view_add_one (l : LWZDEVICELIST) (indx : Int) (h0 : 0 ≤ l.numdevices) :
    list_view (lwz_add_one l indx) =
      if indx + 1 ∈ list_view l ∨ ¬ l.numdevices < 16 then list_view l
      else list_view l ++ [indx + 1] := by
  unfold lwz_add_one LWZ_MAX_DEVICES
  by_cases hf : indx + 1 ∈ list_view l
  · have : lwz_add_found l (indx + 1) l.numdevices.toNat 0 = true :=
      (lwz_add_found_eq l (indx + 1)).mpr hf
    simp only [this, not_true_eq_false, false_and, if_false, hf, true_or, if_true]
  · have : ¬ lwz_add_found l (indx + 1) l.numdevices.toNat 0 = true :=
      fun hx => hf ((lwz_add_found_eq l (indx + 1)).mp hx)
    by_cases hroom : l.numdevices < 16
    · simp only [this, not_false_eq_true, hroom, and_self, if_true, hf, not_true_eq_false,
        or_self, if_false]
      exact list_view_append l (indx + 1) h0
    · simp only [this, not_false_eq_true, hroom, and_false, if_false, hf, or_true, if_true]

theorem numdevices_add_one (l : LWZDEVICELIST) (indx : Int) :
    l.numdevices ≤ (lwz_add_one l indx).numdevices ∧
    (lwz_add_one l indx).numdevices ≤ max l.numdevices 16 := by
  unfold lwz_add_one LWZ_MAX_DEVICES
  dsimp only
  split_ifs with hc
  · simp only
    omega
  · omega

theorem numdevices_add_list (devs : List Int) (l : LWZDEVICELIST) :
    l.numdevices ≤ (lwz_add_list l devs).numdevices ∧
    (lwz_add_list l devs).numdevices ≤ max l.numdevices 16 := by
  induction devs generalizing l with
  | nil => exact ⟨le_refl _, le_max_left _ _⟩
  | cons indx rest ih =>
    have h1 := numdevices_add_one l indx
    have h2 := ih (lwz_add_one l indx)
    unfold lwz_add_list
    omega

theorem mem_list_view_add_one (l : LWZDEVICELIST) (indx : Int) (h0 : 0 ≤ l.numdevices)
    (x : Int) (hx : x ∈ list_view l) : x ∈ list_view (lwz_add_one l indx) := by
  rw [list_view_add_one l indx h0]
  split_ifs
  · exact hx
  · exact List.mem_append_left _ hx

theorem mem_list_view_add_list (devs : List Int) (l : LWZDEVICELIST) (h0 : 0 ≤ l.numdevices)
    (x : Int) (hx : x ∈ list_view l) : x ∈ list_view (lwz_add_list l devs) := by
  induction devs generalizing l with
  | nil => exact hx
  | cons indx rest ih =>
    unfold lwz_add_list
    exact ih (lwz_add_one l indx) (by have := (numdevices_add_one l indx).1; omega)
      (mem_list_view_add_one l indx h0 x hx)

/-! ## C9: lwz_add updates the list before it runs any callback -/

theorem lwz_add_list_append (a b : List Int) (l : LWZDEVICELIST) :
    lwz_add_list l (a ++ b) = lwz_add_list (lwz_add_list l a) b := by
  induction a generalizing l with
  | nil => rfl
  | cons x a ih => exact ih (lwz_add_one l x)

theorem lwz_notify_callback_seen (h : lwz_context_t) (reason : Int) (hlwz : Int) :
    ∀ e ∈ lwz_notify_callback h reason hlwz, e.list_seen = h.plist := by
  intro e he
  unfold lwz_notify_callback at he
  rcases List.mem_append.mp he with h1 | h1
  · cases hn : h.cb.notify with
    | none => rw [hn] at h1; exact absurd h1 (List.not_mem_nil e)
    | some f =>
      rw [hn] at h1
      rw [List.mem_singleton.mp h1]
  · cases hn : h.cb.notify_ex with
    | none => rw [hn] at h1; exact absurd h1 (List.not_mem_nil e)
    | some g =>
      rw [hn] at h1
      rw [List.mem_singleton.mp h1]

theorem lwz_notify_callback_calls (h : lwz_context_t) (reason : Int) (hlwz : Int) :
    (lwz_notify_callback h reason hlwz).map (fun e => e.call) =
      callback_calls h.cb reason hlwz := by
  unfold lwz_notify_callback callback_calls
  cases h.cb.notify <;> cases h.cb.notify_ex <;> rfl

theorem lwz_add_notify_seen (h : lwz_context_t) (devs : List Int) :
    ∀ e ∈ lwz_add_notify h devs, e.list_seen = h.plist := by
  induction devs with
  | nil => intro e he; exact absurd he (List.not_mem_nil e)
  | cons indx rest ih =>
    intro e he
    unfold lwz_add_notify at he
    rcases List.mem_append.mp he with h1 | h1
    · exact lwz_notify_callback_seen h _ _ e h1
    · exact ih e h1

theorem lwz_add_notify_calls (h : lwz_context_t) (devs : List Int) :
    (lwz_add_notify h devs).map (fun e => e.call) = add_calls h.cb devs := by
  induction devs with
  | nil => rfl
  | cons indx rest ih =>
    unfold lwz_add_notify add_calls
    rw [List.map_append, ih, lwz_notify_callback_calls]

/-- What `lwz_add` yields when the client list is not `NULL`. -/
theorem lwz_add_some (h : lwz_context_t) (l : LWZDEVICELIST) (devs : List Int)
    (hl : h.plist = some l) :
    lwz_add h devs =
      { h := { h with plist := some (lwz_add_list l devs) },
        events := lwz_add_notify { h with plist := some (lwz_add_list l devs) } devs } := by
  unfold lwz_add
  simp only [hl]

/-- Claim C9 (add batching). For every context with a non-null client list and every batch of
new slots: every callback invocation `lwz_add` makes, the first included, sees the client list
in its final state, and that list contains the handle `slot + 1` of every batch member for
which there was room when the first loop reached it; the invocations are, for every batch entry
in batch order, one `ADD` call of each registered callback with the handle `slot + 1`. -/
theorem lwz_add_batching (h : lwz_context_t) (l : LWZDEVICELIST) (devs : List Int)
    (hl : h.plist = some l) (h0 : 0 ≤ l.numdevices) :
    (∀ e ∈ (lwz_add h devs).events,
      e.list_seen = (lwz_add h devs).h.plist ∧
      ∃ l', e.list_seen = some l' ∧
        ∀ pre indx post, devs = pre ++ indx :: post →
          (lwz_add_list l pre).numdevices < LWZ_MAX_DEVICES → indx + 1 ∈ list_view l') ∧
    (lwz_add h devs).events.map (fun e => e.call) = add_calls h.cb devs := by
  rw [lwz_add_some h l devs hl]
  constructor
  · intro e he
    have hseen := lwz_add_notify_seen _ devs e he
    refine ⟨hseen, lwz_add_list l devs, hseen, ?_⟩
    intro pre indx post hsplit hroom
    have hpre0 : 0 ≤ (lwz_add_list l pre).numdevices := by
      have := (numdevices_add_list pre l).1
      omega
    have hone : indx + 1 ∈ list_view (lwz_add_one (lwz_add_list l pre) indx) := by
      rw [list_view_add_one _ indx hpre0]
      unfold LWZ_MAX_DEVICES at hroom
      by_cases hin : indx + 1 ∈ list_view (lwz_add_list l pre)
      · rw [if_pos (Or.inl hin)]
        exact hin
      · rw [if_neg (by simp only [hin, false_or, not_not]; exact hroom)]
        exact List.mem_append_right _ (List.mem_singleton.mpr rfl)
    rw [hsplit, lwz_add_list_append]
    show indx + 1 ∈ list_view (lwz_add_list (lwz_add_one (lwz_add_list l pre) indx) post)
    exact mem_list_view_add_list post _
      (by have := (numdevices_add_one (lwz_add_list l pre) indx).1; omega) _ hone
  · exact lwz_add_notify_calls _ devs

/-- C9 for a batch of two slots added to an empty list with the simple callback registered:
both callback invocations see both handles in the list. -/
theorem lwz_add_batching_witness :
    (lwz_add ex_context [2, 5]).events.map (fun e => e.call) =
      [cb_call.notify 7 1 3, cb_call.notify 7 1 6] ∧
    ∀ e ∈ (lwz_add ex_context [2, 5]).events,
      ∃ l', e.list_seen = some l' ∧ 3 ∈ list_view l' ∧ 6 ∈ list_view l' :=
  have w := lwz_add_batching ex_context LWZDEVICELIST_zero [2, 5] rfl (by decide)
  ⟨w.2, fun e he =>
    match (w.1 e he).2 with
    | ⟨l', h1, h2⟩ =>
      ⟨l', h1, h2 [] 2 [5] rfl (by decide), h2 [2] 5 [] rfl (by decide)⟩⟩

/-! ## lwz_remove on the list of handles -/

theorem mem_list_view_iff (l : LWZDEVICELIST) (x : Int) :
    x ∈ list_view l ↔ handle_in l x := by
  rw [mem_list_view]
  unfold handle_in
  constructor
  · rintro ⟨k, hk, he⟩
    exact ⟨(k : Int), by omega, by omega, he⟩
  · rintro ⟨k, h0, hk, he⟩
    refine ⟨k.toNat, by omega, ?_⟩
    have : ((k.toNat : Nat) : Int) = k := by omega
    rw [this]
    exact he

theorem nodup_list_view_iff (l : LWZDEVICELIST) :
    (list_view l).Nodup ↔ handles_inj l := by
  unfold list_view handles_inj
  rw [List.nodup_map_iff_inj_on (List.nodup_range _)]
  constructor
  · intro hinj j k hj0 hj hk0 hk he
    have hj' : ((j.toNat : Nat) : Int) = j := by omega
    have hk' : ((k.toNat : Nat) : Int) = k := by omega
    have := hinj j.toNat (List.mem_range.mpr (by omega)) k.toNat (List.mem_range.mpr (by omega))
      (by rw [hj', hk']; exact he)
    omega
  · intro hinj a ha b hb he
    have ha' := List.mem_range.mp ha
    have hb' := List.mem_range.mp hb
    have := hinj (a : Int) (b : Int) (by omega) (by omega) (by omega) (by omega) he
    omega

/-- The loop of `lwz_remove`, started at index `i` with enough iterations left on a list
without duplicates whose entries before `i` differ from `x`: the result has no duplicates and
holds the same handles except `x`. -/
theorem lwz_remove_loop_spec (x : Int) (fuel : Nat) (i : Int) (l : LWZDEVICELIST)
    (hi : 0 ≤ i) (hfuel : l.numdevices ≤ i + (fuel : Int)) (hinj : handles_inj l)
    (hscan : ∀ k, 0 ≤ k → k < i → k < l.numdevices → l.handles k ≠ x) :
    handles_inj (lwz_remove_loop x fuel i l) ∧
    (∀ y : Int, handle_in (lwz_remove_loop x fuel i l) y ↔ handle_in l y ∧ y ≠ x) ∧
    (lwz_remove_loop x fuel i l).numdevices ≤ l.numdevices ∧
    (0 ≤ l.numdevices → 0 ≤ (lwz_remove_loop x fuel i l).numdevices) := by
  -- when the scan has passed the end, the list does not hold `x`
  have hdone : l.numdevices ≤ i → ∀ y : Int, handle_in l y ↔ handle_in l y ∧ y ≠ x := by
    intro hle y
    constructor
    · rintro ⟨k, h0, hk, he⟩
      exact ⟨⟨k, h0, hk, he⟩, by rw [← he]; exact hscan k h0 (by omega) hk⟩
    · exact fun hy => hy.1
  induction fuel generalizing i l with
  | zero =>
    unfold lwz_remove_loop
    exact ⟨hinj, hdone (by omega), le_refl _, fun h0 => h0⟩
  | succ fuel ih =>
    unfold lwz_remove_loop
    by_cases hlt : i < l.numdevices
    swap
    · rw [if_neg hlt]
      exact ⟨hinj, hdone (by omega), le_refl _, fun h0 => h0⟩
    rw [if_pos hlt]
    by_cases hne : l.handles i ≠ x
    · rw [if_pos hne]
      apply ih (i + 1) l (by omega) (by push_cast at hfuel; omega) hinj
      · intro k h0 hk hkn
        by_cases hki : k = i
        · rw [hki]; exact hne
        · exact hscan k h0 (by omega) hkn
      · intro hle y
        constructor
        · rintro ⟨k, h0, hk, he⟩
          refine ⟨⟨k, h0, hk, he⟩, ?_⟩
          rw [← he]
          by_cases hki : k = i
          · rw [hki]; exact hne
          · exact hscan k h0 (by omega) hk
        · exact fun hy => hy.1
    · rw [if_neg hne]
      have hx : l.handles i = x := by
        by_contra hc
        exact hne hc
      dsimp only
      -- the list after the swap with the last entry
      generalize hl2 : ({ handles := (arr_set (arr_set l.handles i (l.handles (l.numdevices - 1)))
          (l.numdevices - 1) 0), numdevices := l.numdevices - 1 } : LWZDEVICELIST) = l2
      have hn2 : l2.numdevices = l.numdevices - 1 := by rw [← hl2]
      have hval : ∀ k, k < l.numdevices - 1 →
          l2.handles k = if k = i then l.handles (l.numdevices - 1) else l.handles k := by
        intro k hk
        rw [← hl2]
        have hk1 : k ≠ l.numdevices - 1 := by omega
        simp only [arr_set, hk1, if_false]
      have hlast : i < l.numdevices - 1 → l.handles (l.numdevices - 1) ≠ x := by
        intro hil he
        have := hinj (l.numdevices - 1) i (by omega) (by omega) hi hlt (by rw [he, hx])
        omega
      have hinj2 : handles_inj l2 := by
        intro j k hj0 hj hk0 hk he
        rw [hn2] at hj hk
        rw [hval j hj, hval k hk] at he
        by_cases hji : j = i
        · by_cases hki : k = i
          · omega
          · rw [if_pos hji, if_neg hki] at he
            have := hinj (l.numdevices - 1) k (by omega) (by omega) hk0 (by omega) he
            omega
        · by_cases hki : k = i
          · rw [if_neg hji, if_pos hki] at he
            have := hinj j (l.numdevices - 1) hj0 (by omega) (by omega) (by omega) he
            omega
          · rw [if_neg hji, if_neg hki] at he
            exact hinj j k hj0 (by omega) hk0 (by omega) he
      have hmem2 : ∀ y : Int, handle_in l2 y ↔ handle_in l y ∧ y ≠ x := by
        intro y
        constructor
        · rintro ⟨k, h0, hk, he⟩
          rw [hn2] at hk
          rw [hval k hk] at he
          by_cases hki : k = i
          · rw [if_pos hki] at he
            exact ⟨⟨l.numdevices - 1, by omega, by omega, he⟩,
              by rw [← he]; exact hlast (by omega)⟩
          · rw [if_neg hki] at he
            refine ⟨⟨k, h0, by omega, he⟩, ?_⟩
            intro hyx
            have := hinj k i h0 (by omega) hi hlt (by rw [he, hyx, hx])
            exact hki this
        · rintro ⟨⟨k, h0, hk, he⟩, hyx⟩
          have hki : k ≠ i := by
            intro hc
            rw [hc, hx] at he
            exact hyx he.symm
          by_cases hkl : k = l.numdevices - 1
          · refine ⟨i, hi, by rw [hn2]; omega, ?_⟩
            rw [hval i (by omega), if_pos rfl, ← hkl]
            exact he
          · refine ⟨k, h0, by rw [hn2]; omega, ?_⟩
            rw [hval k (by omega), if_neg hki]
            exact he
      have hscan2 : ∀ k, 0 ≤ k → k < i + 1 → k < l2.numdevices → l2.handles k ≠ x := by
        intro k h0 hk hkn
        rw [hn2] at hkn
        rw [hval k hkn]
        by_cases hki : k = i
        · rw [if_pos hki]
          exact hlast (by omega)
        · rw [if_neg hki]
          exact hscan k h0 (by omega) (by omega)
      have hdone2 : l2.numdevices ≤ i + 1 → ∀ y : Int, handle_in l2 y ↔ handle_in l2 y ∧ y ≠ x := by
        intro hle y
        constructor
        · rintro ⟨k, h0, hk, he⟩
          exact ⟨⟨k, h0, hk, he⟩, by rw [← he]; exact hscan2 k h0 (by omega) hk⟩
        · exact fun hy => hy.1
      obtain ⟨r1, r2, r3, r4⟩ := ih (i + 1) l2 (by omega)
        (by rw [hn2]; push_cast at hfuel; omega) hinj2 hscan2 hdone2
      refine ⟨r1, ?_, by rw [hn2] at r3; omega, fun h0 => r4 (by rw [hn2]; omega)⟩
      intro y
      rw [r2 y, hmem2 y]
      constructor
      · exact fun hy => hy.1
      · exact fun hy => ⟨hy, hy.2⟩

/-! ## The client list never holds a handle twice -/

theorem list_view_length (l : LWZDEVICELIST) : (list_view l).length = l.numdevices.toNat := by
  unfold list_view
  simp

theorem list_ok_zero : list_ok LWZDEVICELIST_zero := by
  refine ⟨by decide, by decide, ?_⟩
  show (list_view LWZDEVICELIST_zero).Nodup
  exact List.nodup_nil

theorem list_ok_add_one (l : LWZDEVICELIST) (indx : Int) (hok : list_ok l) :
    list_ok (lwz_add_one l indx) := by
  obtain ⟨h0, h16, hnd⟩ := hok
  have hn := numdevices_add_one l indx
  unfold LWZ_MAX_DEVICES at h16
  refine ⟨by omega, by unfold LWZ_MAX_DEVICES; omega, ?_⟩
  rw [list_view_add_one l indx h0]
  split_ifs with hc
  · exact hnd
  · simp only [not_or, not_not] at hc
    exact List.Nodup.append hnd (List.nodup_singleton _)
      (by
        intro a ha hb
        rw [List.mem_singleton.mp hb] at ha
        exact hc.1 ha)

theorem list_ok_add_list (devs : List Int) (l : LWZDEVICELIST) (hok : list_ok l) :
    list_ok (lwz_add_list l devs) := by
  induction devs generalizing l with
  | nil => exact hok
  | cons indx rest ih => exact ih (lwz_add_one l indx) (list_ok_add_one l indx hok)

/-- What `lwz_remove` does to a list without duplicates: the handle is gone, the others stay,
nothing is listed twice. -/
theorem lwz_remove_loop_view (x : Int) (l : LWZDEVICELIST) (h0 : 0 ≤ l.numdevices)
    (hnd : (list_view l).Nodup) :
    (list_view (lwz_remove_loop x l.numdevices.toNat 0 l)).Nodup ∧
    (∀ y : Int, y ∈ list_view (lwz_remove_loop x l.numdevices.toNat 0 l) ↔
      y ∈ list_view l ∧ y ≠ x) ∧
    0 ≤ (lwz_remove_loop x l.numdevices.toNat 0 l).numdevices ∧
    (lwz_remove_loop x l.numdevices.toNat 0 l).numdevices ≤ l.numdevices := by
  obtain ⟨r1, r2, r3, r4⟩ := lwz_remove_loop_spec x l.numdevices.toNat 0 l (le_refl _)
    (by omega) ((nodup_list_view_iff l).mp hnd) (fun k hk0 hk _ => by omega)
  refine ⟨(nodup_list_view_iff _).mpr r1, ?_, r4 h0, r3⟩
  intro y
  rw [mem_list_view_iff, mem_list_view_iff]
  exact r2 y

/-- The property that the client list, when there is one, is well formed. -/
theorem list_ok_remove (h : lwz_context_t) (indx : Int)
    (hok : ∀ l, h.plist = some l → list_ok l) :
    ∀ l, (lwz_remove h indx).h.plist = some l → list_ok l := by
  intro l' hl'
  unfold lwz_remove at hl'
  cases hp : h.plist with
  | none =>
    simp only [hp] at hl'
    exact absurd hl' (by simp)
  | some l =>
    simp only [hp, Option.some.injEq] at hl'
    obtain ⟨h0, h16, hnd⟩ := hok l hp
    obtain ⟨r1, _, r3, r4⟩ := lwz_remove_loop_view (indx + 1) l h0 hnd
    rw [← hl']
    exact ⟨r3, by omega, r1⟩

theorem lwz_remove_devices (h : lwz_context_t) (indx : Int) :
    (lwz_remove h indx).h.devices = h.devices := by
  unfold lwz_remove
  cases h.plist <;> rfl

theorem list_ok_detached_loop (reopen_fails : Int → Bool) (n : Nat) (i : Int)
    (h : lwz_context_t) (ev : List cb_event) (hok : ∀ l, h.plist = some l → list_ok l) :
    ∀ l, (lwz_refreshlist_detached_loop reopen_fails n i h ev).h.plist = some l → list_ok l := by
  induction n generalizing i h ev with
  | zero => exact hok
  | succ n ih =>
    unfold lwz_refreshlist_detached_loop
    split_ifs with c1 c2
    · exact ih _ _ _ (list_ok_remove _ i hok)
    · exact ih _ _ _ hok
    · exact ih _ _ _ hok

theorem list_ok_add (h : lwz_context_t) (devs : List Int)
    (hok : ∀ l, h.plist = some l → list_ok l) :
    ∀ l, (lwz_add h devs).h.plist = some l → list_ok l := by
  intro l' hl'
  cases hp : h.plist with
  | none =>
    unfold lwz_add at hl'
    simp only [hp] at hl'
    exact absurd hl' (by simp)
  | some l =>
    rw [lwz_add_some h l devs hp] at hl'
    simp only [Option.some.injEq] at hl'
    rw [← hl']
    exact list_ok_add_list devs l (hok l hp)

theorem list_ok_attached (h : lwz_context_t) (enumeration : Option (List hid_interface))
    (hok : ∀ l, h.plist = some l → list_ok l) :
    ∀ l, (lwz_refreshlist_attached h enumeration).h.plist = some l → list_ok l := by
  unfold lwz_refreshlist_attached
  cases enumeration with
  | none => exact hok
  | some es => exact list_ok_add _ _ hok

theorem list_ok_map_zero (plist : Option LWZDEVICELIST) :
    ∀ l, plist.map (fun _ => LWZDEVICELIST_zero) = some l → list_ok l := by
  intro l hl
  cases plist with
  | none => exact absurd hl (by simp)
  | some l0 =>
    simp only [Option.map_some', Option.some.injEq] at hl
    rw [← hl]
    exact list_ok_zero

theorem list_ok_of_reachable (h : lwz_context_t) (hreach : RegReachable h) :
    ∀ l, h.plist = some l → list_ok l := by
  induction hreach with
  | set_notify h0 cb plist enumeration =>
    exact list_ok_attached _ enumeration (list_ok_map_zero plist)
  | set_notify_ex h0 cb puser plist enumeration =>
    exact list_ok_attached _ enumeration (list_ok_map_zero plist)
  | attached enumeration _ ih => exact list_ok_attached _ enumeration ih
  | detached reopen_fails _ ih => exact list_ok_detached_loop reopen_fails 16 0 _ [] ih
  | free_all _ ih => exact ih

/-! ## The client list names exactly the occupied slots -/

/-- A list of different numbers from a window of 16 that misses one number of the window has
fewer than 16 entries. -/
theorem length_lt_of_fresh (a : Int) (v : List Int) (y : Int) (hnd : v.Nodup)
    (hr : ∀ x ∈ v, a ≤ x ∧ x < a + 16) (hy : y ∉ v) (hyr : a ≤ y ∧ y < a + 16) :
    v.length < 16 := by
  have hnd' : (y :: v).Nodup := List.nodup_cons.mpr ⟨hy, hnd⟩
  have hsub : (y :: v) ⊆ (List.range 16).map (fun (k : Nat) => a + (k : Int)) := by
    intro x hx
    have hxr : a ≤ x ∧ x < a + 16 := by
      rcases List.mem_cons.mp hx with h1 | h1
      · rw [h1]; exact hyr
      · exact hr x h1
    exact List.mem_map.mpr ⟨(x - a).toNat, List.mem_range.mpr (by omega), by omega⟩
  have hlen := (List.subperm_of_subset hnd' hsub).length_le
  simp only [List.length_cons, List.length_map, List.length_range] at hlen
  omega

theorem lwz_freelist_step (devices : Int → lwz_device_t) (i s : Int) :
    slot_used (if (devices i).hudev ≠ none
      then arr_set devices i { (devices i) with hudev := none } else devices) s ↔
      slot_used devices s ∧ s ≠ i := by
  unfold slot_used
  by_cases hu : (devices i).hudev ≠ none
  · rw [if_pos hu]
    by_cases hsi : s = i
    · simp only [arr_set, hsi, if_true, ne_eq, not_true_eq_false, and_false]
    · simp only [arr_set, hsi, if_false, ne_eq, not_false_eq_true, and_true]
  · rw [if_neg hu]
    constructor
    · intro hx
      refine ⟨hx, fun hsi => ?_⟩
      rw [hsi] at hx
      exact hu hx
    · exact fun hx => hx.1

theorem lwz_freelist_loop_spec (n : Nat) (i : Int) (devices : Int → lwz_device_t) (s : Int) :
    slot_used (lwz_freelist_loop n i devices) s ↔
      slot_used devices s ∧ ¬ (i ≤ s ∧ s < i + (n : Int)) := by
  induction n generalizing i devices with
  | zero =>
    unfold lwz_freelist_loop
    constructor
    · exact fun hu => ⟨hu, by push_cast; omega⟩
    · exact fun hu => hu.1
  | succ n ih =>
    unfold lwz_freelist_loop
    rw [ih, lwz_freelist_step]
    push_cast
    constructor
    · exact fun hx => ⟨hx.1.1, by have := hx.1.2; have := hx.2; omega⟩
    · exact fun hx => ⟨⟨hx.1, by have := hx.2; omega⟩, by have := hx.2; omega⟩

/-- After `lwz_freelist` no slot of the table is occupied. -/
theorem lwz_freelist_clears (h : lwz_context_t) (s : Int) (h0 : 0 ≤ s)
    (h16 : s < LWZ_MAX_DEVICES) : ¬ occupied (lwz_freelist h) s := by
  intro hocc
  have := (lwz_freelist_loop_spec 16 0 h.devices s).mp hocc
  unfold LWZ_MAX_DEVICES at h16
  exact this.2 ⟨h0, by push_cast; omega⟩

/-- The enumeration loop of `lwz_refreshlist_attached` fills empty slots only and collects
exactly the slots it fills, each once. -/
theorem lwz_refreshlist_attached_loop_spec (devices0 : Int → lwz_device_t)
    (es : List hid_interface) (devices : Int → lwz_device_t) (new_devices : List Int)
    (hnd : new_devices.Nodup)
    (hnew : ∀ s ∈ new_devices, 0 ≤ s ∧ s < 16 ∧ ¬ slot_used devices0 s)
    (hocc : ∀ s, slot_used devices s ↔ slot_used devices0 s ∨ s ∈ new_devices) :
    (lwz_refreshlist_attached_loop es devices new_devices).2.Nodup ∧
    (∀ s ∈ (lwz_refreshlist_attached_loop es devices new_devices).2,
      0 ≤ s ∧ s < 16 ∧ ¬ slot_used devices0 s) ∧
    (∀ s, slot_used (lwz_refreshlist_attached_loop es devices new_devices).1 s ↔
      slot_used devices0 s ∨ s ∈ (lwz_refreshlist_attached_loop es devices new_devices).2) := by
  induction es generalizing devices new_devices with
  | nil => exact ⟨hnd, hnew, hocc⟩
  | cons e rest ih =>
    unfold lwz_refreshlist_attached_loop
    by_cases c0 : e.detail_ok = false
    · rw [if_pos c0]; exact ih devices new_devices hnd hnew hocc
    rw [if_neg c0]
    cases hc : e.created with
    | none => exact ih devices new_devices hnd hnew hocc
    | some hudev =>
      dsimp only
      unfold LWZ_MAX_DEVICES
      split_ifs with c1 c2 c3 c4 c5 c6
      · -- the device is stored in its empty slot and the slot is collected
        have hfree : ¬ slot_used devices ((e.ProductID : Int) - ProductID_LEDWiz_min) := by
          unfold slot_used; rw [c5]; simp
        have hnotin : (e.ProductID : Int) - ProductID_LEDWiz_min ∉ new_devices :=
          fun hin => hfree ((hocc _).mpr (Or.inr hin))
        have hfree0 : ¬ slot_used devices0 ((e.ProductID : Int) - ProductID_LEDWiz_min) :=
          fun hu => hfree ((hocc _).mpr (Or.inl hu))
        apply ih
        · exact List.Nodup.append hnd (List.nodup_singleton _)
            (by
              intro a ha hb
              rw [List.mem_singleton.mp hb] at ha
              exact hnotin ha)
        · intro s hs
          rcases List.mem_append.mp hs with h1 | h1
          · exact hnew s h1
          · rw [List.mem_singleton.mp h1]
            exact ⟨by omega, by omega, hfree0⟩
        · intro s
          unfold slot_used
          by_cases hs : s = (e.ProductID : Int) - ProductID_LEDWiz_min
          · simp only [arr_set, hs, if_true, ne_eq, reduceCtorEq, not_false_eq_true,
              List.mem_append, List.mem_singleton, or_true]
          · simp only [arr_set, hs, if_false, List.mem_append, List.mem_singleton, or_false]
            exact hocc s
      · -- not reached: fewer than 16 slots have been collected
        exfalso
        have hfree : ¬ slot_used devices ((e.ProductID : Int) - ProductID_LEDWiz_min) := by
          unfold slot_used; rw [c5]; simp
        have hnotin : (e.ProductID : Int) - ProductID_LEDWiz_min ∉ new_devices :=
          fun hin => hfree ((hocc _).mpr (Or.inr hin))
        have := length_lt_of_fresh 0 new_devices _ hnd
          (fun x hx => ⟨(hnew x hx).1, by have := (hnew x hx).2.1; omega⟩) hnotin
          ⟨by omega, by omega⟩
        omega
      all_goals exact ih devices new_devices hnd hnew hocc

/-- The first loop of `lwz_add` on a batch of different slots whose handles are not yet listed,
for a list of different handles from `1..16`: every handle of the batch is appended. -/
theorem lwz_add_list_fresh (devs : List Int) (l : LWZDEVICELIST) (h0 : 0 ≤ l.numdevices)
    (hnd : (list_view l).Nodup) (hr : ∀ x : Int, x ∈ list_view l → 1 ≤ x ∧ x ≤ 16)
    (hd : devs.Nodup)
    (hs : ∀ s ∈ devs, 0 ≤ s ∧ s < 16 ∧ s + 1 ∉ list_view l) :
    list_view (lwz_add_list l devs) = list_view l ++ devs.map (fun s => s + 1) ∧
    0 ≤ (lwz_add_list l devs).numdevices := by
  induction devs generalizing l with
  | nil => exact ⟨by simp [lwz_add_list], h0⟩
  | cons indx rest ih =>
    obtain ⟨hi0, hi16, hifresh⟩ := hs indx (List.mem_cons_self indx rest)
    have hlen := length_lt_of_fresh 1 (list_view l) (indx + 1) hnd
      (fun x hx => ⟨(hr x hx).1, by have := (hr x hx).2; omega⟩) hifresh
      ⟨by omega, by omega⟩
    rw [list_view_length] at hlen
    have hroom : l.numdevices < 16 := by omega
    have hview1 : list_view (lwz_add_one l indx) = list_view l ++ [indx + 1] := by
      rw [list_view_add_one l indx h0, if_neg (by simp only [hifresh, false_or, not_not]; exact hroom)]
    have hd' := List.nodup_cons.mp hd
    obtain ⟨r1, r2⟩ := ih (lwz_add_one l indx)
      (by have := (numdevices_add_one l indx).1; omega)
      (by
        rw [hview1]
        exact List.Nodup.append hnd (List.nodup_singleton _)
          (by
            intro a ha hb
            rw [List.mem_singleton.mp hb] at ha
            exact hifresh ha))
      (by
        intro x hx
        rw [hview1] at hx
        rcases List.mem_append.mp hx with h1 | h1
        · exact hr x h1
        · rw [List.mem_singleton.mp h1]; exact ⟨by omega, by omega⟩)
      hd'.2
      (by
        intro s hsr
        obtain ⟨a, b, c⟩ := hs s (List.mem_cons_of_mem indx hsr)
        refine ⟨a, b, ?_⟩
        rw [hview1]
        intro hin
        rcases List.mem_append.mp hin with h1 | h1
        · exact c h1
        · have : s = indx := by have := List.mem_singleton.mp h1; omega
          rw [this] at hsr
          exact hd'.1 hsr)
    unfold lwz_add_list
    refine ⟨?_, r2⟩
    rw [r1, hview1, List.append_assoc]
    rfl

theorem list_exact_range (h : lwz_context_t) (l : LWZDEVICELIST) (hex : list_exact h l) :
    ∀ x : Int, x ∈ list_view l → 1 ≤ x ∧ x ≤ 16 := by
  intro x hx
  obtain ⟨s, h0, h16, _, he⟩ := (hex.2.2 x).mp hx
  unfold LWZ_MAX_DEVICES at h16
  exact ⟨by omega, by omega⟩

theorem lwz_add_devices (h : lwz_context_t) (devs : List Int) :
    (lwz_add h devs).h.devices = h.devices := by
  unfold lwz_add
  cases h.plist <;> rfl

theorem lwz_add_plist (h : lwz_context_t) (devs : List Int) :
    (lwz_add h devs).h.plist = h.plist.map (fun l => lwz_add_list l devs) := by
  unfold lwz_add
  cases hp : h.plist with
  | none => simp only [hp, Option.map_none']
  | some l => rfl

theorem list_exact_attached (h : lwz_context_t) (enumeration : Option (List hid_interface))
    (hinv : ∀ l, h.plist = some l → list_exact h l) :
    ∀ l, (lwz_refreshlist_attached h enumeration).h.plist = some l →
      list_exact (lwz_refreshlist_attached h enumeration).h l := by
  cases enumeration with
  | none => exact hinv
  | some es =>
    obtain ⟨s1, s2, s3⟩ := lwz_refreshlist_attached_loop_spec h.devices es h.devices []
      List.nodup_nil (fun s hs => absurd hs (List.not_mem_nil s))
      (fun s => by simp)
    have hunf : lwz_refreshlist_attached h (some es) =
        lwz_add { h with devices := (lwz_refreshlist_attached_loop es h.devices []).1 }
          (lwz_refreshlist_attached_loop es h.devices []).2 := rfl
    rw [hunf]
    generalize lwz_refreshlist_attached_loop es h.devices [] = r at s1 s2 s3 ⊢
    have hdev := lwz_add_devices { h with devices := r.1 } r.2
    have hpl := lwz_add_plist { h with devices := r.1 } r.2
    generalize (lwz_add { h with devices := r.1 } r.2).h = h' at hdev hpl ⊢
    simp only at hdev hpl
    intro l' hl'
    rw [hpl] at hl'
    cases hp : h.plist with
    | none =>
      rw [hp] at hl'
      exact absurd hl' (by simp)
    | some l =>
      rw [hp] at hl'
      simp only [Option.map_some', Option.some.injEq] at hl'
      obtain ⟨e0, end_, emem⟩ := hinv l hp
      obtain ⟨v1, v2⟩ := lwz_add_list_fresh r.2 l e0 end_ (list_exact_range h l (hinv l hp)) s1
        (by
          intro s hs
          obtain ⟨a, b, c⟩ := s2 s hs
          refine ⟨a, b, fun hin => ?_⟩
          obtain ⟨s', _, _, hocc, he⟩ := (emem (s + 1)).mp hin
          have : s' = s := by omega
          rw [this] at hocc
          exact c hocc)
      have hocc' : ∀ s, occupied h' s ↔ slot_used r.1 s := by
        intro s
        unfold occupied slot_used
        rw [hdev]
      rw [← hl']
      refine ⟨v2, ?_, ?_⟩
      · rw [v1]
        refine List.Nodup.append end_ ?_ ?_
        · exact List.Nodup.map (fun a b hab => by simpa using hab) s1
        · intro x hx1 hx2
          obtain ⟨s, hs, he⟩ := List.mem_map.mp hx2
          have he : s + 1 = x := he
          obtain ⟨s', _, _, hocc, he'⟩ := (emem x).mp hx1
          have : s' = s := by omega
          rw [this] at hocc
          exact (s2 s hs).2.2 hocc
      · intro x
        rw [v1, List.mem_append, emem x]
        unfold LWZ_MAX_DEVICES
        constructor
        · rintro (⟨s, a, b, hocc, he⟩ | hx)
          · exact ⟨s, a, b, (hocc' s).mpr ((s3 s).mpr (Or.inl hocc)), he⟩
          · obtain ⟨s, hs, he⟩ := List.mem_map.mp hx
            exact ⟨s, (s2 s hs).1, (s2 s hs).2.1, (hocc' s).mpr ((s3 s).mpr (Or.inr hs)),
              he.symm⟩
        · rintro ⟨s, a, b, hocc, he⟩
          rcases (s3 s).mp ((hocc' s).mp hocc) with h1 | h1
          · exact Or.inl ⟨s, a, b, h1, he⟩
          · exact Or.inr (List.mem_map.mpr ⟨s, h1, he.symm⟩)

theorem lwz_remove_plist (h : lwz_context_t) (indx : Int) :
    (lwz_remove h indx).h.plist =
      h.plist.map (fun l => lwz_remove_loop (indx + 1) l.numdevices.toNat 0 l) := by
  unfold lwz_remove
  cases hp : h.plist with
  | none => simp only [hp, Option.map_none']
  | some l => rfl

/-- One liveness failure: the slot is cleared and `lwz_remove` takes its handle off the list. -/
theorem list_exact_detach_step (h : lwz_context_t) (i : Int)
    (hinv : ∀ l, h.plist = some l → list_exact h l) :
    ∀ l, (lwz_remove
        { h with devices := arr_set h.devices i { (h.devices i) with hudev := none } }
        i).h.plist = some l →
      list_exact (lwz_remove
        { h with devices := arr_set h.devices i { (h.devices i) with hudev := none } } i).h l := by
  have hdev := lwz_remove_devices
    { h with devices := arr_set h.devices i { (h.devices i) with hudev := none } } i
  have hpl := lwz_remove_plist
    { h with devices := arr_set h.devices i { (h.devices i) with hudev := none } } i
  generalize (lwz_remove
    { h with devices := arr_set h.devices i { (h.devices i) with hudev := none } } i).h = h'
    at hdev hpl ⊢
  simp only at hdev hpl
  have hocc' : ∀ s, occupied h' s ↔ occupied h s ∧ s ≠ i := by
    intro s
    unfold occupied
    rw [hdev]
    by_cases hs : s = i
    · simp only [arr_set, hs, if_true, ne_eq, not_true_eq_false, and_false]
    · simp only [arr_set, hs, if_false, ne_eq, not_false_eq_true, and_true]
  intro l' hl'
  rw [hpl] at hl'
  cases hp : h.plist with
  | none =>
    rw [hp] at hl'
    exact absurd hl' (by simp)
  | some l =>
    rw [hp] at hl'
    simp only [Option.map_some', Option.some.injEq] at hl'
    obtain ⟨e0, end_, emem⟩ := hinv l hp
    obtain ⟨r1, r2, r3, _⟩ := lwz_remove_loop_view (i + 1) l e0 end_
    rw [← hl']
    refine ⟨r3, r1, ?_⟩
    intro x
    rw [r2 x, emem x]
    constructor
    · rintro ⟨⟨s, a, b, hocc, he⟩, hne⟩
      exact ⟨s, a, b, (hocc' s).mpr ⟨hocc, by intro hsi; rw [hsi] at he; exact hne he⟩, he⟩
    · rintro ⟨s, a, b, hocc, he⟩
      have := (hocc' s).mp hocc
      exact ⟨⟨s, a, b, this.1, he⟩, by intro hx; rw [he] at hx; exact this.2 (by omega)⟩

theorem list_exact_detached_loop (reopen_fails : Int → Bool) (n : Nat) (i : Int)
    (h : lwz_context_t) (ev : List cb_event)
    (hinv : ∀ l, h.plist = some l → list_exact h l) :
    ∀ l, (lwz_refreshlist_detached_loop reopen_fails n i h ev).h.plist = some l →
      list_exact (lwz_refreshlist_detached_loop reopen_fails n i h ev).h l := by
  induction n generalizing i h ev with
  | zero => exact hinv
  | succ n ih =>
    unfold lwz_refreshlist_detached_loop
    split_ifs with c1 c2
    · exact ih _ _ _ (list_exact_detach_step h i hinv)
    · exact ih _ _ _ hinv
    · exact ih _ _ _ hinv

theorem list_exact_set_notify (h : lwz_context_t) (cb : Option Nat)
    (plist : Option LWZDEVICELIST) (enumeration : Option (List hid_interface)) :
    ∀ l, (LWZ_SET_NOTIFY h cb plist enumeration).h.plist = some l →
      list_exact (LWZ_SET_NOTIFY h cb plist enumeration).h l := by
  unfold LWZ_SET_NOTIFY
  apply list_exact_attached
  intro l hl
  cases plist with
  | none => exact absurd hl (by simp)
  | some l0 =>
    simp only [Option.map_some', Option.some.injEq] at hl
    rw [← hl]
    refine ⟨by decide, List.nodup_nil, ?_⟩
    intro x
    constructor
    · intro hx
      exact absurd hx (List.not_mem_nil x)
    · rintro ⟨s, a, b, hocc, _⟩
      exact absurd hocc (lwz_freelist_clears h s a b)

/-- After `LWZ_SET_NOTIFY_EX` on an empty slot table the list names exactly the occupied
slots. -/
theorem list_exact_set_notify_ex (h : lwz_context_t) (cb : Option Nat) (puser : Nat)
    (plist : Option LWZDEVICELIST) (enumeration : Option (List hid_interface))
    (hempty : ∀ s : Int, 0 ≤ s → s < LWZ_MAX_DEVICES → ¬ occupied h s) :
    ∀ l, (LWZ_SET_NOTIFY_EX h cb puser plist enumeration).h.plist = some l →
      list_exact (LWZ_SET_NOTIFY_EX h cb puser plist enumeration).h l := by
  unfold LWZ_SET_NOTIFY_EX
  apply list_exact_attached
  intro l hl
  cases plist with
  | none => exact absurd hl (by simp)
  | some l0 =>
    simp only [Option.map_some', Option.some.injEq] at hl
    rw [← hl]
    refine ⟨by decide, List.nodup_nil, ?_⟩
    intro x
    constructor
    · intro hx
      exact absurd hx (List.not_mem_nil x)
    · rintro ⟨s, a, b, hocc, _⟩
      exact absurd hocc (hempty s a b)

theorem list_exact_of_reachable (h : lwz_context_t) (hreach : RegReachableScan h) :
    ∀ l, h.plist = some l → list_exact h l := by
  induction hreach with
  | set_notify h0 cb plist enumeration => exact list_exact_set_notify h0 cb plist enumeration
  | set_notify_ex h0 cb puser plist enumeration hempty =>
    exact list_exact_set_notify_ex h0 cb puser plist enumeration hempty
  | attached enumeration _ ih => exact list_exact_attached _ enumeration ih
  | detached reopen_fails _ ih => exact list_exact_detached_loop reopen_fails 16 0 _ [] ih

theorem list_matches_of_exact (h : lwz_context_t) (l : LWZDEVICELIST) (hex : list_exact h l) :
    list_matches_slots h l := by
  intro s h0 h16
  obtain ⟨_, hnd, hmem⟩ := hex
  by_cases hocc : occupied h s
  · rw [if_pos hocc]
    exact List.count_eq_one_of_mem hnd ((hmem (s + 1)).mpr ⟨s, h0, h16, hocc, rfl⟩)
  · rw [if_neg hocc]
    apply List.count_eq_zero_of_not_mem
    intro hin
    obtain ⟨s', _, _, hocc', he⟩ := (hmem (s + 1)).mp hin
    have : s' = s := by omega
    rw [this] at hocc'
    exact hocc hocc'

/-! ## The two halves of the client-list invariant -/

/-- Every handle listed after the first loop of `lwz_add` was listed before or belongs to the
batch. -/
theorem mem_add_list_inv (devs : List Int) (l : LWZDEVICELIST) (h0 : 0 ≤ l.numdevices)
    (x : Int) (hx : x ∈ list_view (lwz_add_list l devs)) :
    x ∈ list_view l ∨ ∃ s ∈ devs, x = s + 1 := by
  induction devs generalizing l with
  | nil => exact Or.inl hx
  | cons indx rest ih =>
    unfold lwz_add_list at hx
    rcases ih (lwz_add_one l indx) (by have := (numdevices_add_one l indx).1; omega) hx with
      h1 | ⟨s, hs, he⟩
    · rw [list_view_add_one l indx h0] at h1
      split_ifs at h1
      · exact Or.inl h1
      · rcases List.mem_append.mp h1 with h2 | h2
        · exact Or.inl h2
        · exact Or.inr ⟨indx, List.mem_cons_self _ _, List.mem_singleton.mp h2⟩
    · exact Or.inr ⟨s, List.mem_cons_of_mem _ hs, he⟩

theorem list_ranged_add_list (devs : List Int) (l : LWZDEVICELIST) (hr : list_ranged l)
    (hd : ∀ s ∈ devs, (0 : Int) ≤ s ∧ s < 16) : list_ranged (lwz_add_list l devs) := by
  refine ⟨list_ok_add_list devs l hr.1, fun x hx => ?_⟩
  rcases mem_add_list_inv devs l hr.1.1 x hx with h1 | ⟨s, hs, he⟩
  · exact hr.2 x h1
  · have := hd s hs
    exact ⟨by omega, by omega⟩

/-- On a well-formed list of unit handles the first loop of `lwz_add` finds room for every
handle of the batch that is not yet listed: afterwards every handle of the batch is listed. -/
theorem lwz_add_list_covers (devs : List Int) (l : LWZDEVICELIST) (hr : list_ranged l)
    (hd : ∀ s ∈ devs, (0 : Int) ≤ s ∧ s < 16) :
    ∀ s ∈ devs, s + 1 ∈ list_view (lwz_add_list l devs) := by
  induction devs generalizing l with
  | nil => intro s hs; exact absurd hs (List.not_mem_nil s)
  | cons indx rest ih =>
    obtain ⟨⟨h0, h16, hnd⟩, hrange⟩ := hr
    have hi := hd indx (List.mem_cons_self _ _)
    have hone : indx + 1 ∈ list_view (lwz_add_one l indx) := by
      rw [list_view_add_one l indx h0]
      by_cases hin : indx + 1 ∈ list_view l
      · rw [if_pos (Or.inl hin)]
        exact hin
      · have hlen := length_lt_of_fresh 1 (list_view l) (indx + 1) hnd
          (fun x hx => ⟨(hrange x hx).1, by have := (hrange x hx).2; omega⟩) hin
          ⟨by omega, by omega⟩
        rw [list_view_length] at hlen
        have hroom : l.numdevices < 16 := by omega
        rw [if_neg (by simp only [hin, false_or, not_not]; exact hroom)]
        exact List.mem_append_right _ (List.mem_singleton.mpr rfl)
    have hr1 : list_ranged (lwz_add_one l indx) := by
      have := list_ranged_add_list [indx] l ⟨⟨h0, h16, hnd⟩, hrange⟩
        (fun s hs => by rw [List.mem_singleton.mp hs]; exact hi)
      exact this
    intro s hs
    unfold lwz_add_list
    rcases List.mem_cons.mp hs with h1 | h1
    · rw [h1]
      exact mem_list_view_add_list rest _ hr1.1.1 _ hone
    · exact ih (lwz_add_one l indx) hr1 (fun s hs => hd s (List.mem_cons_of_mem _ hs)) s h1

/-- What a rescan for attached devices does to the table and the list: it fills a set of
empty slots and runs the first loop of `lwz_add` on them. -/
theorem attached_result (h : lwz_context_t) (enumeration : Option (List hid_interface)) :
    ∃ devs : List Int,
      (∀ s ∈ devs, (0 : Int) ≤ s ∧ s < 16 ∧ ¬ occupied h s) ∧
      (∀ s, occupied (lwz_refreshlist_attached h enumeration).h s ↔ occupied h s ∨ s ∈ devs) ∧
      (lwz_refreshlist_attached h enumeration).h.plist =
        h.plist.map (fun l => lwz_add_list l devs) := by
  cases enumeration with
  | none =>
    refine ⟨[], fun s hs => absurd hs (List.not_mem_nil s), fun s => ?_, ?_⟩
    · show occupied h s ↔ occupied h s ∨ s ∈ []
      simp
    · show h.plist = _
      cases h.plist <;> rfl
  | some es =>
    obtain ⟨_, s2, s3⟩ := lwz_refreshlist_attached_loop_spec h.devices es h.devices []
      List.nodup_nil (fun s hs => absurd hs (List.not_mem_nil s))
      (fun s => by simp)
    have hunf : lwz_refreshlist_attached h (some es) =
        lwz_add { h with devices := (lwz_refreshlist_attached_loop es h.devices []).1 }
          (lwz_refreshlist_attached_loop es h.devices []).2 := rfl
    rw [hunf]
    generalize lwz_refreshlist_attached_loop es h.devices [] = r at s2 s3 ⊢
    have hdev := lwz_add_devices { h with devices := r.1 } r.2
    have hpl := lwz_add_plist { h with devices := r.1 } r.2
    generalize (lwz_add { h with devices := r.1 } r.2).h = h' at hdev hpl ⊢
    simp only at hdev hpl
    refine ⟨r.2, s2, fun s => ?_, hpl⟩
    unfold occupied
    rw [hdev]
    exact s3 s

/-- What one liveness failure does to the table and the list. -/
theorem detach_step_result (h : lwz_context_t) (i : Int) :
    (∀ s, occupied (lwz_remove
        { h with devices := arr_set h.devices i { (h.devices i) with hudev := none } } i).h s ↔
      occupied h s ∧ s ≠ i) ∧
    (lwz_remove
        { h with devices := arr_set h.devices i { (h.devices i) with hudev := none } }
        i).h.plist =
      h.plist.map (fun l => lwz_remove_loop (i + 1) l.numdevices.toNat 0 l) := by
  have hdev := lwz_remove_devices
    { h with devices := arr_set h.devices i { (h.devices i) with hudev := none } } i
  have hpl := lwz_remove_plist
    { h with devices := arr_set h.devices i { (h.devices i) with hudev := none } } i
  generalize (lwz_remove
    { h with devices := arr_set h.devices i { (h.devices i) with hudev := none } } i).h = h'
    at hdev hpl ⊢
  simp only at hdev hpl
  refine ⟨fun s => ?_, hpl⟩
  unfold occupied
  rw [hdev]
  by_cases hs : s = i
  · simp only [arr_set, hs, if_true, ne_eq, not_true_eq_false, and_false]
  · simp only [arr_set, hs, if_false, ne_eq, not_false_eq_true, and_true]

/-- A property of the registry that every liveness failure preserves holds after the loop of
`lwz_refreshlist_detached`. -/
theorem detached_loop_preserves (Q : lwz_context_t → Prop)
    (hstep : ∀ (h : lwz_context_t) (i : Int), Q h →
      Q (lwz_remove
        { h with devices := arr_set h.devices i { (h.devices i) with hudev := none } } i).h)
    (reopen_fails : Int → Bool) (n : Nat) (i : Int) (h : lwz_context_t) (ev : List cb_event)
    (hq : Q h) : Q (lwz_refreshlist_detached_loop reopen_fails n i h ev).h := by
  induction n generalizing i h ev with
  | zero => exact hq
  | succ n ih =>
    unfold lwz_refreshlist_detached_loop
    split_ifs with c1 c2
    · exact ih _ _ _ (hstep h i hq)
    · exact ih _ _ _ hq
    · exact ih _ _ _ hq

/-- The list after `lwz_remove` of a handle: well formed, and it holds the other handles. -/
theorem list_ok_remove_loop (x : Int) (l : LWZDEVICELIST) (hok : list_ok l) :
    list_ok (lwz_remove_loop x l.numdevices.toNat 0 l) ∧
    ∀ y : Int, y ∈ list_view (lwz_remove_loop x l.numdevices.toNat 0 l) ↔
      y ∈ list_view l ∧ y ≠ x := by
  obtain ⟨h0, h16, hnd⟩ := hok
  obtain ⟨r1, r2, r3, r4⟩ := lwz_remove_loop_view x l h0 hnd
  exact ⟨⟨r3, by omega, r1⟩, r2⟩

/-! ### Listed handles are unit handles -/

theorem list_ranged_attached (h : lwz_context_t) (enumeration : Option (List hid_interface))
    (hinv : ∀ l, h.plist = some l → list_ranged l) :
    ∀ l, (lwz_refreshlist_attached h enumeration).h.plist = some l → list_ranged l := by
  obtain ⟨devs, hd, _, hpl⟩ := attached_result h enumeration
  intro l' hl'
  rw [hpl] at hl'
  obtain ⟨l, hp, hl''⟩ := Option.map_eq_some'.mp hl'
  rw [← hl'']
  exact list_ranged_add_list devs l (hinv l hp) (fun s hs => ⟨(hd s hs).1, (hd s hs).2.1⟩)

theorem list_ranged_detach_step (h : lwz_context_t) (i : Int)
    (hinv : ∀ l, h.plist = some l → list_ranged l) :
    ∀ l, (lwz_remove
        { h with devices := arr_set h.devices i { (h.devices i) with hudev := none } }
        i).h.plist = some l → list_ranged l := by
  obtain ⟨_, hpl⟩ := detach_step_result h i
  intro l' hl'
  rw [hpl] at hl'
  obtain ⟨l, hp, hl''⟩ := Option.map_eq_some'.mp hl'
  rw [← hl'']
  obtain ⟨hok, hr⟩ := hinv l hp
  obtain ⟨hok', hmem⟩ := list_ok_remove_loop (i + 1) l hok
  exact ⟨hok', fun y hy => hr y ((hmem y).mp hy).1⟩

theorem list_ranged_zero (plist : Option LWZDEVICELIST) :
    ∀ l, plist.map (fun _ => LWZDEVICELIST_zero) = some l → list_ranged l := by
  intro l hl
  cases plist with
  | none => exact absurd hl (by simp)
  | some l0 =>
    simp only [Option.map_some', Option.some.injEq] at hl
    rw [← hl]
    exact ⟨list_ok_zero, fun x hx => absurd hx (List.not_mem_nil x)⟩

theorem list_ranged_of_reachable (h : lwz_context_t) (hreach : RegReachable h) :
    ∀ l, h.plist = some l → list_ranged l := by
  induction hreach with
  | set_notify h0 cb plist enumeration =>
    unfold LWZ_SET_NOTIFY
    exact list_ranged_attached _ enumeration (list_ranged_zero plist)
  | set_notify_ex h0 cb puser plist enumeration =>
    unfold LWZ_SET_NOTIFY_EX
    exact list_ranged_attached _ enumeration (list_ranged_zero plist)
  | attached enumeration _ ih => exact list_ranged_attached _ enumeration ih
  | detached reopen_fails _ ih =>
    exact detached_loop_preserves (fun g => ∀ l, g.plist = some l → list_ranged l)
      (fun g i hq => list_ranged_detach_step g i hq) reopen_fails 16 0 _ [] ih
  | free_all _ ih => exact ih

/-! ### No handle of an empty slot is listed -/

theorem list_within_attached (h : lwz_context_t) (enumeration : Option (List hid_interface))
    (hinv : ∀ l, h.plist = some l → list_within h l) :
    ∀ l, (lwz_refreshlist_attached h enumeration).h.plist = some l →
      list_within (lwz_refreshlist_attached h enumeration).h l := by
  obtain ⟨devs, hd, hocc, hpl⟩ := attached_result h enumeration
  intro l' hl'
  rw [hpl] at hl'
  obtain ⟨l, hp, hl''⟩ := Option.map_eq_some'.mp hl'
  rw [← hl'']
  obtain ⟨hok, hw⟩ := hinv l hp
  refine ⟨list_ok_add_list devs l hok, fun x hx => ?_⟩
  rcases mem_add_list_inv devs l hok.1 x hx with h1 | ⟨s, hs, he⟩
  · obtain ⟨s, a, b, c, e⟩ := hw x h1
    exact ⟨s, a, b, (hocc s).mpr (Or.inl c), e⟩
  · exact ⟨s, (hd s hs).1, (hd s hs).2.1, (hocc s).mpr (Or.inr hs), he⟩

theorem list_within_detach_step (h : lwz_context_t) (i : Int)
    (hinv : ∀ l, h.plist = some l → list_within h l) :
    ∀ l, (lwz_remove
        { h with devices := arr_set h.devices i { (h.devices i) with hudev := none } }
        i).h.plist = some l →
      list_within (lwz_remove
        { h with devices := arr_set h.devices i { (h.devices i) with hudev := none } } i).h l := by
  obtain ⟨hocc, hpl⟩ := detach_step_result h i
  intro l' hl'
  rw [hpl] at hl'
  obtain ⟨l, hp, hl''⟩ := Option.map_eq_some'.mp hl'
  rw [← hl'']
  obtain ⟨hok, hw⟩ := hinv l hp
  obtain ⟨hok', hmem⟩ := list_ok_remove_loop (i + 1) l hok
  refine ⟨hok', fun y hy => ?_⟩
  obtain ⟨hy1, hy2⟩ := (hmem y).mp hy
  obtain ⟨s, a, b, c, e⟩ := hw y hy1
  exact ⟨s, a, b, (hocc s).mpr ⟨c, fun hsi => hy2 (by rw [e, hsi])⟩, e⟩

theorem list_within_zero (h : lwz_context_t) (plist : Option LWZDEVICELIST) :
    ∀ l, plist.map (fun _ => LWZDEVICELIST_zero) = some l → list_within h l := by
  intro l hl
  cases plist with
  | none => exact absurd hl (by simp)
  | some l0 =>
    simp only [Option.map_some', Option.some.injEq] at hl
    rw [← hl]
    exact ⟨list_ok_zero, fun x hx => absurd hx (List.not_mem_nil x)⟩

theorem list_within_of_reachable (h : lwz_context_t) (hreach : RegReachableNoFree h) :
    ∀ l, h.plist = some l → list_within h l := by
  induction hreach with
  | set_notify h0 cb plist enumeration =>
    unfold LWZ_SET_NOTIFY
    exact list_within_attached _ enumeration (list_within_zero _ plist)
  | set_notify_ex h0 cb puser plist enumeration =>
    unfold LWZ_SET_NOTIFY_EX
    exact list_within_attached _ enumeration (list_within_zero _ plist)
  | attached enumeration _ ih => exact list_within_attached _ enumeration ih
  | detached reopen_fails _ ih =>
    exact detached_loop_preserves (fun g => ∀ l, g.plist = some l → list_within g l)
      (fun g i hq => list_within_detach_step g i hq) reopen_fails 16 0 _ [] ih

/-! ### The handle of every occupied slot is listed -/

theorem list_covers_attached (h : lwz_context_t) (enumeration : Option (List hid_interface))
    (hinv : ∀ l, h.plist = some l → list_covers h l) :
    ∀ l, (lwz_refreshlist_attached h enumeration).h.plist = some l →
      list_covers (lwz_refreshlist_attached h enumeration).h l := by
  obtain ⟨devs, hd, hocc, hpl⟩ := attached_result h enumeration
  intro l' hl'
  rw [hpl] at hl'
  obtain ⟨l, hp, hl''⟩ := Option.map_eq_some'.mp hl'
  rw [← hl'']
  obtain ⟨hr, hc⟩ := hinv l hp
  have hd' : ∀ s ∈ devs, (0 : Int) ≤ s ∧ s < 16 := fun s hs => ⟨(hd s hs).1, (hd s hs).2.1⟩
  refine ⟨list_ranged_add_list devs l hr hd', fun s a b c => ?_⟩
  rcases (hocc s).mp c with h1 | h1
  · exact mem_list_view_add_list devs l hr.1.1 _ (hc s a b h1)
  · exact lwz_add_list_covers devs l hr hd' s h1

theorem list_covers_detach_step (h : lwz_context_t) (i : Int)
    (hinv : ∀ l, h.plist = some l → list_covers h l) :
    ∀ l, (lwz_remove
        { h with devices := arr_set h.devices i { (h.devices i) with hudev := none } }
        i).h.plist = some l →
      list_covers (lwz_remove
        { h with devices := arr_set h.devices i { (h.devices i) with hudev := none } } i).h l := by
  obtain ⟨hocc, hpl⟩ := detach_step_result h i
  intro l' hl'
  rw [hpl] at hl'
  obtain ⟨l, hp, hl''⟩ := Option.map_eq_some'.mp hl'
  rw [← hl'']
  obtain ⟨⟨hok, hr⟩, hc⟩ := hinv l hp
  obtain ⟨hok', hmem⟩ := list_ok_remove_loop (i + 1) l hok
  refine ⟨⟨hok', fun y hy => hr y ((hmem y).mp hy).1⟩, fun s a b c => ?_⟩
  obtain ⟨c1, c2⟩ := (hocc s).mp c
  exact (hmem (s + 1)).mpr ⟨hc s a b c1, by omega⟩

theorem list_covers_zero (h : lwz_context_t) (plist : Option LWZDEVICELIST)
    (hempty : ∀ s : Int, 0 ≤ s → s < LWZ_MAX_DEVICES → ¬ occupied h s) :
    ∀ l, plist.map (fun _ => LWZDEVICELIST_zero) = some l → list_covers h l := by
  intro l hl
  exact ⟨list_ranged_zero plist l hl, fun s a b c => absurd c (hempty s a b)⟩

theorem list_covers_of_reachable (h : lwz_context_t) (hreach : RegReachableFreshEx h) :
    ∀ l, h.plist = some l → list_covers h l := by
  induction hreach with
  | set_notify h0 cb plist enumeration =>
    unfold LWZ_SET_NOTIFY
    exact list_covers_attached _ enumeration
      (list_covers_zero _ plist (fun s a b => lwz_freelist_clears h0 s a b))
  | set_notify_ex h0 cb puser plist enumeration hempty =>
    unfold LWZ_SET_NOTIFY_EX
    exact list_covers_attached _ enumeration (list_covers_zero _ plist hempty)
  | attached enumeration _ ih => exact list_covers_attached _ enumeration ih
  | detached reopen_fails _ ih =>
    exact detached_loop_preserves (fun g => ∀ l, g.plist = some l → list_covers g l)
      (fun g i hq => list_covers_detach_step g i hq) reopen_fails 16 0 _ [] ih
  | @free_all h0 hr =>
    intro l hl
    exact ⟨list_ranged_of_reachable _ (RegReachable.free_all hr) l hl,
      fun s a b c => absurd c (lwz_freelist_clears h0 s a b)⟩

/-! ### How the sets of reachable states lie in each other -/

theorem reachable_of_no_free (h : lwz_context_t) (hreach : RegReachableNoFree h) :
    RegReachable h := by
  induction hreach with
  | set_notify h0 cb plist enumeration => exact RegReachable.set_notify h0 cb plist enumeration
  | set_notify_ex h0 cb puser plist enumeration =>
    exact RegReachable.set_notify_ex h0 cb puser plist enumeration
  | attached enumeration _ ih => exact RegReachable.attached enumeration ih
  | detached reopen_fails _ ih => exact RegReachable.detached reopen_fails ih

theorem reachable_of_fresh_ex (h : lwz_context_t) (hreach : RegReachableFreshEx h) :
    RegReachable h := by
  induction hreach with
  | set_notify h0 cb plist enumeration => exact RegReachable.set_notify h0 cb plist enumeration
  | set_notify_ex h0 cb puser plist enumeration _ =>
    exact RegReachable.set_notify_ex h0 cb puser plist enumeration
  | attached enumeration _ ih => exact RegReachable.attached enumeration ih
  | detached reopen_fails _ ih => exact RegReachable.detached reopen_fails ih
  | free_all hr => exact RegReachable.free_all hr

theorem no_free_of_scan (h : lwz_context_t) (hreach : RegReachableScan h) :
    RegReachableNoFree h := by
  induction hreach with
  | set_notify h0 cb plist enumeration =>
    exact RegReachableNoFree.set_notify h0 cb plist enumeration
  | set_notify_ex h0 cb puser plist enumeration _ =>
    exact RegReachableNoFree.set_notify_ex h0 cb puser plist enumeration
  | attached enumeration _ ih => exact RegReachableNoFree.attached enumeration ih
  | detached reopen_fails _ ih => exact RegReachableNoFree.detached reopen_fails ih

theorem fresh_ex_of_scan (h : lwz_context_t) (hreach : RegReachableScan h) :
    RegReachableFreshEx h := by
  induction hreach with
  | set_notify h0 cb plist enumeration =>
    exact RegReachableFreshEx.set_notify h0 cb plist enumeration
  | set_notify_ex h0 cb puser plist enumeration hempty =>
    exact RegReachableFreshEx.set_notify_ex h0 cb puser plist enumeration hempty
  | attached enumeration _ ih => exact RegReachableFreshEx.attached enumeration ih
  | detached reopen_fails _ ih => exact RegReachableFreshEx.detached reopen_fails ih

/-- Every reachable state is reached without a `lwz_freelist` of its own since the last
`LWZ_SET_NOTIFY` or `LWZ_SET_NOTIFY_EX`, or without a `LWZ_SET_NOTIFY_EX` on a table holding
devices since the last `LWZ_SET_NOTIFY` or `lwz_freelist`. -/
theorem no_free_or_fresh_ex (h : lwz_context_t) (hreach : RegReachable h) :
    RegReachableNoFree h ∨ RegReachableFreshEx h := by
  induction hreach with
  | set_notify h0 cb plist enumeration =>
    exact Or.inl (RegReachableNoFree.set_notify h0 cb plist enumeration)
  | set_notify_ex h0 cb puser plist enumeration =>
    exact Or.inl (RegReachableNoFree.set_notify_ex h0 cb puser plist enumeration)
  | attached enumeration _ ih =>
    rcases ih with ih | ih
    · exact Or.inl (RegReachableNoFree.attached enumeration ih)
    · exact Or.inr (RegReachableFreshEx.attached enumeration ih)
  | detached reopen_fails _ ih =>
    rcases ih with ih | ih
    · exact Or.inl (RegReachableNoFree.detached reopen_fails ih)
    · exact Or.inr (RegReachableFreshEx.detached reopen_fails ih)
  | free_all hr _ => exact Or.inr (RegReachableFreshEx.free_all hr)

/-- A list that holds only handles of occupied slots holds the handle of no empty slot. -/
theorem count_zero_of_within (h : lwz_context_t) (l : LWZDEVICELIST) (hw : list_within h l)
    (s : Int) (hocc : ¬ occupied h s) : (list_view l).count (s + 1) = 0 := by
  apply List.count_eq_zero.mpr
  intro hmem
  obtain ⟨s', _, _, c, e⟩ := hw.2 (s + 1) hmem
  have hs : s = s' := by omega
  rw [hs] at hocc
  exact hocc c

/-- A list that holds the handle of every occupied slot holds it exactly once. -/
theorem count_one_of_covers (h : lwz_context_t) (l : LWZDEVICELIST) (hc : list_covers h l)
    (s : Int) (h0 : 0 ≤ s) (h16 : s < LWZ_MAX_DEVICES) (hocc : occupied h s) :
    (list_view l).count (s + 1) = 1 :=
  List.count_eq_one_of_mem hc.1.1.2.2 (hc.2 s h0 h16 hocc)

/-! ## C10: the client list and the slot table -/

/-- Claim C10, counterexample. `ex_registry` is the registry after `LWZ_SET_NOTIFY` with one
LED-Wiz (unit 1) attached. (a) After `lwz_freelist`, as the window-destroy teardown runs it,
slot 0 is empty but the client list still holds the handle 1. (b) After `LWZ_SET_NOTIFY_EX` with
the same device still attached, slot 0 is occupied but the client list is empty. In both
reachable states the list does not name exactly the occupied slots. -/
theorem client_list_counterexample :
    (RegReachable (lwz_freelist ex_registry) ∧
     (lwz_freelist ex_registry).plist.map list_view = some [1] ∧
     ¬ occupied (lwz_freelist ex_registry) 0 ∧
     ¬ ∀ l, (lwz_freelist ex_registry).plist = some l →
        list_matches_slots (lwz_freelist ex_registry) l) ∧
    (RegReachable
       (LWZ_SET_NOTIFY_EX ex_registry (some 8) 0 (some LWZDEVICELIST_zero)
         (some [ex_ledwiz])).h ∧
     (LWZ_SET_NOTIFY_EX ex_registry (some 8) 0 (some LWZDEVICELIST_zero)
       (some [ex_ledwiz])).h.plist.map list_view = some [] ∧
     occupied (LWZ_SET_NOTIFY_EX ex_registry (some 8) 0 (some LWZDEVICELIST_zero)
       (some [ex_ledwiz])).h 0 ∧
     ¬ ∀ l, (LWZ_SET_NOTIFY_EX ex_registry (some 8) 0 (some LWZDEVICELIST_zero)
         (some [ex_ledwiz])).h.plist = some l →
        list_matches_slots (LWZ_SET_NOTIFY_EX ex_registry (some 8) 0 (some LWZDEVICELIST_zero)
          (some [ex_ledwiz])).h l) := by
  have hv1 : (lwz_freelist ex_registry).plist.map list_view = some [1] := by decide
  have ho1 : ¬ occupied (lwz_freelist ex_registry) 0 := by decide
  have hv2 : (LWZ_SET_NOTIFY_EX ex_registry (some 8) 0 (some LWZDEVICELIST_zero)
      (some [ex_ledwiz])).h.plist.map list_view = some [] := by decide
  have ho2 : occupied (LWZ_SET_NOTIFY_EX ex_registry (some 8) 0 (some LWZDEVICELIST_zero)
      (some [ex_ledwiz])).h 0 := by decide
  refine ⟨⟨RegReachable.free_all (RegReachable.set_notify _ _ _ _), hv1, ho1, ?_⟩,
    ⟨RegReachable.set_notify_ex _ _ _ _ _, hv2, ho2, ?_⟩⟩
  · intro hall
    cases hp : (lwz_freelist ex_registry).plist with
    | none => rw [hp] at hv1; exact absurd hv1 (by simp)
    | some l =>
      rw [hp] at hv1
      simp only [Option.map_some', Option.some.injEq] at hv1
      have := hall l hp 0 (by decide) (by decide)
      rw [hv1, if_neg ho1] at this
      exact absurd this (by decide)
  · intro hall
    cases hp : (LWZ_SET_NOTIFY_EX ex_registry (some 8) 0 (some LWZDEVICELIST_zero)
        (some [ex_ledwiz])).h.plist with
    | none => rw [hp] at hv2; exact absurd hv2 (by simp)
    | some l =>
      rw [hp] at hv2
      simp only [Option.map_some', Option.some.injEq] at hv2
      have := hall l hp 0 (by decide) (by decide)
      rw [hv2, if_pos ho2] at this
      exact absurd this (by decide)

/-- Claim C10, amended (client-list invariant). For every registry state with a non-null client
list: (1) when the state is reached through `LWZ_SET_NOTIFY`, `LWZ_SET_NOTIFY_EX` called on an
empty slot table, `lwz_refreshlist_attached` and `lwz_refreshlist_detached`, the list contains
the handle `slot + 1` exactly once for every occupied slot and not at all for every empty slot;
(2) when it is reached through `LWZ_SET_NOTIFY`, `LWZ_SET_NOTIFY_EX` on any slot table,
`lwz_refreshlist_attached` and `lwz_refreshlist_detached`, every listed handle is `slot + 1` of
an occupied slot, so the list contains the handle of no empty slot; (3) when it is reached
through `LWZ_SET_NOTIFY`, `LWZ_SET_NOTIFY_EX` on an empty slot table, `lwz_freelist` and from
these through the two rescans, the list contains the handle `slot + 1` exactly once for every
occupied slot; (4) when it is reached through all five operations in any order, the list
contains no handle twice, `0 ≤ numdevices ≤ 16`, every listed handle is in `1..16`, and (2) or
(3) holds of it. -/
theorem client_list_invariant (h : lwz_context_t) (l : LWZDEVICELIST) (hl : h.plist = some l) :
    (RegReachableScan h → list_matches_slots h l) ∧
    (RegReachableNoFree h →
      (∀ x : Int, x ∈ list_view l →
        ∃ s : Int, 0 ≤ s ∧ s < LWZ_MAX_DEVICES ∧ occupied h s ∧ x = s + 1) ∧
      ∀ s : Int, 0 ≤ s → s < LWZ_MAX_DEVICES → ¬ occupied h s →
        (list_view l).count (s + 1) = 0) ∧
    (RegReachableFreshEx h →
      ∀ s : Int, 0 ≤ s → s < LWZ_MAX_DEVICES → occupied h s →
        (list_view l).count (s + 1) = 1) ∧
    (RegReachable h →
      (list_view l).Nodup ∧ 0 ≤ l.numdevices ∧ l.numdevices ≤ LWZ_MAX_DEVICES ∧
      (∀ x : Int, x ∈ list_view l → 1 ≤ x ∧ x ≤ 16) ∧
      ((∀ s : Int, 0 ≤ s → s < LWZ_MAX_DEVICES → ¬ occupied h s →
          (list_view l).count (s + 1) = 0) ∨
       (∀ s : Int, 0 ≤ s → s < LWZ_MAX_DEVICES → occupied h s →
          (list_view l).count (s + 1) = 1))) := by
  refine ⟨fun hreach => ?_, fun hreach => ?_, fun hreach => ?_, fun hreach => ?_⟩
  · exact list_matches_of_exact h l (list_exact_of_reachable h hreach l hl)
  · have hw := list_within_of_reachable h hreach l hl
    exact ⟨hw.2, fun s _ _ hocc => count_zero_of_within h l hw s hocc⟩
  · have hc := list_covers_of_reachable h hreach l hl
    exact fun s h0 h16 hocc => count_one_of_covers h l hc s h0 h16 hocc
  · obtain ⟨⟨h0, h16, hnd⟩, hr⟩ := list_ranged_of_reachable h hreach l hl
    refine ⟨hnd, h0, h16, hr, ?_⟩
    rcases no_free_or_fresh_ex h hreach with hn | hf
    · have hw := list_within_of_reachable h hn l hl
      exact Or.inl (fun s _ _ hocc => count_zero_of_within h l hw s hocc)
    · have hc := list_covers_of_reachable h hf l hl
      exact Or.inr (fun s h0 h16 hocc => count_one_of_covers h l hc s h0 h16 hocc)

/-- Amended C10 at three states. At `ex_registry_ex`, the registry after the first
`LWZ_SET_NOTIFY_EX` on a fresh context with one LED-Wiz attached, the list `[1]` names exactly
the occupied slots. After a rescan of `ex_registry_ex` in which the liveness probe of the
LED-Wiz fails, slot 0 is empty and the list does not hold the handle 1. After `lwz_freelist` on
`ex_registry` and a rescan that finds the LED-Wiz again, the list holds the handle 1 of the
occupied slot 0 once. -/
theorem client_list_invariant_witness :
    (ex_registry_ex.plist.map list_view = some [1] ∧
      ∃ l, ex_registry_ex.plist = some l ∧ list_matches_slots ex_registry_ex l ∧
        (list_view l).Nodup) ∧
    (∃ l, (lwz_refreshlist_detached ex_registry_ex (fun _ => true)).h.plist = some l ∧
        (list_view l).count (0 + 1) = 0) ∧
    (∃ l, (lwz_refreshlist_attached (lwz_freelist ex_registry) (some [ex_ledwiz])).h.plist =
        some l ∧ (list_view l).count (0 + 1) = 1) :=
  ⟨⟨by decide, lwz_add_list LWZDEVICELIST_zero [0], rfl,
      (client_list_invariant ex_registry_ex (lwz_add_list LWZDEVICELIST_zero [0]) rfl).1
        (RegReachableScan.set_notify_ex lwz_open (some 8) 5 (some LWZDEVICELIST_zero)
          (some [ex_ledwiz]) (fun _ _ _ hocc => hocc rfl)),
      ((client_list_invariant ex_registry_ex (lwz_add_list LWZDEVICELIST_zero [0]) rfl).2.2.2
        (RegReachable.set_notify_ex lwz_open (some 8) 5 (some LWZDEVICELIST_zero)
          (some [ex_ledwiz]))).1⟩,
    ⟨lwz_remove_loop 1 1 0 (lwz_add_list LWZDEVICELIST_zero [0]), rfl,
      ((client_list_invariant (lwz_refreshlist_detached ex_registry_ex (fun _ => true)).h
          (lwz_remove_loop 1 1 0 (lwz_add_list LWZDEVICELIST_zero [0])) rfl).2.1
        (RegReachableNoFree.detached (fun _ => true)
          (RegReachableNoFree.set_notify_ex lwz_open (some 8) 5 (some LWZDEVICELIST_zero)
            (some [ex_ledwiz])))).2 0 (by decide) (by decide) (by decide)⟩,
    ⟨lwz_add_list (lwz_add_list LWZDEVICELIST_zero [0]) [0], rfl,
      (client_list_invariant
          (lwz_refreshlist_attached (lwz_freelist ex_registry) (some [ex_ledwiz])).h
          (lwz_add_list (lwz_add_list LWZDEVICELIST_zero [0]) [0]) rfl).2.2.1
        (RegReachableFreshEx.attached (some [ex_ledwiz])
          (RegReachableFreshEx.free_all (RegReachable.set_notify lwz_open (some 7)
            (some LWZDEVICELIST_zero) (some [ex_ledwiz]))))
        0 (by decide) (by decide) (by decide)⟩⟩

/-! ## C11: lwz_remove -/

/-- The length change of `lwz_remove` on a list without duplicates: `numdevices` drops by one
when the handle was listed and stays as it is otherwise. -/
theorem lwz_remove_loop_numdevices (x : Int) (l : LWZDEVICELIST) (h0 : 0 ≤ l.numdevices)
    (hnd : (list_view l).Nodup) :
    (lwz_remove_loop x l.numdevices.toNat 0 l).numdevices =
      l.numdevices - (if x ∈ list_view l then 1 else 0) := by
  obtain ⟨r1, r2, r3, _⟩ := lwz_remove_loop_view x l h0 hnd
  have hperm : List.Perm (list_view (lwz_remove_loop x l.numdevices.toNat 0 l))
      ((list_view l).erase x) := by
    rw [List.perm_ext_iff_of_nodup r1 (hnd.erase x)]
    intro y
    rw [r2 y, hnd.mem_erase_iff]
    exact and_comm
  have hlen := hperm.length_eq
  rw [list_view_length] at hlen
  by_cases hx : x ∈ list_view l
  · rw [List.length_erase_of_mem hx, list_view_length] at hlen
    have hpos : 0 < (list_view l).length := List.length_pos_of_mem hx
    rw [list_view_length] at hpos
    rw [if_pos hx]
    omega
  · rw [List.erase_of_not_mem hx, list_view_length] at hlen
    rw [if_neg hx]
    omega

/-- Claim C11 (lwz_remove). The function `lwz_remove(h, indx)` invokes every registered client
callback exactly once with `(LWZ_REASON_DELETE, indx + 1)`, after the list update and whether or
not there is a client list or the list held the handle. On a client list with
`0 ≤ numdevices` and pairwise distinct entries in `handles[0..numdevices)` the handle
`indx + 1` is absent afterwards, every other handle is listed exactly when it was listed before,
the entries stay pairwise distinct, and `numdevices` has dropped by exactly one when the handle
was listed and is unchanged otherwise. The slot table is left as it is. -/
theorem lwz_remove_spec (h : lwz_context_t) (indx : Int) :
    (lwz_remove h indx).events.map cb_event.call =
      callback_calls h.cb LWZ_REASON_DELETE (indx + 1) ∧
    (∀ e ∈ (lwz_remove h indx).events, e.list_seen = (lwz_remove h indx).h.plist) ∧
    (lwz_remove h indx).h.devices = h.devices ∧
    (h.plist = none → (lwz_remove h indx).h.plist = none) ∧
    (∀ l : LWZDEVICELIST, h.plist = some l → 0 ≤ l.numdevices → (list_view l).Nodup →
      ∃ l1 : LWZDEVICELIST, (lwz_remove h indx).h.plist = some l1 ∧
        indx + 1 ∉ list_view l1 ∧
        (∀ y : Int, y ≠ indx + 1 → (y ∈ list_view l1 ↔ y ∈ list_view l)) ∧
        (list_view l1).Nodup ∧
        l1.numdevices = l.numdevices - (if indx + 1 ∈ list_view l then 1 else 0)) := by
  have hcb : (lwz_remove h indx).h.cb = h.cb := by
    unfold lwz_remove
    cases h.plist <;> rfl
  refine ⟨?_, ?_, lwz_remove_devices h indx, ?_, ?_⟩
  · show (lwz_notify_callback (lwz_remove h indx).h LWZ_REASON_DELETE (indx + 1)).map
      cb_event.call = _
    rw [lwz_notify_callback_calls, hcb]
  · intro e he
    exact lwz_notify_callback_seen (lwz_remove h indx).h LWZ_REASON_DELETE (indx + 1) e he
  · intro hp
    unfold lwz_remove
    simp only [hp]
  · intro l hp h0 hnd
    obtain ⟨r1, r2, _, _⟩ := lwz_remove_loop_view (indx + 1) l h0 hnd
    refine ⟨lwz_remove_loop (indx + 1) l.numdevices.toNat 0 l, ?_, ?_, ?_, r1,
      lwz_remove_loop_numdevices (indx + 1) l h0 hnd⟩
    · unfold lwz_remove
      simp only [hp]
    · intro hin
      exact ((r2 _).mp hin).2 rfl
    · intro y hy
      rw [r2 y]
      exact ⟨fun hh => hh.1, fun hh => ⟨hh, hy⟩⟩

/-- C11 at the list 1, 2, 3 and slot 2: one callback `(DELETE, 3)`, and the list holds 1 and 2
afterwards. -/
theorem lwz_remove_spec_witness :
    (lwz_remove ex_context3 2).events.map cb_event.call = [cb_call.notify 7 2 3] ∧
    ∃ l1 : LWZDEVICELIST, (lwz_remove ex_context3 2).h.plist = some l1 ∧
      (3 : Int) ∉ list_view l1 ∧ (1 : Int) ∈ list_view l1 ∧ (2 : Int) ∈ list_view l1 ∧
      l1.numdevices = 2 :=
  have w := lwz_remove_spec ex_context3 2
  ⟨w.1,
    match w.2.2.2.2 ex_list3 rfl (by decide) (by decide) with
    | ⟨l1, e1, e2, e3, _, e5⟩ =>
      ⟨l1, e1, e2, (e3 1 (by decide)).mpr (by decide), (e3 2 (by decide)).mpr (by decide),
        e5.trans (by decide)⟩⟩

/-! ## C12: LWZ_SET_NOTIFY rescans from an empty slot table -/

/-- An interface that is not an attached matching device is skipped by the enumeration loop. -/
theorem attached_loop_reject (e : hid_interface) (rest : List hid_interface)
    (devices : Int → lwz_device_t) (new_devices : List Int) (hrej : ¬ lwz_accepts e) :
    lwz_refreshlist_attached_loop (e :: rest) devices new_devices =
      lwz_refreshlist_attached_loop rest devices new_devices := by
  rw [lwz_refreshlist_attached_loop]
  by_cases c0 : e.detail_ok = false
  · rw [if_pos c0]
  rw [if_neg c0]
  cases hc : e.created with
  | none => rfl
  | some hudev =>
    dsimp only
    split_ifs with c1 c2 c3 c4 c5 c6
    all_goals first
      | rfl
      | (exfalso
         apply hrej
         unfold lwz_accepts device_slot
         simp only [Bool.not_eq_false] at c0
         refine ⟨c0, by rw [hc]; simp, c1.1, c1.2.1, c1.2.2.1, c1.2.2.2, c2, c3, c4.1, c4.2⟩)

/-- An attached matching device is stored when its slot is empty and skipped otherwise. -/
theorem attached_loop_accept (e : hid_interface) (rest : List hid_interface)
    (devices : Int → lwz_device_t) (new_devices : List Int) (hacc : lwz_accepts e)
    (hudev : Nat) (hc : e.created = some hudev) :
    lwz_refreshlist_attached_loop (e :: rest) devices new_devices =
      if (devices (device_slot e)).hudev = none then
        lwz_refreshlist_attached_loop rest
          (arr_set devices (device_slot e) { hudev := some hudev, dat := e.path })
          (if (new_devices.length : Int) < LWZ_MAX_DEVICES
            then new_devices ++ [device_slot e] else new_devices)
      else lwz_refreshlist_attached_loop rest devices new_devices := by
  obtain ⟨a1, _, a3, a4, a5, a6, a7, a8, a9, a10⟩ := hacc
  unfold device_slot at a5 a6 ⊢
  rw [lwz_refreshlist_attached_loop]
  rw [if_neg (by rw [a1]; simp), hc]
  dsimp only
  rw [if_pos ⟨a3, a4, a5, a6⟩, if_pos a7, if_pos a8, if_pos ⟨a9, a10⟩]

theorem attached_slots_range (es : List hid_interface) :
    ∀ s ∈ attached_slots es, 0 ≤ s ∧ s < 16 := by
  induction es with
  | nil => intro s hs; exact absurd hs (List.not_mem_nil s)
  | cons e rest ih =>
    intro s hs
    unfold attached_slots at hs
    by_cases hacc : lwz_accepts e
    · rw [if_pos hacc] at hs
      rcases List.mem_cons.mp hs with h1 | h1
      · rw [h1]
        have h5 := hacc.2.2.2.2.1
        have h6 := hacc.2.2.2.2.2.1
        unfold LWZ_MAX_DEVICES at h6
        exact ⟨h5, h6⟩
      · exact ih s h1
    · rw [if_neg hacc] at hs
      exact ih s hs

/-- The enumeration loop on a table in which the slots of all attached matching devices are
empty, the devices having different slots: every one of them is stored and collected, in
enumeration order. -/
theorem attached_loop_all_new (es : List hid_interface) (devices : Int → lwz_device_t)
    (new_devices : List Int) (hnd : (attached_slots es).Nodup)
    (hfree : ∀ s ∈ attached_slots es, ¬ slot_used devices s)
    (hlen : new_devices.length + (attached_slots es).length ≤ 16) :
    (lwz_refreshlist_attached_loop es devices new_devices).2 =
      new_devices ++ attached_slots es ∧
    ∀ s, slot_used (lwz_refreshlist_attached_loop es devices new_devices).1 s ↔
      slot_used devices s ∨ s ∈ attached_slots es := by
  induction es generalizing devices new_devices with
  | nil =>
    refine ⟨by simp [lwz_refreshlist_attached_loop, attached_slots], fun s => ?_⟩
    simp [lwz_refreshlist_attached_loop, attached_slots]
  | cons e rest ih =>
    by_cases hacc : lwz_accepts e
    · have hslots : attached_slots (e :: rest) = device_slot e :: attached_slots rest := by
        rw [attached_slots, if_pos hacc]
      rw [hslots] at hnd hfree hlen ⊢
      obtain ⟨hnotin, hnd1⟩ := List.nodup_cons.mp hnd
      obtain ⟨hudev, hc⟩ := Option.ne_none_iff_exists'.mp hacc.2.1
      have hempty : (devices (device_slot e)).hudev = none := by
        have := hfree (device_slot e) (List.mem_cons_self _ _)
        unfold slot_used at this
        exact not_not.mp this
      have hroom : (new_devices.length : Int) < LWZ_MAX_DEVICES := by
        unfold LWZ_MAX_DEVICES
        simp only [List.length_cons] at hlen
        omega
      rw [attached_loop_accept e rest devices new_devices hacc hudev hc, if_pos hempty,
        if_pos hroom]
      obtain ⟨r1, r2⟩ := ih (arr_set devices (device_slot e) { hudev := some hudev, dat := e.path })
        (new_devices ++ [device_slot e]) hnd1
        (by
          intro s hs hu
          have hne : s ≠ device_slot e := fun he => hnotin (he ▸ hs)
          unfold slot_used at hu
          simp only [arr_set, hne, if_false] at hu
          exact hfree s (List.mem_cons_of_mem _ hs) hu)
        (by simp only [List.length_append, List.length_cons, List.length_nil] at hlen ⊢; omega)
      refine ⟨by rw [r1, List.append_assoc]; rfl, fun s => ?_⟩
      rw [r2 s]
      unfold slot_used
      by_cases hs : s = device_slot e
      · simp only [arr_set, hs, if_true, ne_eq, reduceCtorEq, not_false_eq_true, true_or,
          List.mem_cons, or_true]
      · simp only [arr_set, hs, if_false, List.mem_cons, false_or]
    · have hslots : attached_slots (e :: rest) = attached_slots rest := by
        rw [attached_slots, if_neg hacc]
      rw [hslots] at hnd hfree hlen ⊢
      rw [attached_loop_reject e rest devices new_devices hacc]
      exact ih devices new_devices hnd hfree hlen

theorem attached_slots_length (es : List hid_interface) (hnd : (attached_slots es).Nodup) :
    (attached_slots es).length ≤ 16 := by
  have hr := attached_slots_range es
  generalize attached_slots es = v at hnd hr
  cases v with
  | nil => simp
  | cons x t =>
    obtain ⟨hx, ht⟩ := List.nodup_cons.mp hnd
    have := length_lt_of_fresh 0 t x ht
      (fun y hy => by have := hr y (List.mem_cons_of_mem _ hy); omega) hx
      (by have := hr x (List.mem_cons_self _ _); omega)
    simp only [List.length_cons]
    omega

/-- One call of `LWZ_SET_NOTIFY` with the attached matching devices in different slots: one
`ADD` call of every registered callback per device, the client list holds the handle of each
device once, and exactly their slots are occupied. -/
theorem set_notify_scan (h : lwz_context_t) (cb : Option Nat) (plist : Option LWZDEVICELIST)
    (es : List hid_interface) (hnd : (attached_slots es).Nodup) :
    (LWZ_SET_NOTIFY h cb plist (some es)).events.map cb_event.call =
      add_calls { h.cb with notify := cb } (attached_slots es) ∧
    (LWZ_SET_NOTIFY h cb plist (some es)).h.cb = { h.cb with notify := cb } ∧
    (LWZ_SET_NOTIFY h cb plist (some es)).h.plist.map list_view =
      plist.map (fun _ => (attached_slots es).map (fun s => s + 1)) ∧
    (∀ e ∈ (LWZ_SET_NOTIFY h cb plist (some es)).events,
      e.list_seen = (LWZ_SET_NOTIFY h cb plist (some es)).h.plist) ∧
    ∀ s : Int, 0 ≤ s → s < LWZ_MAX_DEVICES →
      (occupied (LWZ_SET_NOTIFY h cb plist (some es)).h s ↔ s ∈ attached_slots es) := by
  have hfree : ∀ s ∈ attached_slots es, ¬ slot_used (lwz_freelist h).devices s := by
    intro s hs
    have hr := attached_slots_range es s hs
    exact lwz_freelist_clears h s hr.1 hr.2
  obtain ⟨r1, r2⟩ := attached_loop_all_new es (lwz_freelist h).devices [] hnd hfree
    (by simpa using attached_slots_length es hnd)
  rw [List.nil_append] at r1
  have hunf : LWZ_SET_NOTIFY h cb plist (some es) =
      lwz_add { h with devices := (lwz_refreshlist_attached_loop es (lwz_freelist h).devices []).1,
                       plist := plist.map (fun _ => LWZDEVICELIST_zero),
                       cb := { h.cb with notify := cb } }
        (lwz_refreshlist_attached_loop es (lwz_freelist h).devices []).2 := rfl
  rw [hunf, r1]
  generalize (lwz_refreshlist_attached_loop es (lwz_freelist h).devices []).1 = dv at r2 ⊢
  refine ⟨?_, ?_, ?_, ?_, ?_⟩
  · cases plist <;> exact lwz_add_notify_calls _ _
  · cases plist <;> rfl
  · rw [lwz_add_plist]
    cases plist with
    | none => rfl
    | some l0 =>
      simp only [Option.map_some']
      have hv := (lwz_add_list_fresh (attached_slots es) LWZDEVICELIST_zero (by decide)
        List.nodup_nil (fun x hx => absurd hx (List.not_mem_nil x)) hnd
        (fun s hs => by
          have hr := attached_slots_range es s hs
          exact ⟨hr.1, hr.2, List.not_mem_nil _⟩)).1
      rw [hv]
      rfl
  · intro e he
    cases plist <;> exact lwz_add_notify_seen _ _ e he
  · intro s h0 h16
    unfold occupied
    rw [lwz_add_devices]
    have := r2 s
    unfold slot_used at this
    rw [this]
    have hcl := lwz_freelist_clears h s h0 h16
    unfold occupied at hcl
    constructor
    · rintro (hu | hin)
      · exact absurd hu hcl
      · exact hin
    · exact fun hin => Or.inr hin


/-- Claim C12 (LWZ_SET_NOTIFY called twice). Let the attached matching devices of the
enumeration have pairwise different product IDs (slots), and let the prior registry state `h` be
arbitrary. Then `LWZ_SET_NOTIFY(cb, list)` makes exactly one `ADD` call of every registered
callback per attached device, in enumeration order, and a second call with the same `cb` and
list, while the same devices are attached, makes the same calls again; after either call the
list holds the handle `slot + 1` of each attached device exactly once and nothing else, and
exactly the slots of the attached devices are occupied. With `cb` non-null and no extended
callback registered, the calls of either scan are one `cb(ADD, slot + 1)` per device. -/
theorem set_notify_twice (h : lwz_context_t) (cb : Option Nat) (plist : Option LWZDEVICELIST)
    (es es2 : List hid_interface) (hsame : attached_slots es2 = attached_slots es)
    (hnd : (attached_slots es).Nodup) :
    (LWZ_SET_NOTIFY h cb plist (some es)).events.map cb_event.call =
      add_calls { h.cb with notify := cb } (attached_slots es) ∧
    (LWZ_SET_NOTIFY (LWZ_SET_NOTIFY h cb plist (some es)).h cb
        (LWZ_SET_NOTIFY h cb plist (some es)).h.plist (some es2)).events.map cb_event.call =
      add_calls { h.cb with notify := cb } (attached_slots es) ∧
    (LWZ_SET_NOTIFY h cb plist (some es)).h.plist.map list_view =
      plist.map (fun _ => (attached_slots es).map (fun s => s + 1)) ∧
    (LWZ_SET_NOTIFY (LWZ_SET_NOTIFY h cb plist (some es)).h cb
        (LWZ_SET_NOTIFY h cb plist (some es)).h.plist (some es2)).h.plist.map list_view =
      plist.map (fun _ => (attached_slots es).map (fun s => s + 1)) ∧
    (∀ s : Int, 0 ≤ s → s < LWZ_MAX_DEVICES →
      (occupied (LWZ_SET_NOTIFY (LWZ_SET_NOTIFY h cb plist (some es)).h cb
        (LWZ_SET_NOTIFY h cb plist (some es)).h.plist (some es2)).h s ↔
        s ∈ attached_slots es)) ∧
    (∀ f : Nat, cb = some f → h.cb.notify_ex = none →
      add_calls { h.cb with notify := cb } (attached_slots es) =
        (attached_slots es).map (fun s => cb_call.notify f LWZ_REASON_ADD (s + 1))) := by
  obtain ⟨a1, a2, a3, _, _⟩ := set_notify_scan h cb plist es hnd
  obtain ⟨b1, _, b3, _, b5⟩ := set_notify_scan (LWZ_SET_NOTIFY h cb plist (some es)).h cb
    (LWZ_SET_NOTIFY h cb plist (some es)).h.plist es2 (by rw [hsame]; exact hnd)
  rw [hsame] at b1 b3 b5
  rw [a2] at b1
  refine ⟨a1, b1, a3, ?_, b5, ?_⟩
  · rw [b3]
    cases plist with
    | none =>
      cases hp : (LWZ_SET_NOTIFY h cb none (some es)).h.plist with
      | none => rfl
      | some l => rw [hp] at a3; exact absurd a3 (by simp)
    | some l0 =>
      cases hp : (LWZ_SET_NOTIFY h cb (some l0) (some es)).h.plist with
      | none => rw [hp] at a3; exact absurd a3 (by simp)
      | some l => rfl
  · intro f hf hex
    generalize attached_slots es = v
    induction v with
    | nil => rfl
    | cons s rest ih =>
      rw [add_calls, ih, List.map_cons]
      unfold callback_calls
      simp only [hf, hex, List.append_nil, List.singleton_append]

/-- C12 with two LED-Wiz units attached (product IDs `0x00F0` and `0x00F2`) and a foreign HID
interface: each of two calls of `LWZ_SET_NOTIFY` with callback 7 makes the calls
`(ADD, 1)` and `(ADD, 3)`, and the list holds the handles 1 and 3. -/
theorem set_notify_twice_witness :
    (LWZ_SET_NOTIFY lwz_open (some 7) (some LWZDEVICELIST_zero)
      (some ex_two_ledwiz)).events.map cb_event.call =
      [cb_call.notify 7 1 1, cb_call.notify 7 1 3] ∧
    (LWZ_SET_NOTIFY (LWZ_SET_NOTIFY lwz_open (some 7) (some LWZDEVICELIST_zero)
        (some ex_two_ledwiz)).h (some 7)
      (LWZ_SET_NOTIFY lwz_open (some 7) (some LWZDEVICELIST_zero) (some ex_two_ledwiz)).h.plist
      (some ex_two_ledwiz)).events.map cb_event.call =
      [cb_call.notify 7 1 1, cb_call.notify 7 1 3] ∧
    (LWZ_SET_NOTIFY (LWZ_SET_NOTIFY lwz_open (some 7) (some LWZDEVICELIST_zero)
        (some ex_two_ledwiz)).h (some 7)
      (LWZ_SET_NOTIFY lwz_open (some 7) (some LWZDEVICELIST_zero) (some ex_two_ledwiz)).h.plist
      (some ex_two_ledwiz)).h.plist.map list_view = some [1, 3] :=
  have w := set_notify_twice lwz_open (some 7) (some LWZDEVICELIST_zero) ex_two_ledwiz
    ex_two_ledwiz rfl (by decide)
  ⟨w.1.trans (by decide), w.2.1.trans (by decide), w.2.2.2.1.trans (by decide)⟩

/-! ## C20: SBA, PBA, SBA pushed into an empty queue -/

/-- The chunks of the live window by index. -/
theorem live_getElem (h : queue_t) (i : Nat) (hi : i < h.level.toNat) :
    (live h)[i]? = some (chunk_at h i) := by
  unfold live
  rw [List.getElem?_map, List.getElem?_range hi]
  rfl

/-- Claim C20 (SBA-PBA ordering from an empty queue). For every device `d`, every RUNNING queue
with `level == 0` that satisfies the ring invariant, and reports `s1`, `s2` of 8 bytes and `p`
of 32 bytes: the pushes `push(SBA, d, s1)`, `push(PBA, d, p)`, `push(SBA, d, s2)` return 8, 32
and 8, leave `level == 3`, and three successive calls of `queue_shift` (with no other call in
between) return `(d, s1)` with 8 bytes, `(d, p)` with 32 bytes and `(d, s2)` with 8 bytes, in
this order. -/
theorem sba_pba_sba_order (h : queue_t) (d : HUDEV) (s1 p s2 buffer0 : List uint8_t)
    (nsize : Nat) (hinv : ring_inv h) (hrun : running h) (hempty : h.level = 0)
    (hs1 : s1.length = 8) (hp : p.length = 32) (hs2 : s2.length = 8) (hn : 32 ≤ nsize) :
    (queue_push h d PACKET_TYPE_SBA (some s1) 8).ret = some 8 ∧
    (queue_push (queue_push h d PACKET_TYPE_SBA (some s1) 8).h d PACKET_TYPE_PBA
      (some p) 32).ret = some 32 ∧
    (queue_push (queue_push (queue_push h d PACKET_TYPE_SBA (some s1) 8).h d PACKET_TYPE_PBA
      (some p) 32).h d PACKET_TYPE_SBA (some s2) 8).ret = some 8 ∧
    (push_sba_pba_sba h d s1 p s2).level = 3 ∧
    shift_seq nsize 3 (push_sba_pba_sba h d s1 p s2) buffer0 =
      [(some 8, d, s1), (some 32, d, p), (some 8, d, s2)] := by
  unfold running at hrun
  have hlive0 : live h = [] := by
    unfold live
    rw [hempty]
    rfl
  -- first push: nothing is queued
  have e1 := queue_push_enqueues h d PACKET_TYPE_SBA s1 8 (by decide) (by decide)
    (ring_inv_rpos_ok h hinv) hrun (by omega)
    (fun i hc => by
      have hc' : sba_candidate h d i := hc
      have := hc'.1
      omega)
  have hinv1 : ring_inv (queue_push h d PACKET_TYPE_SBA (some s1) 8).h := ring_inv_push h _ _ _ _ hinv
  have hl1 := live_enqueued h d PACKET_TYPE_SBA (some s1) 8 hinv (by omega)
  rw [hlive0, List.nil_append] at hl1
  simp only [push_sba_pba_sba]
  rw [e1] at hinv1 ⊢
  simp only at hinv1 ⊢
  generalize hc1 : new_chunk (h.buf h.wpos) d PACKET_TYPE_SBA (some s1) 8 = c1 at hl1
  have hc1t : c1.hudev = d ∧ c1.typ = PACKET_TYPE_SBA ∧ c1.ndata = 8 ∧ c1.data.take 8 = s1 := by
    rw [← hc1]
    refine ⟨rfl, rfl, rfl, ?_⟩
    show (memcpy _ s1 8).take 8 = s1
    exact take_memcpy _ _ _ hs1
  have hlev1 : (enqueued h d PACKET_TYPE_SBA (some s1) 8).level = 1 := by
    show h.level + 1 = 1
    omega
  have hrun1 : (enqueued h d PACKET_TYPE_SBA (some s1) 8).state = 0 := hrun
  generalize enqueued h d PACKET_TYPE_SBA (some s1) 8 = q1 at hinv1 hl1 hlev1 hrun1 ⊢
  have hq1_0 : chunk_at q1 0 = c1 := by
    have := live_getElem q1 0 (by omega)
    rw [hl1] at this
    exact (Option.some.inj this).symm
  -- second push: the only live chunk is an SBA chunk
  have e2 := queue_push_enqueues q1 d PACKET_TYPE_PBA p 32 (by decide) (by decide)
    (ring_inv_rpos_ok q1 hinv1) hrun1 (by omega)
    (fun i hc => by
      have hc' : pba_candidate q1 d i := hc
      have hi : i = 0 := by have := hc'.1; omega
      have ht := hc'.2.1.2
      rw [hi, hq1_0, hc1t.2.1] at ht
      exact absurd ht (by decide))
  have hinv2 : ring_inv (queue_push q1 d PACKET_TYPE_PBA (some p) 32).h :=
    ring_inv_push q1 _ _ _ _ hinv1
  have hl2 := live_enqueued q1 d PACKET_TYPE_PBA (some p) 32 hinv1 (by omega)
  rw [hl1] at hl2
  rw [e2] at hinv2 ⊢
  simp only at hinv2 ⊢
  generalize hc2 : new_chunk (q1.buf q1.wpos) d PACKET_TYPE_PBA (some p) 32 = c2 at hl2
  have hc2t : c2.hudev = d ∧ c2.typ = PACKET_TYPE_PBA ∧ c2.ndata = 32 ∧ c2.data.take 32 = p := by
    rw [← hc2]
    refine ⟨rfl, rfl, rfl, ?_⟩
    show (memcpy _ p 32).take 32 = p
    exact take_memcpy _ _ _ hp
  have hlev2 : (enqueued q1 d PACKET_TYPE_PBA (some p) 32).level = 2 := by
    show q1.level + 1 = 2
    omega
  have hrun2 : (enqueued q1 d PACKET_TYPE_PBA (some p) 32).state = 0 := hrun1
  generalize enqueued q1 d PACKET_TYPE_PBA (some p) 32 = q2 at hinv2 hl2 hlev2 hrun2 ⊢
  have hq2_0 : chunk_at q2 0 = c1 := by
    have := live_getElem q2 0 (by omega)
    rw [hl2] at this
    exact (Option.some.inj this).symm
  have hq2_1 : chunk_at q2 1 = c2 := by
    have := live_getElem q2 1 (by omega)
    rw [hl2] at this
    exact (Option.some.inj this).symm
  -- third push: the SBA chunk is followed by a PBA chunk for the same device
  have e3 := queue_push_enqueues q2 d PACKET_TYPE_SBA s2 8 (by decide) (by decide)
    (ring_inv_rpos_ok q2 hinv2) hrun2 (by omega)
    (fun i hc => by
      have hc' : sba_candidate q2 d i := hc
      have hi : i = 0 ∨ i = 1 := by have := hc'.1; omega
      rcases hi with hi | hi
      · have := (hc'.2.2 1 (by omega) (by omega)).2
        rw [hq2_1] at this
        exact this ⟨hc2t.1, hc2t.2.1⟩
      · have ht := hc'.2.1.2
        rw [hi, hq2_1, hc2t.2.1] at ht
        exact absurd ht (by decide))
  have hinv3 : ring_inv (queue_push q2 d PACKET_TYPE_SBA (some s2) 8).h :=
    ring_inv_push q2 _ _ _ _ hinv2
  have hl3 := live_enqueued q2 d PACKET_TYPE_SBA (some s2) 8 hinv2 (by omega)
  rw [hl2] at hl3
  rw [e3] at hinv3 ⊢
  simp only at hinv3 ⊢
  generalize hc3 : new_chunk (q2.buf q2.wpos) d PACKET_TYPE_SBA (some s2) 8 = c3 at hl3
  have hc3t : c3.hudev = d ∧ c3.typ = PACKET_TYPE_SBA ∧ c3.ndata = 8 ∧ c3.data.take 8 = s2 := by
    rw [← hc3]
    refine ⟨rfl, rfl, rfl, ?_⟩
    show (memcpy _ s2 8).take 8 = s2
    exact take_memcpy _ _ _ hs2
  have hc3len : 8 ≤ c3.data.length := by
    rw [← hc3]
    show 8 ≤ (memcpy _ s2 8).length
    unfold memcpy
    simp only [List.length_append, List.length_take, List.length_drop]
    omega
  have hc2len : 32 ≤ c2.data.length := by
    rw [← hc2]
    show 32 ≤ (memcpy _ p 32).length
    unfold memcpy
    simp only [List.length_append, List.length_take, List.length_drop]
    omega
  have hc1len : 8 ≤ c1.data.length := by
    rw [← hc1]
    show 8 ≤ (memcpy _ s1 8).length
    unfold memcpy
    simp only [List.length_append, List.length_take, List.length_drop]
    omega
  have hlev3 : (enqueued q2 d PACKET_TYPE_SBA (some s2) 8).level = 3 := by
    show q2.level + 1 = 3
    omega
  have hrun3 : (enqueued q2 d PACKET_TYPE_SBA (some s2) 8).state = 0 := hrun2
  generalize enqueued q2 d PACKET_TYPE_SBA (some s2) 8 = q3 at hinv3 hl3 hlev3 hrun3 ⊢
  refine ⟨trivial, trivial, trivial, hlev3, ?_⟩
  rw [shift_seq_spec nsize hn 3 q3 buffer0 hinv3 hrun3 (by omega)
    (by
      intro c hc
      rw [hl3] at hc
      simp only [List.cons_append, List.nil_append, List.mem_cons, List.mem_singleton,
        List.not_mem_nil, or_false] at hc
      rcases hc with hc | hc | hc
      · rw [hc, hc1t.2.2.1]; exact ⟨by omega, hc1len⟩
      · rw [hc, hc2t.2.2.1]; exact ⟨by omega, hc2len⟩
      · rw [hc, hc3t.2.2.1]; exact ⟨by omega, hc3len⟩), hl3]
  simp only [List.cons_append, List.nil_append, List.take, List.map, delivered]
  rw [hc1t.1, hc1t.2.2.1, hc1t.2.2.2, hc2t.1, hc2t.2.2.1, hc2t.2.2.2, hc3t.1, hc3t.2.2.1,
    hc3t.2.2.2]

/-- C20 at the queue after `queue_open`, device 1: the three reports come back in the order
they were pushed. -/
theorem sba_pba_sba_order_witness :
    (push_sba_pba_sba queue_open (some 1) (sba8 1 2) (payload32 9) (sba8 3 4)).level = 3 ∧
    shift_seq 64 3 (push_sba_pba_sba queue_open (some 1) (sba8 1 2) (payload32 9) (sba8 3 4))
      (List.replicate 64 0) =
      [(some 8, some 1, sba8 1 2), (some 32, some 1, payload32 9), (some 8, some 1, sba8 3 4)] :=
  (sba_pba_sba_order queue_open (some 1) (sba8 1 2) (payload32 9) (sba8 3 4)
    (List.replicate 64 0) 64 (by decide) (by decide) rfl rfl rfl rfl (by decide)).2.2.2

/-! ## The public operations -/

/-- The function `lwz_get_hdev` yields the device of the slot exactly for slots `0..15`. -/
theorem lwz_get_hdev_eq (g : lwz_context_t) (indx : Int) :
    lwz_get_hdev g indx =
      if 0 ≤ indx ∧ indx < 16 then (g.devices indx).hudev else none := by
  unfold lwz_get_hdev LWZ_MAX_DEVICES
  by_cases hc : indx < 0 ∨ indx ≥ 16
  · rw [if_pos hc, if_neg (by omega)]
  · rw [if_neg hc, if_pos (by omega)]

/-- For every `int32_t` handle the slot test of `lwz_get_hdev` gives the same answer whether
`hlwz - 1` wraps around or not. -/
theorem lwz_get_hdev_wrap (g : lwz_context_t) (hlwz : Int) (hlo : -2 ^ 31 ≤ hlwz)
    (hhi : hlwz < 2 ^ 31) :
    lwz_get_hdev g (int32_wrap (hlwz - 1)) = lwz_get_hdev g (hlwz - 1) := by
  by_cases hmin : hlwz = -2 ^ 31
  · rw [hmin, lwz_get_hdev_eq, lwz_get_hdev_eq]
    rw [if_neg (by unfold int32_wrap; omega), if_neg (by omega)]
  · have : int32_wrap (hlwz - 1) = hlwz - 1 := by
      unfold int32_wrap
      omega
    rw [this]

/-- A push of `n` bytes that returns on a RUNNING queue leaves a live chunk for the device with
the tag of the push and the pushed bytes. -/
theorem queue_push_holds (h : queue_t) (d : HUDEV) (typ : packet_type_t) (p : List uint8_t)
    (n : Nat) (h1 : 0 < n) (h2 : n ≤ 32) (hp : p.length = n) (hinv : ring_inv h)
    (hrun : h.state = 0) (hret : (queue_push h d typ (some p) n).ret ≠ none) :
    (queue_push h d typ (some p) n).ret = some n ∧
    ∃ i, i < (queue_push h d typ (some p) n).h.level.toNat ∧
      (chunk_at (queue_push h d typ (some p) n).h i).hudev = d ∧
      (chunk_at (queue_push h d typ (some p) n).h i).typ = typ ∧
      (chunk_at (queue_push h d typ (some p) n).h i).data.take n = p := by
  rw [queue_push_regular h d typ p n h1 h2] at hret ⊢
  rcases queue_push_body_cases h d typ (some p) n (ring_inv_rpos_ok h hinv) with
    ⟨hs, _⟩ | ⟨_, i, hi, he⟩ | ⟨_, _, _, he⟩ | ⟨_, _, hlt, he⟩
  · exact absurd hrun hs
  · rw [he]
    refine ⟨rfl, i, ?_, ?_⟩
    · show i < h.level.toNat
      cases typ with
      | PACKET_TYPE_PBA => exact (show pba_candidate h d i from hi).1
      | PACKET_TYPE_SBA => exact (show sba_candidate h d i from hi).1
      | PACKET_TYPE_RAW => exact absurd hi (by simp [coalesce_target])
    · simp only
      rw [chunk_at_coalesced_self]
      have htag : (chunk_at h i).hudev = d ∧ (chunk_at h i).typ = typ := by
        cases typ with
        | PACKET_TYPE_PBA => exact (show pba_candidate h d i from hi).2.1
        | PACKET_TYPE_SBA => exact (show sba_candidate h d i from hi).2.1
        | PACKET_TYPE_RAW => exact absurd hi (by simp [coalesce_target])
      exact ⟨htag.1, htag.2, take_memcpy _ _ _ hp⟩
  · rw [he] at hret
    exact absurd rfl hret
  · rw [he]
    refine ⟨rfl, h.level.toNat, ?_, ?_⟩
    · simp only
      rw [level_toNat_enqueued h d typ (some p) n hinv]
      omega
    · simp only
      rw [chunk_at_enqueued_new h d typ (some p) n hinv]
      exact ⟨rfl, rfl, take_memcpy _ _ _ hp⟩

/-- A push of `n` bytes into an empty RUNNING queue stores one chunk, and the next call of
`queue_shift` hands out the device and the bytes. -/
theorem queue_push_empty_shift (h : queue_t) (d : HUDEV) (typ : packet_type_t)
    (p buffer0 : List uint8_t) (n nsize : Nat) (h1 : 0 < n) (h2 : n ≤ 32) (hp : p.length = n)
    (hinv : ring_inv h) (hrun : h.state = 0) (hempty : h.level = 0) (hn : 32 ≤ nsize) :
    queue_push h d typ (some p) n =
      { h := enqueued h d typ (some p) n, ret := some n, do_unblock := h.rblocked } ∧
    (enqueued h d typ (some p) n).level = 1 ∧
    shift_seq nsize 1 (enqueued h d typ (some p) n) buffer0 = [(some n, d, p)] := by
  have e1 := queue_push_enqueues h d typ p n h1 h2 (ring_inv_rpos_ok h hinv) hrun (by omega)
    (fun i hc => by
      cases typ with
      | PACKET_TYPE_PBA => have := (show pba_candidate h d i from hc).1; omega
      | PACKET_TYPE_SBA => have := (show sba_candidate h d i from hc).1; omega
      | PACKET_TYPE_RAW => exact absurd hc (by simp [coalesce_target]))
  have hinv1 : ring_inv (queue_push h d typ (some p) n).h := ring_inv_push h _ _ _ _ hinv
  rw [e1] at hinv1
  simp only at hinv1
  have hl1 := live_enqueued h d typ (some p) n hinv (by omega)
  have hlive0 : live h = [] := by
    unfold live
    rw [hempty]
    rfl
  rw [hlive0, List.nil_append] at hl1
  have hlev : (enqueued h d typ (some p) n).level = 1 := by
    show h.level + 1 = 1
    omega
  refine ⟨e1, hlev, ?_⟩
  have hlen : n ≤ (new_chunk (h.buf h.wpos) d typ (some p) n).data.length := by
    show n ≤ (memcpy _ p n).length
    unfold memcpy
    simp only [List.length_append, List.length_take, List.length_drop]
    omega
  rw [shift_seq_spec nsize hn 1 _ buffer0 hinv1 hrun (by rw [hlev]; decide)
    (by
      intro c hc
      rw [hl1] at hc
      rw [List.mem_singleton.mp hc]
      exact ⟨h1, hlen⟩), hl1]
  subst hp
  simp only [List.take, List.map, delivered_new_chunk]

/-- What `LWZ_SBA` does for a handle whose slot holds the device `d`. -/
theorem LWZ_SBA_occupied (g : lwz_context_t) (hlwz : Int) (b0 b1 b2 b3 speed d : Nat)
    (hget : lwz_get_hdev g (hlwz - 1) = some d) :
    (LWZ_SBA g hlwz b0 b1 b2 b3 speed).g =
      { g with hqueue := (queue_push g.hqueue (some d) PACKET_TYPE_SBA
        (some (sba_report b0 b1 b2 b3 speed)) 8).h } ∧
    (LWZ_SBA g hlwz b0 b1 b2 b3 speed).ret =
      (queue_push g.hqueue (some d) PACKET_TYPE_SBA
        (some (sba_report b0 b1 b2 b3 speed)) 8).ret.map (fun _ => 0) ∧
    (LWZ_SBA g hlwz b0 b1 b2 b3 speed).trace =
      [enter_g_cs, push (some d) PACKET_TYPE_SBA (some (sba_report b0 b1 b2 b3 speed)) 8,
        if (queue_push g.hqueue (some d) PACKET_TYPE_SBA
          (some (sba_report b0 b1 b2 b3 speed)) 8).ret = none then wait_hrevent
        else leave_g_cs] := by
  unfold LWZ_SBA sba_report
  simp only [hget]
  cases hr : (queue_push g.hqueue (some d) PACKET_TYPE_SBA
      (some [0x40, b0 % 256, b1 % 256, b2 % 256, b3 % 256, speed % 256, 0, 0]) 8).ret with
  | none => exact ⟨rfl, rfl, rfl⟩
  | some v => exact ⟨rfl, rfl, rfl⟩

/-- Claim C13 (LWZ_SBA encoding). For every handle `hlwz` in `1..16` whose slot `hlwz - 1` holds
a device `d`, and all arguments: `LWZ_SBA(hlwz, b0, b1, b2, b3, speed)` makes exactly one call
into the queue, `queue_push` for `d` with tag SBA, length 8 and the bytes
`{0x40, b0 mod 256, b1 mod 256, b2 mod 256, b3 mod 256, speed mod 256, 0, 0}`, and the queue
afterwards is the result of that push. When the queue is RUNNING and the operation returns, the
queue holds a live SBA chunk for `d` whose first 8 bytes are this report; when the queue is
RUNNING and empty, the operation returns, `level` is 1, and the next `queue_shift` hands the
writer the device `d` and exactly these 8 bytes. -/
theorem LWZ_SBA_encoding (g : lwz_context_t) (hlwz : Int) (b0 b1 b2 b3 speed d : Nat)
    (h1 : 1 ≤ hlwz) (h16 : hlwz ≤ 16) (hd : (g.devices (hlwz - 1)).hudev = some d) :
    queue_calls (LWZ_SBA g hlwz b0 b1 b2 b3 speed).trace =
      [push (some d) PACKET_TYPE_SBA
        (some [0x40, b0 % 256, b1 % 256, b2 % 256, b3 % 256, speed % 256, 0, 0]) 8] ∧
    (LWZ_SBA g hlwz b0 b1 b2 b3 speed).g.hqueue =
      (queue_push g.hqueue (some d) PACKET_TYPE_SBA
        (some [0x40, b0 % 256, b1 % 256, b2 % 256, b3 % 256, speed % 256, 0, 0]) 8).h ∧
    (running g.hqueue → ring_inv g.hqueue →
      (LWZ_SBA g hlwz b0 b1 b2 b3 speed).ret ≠ none →
      ∃ i, i < (LWZ_SBA g hlwz b0 b1 b2 b3 speed).g.hqueue.level.toNat ∧
        is_sba_for (some d) (chunk_at (LWZ_SBA g hlwz b0 b1 b2 b3 speed).g.hqueue i) ∧
        (chunk_at (LWZ_SBA g hlwz b0 b1 b2 b3 speed).g.hqueue i).data.take 8 =
          [0x40, b0 % 256, b1 % 256, b2 % 256, b3 % 256, speed % 256, 0, 0]) ∧
    (running g.hqueue → ring_inv g.hqueue → g.hqueue.level = 0 →
      (LWZ_SBA g hlwz b0 b1 b2 b3 speed).ret = some 0 ∧
      (LWZ_SBA g hlwz b0 b1 b2 b3 speed).g.hqueue.level = 1 ∧
      ∀ buffer0 : List uint8_t,
        shift_seq 64 1 (LWZ_SBA g hlwz b0 b1 b2 b3 speed).g.hqueue buffer0 =
          [(some 8, some d,
            [0x40, b0 % 256, b1 % 256, b2 % 256, b3 % 256, speed % 256, 0, 0])]) := by
  have hget : lwz_get_hdev g (hlwz - 1) = some d := by
    rw [lwz_get_hdev_eq, if_pos ⟨by omega, by omega⟩]
    exact hd
  obtain ⟨e1, e2, e3⟩ := LWZ_SBA_occupied g hlwz b0 b1 b2 b3 speed d hget
  rw [e1, e2, e3]
  have hrep : sba_report b0 b1 b2 b3 speed =
      [0x40, b0 % 256, b1 % 256, b2 % 256, b3 % 256, speed % 256, 0, 0] := rfl
  rw [hrep]
  refine ⟨?_, rfl, ?_, ?_⟩
  · unfold queue_calls
    split_ifs <;> rfl
  · intro hrun hinv hret
    have hret' : (queue_push g.hqueue (some d) PACKET_TYPE_SBA
        (some [0x40, b0 % 256, b1 % 256, b2 % 256, b3 % 256, speed % 256, 0, 0]) 8).ret ≠
        none := by
      intro hn
      rw [hn] at hret
      exact hret rfl
    obtain ⟨_, i, hi, a1, a2, a3⟩ := queue_push_holds g.hqueue (some d) PACKET_TYPE_SBA
      [0x40, b0 % 256, b1 % 256, b2 % 256, b3 % 256, speed % 256, 0, 0] 8 (by decide)
      (by decide) rfl hinv hrun hret'
    exact ⟨i, hi, ⟨a1, a2⟩, a3⟩
  · intro hrun hinv hempty
    obtain ⟨a1, a2, a3⟩ := queue_push_empty_shift g.hqueue (some d) PACKET_TYPE_SBA
      [0x40, b0 % 256, b1 % 256, b2 % 256, b3 % 256, speed % 256, 0, 0] [] 8 64 (by decide)
      (by decide) rfl hinv hrun hempty (by decide)
    rw [a1]
    refine ⟨rfl, a2, fun buffer0 => ?_⟩
    exact (queue_push_empty_shift g.hqueue (some d) PACKET_TYPE_SBA
      [0x40, b0 % 256, b1 % 256, b2 % 256, b3 % 256, speed % 256, 0, 0] buffer0 8 64
      (by decide) (by decide) rfl hinv hrun hempty (by decide)).2.2

/-- C13 at `ex_registry` (unit 1 is the device object 10): `LWZ_SBA(1, 1, 2, 3, 4, 3)` hands
the queue the bytes `{0x40, 1, 2, 3, 4, 3, 0, 0}`, and `LWZ_SBA(1, 257, 2, 3, 4, 3)` does the
same. -/
theorem LWZ_SBA_encoding_witness :
    queue_calls (LWZ_SBA ex_registry 1 1 2 3 4 3).trace =
      [push (some 10) PACKET_TYPE_SBA (some [0x40, 0x01, 0x02, 0x03, 0x04, 0x03, 0x00, 0x00])
        8] ∧
    queue_calls (LWZ_SBA ex_registry 1 257 2 3 4 3).trace =
      [push (some 10) PACKET_TYPE_SBA (some [0x40, 0x01, 0x02, 0x03, 0x04, 0x03, 0x00, 0x00])
        8] ∧
    shift_seq 64 1 (LWZ_SBA ex_registry 1 1 2 3 4 3).g.hqueue (List.replicate 64 0) =
      [(some 8, some 10, [0x40, 0x01, 0x02, 0x03, 0x04, 0x03, 0x00, 0x00])] :=
  ⟨(LWZ_SBA_encoding ex_registry 1 1 2 3 4 3 10 (by decide) (by decide) (by decide)).1,
   (LWZ_SBA_encoding ex_registry 1 257 2 3 4 3 10 (by decide) (by decide) (by decide)).1,
   ((LWZ_SBA_encoding ex_registry 1 1 2 3 4 3 10 (by decide) (by decide)
      (by decide)).2.2.2 (by decide) (by decide) (by decide)).2.2 (List.replicate 64 0)⟩


theorem take_memcpy_le (dst src : List uint8_t) (n : Nat) (hs : n ≤ src.length) :
    (memcpy dst src n).take n = src.take n := by
  unfold memcpy
  rw [List.take_append_of_le_length (by rw [List.length_take]; omega), List.take_take,
    Nat.min_self]

/-- What `LWZ_RAWWRITE` does for non-null data of at least one byte and a handle whose slot
holds the device `d`. -/
theorem LWZ_RAWWRITE_occupied (g : lwz_context_t) (hlwz : Int) (data : List uint8_t)
    (n d : Nat) (hn : 1 ≤ n) (hget : lwz_get_hdev g (hlwz - 1) = some d) :
    (LWZ_RAWWRITE g hlwz (some data) n).g =
      { g with hqueue := (queue_push g.hqueue (some d) PACKET_TYPE_RAW (some data)
        (min n 32)).h } ∧
    (LWZ_RAWWRITE g hlwz (some data) n).ret =
      (queue_push g.hqueue (some d) PACKET_TYPE_RAW (some data) (min n 32)).ret ∧
    (LWZ_RAWWRITE g hlwz (some data) n).trace =
      [enter_g_cs, push (some d) PACKET_TYPE_RAW (some data) (min n 32),
        if (queue_push g.hqueue (some d) PACKET_TYPE_RAW (some data) (min n 32)).ret = none
        then wait_hrevent else leave_g_cs] := by
  have hmin : (if n > 32 then 32 else n) = min n 32 := by
    split_ifs <;> omega
  unfold LWZ_RAWWRITE
  rw [if_neg (by simp only [reduceCtorEq, false_or]; omega)]
  simp only [hget, hmin]
  cases hr : (queue_push g.hqueue (some d) PACKET_TYPE_RAW (some data) (min n 32)).ret with
  | none => exact ⟨rfl, rfl, rfl⟩
  | some v => exact ⟨rfl, rfl, rfl⟩

/-- Claim C14 (LWZ_RAWWRITE). For every handle `hlwz` in `1..16` whose slot holds a device `d`,
non-null `data` and `n ≥ 1` (with `data` at least `min(n, 32)` bytes long): when the queue is
RUNNING, satisfies the ring invariant and is not full, `LWZ_RAWWRITE(hlwz, data, n)` makes one
call of `queue_push`, which appends exactly one chunk to the live window and changes no other
live chunk; the new chunk has tag RAW, device `d`, length `min(n, 32)` and the first
`min(n, 32)` bytes of `data` as payload; the operation returns `min(n, 32)`, the value
`queue_push` reports. When the queue is SHUTTING_DOWN the operation returns 0 and leaves the
queue as it is. -/
theorem LWZ_RAWWRITE_spec (g : lwz_context_t) (hlwz : Int) (data : List uint8_t) (n d : Nat)
    (h1 : 1 ≤ hlwz) (h16 : hlwz ≤ 16) (hd : (g.devices (hlwz - 1)).hudev = some d)
    (hn : 1 ≤ n) (hlen : min n 32 ≤ data.length) :
    (running g.hqueue → ring_inv g.hqueue → g.hqueue.level < 64 →
      (LWZ_RAWWRITE g hlwz (some data) n).ret = some (min n 32) ∧
      (LWZ_RAWWRITE g hlwz (some data) n).ret =
        (queue_push g.hqueue (some d) PACKET_TYPE_RAW (some data) (min n 32)).ret ∧
      queue_calls (LWZ_RAWWRITE g hlwz (some data) n).trace =
        [push (some d) PACKET_TYPE_RAW (some data) (min n 32)] ∧
      (LWZ_RAWWRITE g hlwz (some data) n).g.hqueue.level = g.hqueue.level + 1 ∧
      ∃ c : chunk_t,
        live (LWZ_RAWWRITE g hlwz (some data) n).g.hqueue = live g.hqueue ++ [c] ∧
        c.typ = PACKET_TYPE_RAW ∧ c.hudev = some d ∧ c.ndata = min n 32 ∧
        c.data.take (min n 32) = data.take (min n 32)) ∧
    (¬ running g.hqueue →
      (LWZ_RAWWRITE g hlwz (some data) n).ret = some 0 ∧
      (LWZ_RAWWRITE g hlwz (some data) n).g.hqueue = g.hqueue) := by
  have hget : lwz_get_hdev g (hlwz - 1) = some d := by
    rw [lwz_get_hdev_eq, if_pos ⟨by omega, by omega⟩]
    exact hd
  obtain ⟨e1, e2, e3⟩ := LWZ_RAWWRITE_occupied g hlwz data n d hn hget
  rw [e1, e2, e3]
  constructor
  · intro hrun hinv hlt
    have hpush := queue_push_enqueues g.hqueue (some d) PACKET_TYPE_RAW data (min n 32)
      (by omega) (by omega) (ring_inv_rpos_ok _ hinv) hrun hlt
      (fun i hc => absurd hc (by simp [coalesce_target]))
    rw [hpush]
    refine ⟨rfl, rfl, rfl, rfl, new_chunk (g.hqueue.buf g.hqueue.wpos) (some d)
      PACKET_TYPE_RAW (some data) (min n 32),
      live_enqueued g.hqueue (some d) PACKET_TYPE_RAW (some data) (min n 32) hinv hlt,
      rfl, rfl, rfl, ?_⟩
    exact take_memcpy_le _ _ _ hlen
  · intro hrun
    rw [queue_push_shutting_down g.hqueue (some d) PACKET_TYPE_RAW (some data) (min n 32) hrun]
    exact ⟨rfl, rfl⟩

/-- C14 at `ex_registry` with an empty queue: a raw write of 40 bytes to unit 1 returns 32 and
queues the first 32 bytes; a raw write of 3 bytes returns 3. -/
theorem LWZ_RAWWRITE_spec_witness :
    (LWZ_RAWWRITE ex_registry 1 (some (List.replicate 40 5)) 40).ret = some 32 ∧
    (LWZ_RAWWRITE ex_registry 1 (some [1, 2, 3]) 3).ret = some 3 ∧
    ∃ c : chunk_t, live (LWZ_RAWWRITE ex_registry 1 (some [1, 2, 3]) 3).g.hqueue = [c] ∧
      c.typ = PACKET_TYPE_RAW ∧ c.hudev = some 10 ∧ c.ndata = 3 ∧ c.data.take 3 = [1, 2, 3] :=
  ⟨((LWZ_RAWWRITE_spec ex_registry 1 (List.replicate 40 5) 40 10 (by decide) (by decide)
      (by decide) (by decide) (by decide)).1 (by decide) (by decide) (by decide)).1,
   ((LWZ_RAWWRITE_spec ex_registry 1 [1, 2, 3] 3 10 (by decide) (by decide)
      (by decide) (by decide) (by decide)).1 (by decide) (by decide) (by decide)).1,
   ((LWZ_RAWWRITE_spec ex_registry 1 [1, 2, 3] 3 10 (by decide) (by decide)
      (by decide) (by decide) (by decide)).1 (by decide) (by decide)
      (by decide)).2.2.2.2⟩

/-- Claim C15 (no such device). For every handle `hlwz` outside `1..16` (0 and every negative
value included) or whose slot `hlwz - 1` is empty: `LWZ_SBA` and `LWZ_PBA` return and leave the
context, and with it the queue, unchanged; `LWZ_RAWWRITE` and `LWZ_RAWREAD` return 0 and leave
the context unchanged; none of the four makes a call into the queue or waits on a queue event,
the trace being the entry into and the exit from `g_cs` only. For every `indx`, `lwz_get_hdev`
returns the device of slot `indx` when `0 ≤ indx < 16` and `NULL` otherwise. -/
theorem no_such_device (g : lwz_context_t) (hlwz : Int) (b0 b1 b2 b3 speed : Nat)
    (pdata : Option (List uint8_t)) (ndata nread : Nat)
    (hbad : hlwz < 1 ∨ 16 < hlwz ∨ (g.devices (hlwz - 1)).hudev = none) :
    ((LWZ_SBA g hlwz b0 b1 b2 b3 speed).g = g ∧
      (LWZ_SBA g hlwz b0 b1 b2 b3 speed).ret = some 0 ∧
      (LWZ_SBA g hlwz b0 b1 b2 b3 speed).trace = [enter_g_cs, leave_g_cs]) ∧
    ((LWZ_PBA g hlwz pdata).g = g ∧
      (LWZ_PBA g hlwz pdata).ret = some 0 ∧
      (LWZ_PBA g hlwz pdata).trace = [enter_g_cs, leave_g_cs]) ∧
    ((LWZ_RAWWRITE g hlwz pdata ndata).g = g ∧
      (LWZ_RAWWRITE g hlwz pdata ndata).ret = some 0 ∧
      (LWZ_RAWWRITE g hlwz pdata ndata).trace = [enter_g_cs, leave_g_cs]) ∧
    ((LWZ_RAWREAD g hlwz pdata ndata nread).g = g ∧
      (LWZ_RAWREAD g hlwz pdata ndata nread).ret = some 0 ∧
      (LWZ_RAWREAD g hlwz pdata ndata nread).trace = [enter_g_cs, leave_g_cs]) ∧
    ∀ indx : Int, lwz_get_hdev g indx =
      if 0 ≤ indx ∧ indx < 16 then (g.devices indx).hudev else none := by
  have hget : lwz_get_hdev g (hlwz - 1) = none := by
    rw [lwz_get_hdev_eq]
    by_cases hc : 0 ≤ hlwz - 1 ∧ hlwz - 1 < 16
    · rw [if_pos hc]
      rcases hbad with hb | hb | hb
      · omega
      · omega
      · exact hb
    · rw [if_neg hc]
  refine ⟨?_, ?_, ?_, ?_, lwz_get_hdev_eq g⟩
  · unfold LWZ_SBA
    simp only [hget]
    exact ⟨trivial, trivial, trivial⟩
  · unfold LWZ_PBA
    simp only [hget]
    split_ifs <;> exact ⟨rfl, rfl, rfl⟩
  · unfold LWZ_RAWWRITE
    simp only [hget]
    split_ifs <;> exact ⟨rfl, rfl, rfl⟩
  · unfold LWZ_RAWREAD
    simp only [hget]
    split_ifs <;> exact ⟨rfl, rfl, rfl⟩

/-- C15 at `ex_registry`, whose only device is unit 1: the handles 0, -1, 17 and 2 are no
device. -/
theorem no_such_device_witness :
    (LWZ_SBA ex_registry 0 1 2 3 4 3).trace = [enter_g_cs, leave_g_cs] ∧
    (LWZ_PBA ex_registry (-1) (some (payload32 1))).trace = [enter_g_cs, leave_g_cs] ∧
    (LWZ_RAWWRITE ex_registry 17 (some [1]) 1).ret = some 0 ∧
    (LWZ_RAWREAD ex_registry 2 (some []) 8 8).ret = some 0 :=
  ⟨(no_such_device ex_registry 0 1 2 3 4 3 none 0 0 (by decide)).1.2.2,
   (no_such_device ex_registry (-1) 0 0 0 0 0 (some (payload32 1)) 0 0 (by decide)).2.1.2.2,
   (no_such_device ex_registry 17 0 0 0 0 0 (some [1]) 1 0 (by decide)).2.2.1.2.1,
   (no_such_device ex_registry 2 0 0 0 0 0 (some []) 8 8 (by decide)).2.2.2.1.2.1⟩

/-! ## C18: g_cs and the waits on queue events -/

set_option maxRecDepth 100000 in
/-- Claim C18, counterexample. With unit 1 attached and the queue full, `LWZ_RAWWRITE(1, data, 1)`
waits inside `queue_push` for `hrevent` while the calling thread holds `g_cs`; with the queue
empty and the writer not yet blocked, `LWZ_RAWREAD(1, buf, 8)` waits inside `queue_wait_empty`
for `heevent` while the calling thread holds `g_cs`. -/
theorem g_cs_released_counterexample :
    ((LWZ_RAWWRITE ex_registry_full 1 (some [1]) 1).ret = none ∧
      (LWZ_RAWWRITE ex_registry_full 1 (some [1]) 1).trace =
        [enter_g_cs, push (some 10) PACKET_TYPE_RAW (some [1]) 1, wait_hrevent] ∧
      g_cs_at_waits (LWZ_RAWWRITE ex_registry_full 1 (some [1]) 1).trace 0 = [1]) ∧
    ((LWZ_RAWREAD ex_registry 1 (some (List.replicate 8 0)) 8 8).ret = none ∧
      (LWZ_RAWREAD ex_registry 1 (some (List.replicate 8 0)) 8 8).trace =
        [enter_g_cs, wait_empty, wait_heevent] ∧
      g_cs_at_waits (LWZ_RAWREAD ex_registry 1 (some (List.replicate 8 0)) 8 8).trace 0 =
        [1]) ∧
    ¬ (∀ (g : lwz_context_t) (hlwz : LWZHANDLE) (pdata : Option (List uint8_t)) (ndata : Nat),
        ∀ k ∈ g_cs_at_waits (LWZ_RAWWRITE g hlwz pdata ndata).trace 0, k = 0) := by
  have hw : g_cs_at_waits (LWZ_RAWWRITE ex_registry_full 1 (some [1]) 1).trace 0 = [1] := by
    decide
  refine ⟨⟨by decide, by decide, hw⟩, ⟨by decide, by decide, by decide⟩, ?_⟩
  intro hall
  have := hall ex_registry_full 1 (some [1]) 1 1 (by rw [hw]; exact List.mem_singleton.mpr rfl)
  exact absurd this (by decide)

/-- How often `g_cs` is held at the waits of a trace of one of the five shapes the public
operations produce. -/
theorem g_cs_of_shape (o : api_out) (n0 : Nat)
    (hshape : (o.ret ≠ none ∧ o.trace = [enter_g_cs, leave_g_cs]) ∨
      (o.ret ≠ none ∧ ∃ a b c d, o.trace = [enter_g_cs, push a b c d, leave_g_cs]) ∨
      (o.ret = none ∧ ∃ a b c d, o.trace = [enter_g_cs, push a b c d, wait_hrevent]) ∨
      (o.ret ≠ none ∧ ∃ a b, o.trace = [enter_g_cs, wait_empty, read a b, leave_g_cs]) ∨
      (o.ret = none ∧ o.trace = [enter_g_cs, wait_empty, wait_heevent])) :
    g_cs_at_waits o.trace n0 = (if o.ret = none then [n0 + 1] else []) ∧
    (o.ret ≠ none → g_cs_after o.trace n0 = n0) := by
  rcases hshape with ⟨hr, ht⟩ | ⟨hr, a, b, c, d, ht⟩ | ⟨hr, a, b, c, d, ht⟩ |
    ⟨hr, a, b, ht⟩ | ⟨hr, ht⟩
  · rw [ht, if_neg hr]; exact ⟨rfl, fun _ => rfl⟩
  · rw [ht, if_neg hr]; exact ⟨rfl, fun _ => rfl⟩
  · rw [ht, if_pos hr]; exact ⟨rfl, fun hn => absurd hr hn⟩
  · rw [ht, if_neg hr]; exact ⟨rfl, fun _ => rfl⟩
  · rw [ht, if_pos hr]; exact ⟨rfl, fun hn => absurd hr hn⟩

theorem LWZ_SBA_g_cs (g : lwz_context_t) (hlwz : Int) (b0 b1 b2 b3 speed n0 : Nat) :
    g_cs_at_waits (LWZ_SBA g hlwz b0 b1 b2 b3 speed).trace n0 =
      (if (LWZ_SBA g hlwz b0 b1 b2 b3 speed).ret = none then [n0 + 1] else []) ∧
    ((LWZ_SBA g hlwz b0 b1 b2 b3 speed).ret ≠ none →
      g_cs_after (LWZ_SBA g hlwz b0 b1 b2 b3 speed).trace n0 = n0) := by
  apply g_cs_of_shape
  unfold LWZ_SBA
  dsimp only
  split
  · simp
  · split <;> simp

theorem LWZ_PBA_g_cs (g : lwz_context_t) (hlwz : Int) (pdata : Option (List uint8_t))
    (n0 : Nat) :
    g_cs_at_waits (LWZ_PBA g hlwz pdata).trace n0 =
      (if (LWZ_PBA g hlwz pdata).ret = none then [n0 + 1] else []) ∧
    ((LWZ_PBA g hlwz pdata).ret ≠ none → g_cs_after (LWZ_PBA g hlwz pdata).trace n0 = n0) := by
  apply g_cs_of_shape
  unfold LWZ_PBA
  dsimp only
  split
  · simp
  · split
    · simp
    · split <;> simp

theorem LWZ_RAWWRITE_g_cs (g : lwz_context_t) (hlwz : Int) (pdata : Option (List uint8_t))
    (ndata n0 : Nat) :
    g_cs_at_waits (LWZ_RAWWRITE g hlwz pdata ndata).trace n0 =
      (if (LWZ_RAWWRITE g hlwz pdata ndata).ret = none then [n0 + 1] else []) ∧
    ((LWZ_RAWWRITE g hlwz pdata ndata).ret ≠ none →
      g_cs_after (LWZ_RAWWRITE g hlwz pdata ndata).trace n0 = n0) := by
  apply g_cs_of_shape
  unfold LWZ_RAWWRITE
  dsimp only
  split
  · simp
  · split
    · simp
    · split <;> simp

theorem LWZ_RAWREAD_g_cs (g : lwz_context_t) (hlwz : Int) (pdata : Option (List uint8_t))
    (ndata nread n0 : Nat) :
    g_cs_at_waits (LWZ_RAWREAD g hlwz pdata ndata nread).trace n0 =
      (if (LWZ_RAWREAD g hlwz pdata ndata nread).ret = none then [n0 + 1] else []) ∧
    ((LWZ_RAWREAD g hlwz pdata ndata nread).ret ≠ none →
      g_cs_after (LWZ_RAWREAD g hlwz pdata ndata nread).trace n0 = n0) := by
  apply g_cs_of_shape
  unfold LWZ_RAWREAD
  dsimp only
  split
  · simp
  · split
    · simp
    · split <;> simp


/-- Claim C18, amended. Every public operation (`LWZ_SBA`, `LWZ_PBA`, `LWZ_RAWWRITE`,
`LWZ_RAWREAD`) enters `g_cs` on entry and leaves it only when it returns: at every point where
the calling thread waits inside `queue_push` (queue full) or `queue_wait_empty` (drain) it
holds `g_cs` once more than on entry, so it does hold `g_cs` across the wait; an operation that
returns holds `g_cs` as often as on entry and has not waited. Here `n0` is how often the
calling thread holds `g_cs` on entry. -/
theorem g_cs_held_across_waits (g : lwz_context_t) (hlwz : LWZHANDLE)
    (b0 b1 b2 b3 speed : Nat) (pdata : Option (List uint8_t)) (ndata nread n0 : Nat) :
    (g_cs_at_waits (LWZ_SBA g hlwz b0 b1 b2 b3 speed).trace n0 =
        (if (LWZ_SBA g hlwz b0 b1 b2 b3 speed).ret = none then [n0 + 1] else []) ∧
      ((LWZ_SBA g hlwz b0 b1 b2 b3 speed).ret ≠ none →
        g_cs_after (LWZ_SBA g hlwz b0 b1 b2 b3 speed).trace n0 = n0)) ∧
    (g_cs_at_waits (LWZ_PBA g hlwz pdata).trace n0 =
        (if (LWZ_PBA g hlwz pdata).ret = none then [n0 + 1] else []) ∧
      ((LWZ_PBA g hlwz pdata).ret ≠ none →
        g_cs_after (LWZ_PBA g hlwz pdata).trace n0 = n0)) ∧
    (g_cs_at_waits (LWZ_RAWWRITE g hlwz pdata ndata).trace n0 =
        (if (LWZ_RAWWRITE g hlwz pdata ndata).ret = none then [n0 + 1] else []) ∧
      ((LWZ_RAWWRITE g hlwz pdata ndata).ret ≠ none →
        g_cs_after (LWZ_RAWWRITE g hlwz pdata ndata).trace n0 = n0)) ∧
    (g_cs_at_waits (LWZ_RAWREAD g hlwz pdata ndata nread).trace n0 =
        (if (LWZ_RAWREAD g hlwz pdata ndata nread).ret = none then [n0 + 1] else []) ∧
      ((LWZ_RAWREAD g hlwz pdata ndata nread).ret ≠ none →
        g_cs_after (LWZ_RAWREAD g hlwz pdata ndata nread).trace n0 = n0)) :=
  ⟨LWZ_SBA_g_cs g hlwz b0 b1 b2 b3 speed n0, LWZ_PBA_g_cs g hlwz pdata n0,
    LWZ_RAWWRITE_g_cs g hlwz pdata ndata n0, LWZ_RAWREAD_g_cs g hlwz pdata ndata nread n0⟩

set_option maxRecDepth 100000 in
/-- Amended C18 at `ex_registry_full`: the raw write that finds the queue full waits while
`g_cs` is held once. -/
theorem g_cs_held_across_waits_witness :
    (LWZ_RAWWRITE ex_registry_full 1 (some [1]) 1).ret = none ∧
    g_cs_at_waits (LWZ_RAWWRITE ex_registry_full 1 (some [1]) 1).trace 0 = [0 + 1] :=
  have hr : (LWZ_RAWWRITE ex_registry_full 1 (some [1]) 1).ret = none := by decide
  ⟨hr, (g_cs_held_across_waits ex_registry_full 1 0 0 0 0 0 (some [1]) 1 0 0).2.2.1.1.trans
    (if_pos hr)⟩

/-! ## C19: LWZ_SET_NOTIFY_EX on a registry that already stores devices -/

/-- Claim C19 at the failing input. On the registry `ex_registry_ex`, in which unit 1 is stored
and listed, with the same LED-Wiz still attached: `LWZ_SET_NOTIFY_EX(cb_ex, puser, list)` makes
no callback and leaves the list empty although slot 0 stays occupied, whereas
`LWZ_SET_NOTIFY(cb, list)` on the same registry calls back with `(ADD, 1)` and leaves the list
holding the handle 1. -/
theorem set_notify_ex_skips_stored_devices :
    ex_registry_ex.plist.map list_view = some [1] ∧
    occupied ex_registry_ex 0 ∧
    (LWZ_SET_NOTIFY_EX lwz_open (some 8) 5 (some LWZDEVICELIST_zero)
      (some [ex_ledwiz])).events.map cb_event.call =
      [cb_call.notify_ex 8 5 LWZ_REASON_ADD 1] ∧
    (LWZ_SET_NOTIFY_EX ex_registry_ex (some 8) 5 (some LWZDEVICELIST_zero)
      (some [ex_ledwiz])).events.map cb_event.call = [] ∧
    (LWZ_SET_NOTIFY_EX ex_registry_ex (some 8) 5 (some LWZDEVICELIST_zero)
      (some [ex_ledwiz])).h.plist.map list_view = some [] ∧
    occupied (LWZ_SET_NOTIFY_EX ex_registry_ex (some 8) 5 (some LWZDEVICELIST_zero)
      (some [ex_ledwiz])).h 0 ∧
    (LWZ_SET_NOTIFY ex_registry_ex (some 7) (some LWZDEVICELIST_zero)
      (some [ex_ledwiz])).events.map cb_event.call =
      [cb_call.notify 7 LWZ_REASON_ADD 1, cb_call.notify_ex 8 5 LWZ_REASON_ADD 1] ∧
    (LWZ_SET_NOTIFY ex_registry_ex (some 7) (some LWZDEVICELIST_zero)
      (some [ex_ledwiz])).h.plist.map list_view = some [1] := by
  decide

/-! ## The queue with its device references and the writer thread -/

theorem queue_push_body_ref_out (h : queue_t) (d : HUDEV) (typ : packet_type_t)
    (pdata : Option (List uint8_t)) (ndata : Nat) :
    (queue_push_body_ref h d typ pdata ndata).out = queue_push_body h d typ pdata ndata := by
  unfold queue_push_body_ref queue_push_body
  dsimp only
  split_ifs <;> rfl

theorem queue_push_ref_out (h : queue_t) (d : HUDEV) (typ : packet_type_t)
    (pdata : Option (List uint8_t)) (ndata : Nat) :
    (queue_push_ref h d typ pdata ndata).out = queue_push h d typ pdata ndata := by
  unfold queue_push_ref queue_push
  split_ifs <;> exact queue_push_body_ref_out _ _ _ _ _

/-- A pass of `queue_push` takes a reference exactly when it stores a chunk, on the device of
the chunk, and it stores a chunk exactly when `level` grows. -/
theorem queue_push_body_ref_stored (h : queue_t) (d : HUDEV) (typ : packet_type_t)
    (pdata : Option (List uint8_t)) (ndata : Nat) :
    ((queue_push_body_ref h d typ pdata ndata).stored = true →
      (queue_push_body_ref h d typ pdata ndata).addref = d) ∧
    ((queue_push_body_ref h d typ pdata ndata).stored = false →
      (queue_push_body_ref h d typ pdata ndata).addref = none) ∧
    ((queue_push_body_ref h d typ pdata ndata).stored = true ↔
      (queue_push_body_ref h d typ pdata ndata).out.h.level = h.level + 1) := by
  unfold queue_push_body_ref
  dsimp only
  split_ifs <;> simp

/-- Every call of `queue_push` runs the loop body on the arguments as given or on the sentinel
arguments; a chunk of length 0 gets no device. -/
theorem queue_push_ref_eq_body (h : queue_t) (d : HUDEV) (typ : packet_type_t)
    (pdata : Option (List uint8_t)) (ndata : Nat) :
    ∃ d1 pdata1 ndata1,
      queue_push_ref h d typ pdata ndata = queue_push_body_ref h d1 typ pdata1 ndata1 ∧
      (ndata1 = 0 → d1 = none) := by
  unfold queue_push_ref
  by_cases hc : pdata = none ∨ ndata = 0 ∨ ndata > CHUNK_DATA_SIZE
  · exact ⟨none, none, 0, by rw [if_pos hc], fun _ => rfl⟩
  · exact ⟨d, pdata, ndata, by rw [if_neg hc], fun h0 => absurd (Or.inr (Or.inl h0)) hc⟩

theorem queue_wait_empty_cases (h : queue_t) :
    (queue_wait_empty h).h = h ∨ (queue_wait_empty h).h = { h with eblocked := false } ∨
    (queue_wait_empty h).h = { h with eblocked := true } := by
  unfold queue_wait_empty
  split_ifs
  · exact Or.inl rfl
  · exact Or.inr (Or.inl rfl)
  · exact Or.inr (Or.inr rfl)

theorem live_for_coalesced (h : queue_t) (i : Nat) (pdata : Option (List uint8_t))
    (ndata : Nat) (d : Nat) :
    live_for (coalesced h i pdata ndata) d = live_for h d := by
  unfold live_for live
  have hl : (coalesced h i pdata ndata).level = h.level := rfl
  rw [hl, List.countP_map, List.countP_map]
  apply List.countP_congr
  intro k _
  simp only [Function.comp, (chunk_at_coalesced_tags h i pdata ndata k).1]

theorem live_for_enqueued (h : queue_t) (hudev : HUDEV) (typ : packet_type_t)
    (pdata : Option (List uint8_t)) (ndata : Nat) (hinv : ring_inv h) (hlt : h.level < 64)
    (d : Nat) :
    live_for (enqueued h hudev typ pdata ndata) d =
      live_for h d + (if hudev = some d then 1 else 0) := by
  unfold live_for
  rw [live_enqueued h hudev typ pdata ndata hinv hlt, List.countP_append]
  congr 1
  have hc : ∀ hu : HUDEV, (new_chunk (h.buf h.wpos) hu typ pdata ndata).hudev = hu :=
    fun _ => rfl
  by_cases hd : hudev = some d
  · subst hd
    simp [List.countP_cons, hc]
  · simp [List.countP_cons, hc, hd]

theorem live_for_shifted (h : queue_t) (hinv : ring_inv h) (hpos : 0 < h.level) (d : Nat) :
    live_for h d =
      live_for (shifted h) d + (if (h.buf h.rpos).hudev = some d then 1 else 0) := by
  unfold live_for
  rw [live_shifted h hinv hpos, List.countP_cons]
  by_cases hd : (h.buf h.rpos).hudev = some d
  · simp [hd]
  · simp [hd]


/-- What a pass of `queue_push` does to the references, the level and the live chunks per
device: either nothing is stored, no reference is taken and the live chunks keep their devices,
or one chunk is stored behind the live ones and one reference is taken on its device. -/
theorem queue_push_ref_effect (h : queue_t) (d : HUDEV) (typ : packet_type_t)
    (pdata : Option (List uint8_t)) (ndata : Nat) (hinv : ring_inv h) :
    (queue_push_ref h d typ pdata ndata).out.h.state = h.state ∧
    (queue_push_ref h d typ pdata ndata).out.h.rblocked = h.rblocked ∧
    (((queue_push_ref h d typ pdata ndata).stored = false ∧
        (queue_push_ref h d typ pdata ndata).addref = none ∧
        (queue_push_ref h d typ pdata ndata).out.h.level = h.level ∧
        ∀ x : Nat, live_for (queue_push_ref h d typ pdata ndata).out.h x = live_for h x) ∨
      ((queue_push_ref h d typ pdata ndata).stored = true ∧
        (queue_push_ref h d typ pdata ndata).out.h.level = h.level + 1 ∧
        ∀ x : Nat, live_for (queue_push_ref h d typ pdata ndata).out.h x =
          live_for h x +
            (if (queue_push_ref h d typ pdata ndata).addref = some x then 1 else 0))) := by
  obtain ⟨d1, p1, n1, he, _⟩ := queue_push_ref_eq_body h d typ pdata ndata
  rw [he]
  have hout := queue_push_body_ref_out h d1 typ p1 n1
  obtain ⟨hs1, hs2, hs3⟩ := queue_push_body_ref_stored h d1 typ p1 n1
  generalize queue_push_body_ref h d1 typ p1 n1 = r at hout hs1 hs2 hs3 ⊢
  have hnot : r.out.h.level = h.level → r.stored = false := by
    intro hl
    cases hst : r.stored with
    | false => rfl
    | true =>
      have := hs3.mp hst
      omega
  rcases queue_push_body_cases h d1 typ p1 n1 (ring_inv_rpos_ok h hinv) with
    ⟨_, hb⟩ | ⟨_, i, _, hb⟩ | ⟨_, _, _, hb⟩ | ⟨_, _, hlt, hb⟩
  · rw [hb] at hout
    have hh : r.out.h = h := by rw [hout]
    have hst := hnot (by rw [hh])
    rw [hh]
    exact ⟨rfl, rfl, Or.inl ⟨hst, hs2 hst, rfl, fun _ => rfl⟩⟩
  · rw [hb] at hout
    have hh : r.out.h = coalesced h i p1 n1 := by rw [hout]
    have hst := hnot (by rw [hh]; rfl)
    rw [hh]
    exact ⟨rfl, rfl, Or.inl ⟨hst, hs2 hst, rfl, fun x => live_for_coalesced h i p1 n1 x⟩⟩
  · rw [hb] at hout
    have hh : r.out.h = { h with wblocked := true } := by rw [hout]
    have hst := hnot (by rw [hh])
    rw [hh]
    exact ⟨rfl, rfl, Or.inl ⟨hst, hs2 hst, rfl, fun _ => rfl⟩⟩
  · rw [hb] at hout
    have hh : r.out.h = enqueued h d1 typ p1 n1 := by rw [hout]
    have hst : r.stored = true := hs3.mpr (by rw [hh]; rfl)
    rw [hh, hs1 hst]
    exact ⟨rfl, rfl, Or.inr ⟨hst, rfl, fun x => live_for_enqueued h d1 typ p1 n1 hinv hlt x⟩⟩

/-- The writer's call `queue_shift(h, &hudev, buffer, 64)` on a RUNNING queue: it waits when
the queue is empty and takes the oldest chunk otherwise. -/
theorem queue_shift_writer (h : queue_t) (buffer0 : List uint8_t) (hrun : h.state = 0) :
    (h.level ≤ 0 ∧ queue_shift h none buffer0 64 =
      { h := { h with rblocked := true }, ret := none, hudev := none, buffer := buffer0,
        do_unblock := false, set_eevent := h.eblocked }) ∨
    (0 < h.level ∧ queue_shift h none buffer0 64 =
      { h := shifted h, ret := some (h.buf h.rpos).ndata, hudev := (h.buf h.rpos).hudev,
        buffer := if (h.buf h.rpos).ndata > 0
          then memcpy buffer0 (h.buf h.rpos).data (h.buf h.rpos).ndata else buffer0,
        do_unblock := h.wblocked, set_eevent := false }) := by
  unfold queue_shift
  rw [if_neg (by unfold CHUNK_DATA_SIZE; omega), if_neg (by simp [hrun])]
  by_cases hl : h.level ≤ 0
  · left
    rw [if_pos hl]
    exact ⟨hl, rfl⟩
  · right
    rw [if_neg hl]
    exact ⟨by omega, rfl⟩

theorem sys_inv_open : sys_inv sys_open := by
  refine ⟨by decide, fun pos _ => rfl, fun hs => absurd rfl hs, fun hr => ?_, fun _ => rfl,
    fun d => rfl⟩
  exact absurd hr (by decide)

theorem sys_inv_push (s : system_t) (hudev : HUDEV) (typ : packet_type_t)
    (pdata : Option (List uint8_t)) (ndata : Nat) (hinv : sys_inv s) :
    sys_inv (sys_push s hudev typ pdata ndata) := by
  obtain ⟨i1, i2, i3, i4, i5, i6⟩ := hinv
  obtain ⟨e1, e2, e3⟩ := queue_push_ref_effect s.q hudev typ pdata ndata i1
  have hring : ring_inv (queue_push_ref s.q hudev typ pdata ndata).out.h := by
    rw [queue_push_ref_out]
    exact ring_inv_push s.q hudev typ pdata ndata i1
  have hsent : sentinel_inv (queue_push_ref s.q hudev typ pdata ndata).out.h := by
    rw [queue_push_ref_out]
    exact sentinel_inv_push s.q hudev typ pdata ndata (ring_inv_rpos_ok s.q i1) i2
  unfold sys_push
  generalize queue_push_ref s.q hudev typ pdata ndata = r at e1 e2 e3 hring hsent ⊢
  refine ⟨hring, hsent, ?_, ?_, ?_, ?_⟩
  · intro hs
    exact i3 (by rw [← e1]; exact hs)
  · intro hr
    exact i4 (by rw [← e2]; exact hr)
  · intro hex
    have h5 := i5 hex
    have h0 := i1.1
    rcases e3 with ⟨a1, _, a3, _⟩ | ⟨a1, a3, _⟩
    · simp only [a1, a3]
      simpa using h5
    · simp only [a1, a3, if_true]
      show s.stored + 1 = s.writes.length + (s.q.level + 1).toNat + _
      have : (s.q.level + 1).toNat = s.q.level.toNat + 1 := by omega
      rw [this, h5]
      omega
  · intro d
    have h6 := i6 d
    show ((s.addrefs ++ (match r.addref with
        | some d => [some d]
        | none => [])).count (some d) : Int) =
      (s.releases.count (some d) : Int) + (live_for r.out.h d : Int) + (held_for s d : Int)
    rcases e3 with ⟨_, a2, _, a4⟩ | ⟨_, _, a4⟩
    · rw [a2, a4 d]
      simpa using h6
    · rw [a4 d]
      cases hadd : r.addref with
      | none =>
        simp only [List.append_nil, reduceCtorEq, if_false, Nat.add_zero]
        exact h6
      | some x =>
        rw [List.count_append]
        by_cases hx : x = d
        · subst hx
          simp only [List.count_singleton_self, if_true]
          push_cast
          omega
        · have hne : (some x : HUDEV) ≠ some d := fun hh => hx (Option.some.inj hh)
          rw [if_neg hne, List.count_singleton]
          simp only [beq_iff_eq, hne, if_false]
          push_cast
          omega


theorem sys_inv_shift (s : system_t) (buffer0 : List uint8_t) (hinv : sys_inv s)
    (hex : s.exited = false) (hheld : s.held = none) :
    sys_inv (QueueThreadProc_shift s buffer0) := by
  obtain ⟨i1, i2, i3, i4, i5, i6⟩ := hinv
  have hrun : s.q.state = 0 := by
    by_contra hs
    have := i3 hs
    rw [hex] at this
    exact absurd this (by decide)
  have h5 := i5 hex
  rw [hheld, if_pos rfl] at h5
  have hheld0 : ∀ d, held_for s d = 0 := by
    intro d
    unfold held_for
    rw [hheld]
  have hring := ring_inv_shift s.q none buffer0 64 i1
  have hsent := sentinel_inv_shift s.q none buffer0 64 i2
  unfold QueueThreadProc_shift
  rcases queue_shift_writer s.q buffer0 hrun with ⟨_, he⟩ | ⟨hpos, he⟩
  · -- the queue is empty: the writer waits
    rw [he] at hring hsent ⊢
    simp only at hring hsent ⊢
    refine ⟨hring, hsent, fun hs => absurd hrun hs, fun _ => ⟨hheld, hex⟩, fun _ => ?_,
      fun d => i6 d⟩
    show s.stored = s.writes.length + s.q.level.toNat + (if s.held = none then 0 else 1)
    rw [hheld, if_pos rfl]
    exact h5
  · -- the writer takes the oldest chunk
    rw [he] at hring hsent ⊢
    simp only at hring hsent ⊢
    have hlive := fun d => live_for_shifted s.q i1 hpos d
    by_cases hbrk : (s.q.buf s.q.rpos).ndata = 0 ∨ (s.q.buf s.q.rpos).hudev = none
    · -- the exit test holds: the chunk has no device
      rw [if_pos hbrk]
      have hnone : (s.q.buf s.q.rpos).hudev = none := by
        rcases hbrk with h0 | hn
        · exact i2 _ h0
        · exact hn
      refine ⟨hring, hsent, fun _ => rfl, fun hr => ?_, fun hx => ?_, fun d => ?_⟩
      · exact absurd hr (by simp [shifted])
      · exact absurd hx (by simp)
      · show (s.addrefs.count (some d) : Int) =
          (s.releases.count (some d) : Int) + (live_for (shifted s.q) d : Int) +
            (held_for s d : Int)
        have h6 := i6 d
        rw [hlive d, hnone, if_neg (by simp)] at h6
        simpa using h6
    · rw [if_neg hbrk]
      simp only [not_or] at hbrk
      refine ⟨hring, hsent, fun hs => ?_, fun hr => ?_, fun _ => ?_, fun d => ?_⟩
      · exfalso
        apply hs
        show (if (s.q.buf s.q.rpos).ndata > 0 then s.q.state else 1) = 0
        rw [if_pos (by omega)]
        exact hrun
      · exact absurd hr (by simp [shifted])
      · show s.stored = s.writes.length + (s.q.level - 1).toNat + 1
        have h0 := i1.1
        have : (s.q.level - 1).toNat + 1 = s.q.level.toNat := by omega
        omega
      · show (s.addrefs.count (some d) : Int) =
          (s.releases.count (some d) : Int) + (live_for (shifted s.q) d : Int) +
            ((if (s.q.buf s.q.rpos).hudev = some d then 1 else 0 : Nat) : Int)
        have h6 := i6 d
        rw [hlive d, hheld0 d] at h6
        push_cast at h6 ⊢
        omega

theorem sys_inv_write (s : system_t) (hinv : sys_inv s) :
    sys_inv (QueueThreadProc_write s) := by
  obtain ⟨i1, i2, i3, i4, i5, i6⟩ := hinv
  unfold QueueThreadProc_write
  cases hh : s.held with
  | none => exact ⟨i1, i2, i3, i4, i5, i6⟩
  | some x =>
    obtain ⟨hudev, ndata, buffer⟩ := x
    simp only
    refine ⟨i1, i2, i3, fun hr => ?_, fun hex => ?_, fun d => ?_⟩
    · have := (i4 hr).1
      rw [hh] at this
      exact absurd this (by simp)
    · have h5 := i5 hex
      rw [hh, if_neg (by simp)] at h5
      simp only [List.length_append, List.length_singleton, if_true]
      omega
    · have h6 := i6 d
      have hheld : held_for s d = if hudev = some d then 1 else 0 := by
        unfold held_for
        rw [hh]
      rw [hheld] at h6
      show (s.addrefs.count (some d) : Int) =
        ((s.releases ++ [hudev]).count (some d) : Int) + (live_for s.q d : Int) + ((0 : Nat) : Int)
      rw [List.count_append]
      by_cases hd : hudev = some d
      · subst hd
        rw [if_pos rfl] at h6
        simp only [List.count_singleton_self]
        push_cast at h6 ⊢
        omega
      · rw [if_neg hd] at h6
        rw [List.count_singleton]
        simp only [beq_iff_eq, hd, if_false]
        push_cast at h6 ⊢
        omega

theorem sys_inv_wait_empty (s : system_t) (hinv : sys_inv s) :
    sys_inv (sys_wait_empty s) := by
  obtain ⟨i1, i2, i3, i4, i5, i6⟩ := hinv
  unfold sys_wait_empty
  rcases queue_wait_empty_cases s.q with he | he | he
  all_goals
    rw [he]
    exact ⟨i1, i2, i3, i4, i5, i6⟩

theorem sys_inv_of_reachable (s : system_t) (hreach : SysReachable s) : sys_inv s := by
  induction hreach with
  | opened => exact sys_inv_open
  | push hudev typ pdata ndata _ ih => exact sys_inv_push _ hudev typ pdata ndata ih
  | shift buffer0 _ hex hheld ih => exact sys_inv_shift _ buffer0 ih hex hheld
  | write _ ih => exact sys_inv_write _ ih
  | wait_empty _ ih => exact sys_inv_wait_empty _ ih


theorem queue_push_ref_regular (h : queue_t) (d : HUDEV) (typ : packet_type_t)
    (p : List uint8_t) (n : Nat) (h1 : 0 < n) (h2 : n ≤ 32) :
    queue_push_ref h d typ (some p) n = queue_push_body_ref h d typ (some p) n := by
  unfold queue_push_ref
  rw [if_neg (by unfold CHUNK_DATA_SIZE; simp only [reduceCtorEq, false_or]; omega)]

theorem ex_system_reachable : SysReachable ex_system :=
  SysReachable.push _ _ _ _
    (SysReachable.shift _
      (SysReachable.push _ _ _ _ (SysReachable.push _ _ _ _
        (SysReachable.push _ _ _ _ SysReachable.opened)))
      (by decide) (by decide))

theorem ex_system_drained_reachable : SysReachable ex_system_drained := by
  have h1 : SysReachable (sys_push sys_open (some 1) PACKET_TYPE_RAW (some [1, 2, 3]) 3) :=
    SysReachable.push _ _ _ _ SysReachable.opened
  have h2 := SysReachable.shift (List.replicate 64 0) h1 (by decide) (by decide)
  have h3 := SysReachable.write h2
  exact SysReachable.shift (List.replicate 64 0) h3 (by decide) (by decide)

/-- Claim C16 (reference counting across the queue). In every state `s` of the system of queue
and writer thread reached from `queue_open`, and for every device `d`:
(1) the references taken by the queue on `d` minus the references released by the writer on `d`
equal the number of live chunks for `d` plus the chunk for `d` the writer holds, if any;
(2) a push of 1 to 32 bytes for `d` that stores a new chunk (RUNNING, no chunk to coalesce
with, room left) takes exactly one reference on `d`;
(3) a push for `d` that is rejected (not RUNNING), coalesces or blocks (queue full) takes none;
(4) a `queue_shift` of the writer that takes a chunk clears the device of the ring cell, takes
and releases no reference, and hands a chunk for `d` with its reference to the writer;
(5) the writer's write step on a held chunk for `d` calls `usbdev_write` and then
`usbdev_release` on `d` exactly once and holds nothing afterwards. -/
theorem queue_refcount (s : system_t) (hreach : SysReachable s) (d : Nat) :
    refs_owned s d = (live_for s.q d : Int) + (held_for s d : Int) ∧
    (∀ (typ : packet_type_t) (p : List uint8_t) (n : Nat), 0 < n → n ≤ 32 →
      running s.q → (∀ i, ¬ coalesce_target s.q (some d) typ i) → s.q.level < 64 →
      (sys_push s (some d) typ (some p) n).addrefs = s.addrefs ++ [some d] ∧
      (sys_push s (some d) typ (some p) n).releases = s.releases ∧
      (sys_push s (some d) typ (some p) n).q = enqueued s.q (some d) typ (some p) n) ∧
    (∀ (typ : packet_type_t) (p : List uint8_t) (n : Nat), 0 < n → n ≤ 32 →
      (¬ running s.q ∨ (∃ i, coalesce_target s.q (some d) typ i) ∨ 64 ≤ s.q.level) →
      (sys_push s (some d) typ (some p) n).addrefs = s.addrefs ∧
      (sys_push s (some d) typ (some p) n).releases = s.releases ∧
      (sys_push s (some d) typ (some p) n).q.level = s.q.level) ∧
    (∀ buffer0 : List uint8_t, s.exited = false → s.held = none → 0 < s.q.level →
      ((QueueThreadProc_shift s buffer0).q.buf s.q.rpos).hudev = none ∧
      (QueueThreadProc_shift s buffer0).addrefs = s.addrefs ∧
      (QueueThreadProc_shift s buffer0).releases = s.releases ∧
      ((s.q.buf s.q.rpos).hudev = some d → 0 < (s.q.buf s.q.rpos).ndata →
        ∃ b, (QueueThreadProc_shift s buffer0).held =
          some (some d, (s.q.buf s.q.rpos).ndata, b))) ∧
    (∀ (n : Nat) (b : List uint8_t), s.held = some (some d, n, b) →
      (QueueThreadProc_write s).writes = s.writes ++ [(some d, b.take n)] ∧
      (QueueThreadProc_write s).releases = s.releases ++ [some d] ∧
      (QueueThreadProc_write s).addrefs = s.addrefs ∧
      (QueueThreadProc_write s).held = none) := by
  obtain ⟨i1, i2, i3, i4, i5, i6⟩ := sys_inv_of_reachable s hreach
  refine ⟨?_, ?_, ?_, ?_, ?_⟩
  · unfold refs_owned
    have := i6 d
    omega
  · intro typ p n h1 h2 hrun hno hlt
    have hpush := queue_push_enqueues s.q (some d) typ p n h1 h2 (ring_inv_rpos_ok s.q i1)
      hrun hlt hno
    have hout := queue_push_ref_out s.q (some d) typ (some p) n
    rw [hpush] at hout
    have hreg := queue_push_ref_regular s.q (some d) typ p n h1 h2
    obtain ⟨hs1, _, hs3⟩ := queue_push_body_ref_stored s.q (some d) typ (some p) n
    rw [← hreg] at hs1 hs3
    unfold sys_push
    generalize queue_push_ref s.q (some d) typ (some p) n = r at hout hs1 hs3 ⊢
    have hst : r.stored = true := hs3.mpr (by rw [hout]; rfl)
    simp only [hs1 hst, hout]
    exact ⟨trivial, trivial, trivial⟩
  · intro typ p n h1 h2 hcase
    have hout := queue_push_ref_out s.q (some d) typ (some p) n
    rw [queue_push_regular s.q (some d) typ p n h1 h2] at hout
    have hreg := queue_push_ref_regular s.q (some d) typ p n h1 h2
    obtain ⟨_, hs2, hs3⟩ := queue_push_body_ref_stored s.q (some d) typ (some p) n
    rw [← hreg] at hs2 hs3
    unfold sys_push
    generalize queue_push_ref s.q (some d) typ (some p) n = r at hout hs2 hs3 ⊢
    have hlev : r.out.h.level = s.q.level := by
      rcases queue_push_body_cases s.q (some d) typ (some p) n (ring_inv_rpos_ok s.q i1) with
        ⟨_, hb⟩ | ⟨_, i, _, hb⟩ | ⟨_, _, _, hb⟩ | ⟨hrun, hno, hlt, _⟩
      · rw [hout, hb]
      · rw [hout, hb]; rfl
      · rw [hout, hb]
      · exfalso
        rcases hcase with hc | ⟨i, hc⟩ | hc
        · exact hc hrun
        · exact hno i hc
        · omega
    have hst : r.stored = false := by
      cases hst : r.stored with
      | false => rfl
      | true =>
        have := hs3.mp hst
        omega
    simp only [hs2 hst, List.append_nil]
    exact ⟨trivial, trivial, hlev⟩
  · intro buffer0 hex hheld hpos
    have hrun : s.q.state = 0 := by
      by_contra hs
      have := i3 hs
      rw [hex] at this
      exact absurd this (by decide)
    unfold QueueThreadProc_shift
    rcases queue_shift_writer s.q buffer0 hrun with ⟨hle, _⟩ | ⟨_, he⟩
    · omega
    · rw [he]
      simp only
      have hclear : ((shifted s.q).buf s.q.rpos).hudev = none := by
        simp [shifted, buf_set]
      by_cases hbrk : (s.q.buf s.q.rpos).ndata = 0 ∨ (s.q.buf s.q.rpos).hudev = none
      · rw [if_pos hbrk]
        refine ⟨hclear, rfl, rfl, fun hd hn => ?_⟩
        rcases hbrk with hb | hb
        · omega
        · rw [hd] at hb
          exact absurd hb (by simp)
      · rw [if_neg hbrk]
        refine ⟨hclear, rfl, rfl, fun hd _ => ?_⟩
        rw [hd]
        exact ⟨_, rfl⟩
  · intro n b hh
    unfold QueueThreadProc_write
    rw [hh]
    exact ⟨rfl, rfl, rfl, rfl⟩

/-- C16 at `ex_system`: two references have been taken on device 1 and none released, one chunk
for device 1 is live and one is held by the writer; the coalesced push for device 2 took no
second reference. -/
theorem queue_refcount_witness :
    refs_owned ex_system 1 = 2 ∧ live_for ex_system.q 1 = 1 ∧ held_for ex_system 1 = 1 ∧
    refs_owned ex_system 2 = 1 ∧ live_for ex_system.q 2 = 1 ∧
    refs_owned ex_system 1 = (live_for ex_system.q 1 : Int) + (held_for ex_system 1 : Int) :=
  ⟨by decide, by decide, by decide, by decide, by decide,
    (queue_refcount ex_system ex_system_reachable 1).1⟩

/-- Claim C17 (drain guarantee). In every state of the system reached from `queue_open` by the
atomic steps push, shift, write-complete and the `queue_wait_empty` check:
(1) `level == 0` and `rblocked` imply that the writer holds no chunk it has shifted and not yet
written;
(2) when a pass of `queue_wait_empty` returns while the queue is RUNNING, then `level == 0`,
`rblocked` is set, the writer is in its loop and holds no chunk, and the number of calls of
`usbdev_write` equals the number of chunks stored by pushes: every chunk stored before the call
has been passed to `usbdev_write`;
(3) when the pass does not return, the queue is RUNNING and not yet drained. -/
theorem drain_guarantee (s : system_t) (hreach : SysReachable s) :
    (s.q.level = 0 → s.q.rblocked = true → s.held = none) ∧
    ((queue_wait_empty s.q).returned = true → running s.q →
      s.q.level = 0 ∧ s.q.rblocked = true ∧ s.held = none ∧ s.exited = false ∧
      s.writes.length = s.stored) ∧
    ((queue_wait_empty s.q).returned = false →
      running s.q ∧ ¬ (s.q.level = 0 ∧ s.q.rblocked = true)) := by
  obtain ⟨_, _, _, i4, i5, _⟩ := sys_inv_of_reachable s hreach
  refine ⟨fun _ hr => (i4 hr).1, ?_, ?_⟩
  · intro hret hrun
    unfold running at hrun
    unfold queue_wait_empty at hret
    rw [if_neg (by simp [hrun])] at hret
    by_cases hc : s.q.level = 0 ∧ s.q.rblocked = true
    · obtain ⟨hheld, hex⟩ := i4 hc.2
      have h5 := i5 hex
      rw [hheld, if_pos rfl, hc.1] at h5
      exact ⟨hc.1, hc.2, hheld, hex, by simpa using h5.symm⟩
    · rw [if_neg hc] at hret
      exact absurd hret (by simp)
  · intro hret
    unfold queue_wait_empty at hret
    by_cases hs : s.q.state ≠ 0
    · rw [if_pos hs] at hret
      exact absurd hret (by simp)
    · rw [if_neg hs] at hret
      by_cases hc : s.q.level = 0 ∧ s.q.rblocked = true
      · rw [if_pos hc] at hret
        exact absurd hret (by simp)
      · exact ⟨not_not.mp hs, hc⟩

/-- C17 at `ex_system_drained` and at `ex_system`: after the writer has written the only chunk
and found the queue empty, `queue_wait_empty` returns and the one stored chunk has been
written; while the writer still holds a chunk, `queue_wait_empty` does not return. -/
theorem drain_guarantee_witness :
    (queue_wait_empty ex_system_drained.q).returned = true ∧
    ex_system_drained.held = none ∧
    ex_system_drained.writes = [(some 1, [1, 2, 3])] ∧
    ex_system_drained.writes.length = ex_system_drained.stored ∧
    (queue_wait_empty ex_system.q).returned = false :=
  ⟨by decide, by decide, by decide,
    ((drain_guarantee ex_system_drained ex_system_drained_reachable).2.1 (by decide)
      (by decide)).2.2.2.2,
    by decide⟩

/-! ## C21: lwz_refreshlist_detached -/

theorem lwz_remove_cb (h : lwz_context_t) (indx : Int) :
    (lwz_remove h indx).h.cb = h.cb := by
  unfold lwz_remove
  cases h.plist <;> rfl

theorem lwz_remove_calls (h : lwz_context_t) (indx : Int) :
    (lwz_remove h indx).events.map cb_event.call =
      callback_calls h.cb LWZ_REASON_DELETE (indx + 1) := by
  show (lwz_notify_callback (lwz_remove h indx).h LWZ_REASON_DELETE (indx + 1)).map
    cb_event.call = _
  rw [lwz_notify_callback_calls, lwz_remove_cb]

theorem failing_slots_congr (d1 d2 : Int → lwz_device_t) (f : Int → Bool) (n : Nat) (i : Int)
    (heq : ∀ s, i ≤ s → d1 s = d2 s) :
    failing_slots d1 f n i = failing_slots d2 f n i := by
  induction n generalizing i with
  | zero => rfl
  | succ n ih =>
    unfold failing_slots
    rw [heq i (le_refl i), ih (i + 1) (fun s hs => heq s (by omega))]

theorem mem_failing_slots (devices : Int → lwz_device_t) (f : Int → Bool) (n : Nat) (i : Int)
    (s : Int) :
    s ∈ failing_slots devices f n i ↔
      i ≤ s ∧ s < i + (n : Int) ∧ (devices s).hudev ≠ none ∧ f s = true := by
  induction n generalizing i with
  | zero =>
    unfold failing_slots
    constructor
    · intro hs; exact absurd hs (List.not_mem_nil s)
    · rintro ⟨a, b, _⟩; push_cast at b; omega
  | succ n ih =>
    unfold failing_slots
    rw [List.mem_append, ih]
    push_cast
    constructor
    · rintro (hs | ⟨a, b, c⟩)
      · by_cases hc : (devices i).hudev ≠ none ∧ f i = true
        · rw [if_pos hc] at hs
          rw [List.mem_singleton.mp hs]
          exact ⟨le_refl i, by omega, hc.1, hc.2⟩
        · rw [if_neg hc] at hs
          exact absurd hs (List.not_mem_nil s)
      · exact ⟨by omega, by omega, c⟩
    · rintro ⟨a, b, c⟩
      by_cases hsi : s = i
      · left
        rw [if_pos (by rw [← hsi]; exact c), hsi]
        exact List.mem_singleton.mpr rfl
      · right
        exact ⟨by omega, by omega, c⟩

theorem failing_slots_increasing (devices : Int → lwz_device_t) (f : Int → Bool) (n : Nat)
    (i : Int) : (failing_slots devices f n i).Pairwise (fun a b => a < b) := by
  induction n generalizing i with
  | zero => exact List.Pairwise.nil
  | succ n ih =>
    unfold failing_slots
    rw [List.pairwise_append]
    refine ⟨?_, ih (i + 1), ?_⟩
    · split_ifs
      · exact List.pairwise_singleton _ _
      · exact List.Pairwise.nil
    · intro a ha b hb
      have hb' := (mem_failing_slots devices f n (i + 1) b).mp hb
      split_ifs at ha
      · rw [List.mem_singleton.mp ha]
        omega
      · exact absurd ha (List.not_mem_nil a)

/-- The loop of `lwz_refreshlist_detached`: what it does to the table, which callbacks it
makes and which device objects it releases. -/
theorem lwz_refreshlist_detached_loop_spec (f : Int → Bool) (n : Nat) (i : Int)
    (h : lwz_context_t) (ev : List cb_event) :
    (lwz_refreshlist_detached_loop f n i h ev).events.map cb_event.call =
      ev.map cb_event.call ++ delete_calls h.cb (failing_slots h.devices f n i) ∧
    (lwz_refreshlist_detached_loop f n i h ev).h.cb = h.cb ∧
    (∀ s, (lwz_refreshlist_detached_loop f n i h ev).h.devices s =
      if s ∈ failing_slots h.devices f n i then { (h.devices s) with hudev := none }
      else h.devices s) ∧
    lwz_refreshlist_detached_released f n i h =
      (failing_slots h.devices f n i).map (fun s => (h.devices s).hudev) := by
  induction n generalizing i h ev with
  | zero =>
    refine ⟨by simp [lwz_refreshlist_detached_loop, failing_slots, delete_calls], rfl,
      fun s => ?_, rfl⟩
    simp [lwz_refreshlist_detached_loop, failing_slots]
  | succ n ih =>
    by_cases hc : (h.devices i).hudev ≠ none ∧ f i = true
    · -- the reopen of slot `i` fails
      have hloop : lwz_refreshlist_detached_loop f (n + 1) i h ev =
          lwz_refreshlist_detached_loop f n (i + 1)
            (lwz_remove
              { h with devices := arr_set h.devices i { (h.devices i) with hudev := none } }
              i).h
            (ev ++ (lwz_remove
              { h with devices := arr_set h.devices i { (h.devices i) with hudev := none } }
              i).events) := by
        rw [lwz_refreshlist_detached_loop, if_pos hc.1, if_pos hc.2]
      have hrel : lwz_refreshlist_detached_released f (n + 1) i h =
          (h.devices i).hudev :: lwz_refreshlist_detached_released f n (i + 1)
            (lwz_remove
              { h with devices := arr_set h.devices i { (h.devices i) with hudev := none } }
              i).h := by
        rw [lwz_refreshlist_detached_released, if_pos hc.1, if_pos hc.2]
      have hslots : failing_slots h.devices f (n + 1) i =
          i :: failing_slots h.devices f n (i + 1) := by
        rw [failing_slots, if_pos hc]
        rfl
      have hdev := lwz_remove_devices
        { h with devices := arr_set h.devices i { (h.devices i) with hudev := none } } i
      have hcb := lwz_remove_cb
        { h with devices := arr_set h.devices i { (h.devices i) with hudev := none } } i
      have hcalls := lwz_remove_calls
        { h with devices := arr_set h.devices i { (h.devices i) with hudev := none } } i
      rw [hloop, hrel, hslots]
      generalize lwz_remove
        { h with devices := arr_set h.devices i { (h.devices i) with hudev := none } } i = r1
        at hdev hcb hcalls ⊢
      simp only at hdev hcb hcalls
      obtain ⟨a1, a2, a3, a4⟩ := ih (i + 1) r1.h (ev ++ r1.events)
      have hsl : failing_slots r1.h.devices f n (i + 1) =
          failing_slots h.devices f n (i + 1) := by
        apply failing_slots_congr
        intro s hs
        rw [hdev]
        have hne : s ≠ i := by omega
        simp only [arr_set, hne, if_false]
      rw [hsl] at a1 a3 a4
      have hnotin : i ∉ failing_slots h.devices f n (i + 1) := by
        intro hin
        have := (mem_failing_slots h.devices f n (i + 1) i).mp hin
        omega
      refine ⟨?_, by rw [a2, hcb], fun s => ?_, ?_⟩
      · rw [a1, List.map_append, hcalls, hcb, List.append_assoc]
        rfl
      · rw [a3 s, hdev]
        by_cases hs : s = i
        · subst hs
          rw [if_neg hnotin, if_pos (List.mem_cons_self _ _)]
          simp only [arr_set, if_true]
        · have hm : s ∈ i :: failing_slots h.devices f n (i + 1) ↔
              s ∈ failing_slots h.devices f n (i + 1) := by
            rw [List.mem_cons]
            exact ⟨fun hh => hh.resolve_left hs, Or.inr⟩
          simp only [arr_set, hs, if_false, hm]
      · rw [a4, List.map_cons]
        congr 1
        apply List.map_congr_left
        intro s hs
        have := (mem_failing_slots h.devices f n (i + 1) s).mp hs
        rw [hdev]
        have hne : s ≠ i := by omega
        simp only [arr_set, hne, if_false]
    · -- slot `i` is empty or can be reopened
      have hloop : lwz_refreshlist_detached_loop f (n + 1) i h ev =
          lwz_refreshlist_detached_loop f n (i + 1) h ev := by
        rw [lwz_refreshlist_detached_loop]
        by_cases c1 : (h.devices i).hudev ≠ none
        · rw [if_pos c1, if_neg (fun c2 => hc ⟨c1, c2⟩)]
        · rw [if_neg c1]
      have hrel : lwz_refreshlist_detached_released f (n + 1) i h =
          lwz_refreshlist_detached_released f n (i + 1) h := by
        rw [lwz_refreshlist_detached_released]
        by_cases c1 : (h.devices i).hudev ≠ none
        · rw [if_pos c1, if_neg (fun c2 => hc ⟨c1, c2⟩)]
        · rw [if_neg c1]
      have hslots : failing_slots h.devices f (n + 1) i =
          failing_slots h.devices f n (i + 1) := by
        rw [failing_slots, if_neg hc]
        rfl
      rw [hloop, hrel, hslots]
      exact ih (i + 1) h ev


/-- Claim C21 (lwz_refreshlist_detached). With the reopen attempt given per slot by
`reopen_fails`, for every registry state `h`: the callback invocations are, for the occupied
slots in `0..15` whose reopen fails, taken in increasing slot order, one `DELETE` call of each
registered callback with the handle `slot + 1`, and nothing else; each of these slots is
released (`usbdev_release` is called once on its device object, in the same order) and cleared;
every other slot (occupied with a successful reopen, or empty) is left unchanged. With only the
simple callback `cb` registered the calls are exactly one `cb(DELETE, slot + 1)` per failing
slot. -/
theorem lwz_refreshlist_detached_spec (h : lwz_context_t) (reopen_fails : Int → Bool) :
    (lwz_refreshlist_detached h reopen_fails).events.map cb_event.call =
      delete_calls h.cb (failing_slots h.devices reopen_fails 16 0) ∧
    (failing_slots h.devices reopen_fails 16 0).Pairwise (fun a b => a < b) ∧
    (∀ s : Int, s ∈ failing_slots h.devices reopen_fails 16 0 ↔
      0 ≤ s ∧ s < 16 ∧ occupied h s ∧ reopen_fails s = true) ∧
    lwz_refreshlist_detached_released reopen_fails 16 0 h =
      (failing_slots h.devices reopen_fails 16 0).map (fun s => (h.devices s).hudev) ∧
    (∀ s : Int, 0 ≤ s → s < 16 → occupied h s → reopen_fails s = true →
      ¬ occupied (lwz_refreshlist_detached h reopen_fails).h s ∧
      ((lwz_refreshlist_detached h reopen_fails).h.devices s).dat = (h.devices s).dat) ∧
    (∀ s : Int, ¬ (0 ≤ s ∧ s < 16 ∧ occupied h s ∧ reopen_fails s = true) →
      (lwz_refreshlist_detached h reopen_fails).h.devices s = h.devices s) ∧
    (∀ cb : Nat, h.cb.notify = some cb → h.cb.notify_ex = none →
      (lwz_refreshlist_detached h reopen_fails).events.map cb_event.call =
        (failing_slots h.devices reopen_fails 16 0).map
          (fun s => cb_call.notify cb LWZ_REASON_DELETE (s + 1))) := by
  obtain ⟨a1, _, a3, a4⟩ := lwz_refreshlist_detached_loop_spec reopen_fails 16 0 h []
  have hmem : ∀ s : Int, s ∈ failing_slots h.devices reopen_fails 16 0 ↔
      0 ≤ s ∧ s < 16 ∧ occupied h s ∧ reopen_fails s = true := by
    intro s
    rw [mem_failing_slots]
    unfold occupied
    push_cast
    constructor
    · rintro ⟨a, b, c⟩; exact ⟨a, by omega, c⟩
    · rintro ⟨a, b, c⟩; exact ⟨a, by omega, c⟩
  have hcalls : (lwz_refreshlist_detached h reopen_fails).events.map cb_event.call =
      delete_calls h.cb (failing_slots h.devices reopen_fails 16 0) := by
    unfold lwz_refreshlist_detached
    rw [a1]
    rfl
  refine ⟨hcalls, failing_slots_increasing h.devices reopen_fails 16 0, hmem, a4, ?_, ?_, ?_⟩
  · intro s h0 h16 hocc hf
    have := a3 s
    rw [if_pos ((hmem s).mpr ⟨h0, h16, hocc, hf⟩)] at this
    unfold occupied lwz_refreshlist_detached
    rw [this]
    exact ⟨fun hne => hne rfl, rfl⟩
  · intro s hs
    have := a3 s
    rw [if_neg (fun hin => hs ((hmem s).mp hin))] at this
    exact this
  · intro cb hn hex
    rw [hcalls]
    generalize failing_slots h.devices reopen_fails 16 0 = v
    induction v with
    | nil => rfl
    | cons s rest ih =>
      rw [delete_calls, ih, List.map_cons]
      unfold callback_calls
      simp only [hn, hex, List.append_nil, List.singleton_append]

/-- C21 at `ex_registry3` (units 1, 3, 4 stored) when the reopen fails for the slots 0, 1 and
3: the callbacks are `(DELETE, 1)` and `(DELETE, 4)`, the device objects 10 and 13 are released,
unit 3 stays stored and the empty slot 1 produces nothing. -/
theorem lwz_refreshlist_detached_spec_witness :
    (lwz_refreshlist_detached ex_registry3
      (fun s => decide (s = 0 ∨ s = 1 ∨ s = 3))).events.map cb_event.call =
      [cb_call.notify 7 LWZ_REASON_DELETE 1, cb_call.notify 7 LWZ_REASON_DELETE 4] ∧
    lwz_refreshlist_detached_released (fun s => decide (s = 0 ∨ s = 1 ∨ s = 3)) 16 0
      ex_registry3 = [some 10, some 13] ∧
    (lwz_refreshlist_detached ex_registry3
      (fun s => decide (s = 0 ∨ s = 1 ∨ s = 3))).h.devices 2 = { hudev := some 12, dat := 3 } ∧
    (lwz_refreshlist_detached ex_registry3
      (fun s => decide (s = 0 ∨ s = 1 ∨ s = 3))).h.plist.map list_view = some [3] :=
  have w := lwz_refreshlist_detached_spec ex_registry3 (fun s => decide (s = 0 ∨ s = 1 ∨ s = 3))
  ⟨w.1.trans (by decide), w.2.2.2.1.trans (by decide),
    (w.2.2.2.2.2.1 2 (by decide)).trans (by decide), by decide⟩

/-! ## C22: which enumerated devices are stored, and where -/

/-- One iteration of the enumeration loop, in one equation. -/
theorem attached_loop_step (e : hid_interface) (rest : List hid_interface)
    (devices : Int → lwz_device_t) (new_devices : List Int) :
    lwz_refreshlist_attached_loop (e :: rest) devices new_devices =
      lwz_refreshlist_attached_loop rest
        (if lwz_accepts e ∧ (devices (device_slot e)).hudev = none then
          arr_set devices (device_slot e) { hudev := e.created, dat := e.path }
         else devices)
        (if lwz_accepts e ∧ (devices (device_slot e)).hudev = none ∧
            (new_devices.length : Int) < LWZ_MAX_DEVICES then
          new_devices ++ [device_slot e]
         else new_devices) := by
  by_cases hacc : lwz_accepts e
  · obtain ⟨hudev, hc⟩ := Option.ne_none_iff_exists'.mp hacc.2.1
    rw [attached_loop_accept e rest devices new_devices hacc hudev hc]
    by_cases hempty : (devices (device_slot e)).hudev = none
    · have h1 : lwz_accepts e ∧ (devices (device_slot e)).hudev = none := ⟨hacc, hempty⟩
      by_cases hroom : (new_devices.length : Int) < LWZ_MAX_DEVICES
      · have h2 : lwz_accepts e ∧ (devices (device_slot e)).hudev = none ∧
            (new_devices.length : Int) < LWZ_MAX_DEVICES := ⟨hacc, hempty, hroom⟩
        rw [if_pos hempty, if_pos hroom, if_pos h1, if_pos h2, hc]
      · have h2 : ¬ (lwz_accepts e ∧ (devices (device_slot e)).hudev = none ∧
            (new_devices.length : Int) < LWZ_MAX_DEVICES) := fun hh => hroom hh.2.2
        rw [if_pos hempty, if_neg hroom, if_pos h1, if_neg h2, hc]
    · have h1 : ¬ (lwz_accepts e ∧ (devices (device_slot e)).hudev = none) :=
        fun hh => hempty hh.2
      have h2 : ¬ (lwz_accepts e ∧ (devices (device_slot e)).hudev = none ∧
          (new_devices.length : Int) < LWZ_MAX_DEVICES) := fun hh => hempty hh.2.1
      rw [if_neg hempty, if_neg h1, if_neg h2]
  · have h1 : ¬ (lwz_accepts e ∧ (devices (device_slot e)).hudev = none) :=
      fun hh => hacc hh.1
    have h2 : ¬ (lwz_accepts e ∧ (devices (device_slot e)).hudev = none ∧
        (new_devices.length : Int) < LWZ_MAX_DEVICES) := fun hh => hacc hh.1
    rw [attached_loop_reject e rest devices new_devices hacc, if_neg h1, if_neg h2]

/-- The enumeration loop never touches an occupied slot. -/
theorem attached_loop_keeps_occupied (es : List hid_interface) (devices : Int → lwz_device_t)
    (new_devices : List Int) (s : Int) (hs : slot_used devices s) :
    (lwz_refreshlist_attached_loop es devices new_devices).1 s = devices s := by
  induction es generalizing devices new_devices with
  | nil => rfl
  | cons e rest ih =>
    rw [attached_loop_step]
    by_cases hc : lwz_accepts e ∧ (devices (device_slot e)).hudev = none
    · rw [if_pos hc]
      have hne : s ≠ device_slot e := by
        intro he
        rw [he] at hs
        exact hs hc.2
      have hsame : arr_set devices (device_slot e) { hudev := e.created, dat := e.path } s =
          devices s := by
        simp only [arr_set, hne, if_false]
      rw [ih _ _ (by unfold slot_used; rw [hsame]; exact hs), hsame]
    · rw [if_neg hc]
      exact ih _ _ hs

/-- Claim C22 (device acceptance and slot mapping). For every enumerated interface `e`, table
`devices` and list of new slots, one iteration of the loop of `lwz_refreshlist_attached` stores
`e` into the table exactly when `e` is accepted and the slot `ProductID - 0x00F0` is empty, and
then into that slot; otherwise the table is left as it is. For an interface that was opened and
whose capabilities could be read, accepted means: the attribute query succeeded, the vendor ID
is `0xFAFA`, `0x00F0 ≤ ProductID ≤ 0x00FF`, there is exactly one link collection node and the
output report length is 9. The unit handle `ProductID - 0x00F0 + 1` of an accepted device lies
in `1..16`, and no occupied slot is changed by the loop, whatever is enumerated. -/
theorem device_acceptance (e : hid_interface) (rest : List hid_interface)
    (devices : Int → lwz_device_t) (new_devices : List Int) :
    lwz_refreshlist_attached_loop (e :: rest) devices new_devices =
      lwz_refreshlist_attached_loop rest
        (if lwz_accepts e ∧ (devices (device_slot e)).hudev = none then
          arr_set devices (device_slot e) { hudev := e.created, dat := e.path }
         else devices)
        (if lwz_accepts e ∧ (devices (device_slot e)).hudev = none ∧
            (new_devices.length : Int) < LWZ_MAX_DEVICES then
          new_devices ++ [device_slot e]
         else new_devices) ∧
    (e.detail_ok = true → e.created ≠ none → e.preparsed_ok = true → e.caps_ok = true →
      (lwz_accepts e ↔
        e.attrib_ok = true ∧ e.VendorID = 0xFAFA ∧ 0x00F0 ≤ e.ProductID ∧
        e.ProductID ≤ 0x00FF ∧ e.NumberLinkCollectionNodes = 1 ∧
        e.OutputReportByteLength = 9)) ∧
    (lwz_accepts e →
      device_slot e = (e.ProductID : Int) - 0x00F0 ∧
      1 ≤ device_slot e + 1 ∧ device_slot e + 1 ≤ 16 ∧
      (slot_used devices (device_slot e) ∨
        ((if lwz_accepts e ∧ (devices (device_slot e)).hudev = none then
            arr_set devices (device_slot e) { hudev := e.created, dat := e.path }
          else devices) (device_slot e)) = { hudev := e.created, dat := e.path })) ∧
    (∀ (es : List hid_interface) (nd : List Int) (s : Int), slot_used devices s →
      (lwz_refreshlist_attached_loop es devices nd).1 s = devices s) := by
  refine ⟨attached_loop_step e rest devices new_devices, ?_, ?_, ?_⟩
  · intro h1 h2 h3 h4
    unfold lwz_accepts device_slot VendorID_LEDWiz ProductID_LEDWiz_min LWZ_MAX_DEVICES
    constructor
    · rintro ⟨_, _, a3, a4, a5, a6, _, _, a9, a10⟩
      exact ⟨a3, by omega, by omega, by omega, a9, a10⟩
    · rintro ⟨a3, a4, a5, a6, a9, a10⟩
      exact ⟨h1, h2, a3, by omega, by omega, by omega, h3, h4, a9, a10⟩
  · intro hacc
    have h5 := hacc.2.2.2.2.1
    have h6 := hacc.2.2.2.2.2.1
    unfold LWZ_MAX_DEVICES at h6
    refine ⟨rfl, by omega, by omega, ?_⟩
    by_cases hu : slot_used devices (device_slot e)
    · exact Or.inl hu
    · right
      have hempty : (devices (device_slot e)).hudev = none := not_not.mp hu
      rw [if_pos ⟨hacc, hempty⟩]
      simp only [arr_set, if_true]
  · intro es nd s hs
    exact attached_loop_keeps_occupied es devices nd s hs

/-- C22 at the table of `ex_registry3` (slots 0, 2, 3 occupied): the LED-Wiz with product ID
`0x00F1` is stored in slot 1, and the LED-Wiz with product ID `0x00F0` does not replace the
device in slot 0. -/
theorem device_acceptance_witness :
    (lwz_refreshlist_attached_loop [ex_ledwiz2] ex_registry3.devices []).2 = [1] ∧
    (lwz_refreshlist_attached_loop [ex_ledwiz2] ex_registry3.devices []).1 1 =
      { hudev := some 11, dat := 2 } ∧
    (lwz_refreshlist_attached_loop [ex_ledwiz] ex_registry3.devices []).1 0 =
      { hudev := some 10, dat := 1 } ∧
    (lwz_refreshlist_attached_loop [ex_ledwiz] ex_registry3.devices []).2 = [] :=
  ⟨(congrArg Prod.snd (device_acceptance ex_ledwiz2 [] ex_registry3.devices []).1).trans
      (by decide),
    (congrArg (fun r => r.1 1) (device_acceptance ex_ledwiz2 [] ex_registry3.devices []).1).trans
      (by decide),
    ((device_acceptance ex_ledwiz [] ex_registry3.devices []).2.2.2 [ex_ledwiz] [] 0
      (by decide)).trans (by decide),
    by decide⟩

/-! ## C23: lwz_register refuses -/

/-- Claim C23 (lwz_register refusal). For every context `h` and non-null window `w`, whatever
the window system would answer: when the context is already associated with a different window,
or neither the simple nor the extended callback is set, or `indx` is outside `0..15`, or the
slot `indx` is empty, `lwz_register(h, indx, w)` leaves the context unchanged (the stored
window, the saved previous window procedure and the notification registration included) and
makes no call to the window system, so no window procedure is installed on `w`. When none of
the four conditions holds, the first call made is `SetWindowLongPtrA(w, lwz_wndproc)`. -/
theorem lwz_register_refuses (h : lwz_context_t) (indx : Int) (w : Nat)
    (PrevWndProc : wndproc_t) (hDevNotify_new : Option Nat) :
    (((∃ w0, h.hwnd = some w0 ∧ w0 ≠ w) ∨ (h.cb.notify = none ∧ h.cb.notify_ex = none) ∨
        indx < 0 ∨ 15 < indx ∨ (h.devices indx).hudev = none) →
      (lwz_register h indx (some w) PrevWndProc hDevNotify_new).h = h ∧
      (lwz_register h indx (some w) PrevWndProc hDevNotify_new).h.hwnd = h.hwnd ∧
      (lwz_register h indx (some w) PrevWndProc hDevNotify_new).h.WndProc = h.WndProc ∧
      (lwz_register h indx (some w) PrevWndProc hDevNotify_new).h.hDevNotify = h.hDevNotify ∧
      (lwz_register h indx (some w) PrevWndProc hDevNotify_new).os_calls = []) ∧
    (¬ ((∃ w0, h.hwnd = some w0 ∧ w0 ≠ w) ∨ (h.cb.notify = none ∧ h.cb.notify_ex = none) ∨
        indx < 0 ∨ 15 < indx ∨ (h.devices indx).hudev = none) →
      (lwz_register h indx (some w) PrevWndProc hDevNotify_new).os_calls.head? =
        some (os_call.SetWindowLongPtrA w wndproc_t.lwz_wndproc)) := by
  have hsink : (h.hwnd ≠ none ∧ h.hwnd ≠ some w) ↔ ∃ w0, h.hwnd = some w0 ∧ w0 ≠ w := by
    cases hh : h.hwnd with
    | none => simp
    | some w1 => simp
  unfold lwz_register
  simp only
  constructor
  · intro hcase
    have key : ∀ r : register_out, r.h = h → r.os_calls = [] →
        r.h = h ∧ r.h.hwnd = h.hwnd ∧ r.h.WndProc = h.WndProc ∧
        r.h.hDevNotify = h.hDevNotify ∧ r.os_calls = [] := by
      intro r e1 e2
      rw [e1]
      exact ⟨rfl, rfl, rfl, rfl, e2⟩
    apply key
    all_goals
      by_cases c1 : h.hwnd ≠ none ∧ h.hwnd ≠ some w
      · rw [if_pos c1]
      rw [if_neg c1]
      by_cases c2 : h.cb.notify = none ∧ h.cb.notify_ex = none
      · rw [if_pos c2]
      rw [if_neg c2]
      by_cases c3 : indx < 0 ∨ indx ≥ LWZ_MAX_DEVICES
      · rw [if_pos c3]
      rw [if_neg c3]
      by_cases c4 : (h.devices indx).hudev = none
      · rw [if_pos c4]
      exfalso
      unfold LWZ_MAX_DEVICES at c3
      rcases hcase with hc | hc | hc | hc | hc
      · exact c1 (hsink.mpr hc)
      · exact c2 hc
      · omega
      · omega
      · exact c4 hc
  · intro hcase
    simp only [not_or] at hcase
    obtain ⟨n1, n2, n3, n4, n5⟩ := hcase
    rw [if_neg (fun c1 => n1 (hsink.mp c1)), if_neg n2,
      if_neg (by unfold LWZ_MAX_DEVICES; omega), if_neg n5]
    cases PrevWndProc with
    | null => rfl
    | lwz_wndproc => rfl
    | other p =>
      simp only
      split_ifs <;> rfl

/-- C23 at `ex_registry` (unit 1 stored, callback set) and at `ex_registered` (associated with
window 5): registering the empty unit 2, the index 16 or, once window 5 is associated, another
window 6 is refused; registering unit 1 with window 5 on `ex_registry` installs the
handler. -/
theorem lwz_register_refuses_witness :
    (lwz_register ex_registry 1 (some 5) (wndproc_t.other 9) (some 3)).os_calls = [] ∧
    (lwz_register ex_registry 16 (some 5) (wndproc_t.other 9) (some 3)).os_calls = [] ∧
    (lwz_register ex_registered 0 (some 6) (wndproc_t.other 9) (some 3)).os_calls = [] ∧
    (lwz_register ex_registered 0 (some 6) (wndproc_t.other 9) (some 3)).h.hwnd = some 5 ∧
    (lwz_register ex_registry 0 (some 5) (wndproc_t.other 9) (some 3)).os_calls =
      [os_call.SetWindowLongPtrA 5 wndproc_t.lwz_wndproc,
        os_call.RegisterDeviceNotificationA 5] :=
  ⟨((lwz_register_refuses ex_registry 1 5 (wndproc_t.other 9) (some 3)).1
      (Or.inr (Or.inr (Or.inr (Or.inr (by decide)))))).2.2.2.2,
    ((lwz_register_refuses ex_registry 16 5 (wndproc_t.other 9) (some 3)).1
      (Or.inr (Or.inr (Or.inr (Or.inl (by decide)))))).2.2.2.2,
    ((lwz_register_refuses ex_registered 0 6 (wndproc_t.other 9) (some 3)).1
      (Or.inl ⟨5, by decide, by decide⟩)).2.2.2.2,
    (((lwz_register_refuses ex_registered 0 6 (wndproc_t.other 9) (some 3)).1
      (Or.inl ⟨5, by decide, by decide⟩)).2.1).trans (by decide),
    by decide⟩

/-! ## C24: the public write operations never queue a sentinel -/

theorem chunk_at_coalesced_ndata (h : queue_t) (i : Nat) (pdata : Option (List uint8_t))
    (ndata : Nat) (k : Nat) :
    (chunk_at (coalesced h i pdata ndata) k).ndata = (chunk_at h k).ndata := by
  have hs : slot_at (coalesced h i pdata ndata) k = slot_at h k := rfl
  unfold chunk_at
  rw [hs]
  unfold coalesced
  by_cases he : slot_at h k = slot_at h i
  · simp only [buf_set, he, if_true, chunk_at]
  · simp only [buf_set, he, if_false]

/-- A push of 1 to 32 bytes keeps a RUNNING queue without sentinels RUNNING and without
sentinels. -/
theorem no_sentinel_push (h : queue_t) (d : HUDEV) (typ : packet_type_t) (p : List uint8_t)
    (n : Nat) (h1 : 0 < n) (h2 : n ≤ 32) (hinv : ring_inv h) (hns : no_sentinel h) :
    no_sentinel (queue_push h d typ (some p) n).h := by
  rw [queue_push_regular h d typ p n h1 h2]
  rcases queue_push_body_cases h d typ (some p) n (ring_inv_rpos_ok h hinv) with
    ⟨_, he⟩ | ⟨_, i, _, he⟩ | ⟨_, _, _, he⟩ | ⟨_, _, hlt, he⟩
  · rw [he]; exact hns
  · rw [he]
    intro k hk
    simp only
    rw [chunk_at_coalesced_ndata]
    exact hns k hk
  · rw [he]; exact hns
  · rw [he]
    intro k hk
    simp only at hk ⊢
    rw [level_toNat_enqueued h d typ (some p) n hinv] at hk
    by_cases hkl : k < h.level.toNat
    · rw [chunk_at_enqueued_old h d typ (some p) n hinv hlt k hkl]
      exact hns k hkl
    · have hkeq : k = h.level.toNat := by omega
      rw [hkeq, chunk_at_enqueued_new h d typ (some p) n hinv]
      exact h1

/-- A `queue_shift` of the writer on a RUNNING queue without sentinels leaves the queue RUNNING
and without sentinels. -/
theorem no_sentinel_shift (h : queue_t) (buffer0 : List uint8_t) (hinv : ring_inv h)
    (hrun : h.state = 0) (hns : no_sentinel h) :
    (queue_shift h none buffer0 64).h.state = 0 ∧
    no_sentinel (queue_shift h none buffer0 64).h := by
  rcases queue_shift_writer h buffer0 hrun with ⟨_, he⟩ | ⟨hpos, he⟩
  · rw [he]
    exact ⟨hrun, hns⟩
  · rw [he]
    simp only
    have h0 : 0 < (h.buf h.rpos).ndata := by
      have := hns 0 (by omega)
      have hs : slot_at h 0 = h.rpos := by
        unfold ring_inv QUEUE_LENGTH at hinv
        unfold slot_at QUEUE_LENGTH
        push_cast
        omega
      unfold chunk_at at this
      rw [hs] at this
      exact this
    constructor
    · show (if (h.buf h.rpos).ndata > 0 then h.state else 1) = 0
      rw [if_pos h0]
      exact hrun
    · intro k hk
      have hk' : k + 1 < h.level.toNat := by
        have : (shifted h).level = h.level - 1 := rfl
        rw [this] at hk
        omega
      rw [chunk_at_shifted h hinv k hk']
      exact hns (k + 1) hk'

/-- What a public write operation does to the queue: nothing, or one `queue_push` of 1 to 32
bytes of non-null data for a non-null device. -/
theorem LWZ_SBA_effect (g : lwz_context_t) (hlwz : Int) (b0 b1 b2 b3 speed : Nat) :
    ((LWZ_SBA g hlwz b0 b1 b2 b3 speed).g.hqueue = g.hqueue ∨
      ∃ (d : Nat) (typ : packet_type_t) (p : List uint8_t) (n : Nat), 0 < n ∧ n ≤ 32 ∧
        (LWZ_SBA g hlwz b0 b1 b2 b3 speed).g.hqueue =
          (queue_push g.hqueue (some d) typ (some p) n).h) ∧
    ∀ e ∈ (LWZ_SBA g hlwz b0 b1 b2 b3 speed).trace, regular_push e := by
  unfold LWZ_SBA
  dsimp only
  split
  · exact ⟨Or.inl rfl, by simp [regular_push]⟩
  · rename_i d _
    split
    · exact ⟨Or.inr ⟨d, _, _, 8, by decide, by decide, rfl⟩, by simp [regular_push]⟩
    · exact ⟨Or.inr ⟨d, _, _, 8, by decide, by decide, rfl⟩, by simp [regular_push]⟩

theorem LWZ_PBA_effect (g : lwz_context_t) (hlwz : Int) (pdata : Option (List uint8_t)) :
    ((LWZ_PBA g hlwz pdata).g.hqueue = g.hqueue ∨
      ∃ (d : Nat) (typ : packet_type_t) (p : List uint8_t) (n : Nat), 0 < n ∧ n ≤ 32 ∧
        (LWZ_PBA g hlwz pdata).g.hqueue = (queue_push g.hqueue (some d) typ (some p) n).h) ∧
    ∀ e ∈ (LWZ_PBA g hlwz pdata).trace, regular_push e := by
  unfold LWZ_PBA
  dsimp only
  cases pdata with
  | none => exact ⟨Or.inl rfl, by simp [regular_push]⟩
  | some p =>
    rw [if_neg (by simp)]
    split
    · exact ⟨Or.inl rfl, by simp [regular_push]⟩
    · rename_i d _
      split
      · exact ⟨Or.inr ⟨d, _, p, 32, by decide, by decide, rfl⟩, by simp [regular_push]⟩
      · exact ⟨Or.inr ⟨d, _, p, 32, by decide, by decide, rfl⟩, by simp [regular_push]⟩

theorem LWZ_RAWWRITE_effect (g : lwz_context_t) (hlwz : Int) (pdata : Option (List uint8_t))
    (ndata : Nat) :
    ((LWZ_RAWWRITE g hlwz pdata ndata).g.hqueue = g.hqueue ∨
      ∃ (d : Nat) (typ : packet_type_t) (p : List uint8_t) (n : Nat), 0 < n ∧ n ≤ 32 ∧
        (LWZ_RAWWRITE g hlwz pdata ndata).g.hqueue =
          (queue_push g.hqueue (some d) typ (some p) n).h) ∧
    (∀ e ∈ (LWZ_RAWWRITE g hlwz pdata ndata).trace, regular_push e) ∧
    ∀ hudev typ p n, push hudev typ p n ∈ (LWZ_RAWWRITE g hlwz pdata ndata).trace →
      typ = PACKET_TYPE_RAW ∧ p = pdata ∧ n = min ndata 32 := by
  unfold LWZ_RAWWRITE
  dsimp only
  by_cases hc : pdata = none ∨ ndata = 0
  · rw [if_pos hc]
    exact ⟨Or.inl rfl, by simp [regular_push], by simp⟩
  · rw [if_neg hc]
    simp only [not_or] at hc
    obtain ⟨p, hp⟩ := Option.ne_none_iff_exists'.mp hc.1
    have hmin : (if ndata > 32 then 32 else ndata) = min ndata 32 := by
      split_ifs <;> omega
    have hpos : 0 < min ndata 32 := by omega
    have hle : min ndata 32 ≤ 32 := by omega
    rw [hmin, hp]
    split
    · exact ⟨Or.inl rfl, by simp [regular_push], by simp⟩
    · rename_i d _
      split
      · refine ⟨Or.inr ⟨d, _, p, min ndata 32, hpos, hle, rfl⟩, ?_, ?_⟩
        · simp only [List.mem_cons, List.mem_singleton, List.not_mem_nil, or_false,
            forall_eq_or_imp, forall_eq]
          refine ⟨trivial, ⟨by simp, by simp, hpos, hle, by simp, by simp⟩, trivial⟩
        · intro hudev typ p1 n1 hin
          simp only [List.mem_cons, List.mem_singleton, List.not_mem_nil, or_false,
            reduceCtorEq, false_or, api_event.push.injEq] at hin
          exact ⟨hin.2.1, hin.2.2.1, hin.2.2.2⟩
      · refine ⟨Or.inr ⟨d, _, p, min ndata 32, hpos, hle, rfl⟩, ?_, ?_⟩
        · simp only [List.mem_cons, List.mem_singleton, List.not_mem_nil, or_false,
            forall_eq_or_imp, forall_eq]
          refine ⟨trivial, ⟨by simp, by simp, hpos, hle, by simp, by simp⟩, trivial⟩
        · intro hudev typ p1 n1 hin
          simp only [List.mem_cons, List.mem_singleton, List.not_mem_nil, or_false,
            reduceCtorEq, false_or, api_event.push.injEq] at hin
          exact ⟨hin.2.1, hin.2.2.1, hin.2.2.2⟩

/-- A queue effect that is nothing or one push of 1 to 32 bytes keeps the queue RUNNING, within
the ring invariant and without sentinels. -/
theorem write_effect_inv (q q1 : queue_t)
    (heff : q1 = q ∨ ∃ (d : Nat) (typ : packet_type_t) (p : List uint8_t) (n : Nat),
      0 < n ∧ n ≤ 32 ∧ q1 = (queue_push q (some d) typ (some p) n).h)
    (hinv : ring_inv q) (hrun : q.state = 0) (hns : no_sentinel q) :
    ring_inv q1 ∧ q1.state = 0 ∧ no_sentinel q1 := by
  rcases heff with he | ⟨d, typ, p, n, h1, h2, he⟩
  · rw [he]; exact ⟨hinv, hrun, hns⟩
  · rw [he]
    exact ⟨ring_inv_push q _ _ _ _ hinv, by rw [queue_push_state]; exact hrun,
      no_sentinel_push q (some d) typ p n h1 h2 hinv hns⟩

theorem write_reachable_inv (g0 g : lwz_context_t) (hreach : WriteReachable g0 g)
    (hinv : ring_inv g0.hqueue) (hrun : g0.hqueue.state = 0) (hns : no_sentinel g0.hqueue) :
    ring_inv g.hqueue ∧ g.hqueue.state = 0 ∧ no_sentinel g.hqueue := by
  induction hreach with
  | start => exact ⟨hinv, hrun, hns⟩
  | sba hlwz b0 b1 b2 b3 speed _ ih =>
    exact write_effect_inv _ _ (LWZ_SBA_effect _ hlwz b0 b1 b2 b3 speed).1 ih.1 ih.2.1 ih.2.2
  | pba hlwz pdata _ ih =>
    exact write_effect_inv _ _ (LWZ_PBA_effect _ hlwz pdata).1 ih.1 ih.2.1 ih.2.2
  | rawwrite hlwz pdata ndata _ ih =>
    exact write_effect_inv _ _ (LWZ_RAWWRITE_effect _ hlwz pdata ndata).1 ih.1 ih.2.1 ih.2.2
  | shift buffer0 _ ih =>
    obtain ⟨a, b⟩ := no_sentinel_shift _ buffer0 ih.1 ih.2.1 ih.2.2
    exact ⟨ring_inv_shift _ none buffer0 64 ih.1, a, b⟩


/-- Claim C24 (the public write operations never shut the writer down). For all arguments of
`LWZ_SBA`, `LWZ_PBA` and `LWZ_RAWWRITE` (a null pointer, `n == 0` and `n > 32` included) and
every context, every call of `queue_push` the operation makes has a non-null device, non-null
data and a length in `1..32`: 8 for SBA, 32 for PBA and `min(n, 32)` for RAW. Hence, starting
from a RUNNING queue within the ring invariant that holds no chunk of length 0 (the queue after
`queue_open`, for one), no sequence of these operations, interleaved in any way with the
writer's calls of `queue_shift`, queues a chunk of length 0 or moves the queue out of
RUNNING. -/
theorem public_writes_keep_running (g0 g : lwz_context_t) (hreach : WriteReachable g0 g)
    (hinv : ring_inv g0.hqueue) (hrun : running g0.hqueue) (hns : no_sentinel g0.hqueue) :
    running g.hqueue ∧ no_sentinel g.hqueue ∧
    (∀ (hlwz : LWZHANDLE) (b0 b1 b2 b3 speed : Nat),
      ∀ e ∈ (LWZ_SBA g hlwz b0 b1 b2 b3 speed).trace, regular_push e) ∧
    (∀ (hlwz : LWZHANDLE) (pdata : Option (List uint8_t)),
      ∀ e ∈ (LWZ_PBA g hlwz pdata).trace, regular_push e) ∧
    (∀ (hlwz : LWZHANDLE) (pdata : Option (List uint8_t)) (ndata : Nat),
      (∀ e ∈ (LWZ_RAWWRITE g hlwz pdata ndata).trace, regular_push e) ∧
      ∀ hudev typ p n, push hudev typ p n ∈ (LWZ_RAWWRITE g hlwz pdata ndata).trace →
        typ = PACKET_TYPE_RAW ∧ p = pdata ∧ n = min ndata 32) := by
  obtain ⟨_, a2, a3⟩ := write_reachable_inv g0 g hreach hinv hrun hns
  exact ⟨a2, a3, fun hlwz b0 b1 b2 b3 speed => (LWZ_SBA_effect g hlwz b0 b1 b2 b3 speed).2,
    fun hlwz pdata => (LWZ_PBA_effect g hlwz pdata).2,
    fun hlwz pdata ndata => (LWZ_RAWWRITE_effect g hlwz pdata ndata).2⟩

/-- C24 at `ex_registry`: after a raw write of 40 bytes, a raw write with a null pointer, an
SBA, a PBA with a null pointer and a shift of the writer the queue is RUNNING; the raw write of
40 bytes pushed 32 bytes. -/
theorem public_writes_keep_running_witness :
    running
      ({ (LWZ_PBA (LWZ_SBA (LWZ_RAWWRITE (LWZ_RAWWRITE ex_registry 1
          (some (List.replicate 40 5)) 40).g 1 none 7).g 1 1 2 3 4 3).g 1 none).g with
        hqueue := (queue_shift (LWZ_PBA (LWZ_SBA (LWZ_RAWWRITE (LWZ_RAWWRITE ex_registry 1
          (some (List.replicate 40 5)) 40).g 1 none 7).g 1 1 2 3 4 3).g 1 none).g.hqueue
          none [] 64).h } : lwz_context_t).hqueue ∧
    (LWZ_RAWWRITE ex_registry 1 (some (List.replicate 40 5)) 40).trace =
      [enter_g_cs, push (some 10) PACKET_TYPE_RAW (some (List.replicate 40 5)) 32,
        leave_g_cs] :=
  ⟨(public_writes_keep_running ex_registry _
      (WriteReachable.shift []
        (WriteReachable.pba 1 none
          (WriteReachable.sba 1 1 2 3 4 3
            (WriteReachable.rawwrite 1 none 7
              (WriteReachable.rawwrite 1 (some (List.replicate 40 5)) 40
                WriteReachable.start)))))
      (by decide) (by decide) (by decide)).1,
    by decide⟩

/-! ## C25: what a coalescing push changes -/

theorem chunk_at_coalesced_other (h : queue_t) (i : Nat) (pdata : Option (List uint8_t))
    (ndata : Nat) (k : Nat) (hi : i < 64) (hk : k < 64) (hne : k ≠ i) :
    chunk_at (coalesced h i pdata ndata) k = chunk_at h k := by
  have hs : slot_at (coalesced h i pdata ndata) k = slot_at h k := rfl
  unfold chunk_at
  rw [hs]
  unfold coalesced
  have he : slot_at h k ≠ slot_at h i := fun he => hne (slot_at_inj h k i hk hi he)
  simp only [buf_set, he, if_false]

/-- The first `min(n, m)` of the first `m` bytes after `memcpy(dst, src, n)` are bytes of
`src`. -/
theorem memcpy_take_front (dst src : List uint8_t) (n m : Nat) (hs : n ≤ src.length) :
    ((memcpy dst src n).take m).take (min n m) = src.take (min n m) := by
  unfold memcpy
  rw [List.take_take, List.take_append_of_le_length (by rw [List.length_take]; omega),
    List.take_take]
  congr 1
  omega

/-- The bytes from `n` on of the first `m` bytes after `memcpy(dst, src, n)` are bytes of
`dst`. -/
theorem memcpy_take_rest (dst src : List uint8_t) (n m : Nat) (hs : n ≤ src.length) :
    ((memcpy dst src n).take m).drop n = (dst.take m).drop n := by
  unfold memcpy
  rw [List.drop_take, List.drop_take]
  congr 1
  have hl : (src.take n).length = n := by rw [List.length_take]; omega
  rw [List.drop_append_of_le_length (by omega), List.drop_of_length_le (by omega),
    List.nil_append]

/-- Claim C25 (frame of a coalescing push). For every RUNNING queue within the ring invariant
and every push of `n` bytes (`1 ≤ n ≤ 32`) that coalesces, there is a live chunk, the target,
such that: the push returns `n`; `level`, `rpos`, `wpos` and the state are unchanged; every
other live chunk is unchanged; the stored length `m`, the device and the tag of the target are
unchanged; and the payload of the target is the first `n` incoming bytes followed by its earlier
bytes from position `n` on. When every live chunk has a stored length of at least one within its
data, the `queue_shift` that takes the target out returns `m` bytes and the device of the
target, and of these bytes the first `min(n, m)` are the incoming bytes and the bytes from `n`
on (when `n < m`) are the earlier payload. -/
theorem coalesce_frame (h : queue_t) (d : HUDEV) (typ : packet_type_t) (p : List uint8_t)
    (n : Nat) (h1 : 0 < n) (h2 : n ≤ 32) (hp : n ≤ p.length) (hinv : ring_inv h)
    (hrun : running h) (hex : ∃ i, coalesce_target h d typ i) :
    ∃ i, coalesce_target h d typ i ∧ i < h.level.toNat ∧
      (queue_push h d typ (some p) n).ret = some n ∧
      (queue_push h d typ (some p) n).h.level = h.level ∧
      (queue_push h d typ (some p) n).h.rpos = h.rpos ∧
      (queue_push h d typ (some p) n).h.wpos = h.wpos ∧
      (queue_push h d typ (some p) n).h.state = h.state ∧
      (∀ k, k < h.level.toNat → k ≠ i →
        chunk_at (queue_push h d typ (some p) n).h k = chunk_at h k) ∧
      (chunk_at (queue_push h d typ (some p) n).h i).ndata = (chunk_at h i).ndata ∧
      (chunk_at (queue_push h d typ (some p) n).h i).hudev = (chunk_at h i).hudev ∧
      (chunk_at (queue_push h d typ (some p) n).h i).typ = (chunk_at h i).typ ∧
      (chunk_at (queue_push h d typ (some p) n).h i).data =
        p.take n ++ (chunk_at h i).data.drop n ∧
      ((∀ k, k < h.level.toNat →
          0 < (chunk_at h k).ndata ∧ (chunk_at h k).ndata ≤ (chunk_at h k).data.length) →
        ∀ (buffer0 : List uint8_t) (nsize : Nat), 32 ≤ nsize →
          ∃ b : List uint8_t,
            (shift_seq nsize (i + 1) (queue_push h d typ (some p) n).h buffer0)[i]? =
              some (some (chunk_at h i).ndata, (chunk_at h i).hudev, b) ∧
            b.length = (chunk_at h i).ndata ∧
            b.take (min n (chunk_at h i).ndata) = p.take (min n (chunk_at h i).ndata) ∧
            b.drop n = ((chunk_at h i).data.take (chunk_at h i).ndata).drop n) := by
  unfold running at hrun
  obtain ⟨i, hi, he⟩ := queue_push_coalesces h d typ p n h1 h2 (ring_inv_rpos_ok h hinv) hrun hex
  have hil : i < h.level.toNat := by
    cases typ with
    | PACKET_TYPE_PBA => exact (show pba_candidate h d i from hi).1
    | PACKET_TYPE_SBA => exact (show sba_candidate h d i from hi).1
    | PACKET_TYPE_RAW => exact absurd hi (by simp [coalesce_target])
  have hlev64 : h.level.toNat ≤ 64 := by
    have := hinv.2.1
    unfold QUEUE_LENGTH at this
    omega
  have hself := chunk_at_coalesced_self h i (some p) n
  have hdata : (chunk_at (coalesced h i (some p) n) i).data =
      p.take n ++ (chunk_at h i).data.drop n := by
    rw [hself]
    rfl
  refine ⟨i, hi, hil, ?_⟩
  rw [he]
  simp only
  refine ⟨trivial, rfl, rfl, rfl, rfl, ?_, chunk_at_coalesced_ndata h i (some p) n i,
    (chunk_at_coalesced_tags h i (some p) n i).1, (chunk_at_coalesced_tags h i (some p) n i).2,
    hdata, ?_⟩
  · intro k hk hne
    exact chunk_at_coalesced_other h i (some p) n k (by omega) (by omega) hne
  · intro hok buffer0 nsize hn
    have hinv' : ring_inv (coalesced h i (some p) n) := hinv
    have hok' : ∀ c ∈ live (coalesced h i (some p) n), 0 < c.ndata ∧ c.ndata ≤ c.data.length := by
      intro c hc
      unfold live at hc
      obtain ⟨k, hk, hck⟩ := List.mem_map.mp hc
      have hk' : k < h.level.toNat := List.mem_range.mp hk
      rw [← hck]
      by_cases hki : k = i
      · rw [hki, chunk_at_coalesced_ndata, hdata]
        have := hok i hil
        refine ⟨this.1, ?_⟩
        simp only [List.length_append, List.length_take, List.length_drop]
        omega
      · rw [chunk_at_coalesced_other h i (some p) n k (by omega) (by omega) hki]
        exact hok k hk'
    have hlen : (live (coalesced h i (some p) n)).length = h.level.toNat := live_length _
    rw [shift_seq_spec nsize hn (i + 1) (coalesced h i (some p) n) buffer0 hinv' hrun
      (by show i + 1 ≤ h.level.toNat; omega) hok']
    rw [List.getElem?_map, List.getElem?_take_of_lt (by omega),
      live_getElem (coalesced h i (some p) n) i hil]
    simp only [Option.map_some', delivered]
    rw [chunk_at_coalesced_ndata, (chunk_at_coalesced_tags h i (some p) n i).1, hself]
    refine ⟨_, rfl, ?_, ?_, ?_⟩
    · have := hok i hil
      show ((memcpy (chunk_at h i).data p n).take (chunk_at h i).ndata).length = _
      unfold memcpy
      simp only [List.length_take, List.length_append, List.length_drop]
      omega
    · exact memcpy_take_front (chunk_at h i).data p n (chunk_at h i).ndata hp
    · exact memcpy_take_rest (chunk_at h i).data p n (chunk_at h i).ndata hp


/-- C25 at `ex_queue_pba`, which holds one PBA chunk of 32 bytes, all 1, for device 1: a PBA
push of 8 bytes, all 9, coalesces; the chunk keeps the length 32 and the next `queue_shift`
returns 32 bytes, 8 times 9 followed by 24 times 1. -/
theorem coalesce_frame_witness :
    (∃ i, coalesce_target ex_queue_pba (some 1) PACKET_TYPE_PBA i ∧
      (queue_push ex_queue_pba (some 1) PACKET_TYPE_PBA (some (List.replicate 8 9)) 8).h.level =
        ex_queue_pba.level ∧
      (chunk_at (queue_push ex_queue_pba (some 1) PACKET_TYPE_PBA
        (some (List.replicate 8 9)) 8).h i).ndata = (chunk_at ex_queue_pba i).ndata) ∧
    shift_seq 64 1
      (queue_push ex_queue_pba (some 1) PACKET_TYPE_PBA (some (List.replicate 8 9)) 8).h
      (List.replicate 64 0) =
      [(some 32, some 1, List.replicate 8 9 ++ List.replicate 24 1)] :=
  ⟨match coalesce_frame ex_queue_pba (some 1) PACKET_TYPE_PBA (List.replicate 8 9) 8
      (by decide) (by decide) (by decide) (by decide) (by decide) ⟨0, by decide⟩ with
    | ⟨i, hi, _, _, hl, _, _, _, _, hn, _⟩ => ⟨i, hi, hl, hn⟩,
    by decide⟩

/-! ## C26: the coalescible backlog per device is bounded -/

theorem countP_one_index {α : Type} (p : α → Bool) (l : List α) (hc : 1 ≤ l.countP p) :
    ∃ (i : Nat) (a : α), l[i]? = some a ∧ p a = true := by
  induction l with
  | nil => simp at hc
  | cons x t ih =>
    by_cases hx : p x = true
    · exact ⟨0, x, List.getElem?_cons_zero, hx⟩
    · rw [List.countP_cons_of_neg p t hx] at hc
      obtain ⟨i, a, hi, ha⟩ := ih hc
      exact ⟨i + 1, a, by rw [List.getElem?_cons_succ]; exact hi, ha⟩

theorem countP_two_index {α : Type} (p : α → Bool) (l : List α) (hc : 2 ≤ l.countP p) :
    ∃ (i j : Nat) (a b : α), i < j ∧ l[i]? = some a ∧ l[j]? = some b ∧ p a = true ∧ p b = true := by
  induction l with
  | nil => simp at hc
  | cons x t ih =>
    by_cases hx : p x = true
    · rw [List.countP_cons_of_pos p t hx] at hc
      obtain ⟨j, b, hj, hb⟩ := countP_one_index p t (by omega)
      exact ⟨0, j + 1, x, b, by omega, List.getElem?_cons_zero, by rw [List.getElem?_cons_succ]; exact hj, hx, hb⟩
    · rw [List.countP_cons_of_neg p t hx] at hc
      obtain ⟨i, j, a, b, hij, hi, hj, ha, hb⟩ := ih hc
      exact ⟨i + 1, j + 1, a, b, by omega, by rw [List.getElem?_cons_succ]; exact hi,
        by rw [List.getElem?_cons_succ]; exact hj, ha, hb⟩

theorem countP_three_index {α : Type} (p : α → Bool) (l : List α) (hc : 3 ≤ l.countP p) :
    ∃ (i j k : Nat) (a b c : α), i < j ∧ j < k ∧ l[i]? = some a ∧ l[j]? = some b ∧ l[k]? = some c ∧
      p a = true ∧ p b = true ∧ p c = true := by
  induction l with
  | nil => simp at hc
  | cons x t ih =>
    by_cases hx : p x = true
    · rw [List.countP_cons_of_pos p t hx] at hc
      obtain ⟨j, k, b, c, hjk, hj, hk, hb, hcc⟩ := countP_two_index p t (by omega)
      exact ⟨0, j + 1, k + 1, x, b, c, by omega, by omega, List.getElem?_cons_zero,
        by rw [List.getElem?_cons_succ]; exact hj,
        by rw [List.getElem?_cons_succ]; exact hk, hx, hb, hcc⟩
    · rw [List.countP_cons_of_neg p t hx] at hc
      obtain ⟨i, j, k, a, b, c, hij, hjk, hi, hj, hk, ha, hb, hcc⟩ := ih hc
      exact ⟨i + 1, j + 1, k + 1, a, b, c, by omega, by omega,
        by rw [List.getElem?_cons_succ]; exact hi,
        by rw [List.getElem?_cons_succ]; exact hj,
        by rw [List.getElem?_cons_succ]; exact hk, ha, hb, hcc⟩

/-- An entry of the live window is the live chunk of that index. -/
theorem live_index (h : queue_t) (i : Nat) (c : chunk_t) (hi : (live h)[i]? = some c) :
    i < h.level.toNat ∧ c = chunk_at h i := by
  have hlt : i < h.level.toNat := by
    have := (List.getElem?_eq_some_iff.mp hi).1
    rw [live_length] at this
    exact this
  rw [live_getElem h i hlt] at hi
  exact ⟨hlt, (Option.some.inj hi).symm⟩

theorem pba_count_le_one (h : queue_t) (d : HUDEV) (hu : pba_unique h) : pba_count h d ≤ 1 := by
  by_contra hc
  obtain ⟨i, j, a, b, hij, hi, hj, ha, hb⟩ :=
    countP_two_index (fun c => decide (is_pba_for d c)) (live h)
      (by unfold pba_count at hc; omega)
  obtain ⟨hil, hia⟩ := live_index h i a hi
  obtain ⟨hjl, hjb⟩ := live_index h j b hj
  rw [hia] at ha
  rw [hjb] at hb
  have := hu d i j hil hjl (of_decide_eq_true ha) (of_decide_eq_true hb)
  omega

theorem sba_count_le_two (h : queue_t) (d : HUDEV) (hu : pba_unique h)
    (hsep : sba_separated h) : sba_count h d ≤ 2 := by
  by_contra hc
  obtain ⟨i, j, k, a, b, c, hij, hjk, hi, hj, hk, ha, hb, hcc⟩ :=
    countP_three_index (fun c => decide (is_sba_for d c)) (live h)
      (by unfold sba_count at hc; omega)
  obtain ⟨hil, hia⟩ := live_index h i a hi
  obtain ⟨hjl, hjb⟩ := live_index h j b hj
  obtain ⟨hkl, hkc⟩ := live_index h k c hk
  rw [hia] at ha
  rw [hjb] at hb
  rw [hkc] at hcc
  obtain ⟨m1, h1a, h1b, hp1⟩ := hsep d i j hij hjl (of_decide_eq_true ha) (of_decide_eq_true hb)
  obtain ⟨m2, h2a, h2b, hp2⟩ := hsep d j k hjk hkl (of_decide_eq_true hb) (of_decide_eq_true hcc)
  have := hu d m1 m2 (by omega) (by omega) hp1 hp2
  omega

theorem ex_queue_three_reachable : Reachable ex_queue_three := by
  unfold ex_queue_three push_sba_pba_sba
  exact Reachable.push _ _ _ _ (Reachable.push _ _ _ _ (Reachable.push _ _ _ _ Reachable.opened))

/-- Claim C26 (bounded coalescible backlog). In every queue state reachable from `queue_open`
by calls of `queue_push` and `queue_shift` with arbitrary arguments, and for every device `d`
(the null device included): the live window holds at most one PBA chunk for `d`; between any
two live SBA chunks for `d` a live PBA chunk for `d` is queued; hence at most two SBA chunks for
`d` are live, and at most three SBA or PBA chunks for `d` altogether. -/
theorem bounded_backlog (h : queue_t) (hreach : Reachable h) (d : HUDEV) :
    (∀ i j, i < h.level.toNat → j < h.level.toNat →
      is_pba_for d (chunk_at h i) → is_pba_for d (chunk_at h j) → i = j) ∧
    (∀ i k, i < k → k < h.level.toNat →
      is_sba_for d (chunk_at h i) → is_sba_for d (chunk_at h k) →
      ∃ j, i < j ∧ j < k ∧ is_pba_for d (chunk_at h j)) ∧
    pba_count h d ≤ 1 ∧ sba_count h d ≤ 2 ∧ sba_count h d + pba_count h d ≤ 3 := by
  obtain ⟨_, hu, hsep⟩ := queue_inv_of_reachable h hreach
  have h1 := pba_count_le_one h d hu
  have h2 := sba_count_le_two h d hu hsep
  exact ⟨fun i j => hu d i j, fun i k => hsep d i k, h1, h2, by omega⟩

/-- C26 at `ex_queue_three`, the queue after the pushes SBA, PBA, SBA for device 1: the bound is
attained, two SBA chunks and one PBA chunk for device 1 are live. -/
theorem bounded_backlog_witness :
    sba_count ex_queue_three (some 1) = 2 ∧ pba_count ex_queue_three (some 1) = 1 ∧
    sba_count ex_queue_three (some 1) + pba_count ex_queue_three (some 1) ≤ 3 :=
  ⟨by decide, by decide,
    (bounded_backlog ex_queue_three ex_queue_three_reachable (some 1)).2.2.2.2⟩

end LWCloneU2
